import Mathlib

/-!
# Table elaboration in parse_utilcmd.cpp: partitions, index constraints, columns, statements

A shallow embedding of parts of `src/common/backend/parser/parse_utilcmd.cpp`.

* The partition-boundary resolver: the functions `divide_start_end_every_internal`,
  `DividePartitionStartEndInterval`, `add_last_single_start_partition`,
  `get_range_partition_name_prefix`, `check_partition_name_start_end`,
  `precheck_start_end_defstate` and `transformRangePartStartEndStmt`, first for a
  single integer partition key with exact arithmetic, then once more for every type
  of key that the START/END syntax admits (namespace `Typed`), with the operations
  of the type as parameters, among them the sum, which may raise the error of its
  operator; the two embeddings agree on an integer key with exact sums. What the
  order of the boundaries needs of the operations of a type is the record
  `KeyOrder`.
* The partition list of CREATE TABLE: `check_partition_name_less_than`,
  `checkPartitionName`, `is_start_end_def_list` and the steps of
  `transformCreateStmt` that read the list.
* The index constraints: `transformIndexConstraint` and `transformIndexConstraints`.
* The column definitions (namespace `Table`): `transformColumnDefinition` with
  `createSeqOwnedByTable`, `transformColumnType` and `checkConstraint`, the constraint
  attributes of `transformConstraintAttrs`, the foreign keys of
  `transformFKConstraints`, and `transformCreateStmt` with `transformOfType` and the
  loop over the elements of the statement.
* ALTER TABLE (namespace `Table`): the loop over the subcommands of
  `transformAlterTableStmt`, with `transformTableConstraint`, and the subcommands that
  it hands back.
* The LIKE clause (namespace `Table`): `transformTableLikeClause` with the loop that
  clones the columns and fills `attmap`, and `transformTableLikeFromSerialData` with
  `searchSeqidFromExpr` and `checkTableLikeSequence`.

`ereport(ERROR, ...)` becomes an `Except` error; the local variables of a C loop
become an explicit state record; a node that the C code knows by its address is known
here by its place in a list.

What the source takes from other files is a parameter here: the constants
`MAX_PARTITION_NUM`, `NAMEDATALEN` and `LEN_PARTITION_PREFIX` (`Limits`), the casts
and comparisons of argument expressions (`KeyOps`, `TypeOps`), the catalog
lookups of index constraints (`IndexEnv`), and the lookups and the settings of the
node that the column definitions and the foreign keys read (`TableEnv`), and what
ALTER TABLE, the LIKE clause and CREATE TABLE look up (`AlterEnv`, `LikeEnv`,
`LikeCatalog`, `CreateEnv`). NOTICEs, memory management and fields that are written and
never read again (such as `curStartVal` and `partitionInitName` of a partition) have
no counterpart; neither has an `Assert`, except where ALTER TABLE and the LIKE clause
rely on one for a value that they go on to read, which is an error here.
-/

namespace OpenGauss

/-! ## Data model -/

deriving instance DecidableEq for Except

/-- A partition-key constant of the key type: a concrete integer, or the
MAXVALUE sentinel (`Const::ismaxvalue`). -/
inductive Const where
  | val (v : Int)
  | maxvalue
  deriving DecidableEq, Repr

/-- The `ereport(ERROR, ...)` sites of the resolver, one constructor per message. -/
inductive PartError where
  /-- "start value must be less than end value for partition" -/
  | startNotLessThanEnd (partName : String)
  /-- "ambiguous partition rule is raised by EVERY parameter in partition" -/
  | ambiguousEvery (partName : String)
  /-- "partition step is too small for partition" -/
  | stepTooSmall (partName : String)
  /-- "partition step is too big for partition" -/
  | stepTooBig (partName : String)
  /-- "too many partitions after split partition" -/
  | tooManyPartitions (partName : String)
  /-- "can not add more partitions as partition number is already at its maximum." -/
  | alreadyAtMaximum
  /-- "duplicate partition name" -/
  | duplicatePartitionName (partName : String)
  /-- "start/end/every value must be an const-integer for partition" -/
  | notConstInteger (partName : String)
  /-- "partition ... is invalid." / "MAXVALUE can not appear in a (START, END, EVERY) clause." -/
  | maxvalueInStartEndEvery (partName : String)
  /-- "start value can not be MAXVALUE for partition" -/
  | startIsMaxvalue (partName : String)
  /-- "partition ... is not allowed behind MAXVALUE." -/
  | behindMaxvalue (partName : String)
  /-- "start value of partition ... is too low." -/
  | startTooLow (partName : String)
  /-- "start value of partition ... is too high." -/
  | startTooHigh (partName : String)
  /-- "start value of partition ... NOT EQUAL up-boundary of last partition." -/
  | startNotEqualLowBound (partName : String)
  /-- "end value of partition ... is too low." -/
  | endTooLow (partName : String)
  /-- "partition ... is an invalid definition clause." / "Do not use a single END after a single START." -/
  | endAfterSingleStart (partName : String)
  /-- "end value of partition ... MUST be greater than up-boundary of last partition." -/
  | endNotGreaterThanLowBound (partName : String)
  /-- "start value of partition ... MUST be less than up-boundary of the partition to be splitted." -/
  | startNotLessThanUpBound (partName : String)
  /-- "end value of partition ... NOT EQUAL up-boundary of the partition to be splitted." -/
  | endNotEqualUpBound (partName : String)
  /-- The error raised by `securec_check_ss` when `sprintf_s` does not fit its buffer. -/
  | bufferTooSmall
  /-- A failed `Assert` on the shape of an entry (the grammar never builds such an entry). -/
  | unexpectedSyntax
  /-- "partition ... is invalid." / "NaN can not appear in a (START, END, EVERY) clause." -/
  | nanInStartEndEvery (partName : String)
  /-- "partition ... is invalid." / "INF can not appear in a (START, END, EVERY) clause." -/
  | infInStartEndEvery (partName : String)
  /-- "unsupported datatype served as a partition key in the start/end clause." -/
  | unsupportedDatatype
  /-- "datatype of column ... is unsupported for partition key in start/end clause." -/
  | unsupportedColumnDatatype
  /-- "too many partitions for partitioned table" -/
  | tooManyPartitionsForTable
  /-- An error raised inside `evaluate_opexpr`, or by the cast that follows it, by the
  function of the operator or of the cast: "integer out of range", for one. -/
  | operatorError
  deriving DecidableEq, Repr

/-- The constants that the resolver takes from headers outside this file. -/
structure Limits where
  /-- The system maximum of partitions per table. -/
  MAX_PARTITION_NUM : Nat
  /-- The size of a name buffer, terminating zero byte included. -/
  NAMEDATALEN : Nat
  /-- The maximum byte length of a generated partition-name prefix. -/
  LEN_PARTITION_PREFIX : Nat

/-- The services of the key type that live outside this file, over the type
`Raw` of parsed argument expressions. -/
structure KeyOps (Raw : Type) where
  /-- The call `GetPartitionValue(pos, attrs, value, isinterval)`: the argument cast to the key type. -/
  GetPartitionValue : Raw → Const
  /-- The call `GetTargetValue(attr, everyExpr, isinterval)`: the step cast to the key type. -/
  GetTargetValue : Raw → Int
  /-- The comparison `partitonKeyCompare(&pval, &c, 1)` of `precheck_point_value_internal`:
  the cast argument against the argument evaluated in its own type. -/
  compareWithOriginal : Raw → Int
  /-- The test `pnt = startVal + c` of the ambiguity check, `c` being the step in its own type. -/
  equalsUncastSum : Int → Int → Raw → Bool

/-- One entry of a START/END list (`RangePartitionStartEndDefState`); each of
the three values holds exactly one expression, there being a single key. -/
structure RangePartitionStartEndDefState (Raw : Type) where
  partitionName : String
  startValue : Option Raw
  endValue : Option Raw
  everyValue : Option Raw
  tableSpaceName : String

/-- One partition in less-than form (`RangePartitionDefState`): its upper
boundary (a list of length one in the source), its name and its tablespace. -/
structure RangePartitionDefState where
  boundary : Const
  partitionName : String
  tablespacename : String
  deriving DecidableEq, Repr

/-! ## Helpers -/

/-- Modelled from the spec: partitonKeyCompare is declared outside the source
files at hand. It is the order of BoundaryValue on one key column ("concrete typed
constant, or MINVALUE/MAXVALUE sentinel; total order defined per supported type"),
with the MAXVALUE sentinel above every concrete value; the result is negative, zero
or positive. -/
def partitonKeyCompare : Const → Const → Int
  | .maxvalue, .maxvalue => 0
  | .maxvalue, .val _ => 1
  | .val _, .maxvalue => -1
  | .val a, .val b => if a < b then -1 else if a = b then 0 else 1

/-- The function `add_range_partition_def_state`: append one partition to the list. -/
def add_range_partition_def_state (xL : List RangePartitionDefState) (boundary : Const)
    (partName : String) (tblSpaceName : String) : List RangePartitionDefState :=
  xL ++ [{ boundary := boundary, partitionName := partName, tablespacename := tblSpaceName }]

/-- Modelled from the spec: pg_mbcliplen is declared outside the source files at
hand. The prefix is "clipped to a fixed maximum byte length, respecting multi-byte
boundaries": the longest run of whole characters that fits in `limit` bytes. -/
def pg_mbcliplen : List Char → Nat → List Char
  | [], _ => []
  | c :: cs, limit =>
    if c.utf8Size ≤ limit then c :: pg_mbcliplen cs (limit - c.utf8Size) else []

/-- The function `get_range_partition_name_prefix`: copy the name into a buffer of
`NAMEDATALEN` bytes and clip it to `LEN_PARTITION_PREFIX` bytes. -/
def get_range_partition_name_prefix (lim : Limits) (srcName : String) : Except PartError String :=
  if lim.NAMEDATALEN ≤ srcName.utf8ByteSize then .error .bufferTooSmall
  else if lim.LEN_PARTITION_PREFIX < srcName.utf8ByteSize then
    .ok (String.mk (pg_mbcliplen srcName.data lim.LEN_PARTITION_PREFIX))
  else .ok srcName

/-- The call `sprintf_s(partName, sizeof(partName), "%s_%d", namePrefix, j)` with its
`securec_check_ss`. -/
def sprintf_partName (lim : Limits) (namePrefix : String) (j : Nat) : Except PartError String :=
  let s := namePrefix ++ "_" ++ toString j
  if s.utf8ByteSize < lim.NAMEDATALEN then .ok s else .error .bufferTooSmall

/-- The name `<prefix>_<j>` built from a source name: `get_range_partition_name_prefix`
followed by `sprintf_s`. -/
def prefixed_partName (lim : Limits) (srcName : String) (j : Nat) : Except PartError String :=
  match get_range_partition_name_prefix lim srcName with
  | .error e => .error e
  | .ok namePrefix => sprintf_partName lim namePrefix j

/-- The nested loops of `check_partition_name_start_end` and of the final name
check: the first name that occurs again later in the list, if any. -/
def firstDuplicateName : List String → Option String
  | [] => none
  | n :: rest => if rest.contains n then some n else firstDuplicateName rest

/-- The function `check_partition_name_start_end`. -/
def check_partition_name_start_end {Raw : Type}
    (partitionList : List (RangePartitionStartEndDefState Raw)) : Except PartError Unit :=
  match firstDuplicateName (partitionList.map (fun d => d.partitionName)) with
  | some n => .error (.duplicatePartitionName n)
  | none => .ok ()

/-- The macro `precheck_point_value_internal`. -/
def precheck_point_value_internal {Raw : Type} (env : KeyOps Raw) (partName : String)
    (a : Raw) : Except PartError Unit :=
  match env.GetPartitionValue a with
  | .maxvalue => .ok ()
  | .val _ => if env.compareWithOriginal a ≠ 0 then .error (.notConstInteger partName) else .ok ()

/-- The function `precheck_start_end_defstate`, on an integer key (INT2OID, INT4OID, INT8OID). -/
def precheck_start_end_defstate {Raw : Type} (env : KeyOps Raw)
    (defState : RangePartitionStartEndDefState Raw) : Except PartError Unit :=
  match (match defState.startValue with
         | some a => precheck_point_value_internal env defState.partitionName a
         | none => .ok ()) with
  | .error e => .error e
  | .ok _ =>
    match (match defState.endValue with
           | some a => precheck_point_value_internal env defState.partitionName a
           | none => .ok ()) with
    | .error e => .error e
    | .ok _ =>
      match defState.everyValue with
      | some a => precheck_point_value_internal env defState.partitionName a
      | none => .ok ()

/-! ## Dividing one START/END/EVERY interval -/

/-- The `while (nPart < maxNum)` loop of `divide_start_end_every_internal`; `fuel` is
`maxNum - nPart`, the number of rounds the loop condition still allows. Leaving the
loop without `isEnd` is the "too many partitions" error. The sum is the exact sum of
two integers, which is the sum of an integer key as long as it stays within the
type; `Typed.divide_loop` has the sum of the key type with the error of its
operator. -/
def divide_loop {Raw : Type} (env : KeyOps Raw) (partName : String) (startVal endVal : Int)
    (everyExpr : Raw) (everyVal : Int) (needCheck : Bool) :
    Nat → Nat → Int → List Int → Except PartError (List Int × Nat)
  | 0, _, _, _ => .error (.tooManyPartitions partName)
  | fuel + 1, nPart, curpnt, result =>
    let pnt := curpnt + everyVal
    if nPart = 0 ∧ needCheck = true ∧ env.equalsUncastSum pnt startVal everyExpr = false then
      .error (.ambiguousEvery partName)
    else if nPart = 0 ∧ pnt ≤ startVal then
      .error (.stepTooSmall partName)
    else if pnt ≤ endVal then
      if ¬ pnt < endVal then .ok (result ++ [pnt], nPart + 1)
      else divide_loop env partName startVal endVal everyExpr everyVal needCheck
        fuel (nPart + 1) pnt (result ++ [pnt])
    else if nPart = 0 then
      .error (.stepTooBig partName)
    else .ok (result ++ [endVal], nPart + 1)

/-- The function `divide_start_end_every_internal`: the end points of all
sub-intervals, and their number `*numPart`. -/
def divide_start_end_every_internal {Raw : Type} (env : KeyOps Raw) (partName : String)
    (startVal endVal : Int) (everyExpr : Raw) (maxNum : Nat) (needCheck : Bool) :
    Except PartError (List Int × Nat) :=
  if endVal ≤ startVal then .error (.startNotLessThanEnd partName)
  else divide_loop env partName startVal endVal everyExpr (env.GetTargetValue everyExpr)
    needCheck maxNum 0 startVal []

/-- The function `DividePartitionStartEndInterval`, cases INT2OID, INT4OID and
INT8OID, with exact sums; `Typed.DividePartitionStartEndInterval` has all cases. -/
def DividePartitionStartEndInterval {Raw : Type} (env : KeyOps Raw) (partName : String)
    (startVal endVal : Int) (everyExpr : Raw) (maxNum : Nat) :
    Except PartError (List Int × Nat) :=
  divide_start_end_every_internal env partName startVal endVal everyExpr maxNum false

/-- An integer key whose arguments are written as integer constants: every cast is
the identity, and a MAXVALUE step counts as zero. -/
def intKey : KeyOps Const where
  GetPartitionValue := fun c => c
  GetTargetValue := fun c => match c with
    | .val d => d
    | .maxvalue => 0
  compareWithOriginal := fun _ => 0
  equalsUncastSum := fun pnt startVal c => match c with
    | .val d => decide (pnt = startVal + d)
    | .maxvalue => false

/-! ## The START/END transformation -/

/-- The local variables of `transformRangePartStartEndStmt` that live across the
rounds of its main loop. `defState` is the entry of the previous round (it becomes
`lastState` at the top of the next one); `none` stands for a NULL pointer. -/
structure LoopState (Raw : Type) where
  newPartList : List RangePartitionDefState
  startVal : Option Const
  endVal : Option Const
  lastVal : Option Const
  totalPart : Nat
  defState : Option (RangePartitionStartEndDefState Raw)
  curDefState : Nat

/-- The block `if (lastVal != NULL) { ... }` that the three kinds of entry with a
START value repeat: nothing may follow MAXVALUE, and the START value must meet the
previous END value. -/
def check_start_against_last (lastVal : Option Const) (startVal : Const) (partName : String) :
    Except PartError Unit :=
  match lastVal with
  | none => .ok ()
  | some lv =>
    if lv = .maxvalue then .error (.behindMaxvalue partName)
    else if partitonKeyCompare lv startVal > 0 then .error (.startTooLow partName)
    else if partitonKeyCompare lv startVal < 0 then .error (.startTooHigh partName)
    else .ok ()

/-- The macro `add_last_single_start_partition`: the previous entry `lastState` was a
single START, and its partition ends at the START value of the current entry. -/
def add_last_single_start_partition {Raw : Type} (lim : Limits) (env : KeyOps Raw)
    (lowBound : Option Const) (st : LoopState Raw) (lastState defState : RangePartitionStartEndDefState Raw)
    (startVal : Const) : Except PartError (LoopState Raw) :=
  match lastState.startValue with
  | none => .error .unexpectedSyntax
  | some ls =>
    if partitonKeyCompare (env.GetPartitionValue ls) startVal ≥ 0 then
      .error (.startTooLow defState.partitionName)
    else if lowBound = none ∧ st.curDefState = 1 then
      match prefixed_partName lim lastState.partitionName 1 with
      | .error e => .error e
      | .ok partName =>
        .ok { st with
              newPartList := add_range_partition_def_state st.newPartList startVal partName
                lastState.tableSpaceName
              totalPart := st.totalPart + 1 }
    else
      .ok { st with
            newPartList := add_range_partition_def_state st.newPartList startVal
              lastState.partitionName lastState.tableSpaceName
            totalPart := st.totalPart + 1 }

/-- The check "SP == lowBound" of a first entry that comes with a low bound: it is
made for SPLIT PARTITION only (both bounds given). -/
def check_start_point (lowBound upBound : Option Const) (startVal : Const) (partName : String) :
    Except PartError Unit :=
  match lowBound, upBound with
  | some lb, some _ =>
    if partitonKeyCompare lb startVal ≠ 0 then .error (.startNotEqualLowBound partName) else .ok ()
  | _, _ => .ok ()

/-- The block `if (lastVal == NULL) { ... }` of the entries START+END+EVERY and
START: close a pending single START, or add the MINVALUE partition `<prefix>_0` in
front of a first entry without low bound, or check the low bound. -/
def build_before_start {Raw : Type} (lim : Limits) (env : KeyOps Raw)
    (lowBound upBound : Option Const) (st : LoopState Raw)
    (lastState : Option (RangePartitionStartEndDefState Raw))
    (defState : RangePartitionStartEndDefState Raw) (startVal : Const) :
    Except PartError (LoopState Raw) :=
  match st.lastVal with
  | some _ => .ok st
  | none =>
    match lastState with
    | some ls => add_last_single_start_partition lim env lowBound st ls defState startVal
    | none =>
      if lowBound = none then
        match prefixed_partName lim defState.partitionName 0 with
        | .error e => .error e
        | .ok partName =>
          .ok { st with
                newPartList := add_range_partition_def_state st.newPartList startVal partName
                  defState.tableSpaceName
                totalPart := st.totalPart + 1 }
      else
        match check_start_point lowBound upBound startVal defState.partitionName with
        | .error e => .error e
        | .ok _ => .ok st

/-- The loop `foreach (lc, resList)` of the START+END+EVERY entry: the sub-intervals
are named `<prefix>_j`, `j` counting from 1. -/
def add_divided (lim : Limits) (namePrefix tblSpaceName : String) :
    Nat → List Int → List RangePartitionDefState → Except PartError (List RangePartitionDefState)
  | _, [], xL => .ok xL
  | j, pnt :: rest, xL =>
    match sprintf_partName lim namePrefix j with
    | .error e => .error e
    | .ok partName =>
      add_divided lim namePrefix tblSpaceName (j + 1) rest
        (add_range_partition_def_state xL (.val pnt) partName tblSpaceName)

/-- Entry of type 1, START + END + EVERY. -/
def transform_start_end_every {Raw : Type} (lim : Limits) (env : KeyOps Raw)
    (lowBound upBound : Option Const) (st : LoopState Raw)
    (lastState : Option (RangePartitionStartEndDefState Raw))
    (defState : RangePartitionStartEndDefState Raw) (startExpr endExpr everyExpr : Raw) :
    Except PartError (LoopState Raw) :=
  match env.GetPartitionValue startExpr, env.GetPartitionValue endExpr,
      env.GetPartitionValue everyExpr with
  | .val s, .val e, .val _ =>
    if partitonKeyCompare (.val s) (.val e) ≥ 0 then
      .error (.startNotLessThanEnd defState.partitionName)
    else
      match check_start_against_last st.lastVal (.val s) defState.partitionName with
      | .error err => .error err
      | .ok _ =>
        match build_before_start lim env lowBound upBound st lastState defState (.val s) with
        | .error err => .error err
        | .ok st1 =>
          match get_range_partition_name_prefix lim defState.partitionName with
          | .error err => .error err
          | .ok namePrefix =>
            match DividePartitionStartEndInterval env defState.partitionName s e everyExpr
                (lim.MAX_PARTITION_NUM - st1.totalPart) with
            | .error err => .error err
            | .ok (resList, numPart) =>
              match add_divided lim namePrefix defState.tableSpaceName 1 resList st1.newPartList with
              | .error err => .error err
              | .ok xL =>
                .ok { st1 with
                      newPartList := xL
                      startVal := some (.val s)
                      endVal := some (.val e)
                      totalPart := st1.totalPart + numPart
                      lastVal := some (.val e) }
  | _, _, _ => .error (.maxvalueInStartEndEvery defState.partitionName)

/-- Entry of type 2, START + END without EVERY. -/
def transform_start_end {Raw : Type} (lim : Limits) (env : KeyOps Raw)
    (lowBound upBound : Option Const) (st : LoopState Raw)
    (lastState : Option (RangePartitionStartEndDefState Raw))
    (defState : RangePartitionStartEndDefState Raw) (startExpr endExpr : Raw) :
    Except PartError (LoopState Raw) :=
  let startVal := env.GetPartitionValue startExpr
  let endVal := env.GetPartitionValue endExpr
  if startVal = .maxvalue then .error (.startIsMaxvalue defState.partitionName)
  else if partitonKeyCompare startVal endVal ≥ 0 then
    .error (.startNotLessThanEnd defState.partitionName)
  else
    match check_start_against_last st.lastVal startVal defState.partitionName with
    | .error err => .error err
    | .ok _ =>
      match (match st.lastVal with
        | some _ =>
          .ok { st with
                newPartList := add_range_partition_def_state st.newPartList endVal
                  defState.partitionName defState.tableSpaceName
                totalPart := st.totalPart + 1 }
        | none =>
          match lastState with
          | some ls =>
            match add_last_single_start_partition lim env lowBound st ls defState startVal with
            | .error err => .error err
            | .ok st1 =>
              .ok { st1 with
                    newPartList := add_range_partition_def_state st1.newPartList endVal
                      defState.partitionName defState.tableSpaceName
                    totalPart := st1.totalPart + 1 }
          | none =>
            if lowBound = none then
              match get_range_partition_name_prefix lim defState.partitionName with
              | .error err => .error err
              | .ok namePrefix =>
                match sprintf_partName lim namePrefix 0 with
                | .error err => .error err
                | .ok partName0 =>
                  match sprintf_partName lim namePrefix 1 with
                  | .error err => .error err
                  | .ok partName1 =>
                    .ok { st with
                          newPartList := add_range_partition_def_state
                            (add_range_partition_def_state st.newPartList startVal partName0
                              defState.tableSpaceName)
                            endVal partName1 defState.tableSpaceName
                          totalPart := st.totalPart + 1 + 1 }
            else
              match check_start_point lowBound upBound startVal defState.partitionName with
              | .error err => .error err
              | .ok _ =>
                .ok { st with
                      newPartList := add_range_partition_def_state st.newPartList endVal
                        defState.partitionName defState.tableSpaceName
                      totalPart := st.totalPart + 1 } : Except PartError (LoopState Raw)) with
      | .error err => .error err
      | .ok st2 =>
        .ok { st2 with startVal := some startVal, endVal := some endVal, lastVal := some endVal }

/-- Entry of type 3, a single START. -/
def transform_start {Raw : Type} (lim : Limits) (env : KeyOps Raw)
    (lowBound upBound : Option Const) (st : LoopState Raw)
    (lastState : Option (RangePartitionStartEndDefState Raw))
    (defState : RangePartitionStartEndDefState Raw) (startExpr : Raw) :
    Except PartError (LoopState Raw) :=
  let startVal := env.GetPartitionValue startExpr
  if startVal = .maxvalue then .error (.startIsMaxvalue defState.partitionName)
  else
    match check_start_against_last st.lastVal startVal defState.partitionName with
    | .error err => .error err
    | .ok _ =>
      match build_before_start lim env lowBound upBound st lastState defState startVal with
      | .error err => .error err
      | .ok st1 => .ok { st1 with startVal := some startVal, lastVal := none }

/-- Entry of type 4, a single END. -/
def transform_end {Raw : Type} (env : KeyOps Raw)
    (lowBound : Option Const) (st : LoopState Raw)
    (lastState : Option (RangePartitionStartEndDefState Raw))
    (defState : RangePartitionStartEndDefState Raw) (endExpr : Raw) :
    Except PartError (LoopState Raw) :=
  let endVal := env.GetPartitionValue endExpr
  match (match st.lastVal with
    | some lv =>
      if lv = .maxvalue then .error (.behindMaxvalue defState.partitionName)
      else if partitonKeyCompare lv endVal ≥ 0 then .error (.endTooLow defState.partitionName)
      else .ok ()
    | none =>
      match lastState with
      | some _ => .error (.endAfterSingleStart defState.partitionName)
      | none =>
        match lowBound with
        | some lb =>
          if partitonKeyCompare lb endVal ≥ 0 then
            .error (.endNotGreaterThanLowBound defState.partitionName)
          else .ok ()
        | none => .ok () : Except PartError Unit) with
  | .error err => .error err
  | .ok _ =>
    .ok { st with
          newPartList := add_range_partition_def_state st.newPartList endVal
            defState.partitionName defState.tableSpaceName
          totalPart := st.totalPart + 1
          endVal := some endVal
          lastVal := some endVal
          startVal := none }

/-- The dispatch of one round of the main loop on the shape of the entry. -/
def transform_entry {Raw : Type} (lim : Limits) (env : KeyOps Raw)
    (lowBound upBound : Option Const) (st : LoopState Raw)
    (lastState : Option (RangePartitionStartEndDefState Raw))
    (defState : RangePartitionStartEndDefState Raw) : Except PartError (LoopState Raw) :=
  match defState.startValue, defState.endValue, defState.everyValue with
  | some s, some e, some v =>
    transform_start_end_every lim env lowBound upBound st lastState defState s e v
  | some s, some e, none => transform_start_end lim env lowBound upBound st lastState defState s e
  | some s, none, _ => transform_start lim env lowBound upBound st lastState defState s
  | none, some e, _ => transform_end env lowBound st lastState defState e
  | none, none, _ => .error .unexpectedSyntax

/-- One round of the loop `foreach (cell, partitionList)`; `hasNext` is `lnext(cell)`.
The `break` at exactly `MAX_PARTITION_NUM` partitions on the last cell leaves
`curDefState` as it is. -/
def loop_body {Raw : Type} (lim : Limits) (env : KeyOps Raw)
    (lowBound upBound : Option Const) (st : LoopState Raw)
    (defState : RangePartitionStartEndDefState Raw) (hasNext : Bool) :
    Except PartError (LoopState Raw) :=
  match precheck_start_end_defstate env defState with
  | .error err => .error err
  | .ok _ =>
    match transform_entry lim env lowBound upBound { st with defState := some defState }
        st.defState defState with
    | .error err => .error err
    | .ok st1 =>
      if lim.MAX_PARTITION_NUM ≤ st1.totalPart then
        if st1.totalPart = lim.MAX_PARTITION_NUM ∧ hasNext = false then .ok st1
        else .error (.tooManyPartitions defState.partitionName)
      else .ok { st1 with curDefState := st1.curDefState + 1 }

/-- The loop `foreach (cell, partitionList)`. -/
def main_loop {Raw : Type} (lim : Limits) (env : KeyOps Raw) (lowBound upBound : Option Const) :
    LoopState Raw → List (RangePartitionStartEndDefState Raw) → Except PartError (LoopState Raw)
  | st, [] => .ok st
  | st, defState :: rest =>
    match loop_body lim env lowBound upBound st defState (!rest.isEmpty) with
    | .error err => .error err
    | .ok st1 => main_loop lim env lowBound upBound st1 rest

/-- The state in which `transformRangePartStartEndStmt` enters its main loop. -/
def initial_state {Raw : Type} (existPartNum : Nat) : LoopState Raw :=
  { newPartList := [], startVal := none, endVal := none, lastVal := none,
    totalPart := existPartNum, defState := none, curDefState := 0 }

/-- The final stage: a single START as last entry gets the upper bound, or MAXVALUE,
as its boundary; a last entry with an END value is checked against the upper bound. -/
def final_stage {Raw : Type} (lim : Limits) (lowBound upBound : Option Const)
    (st : LoopState Raw) (defState : RangePartitionStartEndDefState Raw) :
    Except PartError (LoopState Raw) :=
  match defState.endValue with
  | none =>
    match (match upBound with
      | none => .ok .maxvalue
      | some ub =>
        match st.startVal with
        | none => .error .unexpectedSyntax
        | some startVal =>
          if partitonKeyCompare ub startVal ≤ 0 then
            .error (.startNotLessThanUpBound defState.partitionName)
          else .ok ub : Except PartError Const) with
    | .error err => .error err
    | .ok boundary =>
      if lowBound = none ∧ st.curDefState = 1 then
        match prefixed_partName lim defState.partitionName 1 with
        | .error err => .error err
        | .ok partName =>
          .ok { st with
                newPartList := add_range_partition_def_state st.newPartList boundary partName
                  defState.tableSpaceName
                totalPart := st.totalPart + 1 }
      else
        .ok { st with
              newPartList := add_range_partition_def_state st.newPartList boundary
                defState.partitionName defState.tableSpaceName
              totalPart := st.totalPart + 1 }
  | some _ =>
    match upBound, st.endVal with
    | some ub, some endVal =>
      if partitonKeyCompare ub endVal ≠ 0 then .error (.endNotEqualUpBound defState.partitionName)
      else .ok st
    | some _, none => .error .unexpectedSyntax
    | none, _ => .ok st

/-- The function `transformRangePartStartEndStmt` for one integer partition key whose
sums stay within its type: the list in START/END form rewritten in less-than form,
or the error raised. An empty list is returned untouched.
`Typed.transformRangePartStartEndStmt` is the function for every type of key. -/
def transformRangePartStartEndStmt {Raw : Type} (lim : Limits) (env : KeyOps Raw)
    (partitionList : List (RangePartitionStartEndDefState Raw)) (existPartNum : Nat)
    (lowBound upBound : Option Const) : Except PartError (List RangePartitionDefState) :=
  match partitionList.getLast? with
  | none => .ok []
  | some lastDef =>
    match check_partition_name_start_end partitionList with
    | .error err => .error err
    | .ok _ =>
      if lim.MAX_PARTITION_NUM ≤ existPartNum then .error .alreadyAtMaximum
      else
        match main_loop lim env lowBound upBound (initial_state existPartNum) partitionList with
        | .error err => .error err
        | .ok st =>
          match final_stage lim lowBound upBound st lastDef with
          | .error err => .error err
          | .ok st1 =>
            if lim.MAX_PARTITION_NUM < st1.totalPart then
              .error (.tooManyPartitions lastDef.partitionName)
            else
              match firstDuplicateName (st1.newPartList.map (fun p => p.partitionName)) with
              | some n => .error (.duplicatePartitionName n)
              | none => .ok st1.newPartList

/-! ## Sample data -/

/-- A choice of limits: 32767 partitions per table, name buffers of 64 bytes,
prefixes of up to 57 bytes. -/
def sampleLimits : Limits :=
  { MAX_PARTITION_NUM := 32767, NAMEDATALEN := 64, LEN_PARTITION_PREFIX := 57 }

/-- The sample limits with room for three partitions only. -/
def smallLimits : Limits :=
  { MAX_PARTITION_NUM := 3, NAMEDATALEN := 64, LEN_PARTITION_PREFIX := 57 }

/-- An entry of a START/END list over integer constants, in tablespace `ts`. -/
def sampleEntry (name : String) (startValue endValue everyValue : Option Const) :
    RangePartitionStartEndDefState Const :=
  { partitionName := name, startValue := startValue, endValue := endValue,
    everyValue := everyValue, tableSpaceName := "ts" }

/-- A partition in less-than form, in tablespace `ts`. -/
def samplePart (boundary : Const) (name : String) : RangePartitionDefState :=
  { boundary := boundary, partitionName := name, tablespacename := "ts" }

/-! ## Sample keys with decimal literals -/

/-- The cast of a decimal literal with one fractional digit, written in tenths, to a
decimal type without fractional digits: rounding to the nearest integer, halves away
from zero. -/
def roundTenths (t : Int) : Int :=
  if 0 ≤ t then (t + 5) / 10 else -((-t + 5) / 10)

/-- A decimal key without fractional digits (NUMERICOID with scale 0) whose arguments
are decimal literals with one fractional digit, written in tenths: the casts round,
and the ambiguity test compares `pnt` with `startVal` plus the step in tenths. -/
def decimalKey : KeyOps Int where
  GetPartitionValue := fun t => .val (roundTenths t)
  GetTargetValue := roundTenths
  compareWithOriginal := fun t =>
    if 10 * roundTenths t < t then -1 else if 10 * roundTenths t = t then 0 else 1
  equalsUncastSum := fun pnt startVal t => decide (10 * pnt = 10 * startVal + t)

/-! ## The partition list of CREATE TABLE -/

/-- One cell of the partition list of a statement: a node of type
`RangePartitionDefState` (less-than form) or of type `RangePartitionStartEndDefState`
(START/END form), told apart by its node tag (`IsA`). -/
inductive PartitionNode (Raw : Type) where
  | lessThan (state : RangePartitionDefState)
  | startEnd (state : RangePartitionStartEndDefState Raw)

/-- The field `partitionName` of a cell. The name checks read it through a cast of the
cell to one of the two node types, whatever its tag; both types have the field. -/
def PartitionNode.partitionName {Raw : Type} : PartitionNode Raw → String
  | .lessThan state => state.partitionName
  | .startEnd state => state.partitionName

/-- The function `check_partition_name_less_than`: every name is compared with the
names of the later cells, and the first name found again is reported. -/
def check_partition_name_less_than {Raw : Type} (partitionList : List (PartitionNode Raw)) :
    Except PartError Unit :=
  match firstDuplicateName (partitionList.map PartitionNode.partitionName) with
  | some n => .error (.duplicatePartitionName n)
  | none => .ok ()

/-- The function `checkPartitionName`: the tag of the first cell selects the check of
the whole list; `check_partition_name_start_end` is run on the cells as they are. -/
def checkPartitionName {Raw : Type} (partitionList : List (PartitionNode Raw)) :
    Except PartError Unit :=
  match partitionList with
  | [] => .ok ()
  | .lessThan _ :: _ => check_partition_name_less_than partitionList
  | .startEnd _ :: _ =>
    match firstDuplicateName (partitionList.map PartitionNode.partitionName) with
    | some n => .error (.duplicatePartitionName n)
    | none => .ok ()

/-- The function `is_start_end_def_list`: false for a NULL list and as soon as one cell
is not of type `RangePartitionStartEndDefState`. -/
def is_start_end_def_list {Raw : Type} (def_list : List (PartitionNode Raw)) : Bool :=
  match def_list with
  | [] => false
  | _ :: _ =>
    def_list.all (fun defState =>
      match defState with
      | .startEnd _ => true
      | .lessThan _ => false)

/-- The cells of a list in START/END form, as `transformRangePartStartEndStmt` reads
them. -/
def startEndStates {Raw : Type} (partitionList : List (PartitionNode Raw)) :
    List (RangePartitionStartEndDefState Raw) :=
  partitionList.filterMap (fun defState =>
    match defState with
    | .startEnd state => some state
    | .lessThan _ => none)

/-- The steps of `transformCreateStmt` that read the partition list of a range
partitioned table, the values being constants already (`checkPartitionValue`): the
count check of `checkPartitionSynax`; the rewriting of a list in START/END form by
`transformRangePartStartEndStmt`, for no existing partition and no bounds; and, on
the primary coordinator or a single node (`checkNames`), `checkPartitionName`. The
result is the partition list that the statement holds afterwards. -/
def transformCreateStmt_partitionList {Raw : Type} (lim : Limits) (env : KeyOps Raw)
    (checkNames : Bool) (partitionList : List (PartitionNode Raw)) :
    Except PartError (List (PartitionNode Raw)) :=
  if lim.MAX_PARTITION_NUM < partitionList.length then .error .tooManyPartitionsForTable
  else
    match (if is_start_end_def_list partitionList = true then
        match transformRangePartStartEndStmt lim env (startEndStates partitionList) 0 none none with
        | .error err => .error err
        | .ok newPartList => .ok (newPartList.map PartitionNode.lessThan)
      else .ok partitionList : Except PartError (List (PartitionNode Raw))) with
    | .error err => .error err
    | .ok newList =>
      if checkNames = true then
        match checkPartitionName newList with
        | .error err => .error err
        | .ok _ => .ok newList
      else .ok newList

/-! ## Index constraints -/

/-- The kinds of constraint that `transformIndexConstraints` handles. -/
inductive ConstrType where
  | CONSTR_PRIMARY
  | CONSTR_UNIQUE
  | CONSTR_EXCLUSION
  deriving DecidableEq, Repr

/-- The sort direction of an index element. -/
inductive SortByDir where
  | SORTBY_DEFAULT
  | SORTBY_ASC
  | SORTBY_DESC
  | SORTBY_USING
  deriving DecidableEq, Repr

/-- The place of NULLs in the order of an index element. -/
inductive SortByNulls where
  | SORTBY_NULLS_DEFAULT
  | SORTBY_NULLS_FIRST
  | SORTBY_NULLS_LAST
  deriving DecidableEq, Repr

/-- The `ereport(ERROR, ...)` sites of `transformIndexConstraints` and
`transformIndexConstraint`, one constructor per message. -/
inductive IndexError where
  /-- "multiple primary keys for table ... are not allowed" -/
  | multiplePrimaryKeys (relname : String)
  /-- "Multiple primary keys for foreign table ... are not allowed." -/
  | multiplePrimaryKeysForeign (relname : String)
  /-- "Partitioned table does not support EXCLUDE index" -/
  | excludeOnPartitioned
  /-- "Invalid PRIMARY KEY/UNIQUE constraint for partitioned table" /
  "Columns of PRIMARY KEY/UNIQUE constraint Must contain PARTITION KEY" -/
  | mustContainPartitionKey
  /-- "cannot use an existing index in CREATE TABLE" -/
  | cannotUseExistingIndex
  /-- An error of the catalog lookups and checks of ALTER TABLE ... USING INDEX. -/
  | existingIndexUnusable (indexName : String)
  /-- "inherited relation ... is not a table" -/
  | inheritedNotTable (relname : String)
  /-- "column ... named in key does not exist" -/
  | columnDoesNotExist (key : String)
  /-- "column ... appears twice in primary key constraint" -/
  | appearsTwicePrimary (key : String)
  /-- "column ... appears twice in unique constraint" -/
  | appearsTwiceUnique (key : String)
  deriving DecidableEq, Repr

/-- One key element of an index (`IndexElem`); `Expr` is the type of expression trees. -/
structure IndexElem (Expr : Type) where
  name : Option String
  expr : Option Expr
  indexcolname : Option String
  collation : List String
  opclass : List String
  ordering : SortByDir
  nulls_ordering : SortByNulls
  deriving DecidableEq, Repr

/-- An index specification (`IndexStmt`), with the fields that
`transformIndexConstraints` reads; `none` stands for a NULL name or predicate. -/
structure IndexStmt (Expr : Type) where
  idxname : Option String
  accessMethod : String
  indexParams : List (IndexElem Expr)
  whereClause : Option Expr
  excludeOpNames : List (List String)
  unique : Bool
  primary : Bool
  isconstraint : Bool
  deferrable : Bool
  initdeferred : Bool
  deriving DecidableEq

/-- A PRIMARY KEY, UNIQUE or EXCLUDE constraint (`Constraint`); `exclusions` pairs each
index element with its operator name, and `nonforced` is `inforConstraint->nonforced`. -/
structure Constraint (Expr : Type) where
  contype : ConstrType
  conname : Option String
  deferrable : Bool
  initdeferred : Bool
  access_method : Option String
  where_clause : Option Expr
  keys : List String
  exclusions : List (IndexElem Expr × List String)
  indexname : Option String
  nonforced : Bool

/-- A column of the new table (`ColumnDef`), with the fields read here. -/
structure ColumnDef where
  colname : String
  is_not_null : Bool
  deriving DecidableEq, Repr

/-- An inherited relation as `heap_openrv` finds it: whether it is a plain table, and
the names of its attributes that are not dropped. -/
structure InhRelation where
  relname : String
  isTable : Bool
  attnames : List String

/-- The fields of the working context (`CreateStmtContext`) that
`transformIndexConstraints` reads. `foreignStmt` tells whether `stmtType` is CREATE
FOREIGN TABLE or ALTER FOREIGN TABLE, `obsOrHdfs` whether the statement creates a
foreign table on an OBS or HDFS server. -/
structure CreateStmtContext (Expr : Type) where
  foreignStmt : Bool
  relname : String
  isalter : Bool
  ispartitioned : Bool
  obsOrHdfs : Bool
  partitionKey : List String
  columns : List ColumnDef
  hasoids : Bool
  inhRelations : List InhRelation
  ixconstraints : List (Constraint Expr)
  inh_indexes : List (IndexStmt Expr)
  isResizing : Bool

/-- What `transformIndexConstraint` takes from other files: the default access method,
the test for a system column, and the catalog lookups and checks of ALTER TABLE ...
USING INDEX, which end in an error or in the column names of the index. -/
structure IndexEnv where
  DEFAULT_INDEX_TYPE : String
  SystemAttributeByName : String → Bool → Bool
  existingIndexKeys : String → Except IndexError (List String)

/-- The variables that `transformIndexConstraints` updates while it collects the
index specifications: the columns of the context, `cxt->pkey` and the local list
`indexlist`. A node is known by its place in `indexlist`, so `pkey` is a place. -/
structure IndexState (Expr : Type) where
  columns : List ColumnDef
  pkey : Option Nat
  indexlist : List (IndexStmt Expr)

/-- The assignment `column->is_not_null = TRUE` on the first column named `key`. -/
def force_not_null (key : String) : List ColumnDef → List ColumnDef
  | [] => []
  | column :: rest =>
    if column.colname = key then { column with is_not_null := true } :: rest
    else column :: force_not_null key rest

/-- The loop `foreach (inher, cxt->inhRelations)` of `transformIndexConstraint`:
whether an inherited table has an attribute named `key`. -/
def find_in_inherited (key : String) : List InhRelation → Except IndexError Bool
  | [] => .ok false
  | inh :: rest =>
    if inh.isTable = false then .error (.inheritedNotTable inh.relname)
    else if inh.attnames.contains key then .ok true
    else find_in_inherited key rest

/-- The index element that `transformIndexConstraint` makes of a column name. -/
def columnElem {Expr : Type} (key : String) : IndexElem Expr :=
  { name := some key, expr := none, indexcolname := none, collation := [], opclass := [],
    ordering := .SORTBY_DEFAULT, nulls_ordering := .SORTBY_NULLS_DEFAULT }

/-- The search for the column named `key` in `transformIndexConstraint`: among the
columns of the new table, where the column of a PRIMARY KEY that is not declared
non-enforced becomes NOT NULL, then among the system columns, then in the inherited
tables. The result is `found` and the columns afterwards. -/
def find_key {Expr : Type} (env : IndexEnv) (cxt : CreateStmtContext Expr)
    (constraint : Constraint Expr) (key : String) (columns : List ColumnDef) :
    Except IndexError (Bool × List ColumnDef) :=
  if columns.any (fun column => column.colname = key) then
    .ok (true,
      if constraint.contype = .CONSTR_PRIMARY ∧ constraint.nonforced = false then
        force_not_null key columns
      else columns)
  else if env.SystemAttributeByName key cxt.hasoids = true then .ok (true, columns)
  else
    match find_in_inherited key cxt.inhRelations with
    | .error err => .error err
    | .ok found => .ok (found, columns)

/-- The loop `foreach (lc, constraint->keys)` of `transformIndexConstraint`: each key
must name a column of the new table, a system column or an inherited column, unless
the statement is an ALTER, and it may not occur twice. -/
def transform_keys {Expr : Type} (env : IndexEnv) (cxt : CreateStmtContext Expr)
    (constraint : Constraint Expr) :
    List String → List ColumnDef → List (IndexElem Expr) →
      Except IndexError (List ColumnDef × List (IndexElem Expr))
  | [], columns, indexParams => .ok (columns, indexParams)
  | key :: rest, columns, indexParams =>
    match find_key env cxt constraint key columns with
    | .error err => .error err
    | .ok (found, columns1) =>
      if found = false ∧ cxt.isalter = false then .error (.columnDoesNotExist key)
      else if indexParams.any (fun iparam => iparam.name = some key) then
        if constraint.contype = .CONSTR_PRIMARY then .error (.appearsTwicePrimary key)
        else .error (.appearsTwiceUnique key)
      else transform_keys env cxt constraint rest columns1 (indexParams ++ [columnElem key])

/-- The function `transformIndexConstraint`: the index specification of one
constraint. `pos` is the place that the new node takes in `indexlist`; the result
holds the node, `cxt->pkey` and the columns of the context afterwards. The fields
of the node that are not read again, and `fallback_dist_col`, have no counterpart. -/
def transformIndexConstraint {Expr : Type} (env : IndexEnv) (cxt : CreateStmtContext Expr)
    (constraint : Constraint Expr) (pos : Nat) (pkey : Option Nat) (columns : List ColumnDef) :
    Except IndexError (IndexStmt Expr × Option Nat × List ColumnDef) :=
  if constraint.contype = .CONSTR_PRIMARY ∧ pkey ≠ none then
    if cxt.foreignStmt = true then .error (.multiplePrimaryKeysForeign cxt.relname)
    else .error (.multiplePrimaryKeys cxt.relname)
  else
    let pkey1 := if constraint.contype = .CONSTR_PRIMARY then some pos else pkey
    let index : IndexStmt Expr :=
      { idxname := constraint.conname
        accessMethod := constraint.access_method.getD env.DEFAULT_INDEX_TYPE
        indexParams := []
        whereClause := constraint.where_clause
        excludeOpNames := []
        unique := decide (constraint.contype ≠ .CONSTR_EXCLUSION)
        primary := decide (constraint.contype = .CONSTR_PRIMARY)
        isconstraint := true
        deferrable := constraint.deferrable
        initdeferred := constraint.initdeferred }
    match (match constraint.indexname with
        | some indexName =>
          if cxt.isalter = false then .error .cannotUseExistingIndex
          else
            match env.existingIndexKeys indexName with
            | .error err => .error err
            | .ok names => .ok (constraint.keys ++ names)
        | none => .ok constraint.keys : Except IndexError (List String)) with
    | .error err => .error err
    | .ok keys =>
      if constraint.contype = .CONSTR_EXCLUSION then
        .ok ({ index with
               indexParams := constraint.exclusions.map Prod.fst
               excludeOpNames := constraint.exclusions.map Prod.snd }, pkey1, columns)
      else
        match transform_keys env cxt constraint keys columns [] with
        | .error err => .error err
        | .ok (columns1, indexParams) => .ok ({ index with indexParams := indexParams }, pkey1, columns1)

/-- The check of `transformIndexConstraints` on a constraint of a partitioned table
that is being created: no EXCLUDE constraint, and every column of the partition key
among the keys of the constraint. -/
def check_partition_key {Expr : Type} (cxt : CreateStmtContext Expr)
    (constraint : Constraint Expr) : Except IndexError Unit :=
  if cxt.ispartitioned = true ∧ cxt.isalter = false then
    if cxt.obsOrHdfs = true then .ok ()
    else if constraint.contype = .CONSTR_EXCLUSION then .error .excludeOnPartitioned
    else if cxt.partitionKey.all (fun pkname => constraint.keys.contains pkname) then .ok ()
    else .error .mustContainPartitionKey
  else .ok ()

/-- The loop `foreach (lc, cxt->ixconstraints)` of `transformIndexConstraints`. -/
def constraints_loop {Expr : Type} (env : IndexEnv) (cxt : CreateStmtContext Expr) :
    IndexState Expr → List (Constraint Expr) → Except IndexError (IndexState Expr)
  | st, [] => .ok st
  | st, constraint :: rest =>
    match check_partition_key cxt constraint with
    | .error err => .error err
    | .ok _ =>
      match transformIndexConstraint env cxt constraint st.indexlist.length st.pkey st.columns with
      | .error err => .error err
      | .ok (index, pkey, columns) =>
        constraints_loop env cxt
          { columns := columns, pkey := pkey, indexlist := st.indexlist ++ [index] } rest

/-- The loop `foreach (lc, cxt->inh_indexes)` of `transformIndexConstraints`. -/
def inh_indexes_loop {Expr : Type} (cxt : CreateStmtContext Expr) :
    IndexState Expr → List (IndexStmt Expr) → Except IndexError (IndexState Expr)
  | st, [] => .ok st
  | st, index :: rest =>
    if index.primary = true ∧ st.pkey ≠ none then .error (.multiplePrimaryKeys cxt.relname)
    else
      inh_indexes_loop cxt
        { st with
          pkey := if index.primary = true then some st.indexlist.length else st.pkey
          indexlist := st.indexlist ++ [index] } rest

/-- The first two loops of `transformIndexConstraints`, entered with `cxt->pkey`
NULL: the index specifications of the constraints, then the ones cloned by LIKE. -/
def collect_indexes {Expr : Type} (env : IndexEnv) (cxt : CreateStmtContext Expr) :
    Except IndexError (IndexState Expr) :=
  match constraints_loop env cxt { columns := cxt.columns, pkey := none, indexlist := [] }
      cxt.ixconstraints with
  | .error err => .error err
  | .ok st => inh_indexes_loop cxt st cxt.inh_indexes

/-- Modelled from the spec: equal is declared outside the source files at hand. Two
index specifications "are equivalent when their key-element lists, predicate,
excluded-operator list, access method, and deferrability all match": `equal` on two
node trees is the equality of the trees. -/
def equal {α : Type} [DecidableEq α] (a b : α) : Bool := decide (a = b)

/-- The test of the inner loop of `transformIndexConstraints`: `index` is redundant
with `priorindex`. -/
def redundant {Expr : Type} [DecidableEq Expr] (index priorindex : IndexStmt Expr) : Bool :=
  equal index.indexParams priorindex.indexParams &&
    equal index.whereClause priorindex.whereClause &&
    equal index.excludeOpNames priorindex.excludeOpNames &&
    decide (index.accessMethod = priorindex.accessMethod) &&
    decide (index.deferrable = priorindex.deferrable) &&
    decide (index.initdeferred = priorindex.initdeferred)

/-- The loop `foreach (k, cxt->alist)`: the first prior index that `index` is redundant
with becomes unique if `index` is, and takes the name of `index` if it has none. The
result is the list afterwards, or `none` if `keep` is still true. -/
def merge_into_prior {Expr : Type} [DecidableEq Expr] (index : IndexStmt Expr) :
    List (IndexStmt Expr) → Option (List (IndexStmt Expr))
  | [] => none
  | priorindex :: rest =>
    if redundant index priorindex = true then
      some ({ priorindex with
              unique := priorindex.unique || index.unique
              idxname := if priorindex.idxname = none then index.idxname
                else priorindex.idxname } :: rest)
    else
      match merge_into_prior index rest with
      | some rest1 => some (priorindex :: rest1)
      | none => none

/-- The loop `foreach (lc, indexlist)` of `transformIndexConstraints` from place `i`
on, `alist` being `cxt->alist`: the node `cxt->pkey` is skipped; in cluster-resize
mode every other node is appended; otherwise a node is merged into a prior one or
appended. -/
def dedup_loop {Expr : Type} [DecidableEq Expr] (pkey : Option Nat) (isResizing : Bool) :
    Nat → List (IndexStmt Expr) → List (IndexStmt Expr) → List (IndexStmt Expr)
  | _, [], alist => alist
  | i, index :: rest, alist =>
    if pkey = some i then dedup_loop pkey isResizing (i + 1) rest alist
    else if isResizing = true then dedup_loop pkey isResizing (i + 1) rest (alist ++ [index])
    else
      match merge_into_prior index alist with
      | some alist1 => dedup_loop pkey isResizing (i + 1) rest alist1
      | none => dedup_loop pkey isResizing (i + 1) rest (alist ++ [index])

/-- What `transformIndexConstraints` leaves in the context: the index list
`cxt->alist` and the columns. -/
structure IndexOutcome (Expr : Type) where
  alist : List (IndexStmt Expr)
  columns : List ColumnDef

/-- The function `transformIndexConstraints`, entered with `cxt->pkey` NULL and
`cxt->alist` empty: the primary-key index, if any, comes first in `cxt->alist`, and
the other index specifications follow, redundant ones being merged. -/
def transformIndexConstraints {Expr : Type} [DecidableEq Expr] (env : IndexEnv)
    (cxt : CreateStmtContext Expr) : Except IndexError (IndexOutcome Expr) :=
  match collect_indexes env cxt with
  | .error err => .error err
  | .ok st =>
    .ok { alist := dedup_loop st.pkey cxt.isResizing 0 st.indexlist
            (match st.pkey with
             | some i => (st.indexlist[i]?).toList
             | none => [])
          columns := st.columns }

/-- The number of PRIMARY KEY constraints among the constraints of a statement. -/
def primaryConstraints {Expr : Type} (constraints : List (Constraint Expr)) : Nat :=
  (constraints.filter (fun constraint => decide (constraint.contype = .CONSTR_PRIMARY))).length

/-- The number of primary indexes in a list of index specifications. -/
def primaryIndexes {Expr : Type} (indexes : List (IndexStmt Expr)) : Nat :=
  (indexes.filter (fun index => index.primary)).length

/-- A context for samples: CREATE TABLE `t (a, b)`, not partitioned. -/
def sampleContext (ixconstraints : List (Constraint String)) (inh_indexes : List (IndexStmt String))
    (isResizing : Bool) : CreateStmtContext String :=
  { foreignStmt := false, relname := "t", isalter := false, ispartitioned := false,
    obsOrHdfs := false, partitionKey := [],
    columns := [{ colname := "a", is_not_null := false }, { colname := "b", is_not_null := false }],
    hasoids := false, inhRelations := [], ixconstraints := ixconstraints,
    inh_indexes := inh_indexes, isResizing := isResizing }

/-- An environment for samples: btree, no system column, no existing index. -/
def sampleIndexEnv : IndexEnv :=
  { DEFAULT_INDEX_TYPE := "btree", SystemAttributeByName := fun _ _ => false,
    existingIndexKeys := fun indexName => .error (.existingIndexUnusable indexName) }

/-- A constraint of the given kind on the given columns, for samples. -/
def sampleConstraint (contype : ConstrType) (conname : Option String) (keys : List String) :
    Constraint String :=
  { contype := contype, conname := conname, deferrable := false, initdeferred := false,
    access_method := none, where_clause := none, keys := keys, exclusions := [],
    indexname := none, nonforced := false }

/-- A btree index on the given columns as LIKE ... INCLUDING INDEXES clones it, for
samples. -/
def sampleIndex (idxname : Option String) (keys : List String) (unique primary : Bool) :
    IndexStmt String :=
  { idxname := idxname, accessMethod := "btree", indexParams := keys.map columnElem,
    whereClause := none, excludeOpNames := [], unique := unique, primary := primary,
    isconstraint := false, deferrable := false, initdeferred := false }

/-- One if there is a primary-key node, zero if `cxt->pkey` is NULL. -/
def pkeyCount (pkey : Option Nat) : Nat :=
  match pkey with
  | some _ => 1
  | none => 0

/-- The link between `cxt->pkey` and `indexlist` while the index specifications are
collected: the primary ones sit exactly at the place `pkey`, which is a place of the
list. -/
structure PkeyInv {Expr : Type} (st : IndexState Expr) : Prop where
  primary_iff : ∀ j ix, st.indexlist[j]? = some ix → (ix.primary = true ↔ st.pkey = some j)
  bound : ∀ j, st.pkey = some j → j < st.indexlist.length

/-- What the merge loop compares of an index specification: key elements, predicate,
excluded operators, access method and the two deferrability flags. -/
def specKey {Expr : Type} (index : IndexStmt Expr) :
    List (IndexElem Expr) × Option Expr × List (List String) × String × Bool × Bool :=
  (index.indexParams, index.whereClause, index.excludeOpNames, index.accessMethod,
    index.deferrable, index.initdeferred)

/-- The prior index after `index` has been merged into it. -/
def merged {Expr : Type} (priorindex index : IndexStmt Expr) : IndexStmt Expr :=
  { priorindex with
    unique := priorindex.unique || index.unique
    idxname := if priorindex.idxname = none then index.idxname else priorindex.idxname }

/-- The index specifications of a list that the merge loop takes for the same as a
given one: those with the given key elements, predicate, excluded operators, access
method and deferrability flags. -/
def sameSpec {Expr : Type} [DecidableEq Expr]
    (K : List (IndexElem Expr) × Option Expr × List (List String) × String × Bool × Bool)
    (indexes : List (IndexStmt Expr)) : List (IndexStmt Expr) :=
  indexes.filter (fun index => decide (specKey index = K))

/-- What the merge loop makes of index specifications that it takes for the same: the
first one stays, and each later one is merged into it. -/
def class_fold {Expr : Type} : List (IndexStmt Expr) → List (IndexStmt Expr) → List (IndexStmt Expr)
  | [], acc => acc
  | index :: rest, [] => class_fold rest [index]
  | index :: rest, priorindex :: others => class_fold rest (merged priorindex index :: others)

/-! ## The resolver for every key type

The definitions above fix an integer key with exact arithmetic. The same functions
are embedded once more for every type that the START/END syntax admits: a value of
the key type is a datum, a machine word whose meaning only the operations of the
type know, and these operations, which live outside this file, are parameters
(`TypeOps`). What does not touch a value of the key type is shared with the
definitions above. -/

/-- The type of the partition key (`attr->atttypid`), as far as the resolver tells
types apart. -/
inductive KeyType where
  | INT2OID
  | INT4OID
  | INT8OID
  | NUMERICOID
  | FLOAT4OID
  | FLOAT8OID
  | DATEOID
  | TIMESTAMPOID
  | TIMESTAMPTZOID
  | other
  deriving DecidableEq, Repr

/-- The services of a key type that live outside this file, over the type `Raw` of
parsed argument expressions; a datum is an integer. -/
structure TypeOps (Raw : Type) where
  /-- The call `GetPartitionValue(pos, attrs, value, isinterval)`. -/
  GetPartitionValue : Raw → Bool → Const
  /-- The call `GetTargetValue(attr, everyExpr, isinterval)`: the step as a datum. -/
  GetTargetValue : Raw → Bool → Int
  /-- The function `partitonKeyCompare` on one key column. -/
  partitonKeyCompare : Const → Const → Int
  /-- The comparison `partitonKeyCompare(&pval, &c, 1)` of `precheck_point_value_internal`. -/
  compareWithOriginal : Raw → Int
  /-- The sum `curpnt + everyVal` by `evaluate_opexpr`, cast to the key type by
  `GetTargetValue`; `none` when the function of the operator or the cast raises an
  error, as the sum of two integers does when it leaves the range of its type. -/
  plus : Int → Int → Option Int
  /-- The operator `<=` by `evaluate_opexpr`. -/
  le : Int → Int → Bool
  /-- The operator `<` by `evaluate_opexpr`. -/
  lt : Int → Int → Bool
  /-- The test `pnt = startVal + c` of the ambiguity check, `c` being the step in its
  own type; `none` when forming that sum by `evaluate_opexpr` raises an error. -/
  equalsUncastSum : Int → Int → Raw → Option Bool
  /-- The macro `NUMERIC_IS_NAN`. -/
  NUMERIC_IS_NAN : Int → Bool
  /-- The function `isinf`. -/
  isinf : Int → Bool
  /-- The macro `TIMESTAMP_NOT_FINITE`. -/
  TIMESTAMP_NOT_FINITE : Int → Bool

namespace Typed

/-- The macro `precheck_point_value_internal`. -/
def precheck_point_value_internal {Raw : Type} (ops : TypeOps Raw) (partName : String)
    (a : Raw) : Except PartError Unit :=
  match ops.GetPartitionValue a false with
  | .maxvalue => .ok ()
  | .val _ => if ops.compareWithOriginal a ≠ 0 then .error (.notConstInteger partName) else .ok ()

/-- The function `precheck_start_end_defstate`: the values of an entry are checked for
the types INT2OID, INT4OID and INT8OID only. -/
def precheck_start_end_defstate {Raw : Type} (ops : TypeOps Raw) (atttypid : KeyType)
    (defState : RangePartitionStartEndDefState Raw) : Except PartError Unit :=
  if atttypid = .INT2OID ∨ atttypid = .INT4OID ∨ atttypid = .INT8OID then
    match (match defState.startValue with
           | some a => precheck_point_value_internal ops defState.partitionName a
           | none => .ok ()) with
    | .error e => .error e
    | .ok _ =>
      match (match defState.endValue with
             | some a => precheck_point_value_internal ops defState.partitionName a
             | none => .ok ()) with
      | .error e => .error e
      | .ok _ =>
        match defState.everyValue with
        | some a => precheck_point_value_internal ops defState.partitionName a
        | none => .ok ()
  else .ok ()

/-- The `while (nPart < maxNum)` loop of `divide_start_end_every_internal`; `fuel` is
`maxNum - nPart`. The sum is formed first, and an error of its operator ends the call;
the ambiguity check is made in the first pass when `needCheck` is set. -/
def divide_loop {Raw : Type} (ops : TypeOps Raw) (partName : String) (startVal endVal : Int)
    (everyExpr : Raw) (everyVal : Int) (needCheck : Bool) :
    Nat → Nat → Int → List Int → Except PartError (List Int × Nat)
  | 0, _, _, _ => .error (.tooManyPartitions partName)
  | fuel + 1, nPart, curpnt, result =>
    match ops.plus curpnt everyVal with
    | none => .error .operatorError
    | some pnt =>
      match (if nPart = 0 ∧ needCheck = true then ops.equalsUncastSum pnt startVal everyExpr
             else some true) with
      | none => .error .operatorError
      | some false => .error (.ambiguousEvery partName)
      | some true =>
        if nPart = 0 ∧ ops.le pnt startVal = true then
          .error (.stepTooSmall partName)
        else if ops.le pnt endVal = true then
          if ops.lt pnt endVal = false then .ok (result ++ [pnt], nPart + 1)
          else divide_loop ops partName startVal endVal everyExpr everyVal needCheck
            fuel (nPart + 1) pnt (result ++ [pnt])
        else if nPart = 0 then
          .error (.stepTooBig partName)
        else .ok (result ++ [endVal], nPart + 1)

/-- The function `divide_start_end_every_internal`. -/
def divide_start_end_every_internal {Raw : Type} (ops : TypeOps Raw) (partName : String)
    (startVal endVal : Int) (everyExpr : Raw) (maxNum : Nat) (isinterval needCheck : Bool) :
    Except PartError (List Int × Nat) :=
  if ops.le endVal startVal = true then .error (.startNotLessThanEnd partName)
  else divide_loop ops partName startVal endVal everyExpr (ops.GetTargetValue everyExpr isinterval)
    needCheck maxNum 0 startVal []

/-- The function `DividePartitionStartEndInterval`: the `switch` on the type of the
key. -/
def DividePartitionStartEndInterval {Raw : Type} (ops : TypeOps Raw) (atttypid : KeyType)
    (partName : String) (startVal endVal everyVal : Int) (everyExpr : Raw) (maxNum : Nat) :
    Except PartError (List Int × Nat) :=
  match atttypid with
  | .NUMERICOID =>
    if ops.NUMERIC_IS_NAN startVal = true ∨ ops.NUMERIC_IS_NAN endVal = true ∨
        ops.NUMERIC_IS_NAN everyVal = true then
      .error (.nanInStartEndEvery partName)
    else divide_start_end_every_internal ops partName startVal endVal everyExpr maxNum false true
  | .FLOAT4OID | .FLOAT8OID =>
    if ops.isinf everyVal = true ∨ ops.isinf startVal = true ∨ ops.isinf endVal = true then
      .error (.infInStartEndEvery partName)
    else divide_start_end_every_internal ops partName startVal endVal everyExpr maxNum false true
  | .INT2OID | .INT4OID | .INT8OID =>
    divide_start_end_every_internal ops partName startVal endVal everyExpr maxNum false false
  | .DATEOID | .TIMESTAMPOID | .TIMESTAMPTZOID =>
    if ops.TIMESTAMP_NOT_FINITE startVal = true ∨ ops.TIMESTAMP_NOT_FINITE endVal = true then
      .error (.infInStartEndEvery partName)
    else divide_start_end_every_internal ops partName startVal endVal everyExpr maxNum true false
  | .other => .error .unsupportedDatatype

/-- The block `if (lastVal != NULL) { ... }` of the entries with a START value. -/
def check_start_against_last {Raw : Type} (ops : TypeOps Raw) (lastVal : Option Const)
    (startVal : Const) (partName : String) : Except PartError Unit :=
  match lastVal with
  | none => .ok ()
  | some lv =>
    if lv = .maxvalue then .error (.behindMaxvalue partName)
    else if ops.partitonKeyCompare lv startVal > 0 then .error (.startTooLow partName)
    else if ops.partitonKeyCompare lv startVal < 0 then .error (.startTooHigh partName)
    else .ok ()

/-- The macro `add_last_single_start_partition`. -/
def add_last_single_start_partition {Raw : Type} (lim : Limits) (ops : TypeOps Raw)
    (lowBound : Option Const) (st : LoopState Raw) (lastState defState : RangePartitionStartEndDefState Raw)
    (startVal : Const) : Except PartError (LoopState Raw) :=
  match lastState.startValue with
  | none => .error .unexpectedSyntax
  | some ls =>
    if ops.partitonKeyCompare (ops.GetPartitionValue ls false) startVal ≥ 0 then
      .error (.startTooLow defState.partitionName)
    else if lowBound = none ∧ st.curDefState = 1 then
      match prefixed_partName lim lastState.partitionName 1 with
      | .error e => .error e
      | .ok partName =>
        .ok { st with
              newPartList := add_range_partition_def_state st.newPartList startVal partName
                lastState.tableSpaceName
              totalPart := st.totalPart + 1 }
    else
      .ok { st with
            newPartList := add_range_partition_def_state st.newPartList startVal
              lastState.partitionName lastState.tableSpaceName
            totalPart := st.totalPart + 1 }

/-- The check "SP == lowBound" of a first entry that comes with a low bound. -/
def check_start_point {Raw : Type} (ops : TypeOps Raw) (lowBound upBound : Option Const)
    (startVal : Const) (partName : String) : Except PartError Unit :=
  match lowBound, upBound with
  | some lb, some _ =>
    if ops.partitonKeyCompare lb startVal ≠ 0 then .error (.startNotEqualLowBound partName)
    else .ok ()
  | _, _ => .ok ()

/-- The block `if (lastVal == NULL) { ... }` of the entries START+END+EVERY and START. -/
def build_before_start {Raw : Type} (lim : Limits) (ops : TypeOps Raw)
    (lowBound upBound : Option Const) (st : LoopState Raw)
    (lastState : Option (RangePartitionStartEndDefState Raw))
    (defState : RangePartitionStartEndDefState Raw) (startVal : Const) :
    Except PartError (LoopState Raw) :=
  match st.lastVal with
  | some _ => .ok st
  | none =>
    match lastState with
    | some ls => add_last_single_start_partition lim ops lowBound st ls defState startVal
    | none =>
      if lowBound = none then
        match prefixed_partName lim defState.partitionName 0 with
        | .error e => .error e
        | .ok partName =>
          .ok { st with
                newPartList := add_range_partition_def_state st.newPartList startVal partName
                  defState.tableSpaceName
                totalPart := st.totalPart + 1 }
      else
        match check_start_point ops lowBound upBound startVal defState.partitionName with
        | .error e => .error e
        | .ok _ => .ok st

/-- Entry of type 1, START + END + EVERY. -/
def transform_start_end_every {Raw : Type} (lim : Limits) (ops : TypeOps Raw)
    (atttypid : KeyType) (isinterval : Bool)
    (lowBound upBound : Option Const) (st : LoopState Raw)
    (lastState : Option (RangePartitionStartEndDefState Raw))
    (defState : RangePartitionStartEndDefState Raw) (startExpr endExpr everyExpr : Raw) :
    Except PartError (LoopState Raw) :=
  match ops.GetPartitionValue startExpr false, ops.GetPartitionValue endExpr false,
      ops.GetPartitionValue everyExpr isinterval with
  | .val s, .val e, .val v =>
    if ops.partitonKeyCompare (.val s) (.val e) ≥ 0 then
      .error (.startNotLessThanEnd defState.partitionName)
    else
      match check_start_against_last ops st.lastVal (.val s) defState.partitionName with
      | .error err => .error err
      | .ok _ =>
        match build_before_start lim ops lowBound upBound st lastState defState (.val s) with
        | .error err => .error err
        | .ok st1 =>
          match get_range_partition_name_prefix lim defState.partitionName with
          | .error err => .error err
          | .ok namePrefix =>
            match DividePartitionStartEndInterval ops atttypid defState.partitionName s e v
                everyExpr (lim.MAX_PARTITION_NUM - st1.totalPart) with
            | .error err => .error err
            | .ok (resList, numPart) =>
              match add_divided lim namePrefix defState.tableSpaceName 1 resList st1.newPartList with
              | .error err => .error err
              | .ok xL =>
                .ok { st1 with
                      newPartList := xL
                      startVal := some (.val s)
                      endVal := some (.val e)
                      totalPart := st1.totalPart + numPart
                      lastVal := some (.val e) }
  | _, _, _ => .error (.maxvalueInStartEndEvery defState.partitionName)

/-- Entry of type 2, START + END without EVERY. -/
def transform_start_end {Raw : Type} (lim : Limits) (ops : TypeOps Raw)
    (lowBound upBound : Option Const) (st : LoopState Raw)
    (lastState : Option (RangePartitionStartEndDefState Raw))
    (defState : RangePartitionStartEndDefState Raw) (startExpr endExpr : Raw) :
    Except PartError (LoopState Raw) :=
  let startVal := ops.GetPartitionValue startExpr false
  let endVal := ops.GetPartitionValue endExpr false
  if startVal = .maxvalue then .error (.startIsMaxvalue defState.partitionName)
  else if ops.partitonKeyCompare startVal endVal ≥ 0 then
    .error (.startNotLessThanEnd defState.partitionName)
  else
    match check_start_against_last ops st.lastVal startVal defState.partitionName with
    | .error err => .error err
    | .ok _ =>
      match (match st.lastVal with
        | some _ =>
          .ok { st with
                newPartList := add_range_partition_def_state st.newPartList endVal
                  defState.partitionName defState.tableSpaceName
                totalPart := st.totalPart + 1 }
        | none =>
          match lastState with
          | some ls =>
            match add_last_single_start_partition lim ops lowBound st ls defState startVal with
            | .error err => .error err
            | .ok st1 =>
              .ok { st1 with
                    newPartList := add_range_partition_def_state st1.newPartList endVal
                      defState.partitionName defState.tableSpaceName
                    totalPart := st1.totalPart + 1 }
          | none =>
            if lowBound = none then
              match get_range_partition_name_prefix lim defState.partitionName with
              | .error err => .error err
              | .ok namePrefix =>
                match sprintf_partName lim namePrefix 0 with
                | .error err => .error err
                | .ok partName0 =>
                  match sprintf_partName lim namePrefix 1 with
                  | .error err => .error err
                  | .ok partName1 =>
                    .ok { st with
                          newPartList := add_range_partition_def_state
                            (add_range_partition_def_state st.newPartList startVal partName0
                              defState.tableSpaceName)
                            endVal partName1 defState.tableSpaceName
                          totalPart := st.totalPart + 1 + 1 }
            else
              match check_start_point ops lowBound upBound startVal defState.partitionName with
              | .error err => .error err
              | .ok _ =>
                .ok { st with
                      newPartList := add_range_partition_def_state st.newPartList endVal
                        defState.partitionName defState.tableSpaceName
                      totalPart := st.totalPart + 1 } : Except PartError (LoopState Raw)) with
      | .error err => .error err
      | .ok st2 =>
        .ok { st2 with startVal := some startVal, endVal := some endVal, lastVal := some endVal }

/-- Entry of type 3, a single START. -/
def transform_start {Raw : Type} (lim : Limits) (ops : TypeOps Raw)
    (lowBound upBound : Option Const) (st : LoopState Raw)
    (lastState : Option (RangePartitionStartEndDefState Raw))
    (defState : RangePartitionStartEndDefState Raw) (startExpr : Raw) :
    Except PartError (LoopState Raw) :=
  let startVal := ops.GetPartitionValue startExpr false
  if startVal = .maxvalue then .error (.startIsMaxvalue defState.partitionName)
  else
    match check_start_against_last ops st.lastVal startVal defState.partitionName with
    | .error err => .error err
    | .ok _ =>
      match build_before_start lim ops lowBound upBound st lastState defState startVal with
      | .error err => .error err
      | .ok st1 => .ok { st1 with startVal := some startVal, lastVal := none }

/-- Entry of type 4, a single END. -/
def transform_end {Raw : Type} (ops : TypeOps Raw)
    (lowBound : Option Const) (st : LoopState Raw)
    (lastState : Option (RangePartitionStartEndDefState Raw))
    (defState : RangePartitionStartEndDefState Raw) (endExpr : Raw) :
    Except PartError (LoopState Raw) :=
  let endVal := ops.GetPartitionValue endExpr false
  match (match st.lastVal with
    | some lv =>
      if lv = .maxvalue then .error (.behindMaxvalue defState.partitionName)
      else if ops.partitonKeyCompare lv endVal ≥ 0 then .error (.endTooLow defState.partitionName)
      else .ok ()
    | none =>
      match lastState with
      | some _ => .error (.endAfterSingleStart defState.partitionName)
      | none =>
        match lowBound with
        | some lb =>
          if ops.partitonKeyCompare lb endVal ≥ 0 then
            .error (.endNotGreaterThanLowBound defState.partitionName)
          else .ok ()
        | none => .ok () : Except PartError Unit) with
  | .error err => .error err
  | .ok _ =>
    .ok { st with
          newPartList := add_range_partition_def_state st.newPartList endVal
            defState.partitionName defState.tableSpaceName
          totalPart := st.totalPart + 1
          endVal := some endVal
          lastVal := some endVal
          startVal := none }

/-- The dispatch of one round of the main loop on the shape of the entry. -/
def transform_entry {Raw : Type} (lim : Limits) (ops : TypeOps Raw)
    (atttypid : KeyType) (isinterval : Bool)
    (lowBound upBound : Option Const) (st : LoopState Raw)
    (lastState : Option (RangePartitionStartEndDefState Raw))
    (defState : RangePartitionStartEndDefState Raw) : Except PartError (LoopState Raw) :=
  match defState.startValue, defState.endValue, defState.everyValue with
  | some s, some e, some v =>
    transform_start_end_every lim ops atttypid isinterval lowBound upBound st lastState defState
      s e v
  | some s, some e, none => transform_start_end lim ops lowBound upBound st lastState defState s e
  | some s, none, _ => transform_start lim ops lowBound upBound st lastState defState s
  | none, some e, _ => transform_end ops lowBound st lastState defState e
  | none, none, _ => .error .unexpectedSyntax

/-- One round of the loop `foreach (cell, partitionList)`; `hasNext` is `lnext(cell)`. -/
def loop_body {Raw : Type} (lim : Limits) (ops : TypeOps Raw)
    (atttypid : KeyType) (isinterval : Bool)
    (lowBound upBound : Option Const) (st : LoopState Raw)
    (defState : RangePartitionStartEndDefState Raw) (hasNext : Bool) :
    Except PartError (LoopState Raw) :=
  match precheck_start_end_defstate ops atttypid defState with
  | .error err => .error err
  | .ok _ =>
    match transform_entry lim ops atttypid isinterval lowBound upBound
        { st with defState := some defState } st.defState defState with
    | .error err => .error err
    | .ok st1 =>
      if lim.MAX_PARTITION_NUM ≤ st1.totalPart then
        if st1.totalPart = lim.MAX_PARTITION_NUM ∧ hasNext = false then .ok st1
        else .error (.tooManyPartitions defState.partitionName)
      else .ok { st1 with curDefState := st1.curDefState + 1 }

/-- The loop `foreach (cell, partitionList)`. -/
def main_loop {Raw : Type} (lim : Limits) (ops : TypeOps Raw)
    (atttypid : KeyType) (isinterval : Bool) (lowBound upBound : Option Const) :
    LoopState Raw → List (RangePartitionStartEndDefState Raw) → Except PartError (LoopState Raw)
  | st, [] => .ok st
  | st, defState :: rest =>
    match loop_body lim ops atttypid isinterval lowBound upBound st defState (!rest.isEmpty) with
    | .error err => .error err
    | .ok st1 => main_loop lim ops atttypid isinterval lowBound upBound st1 rest

/-- The rounds of the main loop over cells that all have a successor: the loop over a
list is these rounds over any proper initial run of it, followed by the loop over the
rest (`main_loop_append`). -/
def leading_rounds {Raw : Type} (lim : Limits) (ops : TypeOps Raw)
    (atttypid : KeyType) (isinterval : Bool) (lowBound upBound : Option Const) :
    LoopState Raw → List (RangePartitionStartEndDefState Raw) → Except PartError (LoopState Raw)
  | st, [] => .ok st
  | st, defState :: rest =>
    match loop_body lim ops atttypid isinterval lowBound upBound st defState true with
    | .error err => .error err
    | .ok st1 => leading_rounds lim ops atttypid isinterval lowBound upBound st1 rest

/-- The final stage: a single START as last entry gets the upper bound, or MAXVALUE,
as its boundary; a last entry with an END value is checked against the upper bound. -/
def final_stage {Raw : Type} (lim : Limits) (ops : TypeOps Raw) (lowBound upBound : Option Const)
    (st : LoopState Raw) (defState : RangePartitionStartEndDefState Raw) :
    Except PartError (LoopState Raw) :=
  match defState.endValue with
  | none =>
    match (match upBound with
      | none => .ok .maxvalue
      | some ub =>
        match st.startVal with
        | none => .error .unexpectedSyntax
        | some startVal =>
          if ops.partitonKeyCompare ub startVal ≤ 0 then
            .error (.startNotLessThanUpBound defState.partitionName)
          else .ok ub : Except PartError Const) with
    | .error err => .error err
    | .ok boundary =>
      if lowBound = none ∧ st.curDefState = 1 then
        match prefixed_partName lim defState.partitionName 1 with
        | .error err => .error err
        | .ok partName =>
          .ok { st with
                newPartList := add_range_partition_def_state st.newPartList boundary partName
                  defState.tableSpaceName
                totalPart := st.totalPart + 1 }
      else
        .ok { st with
              newPartList := add_range_partition_def_state st.newPartList boundary
                defState.partitionName defState.tableSpaceName
              totalPart := st.totalPart + 1 }
  | some _ =>
    match upBound, st.endVal with
    | some ub, some endVal =>
      if ops.partitonKeyCompare ub endVal ≠ 0 then
        .error (.endNotEqualUpBound defState.partitionName)
      else .ok st
    | some _, none => .error .unexpectedSyntax
    | none, _ => .ok st

/-- The `switch (targetType)` of `transformRangePartStartEndStmt`: `isinterval` for a
type that the START/END syntax admits, `none` for any other type. -/
def isinterval_of (atttypid : KeyType) : Option Bool :=
  match atttypid with
  | .INT2OID | .INT4OID | .INT8OID | .NUMERICOID | .FLOAT4OID | .FLOAT8OID => some false
  | .DATEOID | .TIMESTAMPOID | .TIMESTAMPTZOID => some true
  | .other => none

/-- The function `transformRangePartStartEndStmt` for one partition key of any type:
the list in START/END form rewritten in less-than form, or the error raised. An
empty list is returned untouched. -/
def transformRangePartStartEndStmt {Raw : Type} (lim : Limits) (ops : TypeOps Raw)
    (atttypid : KeyType) (partitionList : List (RangePartitionStartEndDefState Raw))
    (existPartNum : Nat) (lowBound upBound : Option Const) :
    Except PartError (List RangePartitionDefState) :=
  match partitionList.getLast? with
  | none => .ok []
  | some lastDef =>
    match check_partition_name_start_end partitionList with
    | .error err => .error err
    | .ok _ =>
      match isinterval_of atttypid with
      | none => .error .unsupportedColumnDatatype
      | some isinterval =>
        if lim.MAX_PARTITION_NUM ≤ existPartNum then .error .alreadyAtMaximum
        else
          match main_loop lim ops atttypid isinterval lowBound upBound
              (initial_state existPartNum) partitionList with
          | .error err => .error err
          | .ok st =>
            match final_stage lim ops lowBound upBound st lastDef with
            | .error err => .error err
            | .ok st1 =>
              if lim.MAX_PARTITION_NUM < st1.totalPart then
                .error (.tooManyPartitions lastDef.partitionName)
              else
                match firstDuplicateName (st1.newPartList.map (fun p => p.partitionName)) with
                | some n => .error (.duplicatePartitionName n)
                | none => .ok st1.newPartList

end Typed

/-- The operations of an integer key with exact arithmetic, as the definitions for an
integer key read them off `KeyOps`. -/
def integerOps {Raw : Type} (env : KeyOps Raw) : TypeOps Raw where
  GetPartitionValue := fun a _ => env.GetPartitionValue a
  GetTargetValue := fun a _ => env.GetTargetValue a
  partitonKeyCompare := partitonKeyCompare
  compareWithOriginal := env.compareWithOriginal
  plus := fun a b => some (a + b)
  le := fun a b => decide (a ≤ b)
  lt := fun a b => decide (a < b)
  equalsUncastSum := fun pnt startVal c => some (env.equalsUncastSum pnt startVal c)
  NUMERIC_IS_NAN := fun _ => false
  isinf := fun _ => false
  TIMESTAMP_NOT_FINITE := fun _ => false

/-- A timestamp key for samples: a datum counts microseconds, the steps are microseconds
too, and the two ends of the 64-bit range stand for `-infinity` and `infinity`. -/
def timestampOps : TypeOps Const where
  GetPartitionValue := fun c _ => c
  GetTargetValue := fun c _ => match c with
    | .val d => d
    | .maxvalue => 0
  partitonKeyCompare := partitonKeyCompare
  compareWithOriginal := fun _ => 0
  plus := fun a b => some (a + b)
  le := fun a b => decide (a ≤ b)
  lt := fun a b => decide (a < b)
  equalsUncastSum := fun pnt startVal c => match c with
    | .val d => some (decide (pnt = startVal + d))
    | .maxvalue => some false
  NUMERIC_IS_NAN := fun _ => false
  isinf := fun _ => false
  TIMESTAMP_NOT_FINITE := fun t => decide (t = -9223372036854775808 ∨ t = 9223372036854775807)

/-- A decimal key without fractional digits for samples, as `decimalKey`; no datum is
NaN. -/
def decimalOps : TypeOps Int where
  GetPartitionValue := fun t _ => .val (roundTenths t)
  GetTargetValue := fun t _ => roundTenths t
  partitonKeyCompare := partitonKeyCompare
  compareWithOriginal := decimalKey.compareWithOriginal
  plus := fun a b => some (a + b)
  le := fun a b => decide (a ≤ b)
  lt := fun a b => decide (a < b)
  equalsUncastSum := fun pnt startVal c => some (decimalKey.equalsUncastSum pnt startVal c)
  NUMERIC_IS_NAN := fun _ => false
  isinf := fun _ => false
  TIMESTAMP_NOT_FINITE := fun _ => false

/-- A machine integer key for samples: the operations of an integer key, with the sum
of `int2pl`, `int4pl` or `int8pl`, which raises "integer out of range" (`smallint` and
`bigint` likewise) when the exact sum is not one of the values from `lo` to `hi` of
the type. -/
def boundedIntegerOps {Raw : Type} (lo hi : Int) (env : KeyOps Raw) : TypeOps Raw where
  GetPartitionValue := fun a _ => env.GetPartitionValue a
  GetTargetValue := fun a _ => env.GetTargetValue a
  partitonKeyCompare := partitonKeyCompare
  compareWithOriginal := env.compareWithOriginal
  plus := fun a b => if lo ≤ a + b ∧ a + b ≤ hi then some (a + b) else none
  le := fun a b => decide (a ≤ b)
  lt := fun a b => decide (a < b)
  equalsUncastSum := fun pnt startVal c => some (env.equalsUncastSum pnt startVal c)
  NUMERIC_IS_NAN := fun _ => false
  isinf := fun _ => false
  TIMESTAMP_NOT_FINITE := fun _ => false

/-- The operations of an `int4` key whose arguments are written as integer constants:
the sums stay within -2147483648 and 2147483647. -/
def int4Ops : TypeOps Const := boundedIntegerOps (-2147483648) 2147483647 intKey

/-! ## The order of boundaries, and the loop invariant -/

/-- A boundary as an element of a linear order with a top element, a datum being read
through its key: MAXVALUE is `⊤`. -/
def Const.keyBy {α : Type} (key : Int → α) : Const → WithTop α
  | .val v => ((key v : α) : WithTop α)
  | .maxvalue => ⊤

/-- What the operations of a key type owe to the order of the type: every datum has a
key in a linear order; `partitonKeyCompare` compares the keys of two boundary values,
MAXVALUE standing above every datum; the operators `<=` and `<` compare the keys of
two datums; and adding one and the same step to two datums does not reverse their
order. -/
structure KeyOrder {Raw α : Type} [LinearOrder α] (ops : TypeOps Raw) (key : Int → α) :
    Prop where
  compare_neg : ∀ a b : Const, ops.partitonKeyCompare a b < 0 ↔ a.keyBy key < b.keyBy key
  compare_pos : ∀ a b : Const, 0 < ops.partitonKeyCompare a b ↔ b.keyBy key < a.keyBy key
  le_iff : ∀ a b : Int, ops.le a b = true ↔ key a ≤ key b
  lt_iff : ∀ a b : Int, ops.lt a b = true ↔ key a < key b
  plus_mono : ∀ a b v a1 b1 : Int, ops.plus a v = some a1 → ops.plus b v = some b1 →
    key a ≤ key b → key a1 ≤ key b1

/-- The upper boundaries of a partition list, in list order. -/
def bounds {α : Type} (key : Int → α) (xL : List RangePartitionDefState) : List (WithTop α) :=
  xL.map (fun p => p.boundary.keyBy key)

/-- The value that the next START must meet or exceed: the END value of the previous
entry, or the START value of a pending single START; `none` before the first entry. -/
def front {Raw α : Type} (key : Int → α) (st : LoopState Raw) : Option (WithTop α) :=
  match st.lastVal, st.defState with
  | some lv, _ => some (lv.keyBy key)
  | none, some _ => st.startVal.map (Const.keyBy key)
  | none, none => none

/-- A list of boundaries that rises strictly, lies strictly above the optional lower
bound `lo` and at or below the front value `f`, which is itself at or above `lo`. -/
structure Ordered {α : Type} [LinearOrder α] (lo : Option (WithTop α)) (bs : List (WithTop α))
    (f : Option (WithTop α)) : Prop where
  sorted : bs.Pairwise (· < ·)
  above : ∀ l ∈ lo, ∀ b ∈ bs, l < b
  below : ∀ x ∈ f, ∀ b ∈ bs, b ≤ x
  lo_le : ∀ l ∈ lo, ∀ x ∈ f, l ≤ x

/-- The invariant of the main loop of `transformRangePartStartEndStmt`, for `E`
partitions that exist already and an optional strict lower bound `lo` of the
boundaries: when the operations of the key type are those of an order, the boundaries
are ordered below the front value; `totalPart` counts them, nothing is placed before
the first entry, a pending single START has its value in `startVal`, and `lastVal` is
the END value of the previous entry if it had one. -/
structure Inv {Raw α : Type} [LinearOrder α] (ops : TypeOps Raw) (key : Int → α) (E : Nat)
    (lo : Option (WithTop α)) (st : LoopState Raw) : Prop where
  ord : KeyOrder ops key → Ordered lo (bounds key st.newPartList) (front key st)
  count : st.totalPart = E + st.newPartList.length
  fresh : st.defState = none → st.newPartList = [] ∧ st.lastVal = none
  pending : st.lastVal = none → ∀ ds, st.defState = some ds →
    ∃ raw v, ds.startValue = some raw ∧ ds.endValue = none ∧
      ops.GetPartitionValue raw false = .val v ∧ st.startVal = some (.val v)
  ended : ∀ ds, st.defState = some ds → ∀ e, ds.endValue = some e →
    st.lastVal = some (ops.GetPartitionValue e false) ∧
      st.endVal = some (ops.GetPartitionValue e false)
  started : ∀ ds, st.defState = some ds → ds.endValue = none → st.lastVal = none

/-- A test on datums applied to a boundary value: MAXVALUE passes every test. -/
def failsTest (test : Int → Bool) : Const → Bool
  | .val x => test x
  | .maxvalue => false

/-- The operands that `DividePartitionStartEndInterval` refuses for the type of the
key: a NaN among the start, end and every values of a numeric key, an infinity among
those of a float4 or float8 key, a start or end value of a date or timestamp key
that is not finite. -/
def invalid_operands {Raw : Type} (ops : TypeOps Raw) (atttypid : KeyType)
    (startVal endVal everyVal : Const) : Bool :=
  match atttypid with
  | .NUMERICOID =>
    failsTest ops.NUMERIC_IS_NAN startVal || failsTest ops.NUMERIC_IS_NAN endVal ||
      failsTest ops.NUMERIC_IS_NAN everyVal
  | .FLOAT4OID | .FLOAT8OID =>
    failsTest ops.isinf startVal || failsTest ops.isinf endVal || failsTest ops.isinf everyVal
  | .DATEOID | .TIMESTAMPOID | .TIMESTAMPTZOID =>
    failsTest ops.TIMESTAMP_NOT_FINITE startVal || failsTest ops.TIMESTAMP_NOT_FINITE endVal
  | .INT2OID | .INT4OID | .INT8OID | .other => false

/-- A context for samples: CREATE TABLE `t (a, b)` partitioned by `a`. -/
def samplePartitioned (ixconstraints : List (Constraint String)) : CreateStmtContext String :=
  { sampleContext ixconstraints [] false with ispartitioned := true, partitionKey := ["a"] }

/-- Whether `key` names no column of the new table, no system column and no attribute
of an inherited table. -/
def key_missing {Expr : Type} (env : IndexEnv) (cxt : CreateStmtContext Expr)
    (columns : List ColumnDef) (key : String) : Bool :=
  !(columns.any (fun column => column.colname = key)) &&
    !(env.SystemAttributeByName key cxt.hasoids) &&
    !(cxt.inhRelations.any (fun inh => inh.attnames.contains key))

namespace Table

/-- The kinds of constraint node (`ConstrType`). -/
inductive ConstrType where
  | CONSTR_NULL
  | CONSTR_NOTNULL
  | CONSTR_DEFAULT
  | CONSTR_CHECK
  | CONSTR_PRIMARY
  | CONSTR_UNIQUE
  | CONSTR_EXCLUSION
  | CONSTR_FOREIGN
  | CONSTR_CLUSTER
  | CONSTR_ATTR_DEFERRABLE
  | CONSTR_ATTR_NOT_DEFERRABLE
  | CONSTR_ATTR_DEFERRED
  | CONSTR_ATTR_IMMEDIATE
  deriving DecidableEq, Repr

/-- The error classes (`errcode`) of the `ereport(ERROR, ...)` sites below. -/
inductive ErrCode where
  | ERRCODE_FEATURE_NOT_SUPPORTED
  | ERRCODE_SYNTAX_ERROR
  | ERRCODE_UNRECOGNIZED_NODE_TYPE
  | ERRCODE_DATATYPE_MISMATCH
  | ERRCODE_INVALID_FOREIGN_KEY
  | ERRCODE_DUPLICATE_COLUMN
  | ERRCODE_INTEGRITY_CONSTRAINT_VIOLATION
  | ERRCODE_INVALID_TABLE_DEFINITION
  | ERRCODE_INSUFFICIENT_PRIVILEGE
  | ERRCODE_UNDEFINED_TABLE
  | ERRCODE_WRONG_OBJECT_TYPE
  | other
  deriving DecidableEq, Repr

/-- The `ereport(ERROR, ...)` sites of the column elaboration, of the constraint
attributes, of the foreign keys and of the last steps of `transformCreateStmt`, one
constructor per message. -/
inductive TableError where
  /-- "It is not allowed to support \"NOT ENFORCED\" informational constraint." -/
  | notEnforcedNotAllowed
  /-- "The foreign table only support \"NOT ENFORCED\" informational constraint." -/
  | onlyNotEnforced
  /-- "Only the primary key, unique, not null and null be supported." -/
  | onlyPrimaryUniqueNull
  /-- "Multi-column combined informational constraint is forbidden." -/
  | multiColumnInformational
  /-- "array of serial is not implemented" -/
  | arrayOfSerial
  /-- "It's not supported to create serial column on temporary table" -/
  | serialOnTemporaryTable
  /-- "It's not supported to alter table add serial column" -/
  | alterTableAddSerial
  /-- An error of a lookup in the catalog: of a type, a collation, a namespace or a
  relation. -/
  | lookupFailed (name : String)
  /-- "collations are not supported by type ..." -/
  | collationsNotSupported
  /-- "conflicting NULL/NOT NULL declarations for column ... of table ..." -/
  | conflictingNullNotNull (colname relname : String)
  /-- "multiple default values specified for column ... of table ..." -/
  | multipleDefaults (colname relname : String)
  /-- "column exclusion constraints are not supported" -/
  | columnExclusionNotSupported
  /-- "unrecognized constraint type: ..." -/
  | unrecognizedConstraintType (contype : ConstrType)
  /-- "misplaced DEFERRABLE clause", "misplaced NOT DEFERRABLE clause", "misplaced
  INITIALLY DEFERRED clause" or "misplaced INITIALLY IMMEDIATE clause", after the kind
  of the attribute node. -/
  | misplaced (clause : ConstrType)
  /-- "multiple DEFERRABLE/NOT DEFERRABLE clauses not allowed" -/
  | multipleDeferrability
  /-- "multiple INITIALLY IMMEDIATE/DEFERRED clauses not allowed" -/
  | multipleInitially
  /-- "constraint declared INITIALLY DEFERRED must be DEFERRABLE" -/
  | initiallyDeferredMustBeDeferrable
  /-- "number of referencing and referenced columns for foreign key disagree" -/
  | foreignKeyColumnsDisagree
  /-- "column ... appears twice in partial cluster key constraint" -/
  | appearsTwiceCluster (key : String)
  /-- "column name ... conflicts with a system column name" -/
  | conflictsWithSystemColumn (colname : String)
  /-- An error of `transformIndexConstraints`. -/
  | indexConstraints (err : IndexError)
  /-- "invalid context for constraint type ..." -/
  | invalidContextForConstraint (contype : ConstrType)
  /-- "unrecognized node type: ..." -/
  | unrecognizedNodeType
  /-- A failed `AssertEreport` on the kind of a node. -/
  | assertionFailed
  /-- "temporary tables cannot specify a schema name" -/
  | temporaryTableSchemaName
  /-- "Do not support create table with INERNAL DATA clause." -/
  | internalDataNotSupported
  /-- "permission denied to alter foreign table in security mode" -/
  | permissionDeniedForeignTable
  /-- "CREATE TABLE LIKE with column sequence in different NodeGroup is not
  supported." -/
  | sequenceInDifferentNodeGroup
  /-- "unsupport \"like clause including partition\" for partitioned table" -/
  | likePartitionForPartitioned
  /-- "unsupport \"like clause including reloptions\" together with \"with\"" -/
  | likeReloptionsWithWith
  /-- "unsupport \"like clause including distribution\" together with \"distribute
  by\"" -/
  | likeDistributionWithDistributeBy
  /-- "do not support create non-local-temp table like local temp table" -/
  | nonLocalTempLikeLocalTemp
  /-- "Table ... does not exist in current datanode." -/
  | tableNotInDatanode (schemaname : Option String) (relname : String)
  /-- "... is not a table, view, composite type, or foreign table" -/
  | likeWrongObjectType (relname : String)
  /-- "could not specify \"INCLUDING PARTITION\" for non-partitioned-table
  relation: ..." -/
  | includingPartitionNonPartitioned (relname : String)
  /-- "could not specify 2 or more \"INCLUDING PARTITION\" clauses, only one is
  allowed" -/
  | twoIncludingPartition
  /-- "could not specify 2 or more \"INCLUDING RELOPTIONS\" clauses, only one is
  allowed" -/
  | twoIncludingReloptions
  /-- "could not specify 2 or more \"INCLUDING DISTRIBUTION\" clauses, only one is
  allowed" -/
  | twoIncludingDistribution
  /-- "Postgres-XC does not support VIEW in LIKE clauses" -/
  | viewInLikeClause
  /-- "cannot convert whole-row table reference" -/
  | wholeRowReference (ccname relname : String)
  /-- "For foreign table ROUNDROBIN distribution type is built-in support." -/
  | roundrobinBuiltIn
  /-- "Not specify \"INCLUDING PARTITION\" for partitioned-table relation: ..." -/
  | notSpecifyIncludingPartition (relname : String)
  deriving DecidableEq, Repr

/-- The `errcode` of each error site; the lookups outside this file have their own. -/
def TableError.errcode : TableError → ErrCode
  | .notEnforcedNotAllowed => .ERRCODE_FEATURE_NOT_SUPPORTED
  | .onlyNotEnforced => .ERRCODE_FEATURE_NOT_SUPPORTED
  | .onlyPrimaryUniqueNull => .ERRCODE_FEATURE_NOT_SUPPORTED
  | .multiColumnInformational => .ERRCODE_FEATURE_NOT_SUPPORTED
  | .arrayOfSerial => .ERRCODE_FEATURE_NOT_SUPPORTED
  | .serialOnTemporaryTable => .ERRCODE_FEATURE_NOT_SUPPORTED
  | .alterTableAddSerial => .ERRCODE_FEATURE_NOT_SUPPORTED
  | .lookupFailed _ => .other
  | .collationsNotSupported => .ERRCODE_DATATYPE_MISMATCH
  | .conflictingNullNotNull _ _ => .ERRCODE_SYNTAX_ERROR
  | .multipleDefaults _ _ => .ERRCODE_SYNTAX_ERROR
  | .columnExclusionNotSupported => .ERRCODE_FEATURE_NOT_SUPPORTED
  | .unrecognizedConstraintType _ => .ERRCODE_UNRECOGNIZED_NODE_TYPE
  | .misplaced _ => .ERRCODE_SYNTAX_ERROR
  | .multipleDeferrability => .ERRCODE_SYNTAX_ERROR
  | .multipleInitially => .ERRCODE_SYNTAX_ERROR
  | .initiallyDeferredMustBeDeferrable => .ERRCODE_SYNTAX_ERROR
  | .foreignKeyColumnsDisagree => .ERRCODE_INVALID_FOREIGN_KEY
  | .appearsTwiceCluster _ => .ERRCODE_DUPLICATE_COLUMN
  | .conflictsWithSystemColumn _ => .ERRCODE_DUPLICATE_COLUMN
  | .indexConstraints _ => .other
  | .invalidContextForConstraint _ => .ERRCODE_INTEGRITY_CONSTRAINT_VIOLATION
  | .unrecognizedNodeType => .ERRCODE_UNRECOGNIZED_NODE_TYPE
  | .assertionFailed => .other
  | .temporaryTableSchemaName => .ERRCODE_INVALID_TABLE_DEFINITION
  | .internalDataNotSupported => .ERRCODE_FEATURE_NOT_SUPPORTED
  | .permissionDeniedForeignTable => .ERRCODE_INSUFFICIENT_PRIVILEGE
  | .sequenceInDifferentNodeGroup => .ERRCODE_FEATURE_NOT_SUPPORTED
  | .likePartitionForPartitioned => .ERRCODE_INVALID_TABLE_DEFINITION
  | .likeReloptionsWithWith => .ERRCODE_INVALID_TABLE_DEFINITION
  | .likeDistributionWithDistributeBy => .ERRCODE_INVALID_TABLE_DEFINITION
  | .nonLocalTempLikeLocalTemp => .ERRCODE_FEATURE_NOT_SUPPORTED
  | .tableNotInDatanode _ _ => .ERRCODE_UNDEFINED_TABLE
  | .likeWrongObjectType _ => .ERRCODE_WRONG_OBJECT_TYPE
  | .includingPartitionNonPartitioned _ => .ERRCODE_WRONG_OBJECT_TYPE
  | .twoIncludingPartition => .ERRCODE_WRONG_OBJECT_TYPE
  | .twoIncludingReloptions => .ERRCODE_WRONG_OBJECT_TYPE
  | .twoIncludingDistribution => .ERRCODE_WRONG_OBJECT_TYPE
  | .viewInLikeClause => .ERRCODE_FEATURE_NOT_SUPPORTED
  | .wholeRowReference _ _ => .ERRCODE_FEATURE_NOT_SUPPORTED
  | .roundrobinBuiltIn => .ERRCODE_FEATURE_NOT_SUPPORTED
  | .notSpecifyIncludingPartition _ => .ERRCODE_WRONG_OBJECT_TYPE

/-- A raw expression tree, as far as the column elaboration builds or copies one:
`nextval qstring` is the call `nextval('qstring'::regclass)` that
`createSeqOwnedByTable` builds (a `FuncCall` of `nextval` on a `TypeCast` to
`regclass` of the string constant), `parsed` an expression of the statement. -/
inductive RawExpr where
  | nextval (qstring : String)
  | parsed (text : String)
  deriving DecidableEq, Repr

/-- The node `InformationalConstraint` of a constraint. -/
structure InformationalConstraint where
  nonforced : Bool
  deriving DecidableEq, Repr

/-- A constraint node (`Constraint`) of a column or of a table. The last five fields
are those that only an index constraint or a CHECK constraint of a LIKE clause
carries: the access method, the predicate, the index elements of EXCLUDE with their
operator names, the name of an index to use, and the text of a cooked expression;
they are NULL or NIL unless set. -/
structure Constraint where
  contype : ConstrType
  conname : Option String
  deferrable : Bool
  initdeferred : Bool
  raw_expr : Option RawExpr
  keys : List String
  pktable : String
  fk_attrs : List String
  pk_attrs : List String
  skip_validation : Bool
  initially_valid : Bool
  inforConstraint : Option InformationalConstraint
  access_method : Option String := none
  where_clause : Option RawExpr := none
  exclusions : List (IndexElem RawExpr × List String) := []
  indexname : Option String := none
  cooked_expr : Option String := none
  deriving DecidableEq, Repr

/-- The type identifiers that the column elaboration tells apart; `InvalidOid` stands
for a type that is still known by its name only. -/
inductive TypeOid where
  | InvalidOid
  | INT2OID
  | INT4OID
  | INT8OID
  | other (oid : Nat)
  deriving DecidableEq, Repr

/-- The node `TypeName` of a column. -/
structure TypeName where
  names : List String
  typeOid : TypeOid
  pct_type : Bool
  arrayBounds : List Int
  deriving DecidableEq, Repr

/-- A default expression of the catalog in its cooked form, as far as
`searchSeqidFromExpr` looks into it: a function call (`FuncExpr`) with its first
argument, if it has one, a constant (`Const`) with its value, or another node. -/
inductive CookedExpr where
  | funcExpr (funcid : Nat) (firstArg : CookedExpr)
  | funcExprNoArgs (funcid : Nat)
  | const (constvalue : Nat)
  | other (text : String)
  deriving DecidableEq, Repr

/-- An attribute of the source relation of a LIKE clause (`Form_pg_attribute`), with
the comment that `GetComment` finds for it. -/
structure Attribute where
  attname : String
  atttypid : Nat
  atttypmod : Int
  attnotnull : Bool
  attisdropped : Bool
  atthasdef : Bool
  attstorage : Nat
  comment : Option String
  deriving DecidableEq, Repr

/-- A column definition (`ColumnDef`); `collClause` is the name of the collation,
`dropped_attr` the copy of a dropped attribute that LIKE carries through in
cluster-resize mode. -/
structure ColumnDef where
  colname : String
  typname : Option TypeName
  collClause : Option (List String)
  is_not_null : Bool
  is_serial : Bool
  raw_default : Option RawExpr
  constraints : List Constraint
  fdwoptions : List String
  cooked_default : Option CookedExpr := none
  storage : Nat := 0
  dropped_attr : Option Attribute := none
  deriving DecidableEq, Repr

/-- The persistence of a relation (`relpersistence`). -/
inductive RelPersistence where
  | RELPERSISTENCE_PERMANENT
  | RELPERSISTENCE_UNLOGGED
  | RELPERSISTENCE_TEMP
  | RELPERSISTENCE_GLOBAL_TEMP
  deriving DecidableEq, Repr

/-- The node `RangeVar` of the table of the statement. -/
structure RangeVar where
  schemaname : Option String
  relname : String
  relpersistence : RelPersistence
  deriving DecidableEq, Repr

/-- The open relation `cxt->rel` of ALTER TABLE, as far as it is read. -/
structure Relation where
  rd_namespace : Nat
  relowner : Nat
  deriving DecidableEq, Repr

/-- The statement `CreateSeqStmt` that a serial column gives rise to; `none` stands
for `INVALIDSEQUUID` and for `InvalidOid`. -/
structure CreateSeqStmt where
  sequence : String × String
  options : List String
  is_serial : Bool
  uuid : Option Nat
  ownerId : Option Nat
  canCreateTempSeq : Bool
  deriving DecidableEq, Repr

/-- The statement `AlterSeqStmt` with the one option `owned_by`. -/
structure AlterSeqStmt where
  sequence : String × String
  is_serial : Bool
  owned_by : List String
  deriving DecidableEq, Repr

/-- The subcommands of ALTER TABLE that are built or told apart here; `other` stands
for every other one. -/
inductive AlterTableType where
  | AT_ProcessedConstraint
  | AT_AlterColumnGenericOptions
  | AT_AddColumn
  | AT_AddColumnToView
  | AT_AddConstraint
  | AT_AddIndex
  | AT_AddIndexConstraint
  | AT_AddPartition
  | AT_DropPartition
  | AT_TruncatePartition
  | AT_ExchangePartition
  | AT_SplitPartition
  | other (tag : Nat)
  deriving DecidableEq, Repr

/-- The kinds of object of an ALTER TABLE statement. -/
inductive ObjectType where
  | OBJECT_TABLE
  | OBJECT_FOREIGN_TABLE
  deriving DecidableEq, Repr

/-- What a subcommand of ALTER TABLE carries in its field `def`: a constraint, the
options of a column, a column definition, an index statement, the definition of a
partition command, or another node. -/
inductive AlterTableCmdDef where
  | constraint (constraint : Constraint)
  | options (fdwoptions : List String)
  | column (column : ColumnDef)
  | index (stmt : IndexStmt RawExpr)
  | partition (state : String)
  | node (text : String)
  deriving DecidableEq

/-- A subcommand of ALTER TABLE (`AlterTableCmd`); `def_` is the field `def`. -/
structure AlterTableCmd where
  subtype : AlterTableType
  name : Option String
  def_ : AlterTableCmdDef
  deriving DecidableEq

/-- An ALTER TABLE statement (`AlterTableStmt`). -/
structure AlterTableStmt where
  relation : RangeVar
  cmds : List AlterTableCmd
  relkind : ObjectType
  deriving DecidableEq

/-- The kinds of distribution (`disttype`) that `transformCreateStmt` tells apart. -/
inductive DistributionType where
  | DISTTYPE_HASH
  | DISTTYPE_ROUNDROBIN
  | DISTTYPE_MODULO
  | other
  deriving DecidableEq, Repr

/-- The clause DISTRIBUTE BY of a statement; the kind is HASH unless set. -/
structure DistributeBy where
  colname : List String
  disttype : DistributionType := .DISTTYPE_HASH
  deriving DecidableEq, Repr

/-- The CREATE TABLE statement (`CreateStmt`) as it is handed back: the columns in the
view of the index constraints, the CHECK constraints and the cluster keys.
`servername` is set for CREATE FOREIGN TABLE, `hasInhRelations` tells whether the
statement has an INHERITS clause. The elements `stmt->tableElts` of the statement as
it comes in are an argument of `transformCreateStmt` of their own. The partition
state `partTableState` is known by its text, `part_state` of CREATE FOREIGN TABLE by
its partition key, an element of `options` by its text. -/
structure CreateStmt where
  relation : RangeVar
  servername : Option String
  hasInhRelations : Bool
  tableElts : List OpenGauss.ColumnDef
  constraints : List Constraint
  clusterKeys : List Constraint
  distributeby : Option DistributeBy
  if_not_exists : Bool := false
  internalData : Option String := none
  partTableState : Option String := none
  part_state : Option (List String) := none
  options : List String := []
  ofTypename : Option TypeName := none
  deriving DecidableEq

/-- A COMMENT statement (`CommentStmt`): the name of its object and the comment. -/
structure CommentStmt where
  objname : List String
  comment : String
  deriving DecidableEq, Repr

/-- A statement of the lists `cxt->blist` and `cxt->alist`, or of the result;
`comment` is a COMMENT statement (`CommentStmt`) with the name of its object. -/
inductive Stmt where
  | createSeq (stmt : CreateSeqStmt)
  | alterSeq (stmt : AlterSeqStmt)
  | alterTable (stmt : AlterTableStmt)
  | index (stmt : IndexStmt RawExpr)
  | create (stmt : CreateStmt)
  | other (text : String)
  | comment (objname : List String) (comment : String)
  deriving DecidableEq

/-- The fields of the working context (`CreateStmtContext`) that the column
elaboration, the foreign keys, the LIKE clause and the last steps of
`transformCreateStmt` read or write. `columns` holds each column as it is when its
elaboration ends; the partition state of a LIKE clause is known by its text. -/
structure CreateStmtContext where
  stmtType : String
  relation : RangeVar
  rel : Option Relation
  canInfomationalConstraint : Bool
  columns : List ColumnDef
  ckconstraints : List Constraint
  fkconstraints : List Constraint
  ixconstraints : List Constraint
  clusterConstraints : List Constraint
  blist : List Stmt
  alist : List Stmt
  fallback_dist_col : List String
  uuids : List Nat
  internalData : Option String := none
  hasoids : Bool := false
  csc_partTableState : Option String := none
  inh_indexes : List (IndexStmt RawExpr) := []
  reloptions : List String := []
  distributeby : Option DistributeBy := none
  isResizing : Bool := false
  ispartitioned : Bool := false
  partitionKey : List String := []
  deriving DecidableEq

/-- The COMMENT statement as a statement of `cxt->alist`. -/
def CommentStmt.stmt (comment : CommentStmt) : Stmt :=
  .comment comment.objname comment.comment

/-- What the functions below take from other files: the mode of the node, the
lookups of namespaces, types, collations and relations in the catalog, the choice of
a name for a sequence, the test for a reserved column name, and the comparison of
strings without regard to case. A lookup ends in an error or in its result;
`typenameType` yields whether the type has a collation, `GetRelationLocInfo` the list
`partAttrNum` if there is one, `IsSpecifiedFDW` whether the server is of the MOT
wrapper. -/
structure TableEnv where
  IS_SINGLE_NODE : Bool
  IS_PGXC_COORDINATOR : Bool
  is_under_analyze : Bool
  enable_beta_features : Bool
  RangeVarGetCreationNamespace : RangeVar → Except TableError Nat
  RangeVarAdjustRelationPersistence : RangeVar → Nat → Except TableError RangeVar
  get_namespace_name : Nat → String
  ChooseRelationName : String → String → String → Nat → String
  gen_uuid : List Nat → Nat
  quote_qualified_identifier : String → String → String
  typenameType : TypeName → Except TableError Bool
  LookupCollation : List String → Except TableError Unit
  RangeVarGetRelid : String → Except TableError Nat
  GetRelationLocInfo : Nat → Option (List Int)
  get_attnum : Nat → String → Int
  IsSpecifiedFDW : String → Bool
  CHCHK_PSORT_RESERVE_COLUMN : String → Bool
  strcasecmp : String → String → Int

/-- The function `checkInformationalConstraint` on a constraint node. -/
def checkInformationalConstraint (constr : Constraint) (isForeignTbl : Bool) :
    Except TableError Unit :=
  if isForeignTbl = false then
    match constr.inforConstraint with
    | some inforConstraint =>
      if inforConstraint.nonforced = true then .error .notEnforcedNotAllowed else .ok ()
    | none => .ok ()
  else if constr.contype = .CONSTR_NULL ∨ constr.contype = .CONSTR_NOTNULL then .ok ()
  else if constr.contype = .CONSTR_PRIMARY ∨ constr.contype = .CONSTR_UNIQUE then
    if constr.inforConstraint = none ∨
        constr.inforConstraint = some { nonforced := false } then .error .onlyNotEnforced
    else if constr.keys ≠ [] ∧ constr.keys.length ≠ 1 then .error .multiColumnInformational
    else .ok ()
  else .error .onlyPrimaryUniqueNull

/-- The function `checkConstraint` on a column definition: every constraint of the
column is checked in turn. -/
def checkConstraint (canInfomationalConstraint : Bool) : List Constraint → Except TableError Unit
  | [] => .ok ()
  | element :: rest =>
    match checkInformationalConstraint element canInfomationalConstraint with
    | .error err => .error err
    | .ok _ => checkConstraint canInfomationalConstraint rest

/-- The macro `ALTER_FOREIGN_TABLE`. -/
def ALTER_FOREIGN_TABLE : String := "ALTER FOREIGN TABLE"

/-- The macro `CREATE_FOREIGN_TABLE`. -/
def CREATE_FOREIGN_TABLE : String := "CREATE FOREIGN TABLE"

/-- The macro `ALTER_TABLE`. -/
def ALTER_TABLE : String := "ALTER TABLE"

/-- The macro `CREATE_TABLE`. -/
def CREATE_TABLE : String := "CREATE TABLE"

/-- The statement type that `transformAlterTableStmt` writes to the context. -/
def transformAlterTableStmt_stmtType (relkind : ObjectType) : String :=
  if relkind = .OBJECT_FOREIGN_TABLE then ALTER_FOREIGN_TABLE else ALTER_TABLE

/-- Modelled from the spec: pg_strncasecmp is declared outside the source files at
hand. It is the comparison by which the "statement type" of the context is tested: at
most `n` characters of two strings are compared without regard to the case of ASCII
letters, the end of a string counting as the character zero; the result is zero if no
difference is met. -/
def pg_strncasecmp : List Char → List Char → Nat → Int
  | _, _, 0 => 0
  | [], [], _ + 1 => 0
  | [], ch2 :: _, _ + 1 => -(ch2.toLower.toNat : Int)
  | ch1 :: _, [], _ + 1 => (ch1.toLower.toNat : Int)
  | ch1 :: s1, ch2 :: s2, n + 1 =>
    if ch1.toLower = ch2.toLower then pg_strncasecmp s1 s2 n
    else (ch1.toLower.toNat : Int) - (ch2.toLower.toNat : Int)

/-- The integer type that stands for a SERIAL pseudo-type, if the name is one. -/
def serial_typeOid (typname : String) : Option TypeOid :=
  if typname = "smallserial" ∨ typname = "serial2" then some .INT2OID
  else if typname = "serial" ∨ typname = "serial4" then some .INT4OID
  else if typname = "bigserial" ∨ typname = "serial8" then some .INT8OID
  else none

/-- The step "Check for SERIAL pseudo-types" of `transformColumnDefinition`: the
result is `isSerial` and the type name afterwards. The relation of the context is
never NULL here. -/
def check_serial (cxt : CreateStmtContext) (column : ColumnDef) :
    Except TableError (Bool × Option TypeName) :=
  match column.typname with
  | none => .ok (false, none)
  | some typname =>
    match typname.names with
    | [name] =>
      if typname.pct_type = false then
        match serial_typeOid name with
        | some typeOid =>
          if typname.arrayBounds ≠ [] then .error .arrayOfSerial
          else if cxt.relation.relpersistence = .RELPERSISTENCE_TEMP then
            .error .serialOnTemporaryTable
          else if pg_strncasecmp cxt.stmtType.data ALTER_TABLE.data cxt.stmtType.length = 0 then
            .error .alterTableAddSerial
          else .ok (true, some { typname with names := [], typeOid := typeOid })
        | none => .ok (false, some typname)
      else .ok (false, some typname)
    | _ => .ok (false, some typname)

/-- The function `transformColumnType`: the type must exist, and so must the
collation, which the type must admit. -/
def transformColumnType (env : TableEnv) (column : ColumnDef) : Except TableError Unit :=
  match column.typname with
  | none => .ok ()
  | some typname =>
    match env.typenameType typname with
    | .error err => .error err
    | .ok typcollation =>
      match column.collClause with
      | none => .ok ()
      | some collname =>
        match env.LookupCollation collname with
        | .error err => .error err
        | .ok _ => if typcollation = false then .error .collationsNotSupported else .ok ()

/-- The constraint node that `createSeqOwnedByTable` makes: all fields but the kind
and the expression are those of `makeNode`. -/
def makeConstraint (contype : ConstrType) (raw_expr : Option RawExpr) : Constraint :=
  { contype := contype, conname := none, deferrable := false, initdeferred := false,
    raw_expr := raw_expr, keys := [], pktable := "", fk_attrs := [], pk_attrs := [],
    skip_validation := false, initially_valid := false, inforConstraint := none }

/-- The function `createSeqOwnedByTable`: a CREATE SEQUENCE statement goes to
`cxt->blist`, an ALTER SEQUENCE ... OWNED BY statement to `cxt->alist`, and the
column gets a DEFAULT constraint with the call of `nextval` and a NOT NULL
constraint. The NOTICE has no counterpart. -/
def createSeqOwnedByTable (env : TableEnv) (cxt : CreateStmtContext) (column : ColumnDef)
    (_preCheck : Bool) : Except TableError (CreateStmtContext × ColumnDef) :=
  match (match cxt.rel with
      | some rel => .ok (rel.rd_namespace, cxt.relation)
      | none =>
        match env.RangeVarGetCreationNamespace cxt.relation with
        | .error err => .error err
        | .ok snamespaceid =>
          match env.RangeVarAdjustRelationPersistence cxt.relation snamespaceid with
          | .error err => .error err
          | .ok relation => .ok (snamespaceid, relation) :
        Except TableError (Nat × RangeVar)) with
  | .error err => .error err
  | .ok (snamespaceid, relation) =>
    let snamespace := env.get_namespace_name snamespaceid
    let sname := env.ChooseRelationName relation.relname column.colname "seq" snamespaceid
    let seqstmt : CreateSeqStmt :=
      { sequence := (snamespace, sname)
        options := []
        is_serial := true
        uuid := if env.IS_SINGLE_NODE = false then some (env.gen_uuid cxt.uuids) else none
        ownerId := cxt.rel.map (fun rel => rel.relowner)
        canCreateTempSeq := env.is_under_analyze || env.enable_beta_features }
    let altseqstmt : AlterSeqStmt :=
      { sequence := (snamespace, sname)
        is_serial := true
        owned_by := [snamespace, relation.relname, column.colname] }
    let qstring := env.quote_qualified_identifier snamespace sname
    .ok ({ cxt with
           relation := relation
           blist := cxt.blist ++ [.createSeq seqstmt]
           alist := cxt.alist ++ [.alterSeq altseqstmt] },
         { column with
           constraints := column.constraints ++
             [makeConstraint .CONSTR_DEFAULT (some (.nextval qstring)),
              makeConstraint .CONSTR_NOTNULL none]
           raw_default := some (.nextval qstring) })

/-- The macro `SUPPORTS_ATTRS`: the node is not NULL and is a PRIMARY KEY, UNIQUE,
EXCLUSION or FOREIGN KEY constraint. -/
def SUPPORTS_ATTRS (node : Option Constraint) : Bool :=
  match node with
  | none => false
  | some node =>
    node.contype = .CONSTR_PRIMARY || node.contype = .CONSTR_UNIQUE ||
      node.contype = .CONSTR_EXCLUSION || node.contype = .CONSTR_FOREIGN

/-- The variables of the loop of `transformConstraintAttrs`. The source knows the node
`lastprimarycon` by its address in the list; here the part of the list that has been
read is kept in three pieces: the nodes before `lastprimarycon`, that node with its
flags as they stand, and the attribute nodes read after it. -/
structure AttrState where
  done : List Constraint
  lastprimarycon : Option Constraint
  attrs : List Constraint
  sawDeferrability : Bool
  sawInitially : Bool
  deriving DecidableEq, Repr

/-- The part of the list that has been read, as the loop leaves it. -/
def AttrState.list (st : AttrState) : List Constraint :=
  st.done ++ st.lastprimarycon.toList ++ st.attrs

/-- One round of the loop of `transformConstraintAttrs`, on the node `con`. -/
def attrs_step (st : AttrState) (con : Constraint) : Except TableError AttrState :=
  match con.contype with
  | .CONSTR_ATTR_DEFERRABLE =>
    match st.lastprimarycon with
    | none => .error (.misplaced .CONSTR_ATTR_DEFERRABLE)
    | some lastprimarycon =>
      if SUPPORTS_ATTRS (some lastprimarycon) = false then
        .error (.misplaced .CONSTR_ATTR_DEFERRABLE)
      else if st.sawDeferrability = true then .error .multipleDeferrability
      else
        .ok { st with
              sawDeferrability := true
              lastprimarycon := some { lastprimarycon with deferrable := true }
              attrs := st.attrs ++ [con] }
  | .CONSTR_ATTR_NOT_DEFERRABLE =>
    match st.lastprimarycon with
    | none => .error (.misplaced .CONSTR_ATTR_NOT_DEFERRABLE)
    | some lastprimarycon =>
      if SUPPORTS_ATTRS (some lastprimarycon) = false then
        .error (.misplaced .CONSTR_ATTR_NOT_DEFERRABLE)
      else if st.sawDeferrability = true then .error .multipleDeferrability
      else if st.sawInitially = true ∧ lastprimarycon.initdeferred = true then
        .error .initiallyDeferredMustBeDeferrable
      else
        .ok { st with
              sawDeferrability := true
              lastprimarycon := some { lastprimarycon with deferrable := false }
              attrs := st.attrs ++ [con] }
  | .CONSTR_ATTR_DEFERRED =>
    match st.lastprimarycon with
    | none => .error (.misplaced .CONSTR_ATTR_DEFERRED)
    | some lastprimarycon =>
      if SUPPORTS_ATTRS (some lastprimarycon) = false then
        .error (.misplaced .CONSTR_ATTR_DEFERRED)
      else if st.sawInitially = true then .error .multipleInitially
      else if st.sawDeferrability = false then
        .ok { st with
              sawInitially := true
              lastprimarycon := some { lastprimarycon with
                                       initdeferred := true
                                       deferrable := true }
              attrs := st.attrs ++ [con] }
      else if lastprimarycon.deferrable = false then .error .initiallyDeferredMustBeDeferrable
      else
        .ok { st with
              sawInitially := true
              lastprimarycon := some { lastprimarycon with initdeferred := true }
              attrs := st.attrs ++ [con] }
  | .CONSTR_ATTR_IMMEDIATE =>
    match st.lastprimarycon with
    | none => .error (.misplaced .CONSTR_ATTR_IMMEDIATE)
    | some lastprimarycon =>
      if SUPPORTS_ATTRS (some lastprimarycon) = false then
        .error (.misplaced .CONSTR_ATTR_IMMEDIATE)
      else if st.sawInitially = true then .error .multipleInitially
      else
        .ok { st with
              sawInitially := true
              lastprimarycon := some { lastprimarycon with initdeferred := false }
              attrs := st.attrs ++ [con] }
  | _ =>
    .ok { done := st.list
          lastprimarycon := some con
          attrs := []
          sawDeferrability := false
          sawInitially := false }

/-- The loop `foreach (clist, constraintList)` of `transformConstraintAttrs`. -/
def attrs_loop : AttrState → List Constraint → Except TableError AttrState
  | st, [] => .ok st
  | st, con :: rest =>
    match attrs_step st con with
    | .error err => .error err
    | .ok st1 => attrs_loop st1 rest

/-- The variables of `transformConstraintAttrs` before the loop: `lastprimarycon` is
NULL, and nothing has been read. -/
def attrs_init : AttrState :=
  { done := [], lastprimarycon := none, attrs := [], sawDeferrability := false,
    sawInitially := false }

/-- The function `transformConstraintAttrs`: the result is the list with the flags
`deferrable` and `initdeferred` of its nodes as the attribute nodes set them. A list
of constraints holds constraint nodes only, so the test of the node tag cannot
fail. -/
def transformConstraintAttrs (constraintList : List Constraint) :
    Except TableError (List Constraint) :=
  match attrs_loop attrs_init constraintList with
  | .error err => .error err
  | .ok st => .ok st.list

/-- The variables of the loop over the constraints of a column in
`transformColumnDefinition`, and what the loop writes: the two flags, the fields
`is_not_null` and `raw_default` of the column, the constraint nodes read so far as the
loop leaves them, and the lists of the context that take them. -/
structure ColumnLoopState where
  sawNullable : Bool
  sawDefault : Bool
  is_not_null : Bool
  raw_default : Option RawExpr
  constraints : List Constraint
  ckconstraints : List Constraint
  ixconstraints : List Constraint
  fkconstraints : List Constraint
  deriving DecidableEq, Repr

/-- One round of the loop `foreach (clist, column->constraints)` of
`transformColumnDefinition`. -/
def column_constraint_step (colname relname : String) (st : ColumnLoopState)
    (constraint : Constraint) : Except TableError ColumnLoopState :=
  match constraint.contype with
  | .CONSTR_NULL =>
    if st.sawNullable = true ∧ st.is_not_null = true then
      .error (.conflictingNullNotNull colname relname)
    else
      .ok { st with
            is_not_null := false
            sawNullable := true
            constraints := st.constraints ++ [constraint] }
  | .CONSTR_NOTNULL =>
    if st.sawNullable = true ∧ st.is_not_null = false then
      .error (.conflictingNullNotNull colname relname)
    else
      .ok { st with
            is_not_null := true
            sawNullable := true
            constraints := st.constraints ++ [constraint] }
  | .CONSTR_DEFAULT =>
    if st.sawDefault = true then .error (.multipleDefaults colname relname)
    else
      .ok { st with
            raw_default := constraint.raw_expr
            sawDefault := true
            constraints := st.constraints ++ [constraint] }
  | .CONSTR_CHECK =>
    .ok { st with
          ckconstraints := st.ckconstraints ++ [constraint]
          constraints := st.constraints ++ [constraint] }
  | .CONSTR_PRIMARY | .CONSTR_UNIQUE =>
    let constraint1 :=
      if constraint.keys = [] then { constraint with keys := [colname] } else constraint
    .ok { st with
          ixconstraints := st.ixconstraints ++ [constraint1]
          constraints := st.constraints ++ [constraint1] }
  | .CONSTR_EXCLUSION => .error .columnExclusionNotSupported
  | .CONSTR_FOREIGN =>
    let constraint1 := { constraint with fk_attrs := [colname] }
    .ok { st with
          fkconstraints := st.fkconstraints ++ [constraint1]
          constraints := st.constraints ++ [constraint1] }
  | .CONSTR_ATTR_DEFERRABLE | .CONSTR_ATTR_NOT_DEFERRABLE | .CONSTR_ATTR_DEFERRED
  | .CONSTR_ATTR_IMMEDIATE =>
    .ok { st with constraints := st.constraints ++ [constraint] }
  | .CONSTR_CLUSTER => .error (.unrecognizedConstraintType constraint.contype)

/-- The loop `foreach (clist, column->constraints)` of `transformColumnDefinition`. -/
def column_constraints_loop (colname relname : String) :
    ColumnLoopState → List Constraint → Except TableError ColumnLoopState
  | st, [] => .ok st
  | st, constraint :: rest =>
    match column_constraint_step colname relname st constraint with
    | .error err => .error err
    | .ok st1 => column_constraints_loop colname relname st1 rest

/-- The steps of `transformColumnDefinition` from "Process column constraints" on:
`transformConstraintAttrs`, the loop over the constraints of the column, and the ALTER
FOREIGN TABLE statement for the options of the column. -/
def transformColumnDefinition_constraints (cxt1 : CreateStmtContext) (column3 : ColumnDef) :
    Except TableError (CreateStmtContext × ColumnDef) :=
  match transformConstraintAttrs column3.constraints with
  | .error err => .error err
  | .ok constraints =>
    match column_constraints_loop column3.colname cxt1.relation.relname
        { sawNullable := false, sawDefault := false, is_not_null := column3.is_not_null,
          raw_default := column3.raw_default, constraints := [],
          ckconstraints := cxt1.ckconstraints, ixconstraints := cxt1.ixconstraints,
          fkconstraints := cxt1.fkconstraints } constraints with
    | .error err => .error err
    | .ok st =>
      let column4 :=
        { column3 with
          is_not_null := st.is_not_null
          raw_default := st.raw_default
          constraints := st.constraints }
      let stmt : AlterTableStmt :=
        { relation := cxt1.relation
          cmds := [{ subtype := .AT_AlterColumnGenericOptions
                     name := some column4.colname
                     def_ := .options column4.fdwoptions }]
          relkind := .OBJECT_FOREIGN_TABLE }
      .ok ({ cxt1 with
             columns := cxt1.columns ++ [column4]
             ckconstraints := st.ckconstraints
             ixconstraints := st.ixconstraints
             fkconstraints := st.fkconstraints
             alist := if column4.fdwoptions ≠ [] then cxt1.alist ++ [.alterTable stmt]
               else cxt1.alist },
           column4)

/-- The function `transformColumnDefinition`: the result is the context and the
column afterwards. The column is on `cxt->columns` by its address, so the list holds
it as it is in the end. -/
def transformColumnDefinition (env : TableEnv) (cxt : CreateStmtContext) (column : ColumnDef)
    (preCheck : Bool) : Except TableError (CreateStmtContext × ColumnDef) :=
  match checkConstraint cxt.canInfomationalConstraint column.constraints with
  | .error err => .error err
  | .ok _ =>
    match check_serial cxt column with
    | .error err => .error err
    | .ok (isSerial, typname) =>
      let column1 := { column with typname := typname }
      match (if column1.typname ≠ none then transformColumnType env column1 else .ok ()) with
      | .error err => .error err
      | .ok _ =>
        let column2 := { column1 with is_serial := isSerial }
        match (if isSerial = true then createSeqOwnedByTable env cxt column2 preCheck
            else .ok (cxt, column2)) with
        | .error err => .error err
        | .ok (cxt1, column3) => transformColumnDefinition_constraints cxt1 column3

/-- An environment for samples: a single node, every lookup succeeds, the sequence of
column `c` of table `t` is named `t_c_seq` in the namespace `public`. -/
def sampleTableEnv : TableEnv :=
  { IS_SINGLE_NODE := true
    IS_PGXC_COORDINATOR := false
    is_under_analyze := false
    enable_beta_features := false
    RangeVarGetCreationNamespace := fun _ => .ok 2200
    RangeVarAdjustRelationPersistence := fun relation _ => .ok relation
    get_namespace_name := fun _ => "public"
    ChooseRelationName := fun name1 name2 label _ => name1 ++ "_" ++ name2 ++ "_" ++ label
    gen_uuid := fun _ => 0
    quote_qualified_identifier := fun qualifier ident => qualifier ++ "." ++ ident
    typenameType := fun _ => .ok false
    LookupCollation := fun _ => .ok ()
    RangeVarGetRelid := fun _ => .ok 0
    GetRelationLocInfo := fun _ => none
    get_attnum := fun _ _ => 0
    IsSpecifiedFDW := fun _ => false
    CHCHK_PSORT_RESERVE_COLUMN := fun _ => false
    strcasecmp := fun s1 s2 => if s1.toLower = s2.toLower then 0 else 1 }

/-- A context for samples: the table `t` of the given statement type, nothing read
so far. -/
def sampleTableContext (stmtType : String) (rel : Option Relation) : CreateStmtContext :=
  { stmtType := stmtType
    relation := { schemaname := none, relname := "t", relpersistence := .RELPERSISTENCE_PERMANENT }
    rel := rel
    canInfomationalConstraint := false
    columns := [], ckconstraints := [], fkconstraints := [], ixconstraints := []
    clusterConstraints := [], blist := [], alist := [], fallback_dist_col := [], uuids := [] }

/-- A column for samples: the name, the name of the type, and the constraints. -/
def sampleColumn (colname typname : String) (constraints : List Constraint) : ColumnDef :=
  { colname := colname
    typname := some { names := [typname], typeOid := .InvalidOid, pct_type := false,
                      arrayBounds := [] }
    collClause := none, is_not_null := false, is_serial := false, raw_default := none
    constraints := constraints, fdwoptions := [] }

/-- Whether a constraint node is one of the four attribute nodes: DEFERRABLE, NOT
DEFERRABLE, INITIALLY DEFERRED or INITIALLY IMMEDIATE. -/
def is_attr (contype : ConstrType) : Bool :=
  contype = .CONSTR_ATTR_DEFERRABLE || contype = .CONSTR_ATTR_NOT_DEFERRABLE ||
    contype = .CONSTR_ATTR_DEFERRED || contype = .CONSTR_ATTR_IMMEDIATE

/-- The last node of a list that is not an attribute node, if there is one: for the
node that follows the list, its nearest preceding constraint that is not an
attribute. -/
def lastPrimary (constraintList : List Constraint) : Option Constraint :=
  constraintList.foldl (fun last con => if is_attr con.contype = true then last else some con) none

/-- What the loop of `transformConstraintAttrs` keeps when every node starts with
`deferrable` and `initdeferred` unset: a node that is initially deferred is
deferrable, and `lastprimarycon` is initially deferred only if an INITIALLY clause
has been read for it. -/
structure AttrInv (st : AttrState) : Prop where
  done : ∀ con ∈ st.done, con.initdeferred = true → con.deferrable = true
  last : ∀ con, st.lastprimarycon = some con →
    con.initdeferred = true → con.deferrable = true ∧ st.sawInitially = true
  attrs : ∀ con ∈ st.attrs, con.initdeferred = true → con.deferrable = true

/-- The state of the loop of `transformConstraintAttrs` once INITIALLY DEFERRED has
been accepted for `lastprimarycon`: that node is initially deferred and deferrable. -/
def DeferredSeen (st : AttrState) : Prop :=
  ∃ con, st.lastprimarycon = some con ∧ con.initdeferred = true ∧ con.deferrable = true ∧
    st.sawInitially = true

/-- Whether the type of the column is written as one of the SERIAL pseudo-types. -/
def has_serial_type (column : ColumnDef) : Bool :=
  match column.typname with
  | none => false
  | some typname =>
    match typname.names with
    | [name] => !typname.pct_type && (serial_typeOid name).isSome
    | _ => false

/-- The loop `foreach (cell, locInfo->partAttrNum)` of `transformFKConstraints`: the
referencing column of each distribution column of the referenced table joins the
suggested distribution columns; a zero ends the loop, and a distribution column that
is not referenced empties the list. -/
def fallback_dist_col_loop (env : TableEnv) (pk_rel_id : Nat) (constraint : Constraint) :
    List Int → List String → List String
  | [], fallback_dist_col => fallback_dist_col
  | attnum :: rest, fallback_dist_col =>
    if attnum = 0 then fallback_dist_col
    else
      match constraint.pk_attrs.findIdx? (fun pk => env.get_attnum pk_rel_id pk = attnum) with
      | none => []
      | some i =>
        fallback_dist_col_loop env pk_rel_id constraint rest
          (fallback_dist_col ++ [(constraint.fk_attrs[i]?).getD ""])

/-- One round of the loop of `transformFKConstraints` under `skipValidation`: the
constraint is marked valid without validation, and on a coordinator the suggested
distribution columns are set if there are none yet. -/
def skip_validation_step (env : TableEnv) (fallback_dist_col : List String)
    (constraint : Constraint) : Except TableError (Constraint × List String) :=
  let constraint1 := { constraint with skip_validation := true, initially_valid := true }
  if env.IS_PGXC_COORDINATOR = true ∧ fallback_dist_col = [] ∧
      constraint.pk_attrs.length ≠ 0 then
    if constraint.pk_attrs.length ≠ constraint.fk_attrs.length then
      .error .foreignKeyColumnsDisagree
    else
      match env.RangeVarGetRelid constraint.pktable with
      | .error err => .error err
      | .ok pk_rel_id =>
        match env.GetRelationLocInfo pk_rel_id with
        | none => .ok (constraint1, fallback_dist_col)
        | some partAttrNum =>
          if partAttrNum ≠ [] then
            .ok (constraint1,
              fallback_dist_col_loop env pk_rel_id constraint partAttrNum fallback_dist_col)
          else .ok (constraint1, fallback_dist_col)
  else .ok (constraint1, fallback_dist_col)

/-- The loop `foreach (fkclist, cxt->fkconstraints)` of `transformFKConstraints` under
`skipValidation`: the result is the constraints and the suggested distribution columns
afterwards. -/
def skip_validation_loop (env : TableEnv) :
    List Constraint → List String → Except TableError (List Constraint × List String)
  | [], fallback_dist_col => .ok ([], fallback_dist_col)
  | constraint :: rest, fallback_dist_col =>
    match skip_validation_step env fallback_dist_col constraint with
    | .error err => .error err
    | .ok (constraint1, fallback_dist_col1) =>
      match skip_validation_loop env rest fallback_dist_col1 with
      | .error err => .error err
      | .ok (rest1, fallback_dist_col2) => .ok (constraint1 :: rest1, fallback_dist_col2)

/-- The subcommand of ALTER TABLE that `transformFKConstraints` makes of a foreign-key
constraint. -/
def processedConstraint (constraint : Constraint) : AlterTableCmd :=
  { subtype := .AT_ProcessedConstraint, name := none, def_ := .constraint constraint }

/-- The function `transformFKConstraints`: the foreign-key constraints are marked if
validation can be skipped, and unless the caller is ADD CONSTRAINT, one ALTER TABLE
statement with one subcommand for each of them joins `cxt->alist`. -/
def transformFKConstraints (env : TableEnv) (cxt : CreateStmtContext)
    (skipValidation isAddConstraint : Bool) : Except TableError CreateStmtContext :=
  if cxt.fkconstraints = [] then .ok cxt
  else
    match (if skipValidation = true then
        skip_validation_loop env cxt.fkconstraints cxt.fallback_dist_col
      else .ok (cxt.fkconstraints, cxt.fallback_dist_col)) with
    | .error err => .error err
    | .ok (fkconstraints, fallback_dist_col) =>
      let alterstmt : AlterTableStmt :=
        { relation := cxt.relation
          cmds := fkconstraints.map processedConstraint
          relkind := .OBJECT_TABLE }
      .ok { cxt with
            fkconstraints := fkconstraints
            fallback_dist_col := fallback_dist_col
            alist := if isAddConstraint = false then cxt.alist ++ [.alterTable alterstmt]
              else cxt.alist }

/-- The two inner loops of `checkClusterConstraints` on the keys of one constraint:
the first key that some later key repeats, compared without regard to case. -/
def repeated_cluster_key (env : TableEnv) : List String → Option String
  | [] => none
  | key1 :: rest =>
    if rest.any (fun key2 => env.strcasecmp key1 key2 = 0) then some key1
    else repeated_cluster_key env rest

/-- The function `checkClusterConstraints`: no partial cluster key names a column
twice. -/
def checkClusterConstraints (env : TableEnv) : List Constraint → Except TableError Unit
  | [] => .ok ()
  | constraint :: rest =>
    match repeated_cluster_key env constraint.keys with
    | some key1 => .error (.appearsTwiceCluster key1)
    | none => checkClusterConstraints env rest

/-- The function `checkReserveColumn`: no column bears a reserved name. -/
def checkReserveColumn (env : TableEnv) : List OpenGauss.ColumnDef → Except TableError Unit
  | [] => .ok ()
  | col :: rest =>
    if env.CHCHK_PSORT_RESERVE_COLUMN col.colname = true then
      .error (.conflictsWithSystemColumn col.colname)
    else checkReserveColumn env rest

/-- The suggested distribution columns as `transformIndexConstraint` leaves them,
constraint after constraint: the first key of a PRIMARY KEY constraint, or of a UNIQUE
constraint while nothing is suggested yet, becomes the suggestion. -/
def index_fallback_dist_col :
    List (OpenGauss.Constraint RawExpr) → List String → List String
  | [], fallback_dist_col => fallback_dist_col
  | constraint :: rest, fallback_dist_col =>
    match constraint.contype, constraint.keys with
    | .CONSTR_EXCLUSION, _ => index_fallback_dist_col rest fallback_dist_col
    | _, [] => index_fallback_dist_col rest fallback_dist_col
    | _, key :: _ =>
      if constraint.contype = .CONSTR_PRIMARY ∨ fallback_dist_col = [] then
        index_fallback_dist_col rest [key]
      else index_fallback_dist_col rest fallback_dist_col

/-- The last steps of `transformCreateStmt`, from "transformIndexConstraints wants
cxt.alist to contain only index statements" on: the index constraints, the foreign
keys, the two checks, and the result. `ixcxt` holds the fields of the context that
`transformIndexConstraints` reads, `cxt` the other ones, `stmt` the statement. The
flags that `setInternalFlagIndexStmt` and `setMemCheckFlagForIdx` set on the index
statements, and the fields of the statement that are copied from the context and not
read here, have no counterpart. -/
def transformCreateStmt_output (env : TableEnv) (ixenv : IndexEnv)
    (ixcxt : OpenGauss.CreateStmtContext RawExpr) (cxt : CreateStmtContext) (stmt : CreateStmt) :
    Except TableError (List Stmt) :=
  let saveAlist := cxt.alist
  match transformIndexConstraints ixenv ixcxt with
  | .error err => .error (.indexConstraints err)
  | .ok outcome =>
    match transformFKConstraints env
        { cxt with
          alist := outcome.alist.map Stmt.index
          fallback_dist_col := index_fallback_dist_col ixcxt.ixconstraints cxt.fallback_dist_col }
        true false with
    | .error err => .error err
    | .ok cxt1 =>
      match checkClusterConstraints env cxt1.clusterConstraints with
      | .error err => .error err
      | .ok _ =>
        match checkReserveColumn env outcome.columns with
        | .error err => .error err
        | .ok _ =>
          let stmt1 : CreateStmt :=
            { stmt with
              tableElts := outcome.columns
              constraints := cxt1.ckconstraints
              clusterKeys := cxt1.clusterConstraints }
          let result := cxt1.blist ++ [Stmt.create stmt1] ++ cxt1.alist ++ saveAlist
          if (match stmt.servername with
              | none => true
              | some servername => env.IsSpecifiedFDW servername) = true ∧
              stmt.distributeby = none ∧ stmt.hasInhRelations = false ∧
              cxt1.fallback_dist_col ≠ [] then
            .ok (cxt1.blist ++
              [Stmt.create { stmt1 with distributeby := some { colname := cxt1.fallback_dist_col } }]
              ++ cxt1.alist ++ saveAlist)
          else .ok result

/-- A foreign-key constraint for samples: the referencing column and the referenced
table. -/
def sampleForeignKey (fk_attr pktable : String) : Constraint :=
  { makeConstraint .CONSTR_FOREIGN none with pktable := pktable, fk_attrs := [fk_attr] }

/-- A CREATE TABLE statement for samples: the table `t`, nothing filled in yet. -/
def sampleCreateStmt : CreateStmt :=
  { relation := { schemaname := none, relname := "t", relpersistence := .RELPERSISTENCE_PERMANENT }
    servername := none, hasInhRelations := false, tableElts := [], constraints := []
    clusterKeys := [], distributeby := none }

/-- A foreign-key constraint as the loop under `skipValidation` leaves it: valid
without validation. -/
def markSkipValidation (constraint : Constraint) : Constraint :=
  { constraint with skip_validation := true, initially_valid := true }

/-- The ALTER TABLE statement that `transformFKConstraints` makes of the foreign-key
constraints of CREATE TABLE: one subcommand for each constraint, in their order. -/
def foreignKeyStmt (relation : RangeVar) (fkconstraints : List Constraint) : AlterTableStmt :=
  { relation := relation
    cmds := fkconstraints.map (fun constraint => processedConstraint (markSkipValidation constraint))
    relkind := .OBJECT_TABLE }

/-- The index view of a context for samples: CREATE TABLE `t (a, b)`, not
partitioned, with one UNIQUE constraint on the given columns. -/
def sampleUniqueContext (keys : List String) : OpenGauss.CreateStmtContext RawExpr :=
  { foreignStmt := false, relname := "t", isalter := false, ispartitioned := false,
    obsOrHdfs := false, partitionKey := [],
    columns := [{ colname := "a", is_not_null := false }, { colname := "b", is_not_null := false }],
    hasoids := false, inhRelations := []
    ixconstraints := [{ contype := .CONSTR_UNIQUE, conname := none, deferrable := false,
                        initdeferred := false, access_method := none, where_clause := none,
                        keys := keys, exclusions := [], indexname := none, nonforced := false }]
    inh_indexes := [], isResizing := false }

/-- The function `transformTableConstraint`: a constraint of the table goes to the
list of its kind in the context; a constraint that belongs to a column is an error.
Then `checkConstraint` looks at it. -/
def transformTableConstraint (cxt : CreateStmtContext) (constraint : Constraint) :
    Except TableError CreateStmtContext :=
  match (match constraint.contype with
      | .CONSTR_PRIMARY | .CONSTR_UNIQUE | .CONSTR_EXCLUSION =>
        .ok { cxt with ixconstraints := cxt.ixconstraints ++ [constraint] }
      | .CONSTR_CHECK => .ok { cxt with ckconstraints := cxt.ckconstraints ++ [constraint] }
      | .CONSTR_CLUSTER =>
        .ok { cxt with clusterConstraints := cxt.clusterConstraints ++ [constraint] }
      | .CONSTR_FOREIGN => .ok { cxt with fkconstraints := cxt.fkconstraints ++ [constraint] }
      | .CONSTR_NULL | .CONSTR_NOTNULL | .CONSTR_DEFAULT | .CONSTR_ATTR_DEFERRABLE
      | .CONSTR_ATTR_NOT_DEFERRABLE | .CONSTR_ATTR_DEFERRED | .CONSTR_ATTR_IMMEDIATE =>
        .error (.invalidContextForConstraint constraint.contype) :
        Except TableError CreateStmtContext) with
  | .error err => .error err
  | .ok cxt1 =>
    match checkInformationalConstraint constraint cxt.canInfomationalConstraint with
    | .error err => .error err
    | .ok _ => .ok cxt1

/-- What `transformAlterTableStmt` takes from other files, and from functions of this
file that are not embedded here: what is known of the open relation, the mode of the
session, the transformation of the definition of a partition command
(`transformRangePartitionValue` and `transformRangePartStartEndStmt` on the node of
the subcommand), and `transformIndexStmt`, which yields the statement after the
transformation together with its field `indexOid`, which `IndexStmt` above does not
carry: `transformIndexConstraint` sets it for a constraint with USING INDEX, and it
is invalid (`none`) otherwise. -/
structure AlterEnv where
  IS_FOREIGNTABLE : Bool
  isSecurityMode : Bool
  have_useft_privilege : Bool
  RelationGetRelPersistence : RelPersistence
  RelationIsForeignTable : Bool
  CAN_BUILD_INFORMATIONAL_CONSTRAINT_BY_RELID : Bool
  transformPartitionCmd : AlterTableCmd → Except TableError AlterTableCmdDef
  transformIndexStmt : IndexStmt RawExpr → Except TableError (IndexStmt RawExpr × Option Nat)

/-- The variables of the loop `foreach (lcmd, stmt->cmds)` of
`transformAlterTableStmt`. -/
structure AlterLoopState where
  cxt : CreateStmtContext
  newcmds : List AlterTableCmd
  skipValidation : Bool

/-- One round of the loop `foreach (lcmd, stmt->cmds)` of `transformAlterTableStmt`.
The column of ADD COLUMN is elaborated and loses its constraints, which are in the
lists of the context by then; the subcommand ADD CONSTRAINT goes to the lists of the
context and not to `newcmds`; every other subcommand is kept. -/
def alter_cmd_step (env : TableEnv) (aenv : AlterEnv) (st : AlterLoopState)
    (cmd : AlterTableCmd) : Except TableError AlterLoopState :=
  match cmd.subtype with
  | .AT_AddColumn | .AT_AddColumnToView =>
    match cmd.def_ with
    | .column column =>
      match transformColumnDefinition env st.cxt column false with
      | .error err => .error err
      | .ok (cxt1, column1) =>
        let column2 := { column1 with constraints := [] }
        .ok { cxt := { cxt1 with columns := cxt1.columns.dropLast ++ [column2] }
              newcmds := st.newcmds ++ [{ cmd with def_ := .column column2 }]
              skipValidation := if column1.raw_default ≠ none then false else st.skipValidation }
    | _ => .error .assertionFailed
  | .AT_AddConstraint =>
    match cmd.def_ with
    | .constraint constraint =>
      match transformTableConstraint st.cxt constraint with
      | .error err => .error err
      | .ok cxt1 =>
        .ok { st with
              cxt := cxt1
              skipValidation :=
                if constraint.contype = .CONSTR_FOREIGN then false else st.skipValidation }
    | _ => .error .unrecognizedNodeType
  | .AT_ProcessedConstraint =>
    .ok { st with newcmds := st.newcmds ++ [{ cmd with subtype := .AT_AddConstraint }] }
  | .AT_AddPartition | .AT_DropPartition | .AT_TruncatePartition | .AT_ExchangePartition
  | .AT_SplitPartition =>
    match aenv.transformPartitionCmd cmd with
    | .error err => .error err
    | .ok def1 => .ok { st with newcmds := st.newcmds ++ [{ cmd with def_ := def1 }] }
  | _ => .ok { st with newcmds := st.newcmds ++ [cmd] }

/-- The loop `foreach (lcmd, stmt->cmds)` of `transformAlterTableStmt`. -/
def alter_cmds_loop (env : TableEnv) (aenv : AlterEnv) :
    AlterLoopState → List AlterTableCmd → Except TableError AlterLoopState
  | st, [] => .ok st
  | st, cmd :: rest =>
    match alter_cmd_step env aenv st cmd with
    | .error err => .error err
    | .ok st1 => alter_cmds_loop env aenv st1 rest

/-- The subcommand ADD CONSTRAINT that `transformAlterTableStmt` makes of a CHECK,
FOREIGN KEY or cluster-key constraint of the context. -/
def addConstraintCmd (constraint : Constraint) : AlterTableCmd :=
  { subtype := .AT_AddConstraint, name := none, def_ := .constraint constraint }

/-- The loop `foreach (l, cxt.alist)` of `transformAlterTableStmt`: each index
statement goes through `transformIndexStmt` and becomes a subcommand, ADD CONSTRAINT
USING INDEX (`AT_AddIndexConstraint`) if its `indexOid` is valid and ADD INDEX
(`AT_AddIndex`) otherwise. -/
def index_cmds (aenv : AlterEnv) : List Stmt → Except TableError (List AlterTableCmd)
  | [] => .ok []
  | .index idxstmt :: rest =>
    match aenv.transformIndexStmt idxstmt with
    | .error err => .error err
    | .ok (idxstmt1, indexOid) =>
      match index_cmds aenv rest with
      | .error err => .error err
      | .ok cmds =>
        .ok ({ subtype := if indexOid.isSome = true then .AT_AddIndexConstraint else .AT_AddIndex
               name := none
               def_ := .index idxstmt1 } :: cmds)
  | _ :: _ => .error .assertionFailed

/-- The steps of `transformAlterTableStmt` after the loop over the subcommands: the
index constraints, the foreign keys, the two checks, the subcommands that are made
of the index statements and of the CHECK, FOREIGN KEY and cluster-key constraints,
and the result. `ixcxt` holds the fields of the context that
`transformIndexConstraints` reads. The flags that `setInternalFlagIndexStmt` sets
have no counterpart. -/
def transformAlterTableStmt_output (env : TableEnv) (aenv : AlterEnv) (ixenv : IndexEnv)
    (ixcxt : OpenGauss.CreateStmtContext RawExpr) (st : AlterLoopState) (stmt : AlterTableStmt) :
    Except TableError (List Stmt) :=
  let saveAlist := st.cxt.alist
  match transformIndexConstraints ixenv ixcxt with
  | .error err => .error (.indexConstraints err)
  | .ok outcome =>
    match transformFKConstraints env
        { st.cxt with
          alist := outcome.alist.map Stmt.index
          fallback_dist_col :=
            index_fallback_dist_col ixcxt.ixconstraints st.cxt.fallback_dist_col }
        st.skipValidation true with
    | .error err => .error err
    | .ok cxt1 =>
      match checkClusterConstraints env cxt1.clusterConstraints with
      | .error err => .error err
      | .ok _ =>
        match checkReserveColumn env outcome.columns with
        | .error err => .error err
        | .ok _ =>
          match index_cmds aenv cxt1.alist with
          | .error err => .error err
          | .ok indexcmds =>
            let newcmds := st.newcmds ++ indexcmds ++ cxt1.ckconstraints.map addConstraintCmd ++
              cxt1.fkconstraints.map addConstraintCmd ++
              cxt1.clusterConstraints.map addConstraintCmd
            .ok (cxt1.blist ++ [Stmt.alterTable { stmt with cmds := newcmds }] ++ saveAlist)

/-- The context that `transformAlterTableStmt` sets up: the statement type after the
kind of the object, the relation of the statement with the persistence of the open
relation, and empty lists. -/
def transformAlterTableStmt_context (aenv : AlterEnv) (rel : Relation) (stmt : AlterTableStmt) :
    CreateStmtContext :=
  { stmtType := transformAlterTableStmt_stmtType stmt.relkind
    relation := { stmt.relation with relpersistence := aenv.RelationGetRelPersistence }
    rel := some rel
    canInfomationalConstraint :=
      if aenv.RelationIsForeignTable = true then
        aenv.CAN_BUILD_INFORMATIONAL_CONSTRAINT_BY_RELID
      else false
    columns := [], ckconstraints := [], fkconstraints := [], ixconstraints := []
    clusterConstraints := [], blist := [], alist := [], fallback_dist_col := []
    uuids := [] }

/-- The function `transformAlterTableStmt` on the copy of the statement: the check
of the privilege on a foreign table, the context, the loop over the subcommands, and
the steps after it. The relation of the statement is the one of the context. -/
def transformAlterTableStmt (env : TableEnv) (aenv : AlterEnv) (ixenv : IndexEnv)
    (ixcxt : OpenGauss.CreateStmtContext RawExpr) (rel : Relation) (stmt : AlterTableStmt) :
    Except TableError (List Stmt) :=
  if aenv.IS_FOREIGNTABLE = true ∧ aenv.isSecurityMode = true ∧
      aenv.have_useft_privilege = false then
    .error .permissionDeniedForeignTable
  else
    match alter_cmds_loop env aenv
        { cxt := transformAlterTableStmt_context aenv rel stmt, newcmds := []
          skipValidation := true } stmt.cmds with
    | .error err => .error err
    | .ok st =>
      transformAlterTableStmt_output env aenv ixenv ixcxt st
        { stmt with relation := st.cxt.relation }

/-- Whether a subcommand adds a FOREIGN KEY through ADD CONSTRAINT. -/
def adds_foreign_key (cmd : AlterTableCmd) : Bool :=
  decide (cmd.subtype = .AT_AddConstraint) &&
    match cmd.def_ with
    | .constraint constraint => decide (constraint.contype = .CONSTR_FOREIGN)
    | _ => false

/-- Whether a subcommand adds a column that has a default expression; asked of a
subcommand of the result, which holds the column as elaborated. -/
def adds_column_default (cmd : AlterTableCmd) : Bool :=
  (decide (cmd.subtype = .AT_AddColumn) || decide (cmd.subtype = .AT_AddColumnToView)) &&
    match cmd.def_ with
    | .column column => column.raw_default.isSome
    | _ => false

/-- Whether a subcommand is one of the partition commands whose definition
`transformAlterTableStmt` transforms: ADD, DROP, TRUNCATE, EXCHANGE or SPLIT
PARTITION. -/
def is_partition_cmd (subtype : AlterTableType) : Bool :=
  match subtype with
  | .AT_AddPartition | .AT_DropPartition | .AT_TruncatePartition | .AT_ExchangePartition
  | .AT_SplitPartition => true
  | _ => false

/-- What links a subcommand of the statement to the subcommand that the loop of
`transformAlterTableStmt` keeps for it. The name stays. The kind stays, but that an
ADD CONSTRAINT which is processed already (`AT_ProcessedConstraint`) becomes a
standard one. The definition is the column of the original as
`transformColumnDefinition` elaborates it, without its constraints, for ADD COLUMN;
the definition of the original as transformed for a partition command; and the
definition of the original otherwise. -/
def retained (env : TableEnv) (aenv : AlterEnv) (cmd kept : AlterTableCmd) : Prop :=
  kept.name = cmd.name ∧
    kept.subtype =
      (if cmd.subtype = .AT_ProcessedConstraint then .AT_AddConstraint else cmd.subtype) ∧
    if cmd.subtype = .AT_AddColumn ∨ cmd.subtype = .AT_AddColumnToView then
      ∃ column cxt cxt1 column1, cmd.def_ = .column column ∧
        transformColumnDefinition env cxt column false = .ok (cxt1, column1) ∧
        column1.colname = column.colname ∧
        kept.def_ = .column { column1 with constraints := [] }
    else if is_partition_cmd cmd.subtype = true then
      aenv.transformPartitionCmd cmd = .ok kept.def_
    else kept.def_ = cmd.def_

/-- The foreign-key constraints of the context as `transformFKConstraints` leaves
them: marked valid without validation if validation is skipped, as they were
otherwise. -/
def markedConstraints (skipValidation : Bool) (fkconstraints : List Constraint) :
    List Constraint :=
  if skipValidation = true then fkconstraints.map markSkipValidation else fkconstraints

/-- An environment of ALTER TABLE for samples: a plain table, no partition command
fails, and `transformIndexStmt` leaves a statement as it is, with no `indexOid`. -/
def sampleAlterEnv : AlterEnv :=
  { IS_FOREIGNTABLE := false, isSecurityMode := false, have_useft_privilege := true
    RelationGetRelPersistence := .RELPERSISTENCE_PERMANENT
    RelationIsForeignTable := false
    CAN_BUILD_INFORMATIONAL_CONSTRAINT_BY_RELID := false
    transformPartitionCmd := fun cmd => .ok cmd.def_
    transformIndexStmt := fun idxstmt => .ok (idxstmt, none) }

/-- An ALTER TABLE statement on the table `t` for samples. -/
def sampleAlterTableStmt (cmds : List AlterTableCmd) : AlterTableStmt :=
  { relation := { schemaname := none, relname := "t", relpersistence := .RELPERSISTENCE_PERMANENT }
    cmds := cmds, relkind := .OBJECT_TABLE }
/-- What links an index statement of `cxt->alist` to the subcommand that
`transformAlterTableStmt` makes of it: the statement has gone through
`transformIndexStmt`, and the subcommand is ADD CONSTRAINT USING INDEX if `indexOid`
is valid and ADD INDEX otherwise. -/
def index_cmd_of (aenv : AlterEnv) (idxstmt : IndexStmt RawExpr) (cmd : AlterTableCmd) : Prop :=
  ∃ idxstmt1 indexOid, aenv.transformIndexStmt idxstmt = .ok (idxstmt1, indexOid) ∧
    cmd = { subtype := if indexOid.isSome = true then .AT_AddIndexConstraint else .AT_AddIndex
            name := none
            def_ := .index idxstmt1 }

/-- An ADD CONSTRAINT subcommand with a FOREIGN KEY constraint for samples. -/
def sampleAddForeignKey : AlterTableCmd :=
  { subtype := .AT_AddConstraint, name := none, def_ := .constraint (sampleForeignKey "b" "u") }

/-- The open relation of ALTER TABLE for samples. -/
def sampleRelation : Relation :=
  { rd_namespace := 2200, relowner := 10 }

/-- The structure `TableLikeCtx` that a LIKE clause across node groups writes into
`cxt->internalData`; the partition state is known by its text. -/
structure TableLikeCtx where
  options : Nat
  temp_table : Bool
  hasoids : Bool
  columns : List ColumnDef
  ckconstraints : List Constraint
  comments : List CommentStmt
  cluster_keys : List Constraint
  partition : Option String
  inh_indexes : List (IndexStmt RawExpr)
  reloptions : List String

/-- The LIKE clause (`TableLikeClause`): the source relation and the options. -/
structure TableLikeClause where
  relation : RangeVar
  options : Nat
  deriving DecidableEq, Repr

/-- What the LIKE clause takes from other files: the mode of the session, the
identifier of the function `nextval`, the bits of the options, the type name of a
type identifier, the sequences that the source relation owns, the name of a relation,
the notice of a temporary object, and the two functions that write a node as a
string and read it back. -/
structure LikeEnv where
  enable_cluster_resize : Bool
  NEXTVALFUNCOID : Nat
  CREATE_TABLE_LIKE_DEFAULTS : Nat
  CREATE_TABLE_LIKE_STORAGE : Nat
  CREATE_TABLE_LIKE_COMMENTS : Nat
  makeTypeNameFromOid : Nat → Int → TypeName
  getOwnedSequences : List Nat
  get_rel_name : Nat → Option String
  nodeToString : TableLikeCtx → String
  stringToNode : String → TableLikeCtx

/-- The tuple descriptor of the source relation of a LIKE clause: its attributes, and
the defaults `constr->defval` with the numbers of their attributes. -/
structure LikeSource where
  attrs : List Attribute
  defval : List (Nat × CookedExpr)

/-- The function `searchSeqidFromExpr`: the sequence of a default expression that is
a call of `nextval`, or a call of a function on a call of `nextval`; zero
(`InvalidOid`) if there is none. The first argument of `nextval` is asserted to be a
constant. -/
def searchSeqidFromExpr (NEXTVALFUNCOID : Nat) (cooked_default : CookedExpr) : Nat :=
  let nextvalExpr : Option CookedExpr :=
    match cooked_default with
    | .funcExpr funcid firstArg =>
      if funcid = NEXTVALFUNCOID then some cooked_default
      else
        match firstArg with
        | .funcExpr funcid1 _ => if funcid1 = NEXTVALFUNCOID then some firstArg else none
        | .funcExprNoArgs funcid1 => if funcid1 = NEXTVALFUNCOID then some firstArg else none
        | _ => none
    | .funcExprNoArgs funcid => if funcid = NEXTVALFUNCOID then some cooked_default else none
    | _ => none
  match nextvalExpr with
  | some (.funcExpr _ (.const constvalue)) => constvalue
  | _ => 0

/-- The function `checkTableLikeSequence`: the sequence of a default expression, if
it has one, must exist on this node. -/
def checkTableLikeSequence (lenv : LikeEnv) (cooked_default : CookedExpr) :
    Except TableError Unit :=
  let seqId := searchSeqidFromExpr lenv.NEXTVALFUNCOID cooked_default
  if seqId = 0 then .ok ()
  else
    match lenv.get_rel_name seqId with
    | none => .error .sequenceInDifferentNodeGroup
    | some _ => .ok ()

/-- The variables of the loop over the attributes of the source relation in
`transformTableLikeClause`: the context, the table `attmap`, and the columns and
comments of `metaInfo`. -/
structure LikeState where
  cxt : CreateStmtContext
  attmap : List Nat
  metaColumns : List ColumnDef
  metaComments : List CommentStmt

/-- The column definition that the loop of `transformTableLikeClause` makes of an
attr: in cluster-resize mode a dropped attribute gives a node with the name and
the copy of the attribute only; otherwise the name, the type and the NOT NULL flag
are taken over. The fields `kvtype`, `inhcount`, `is_local`, `is_from_type`,
`cmprs_mode` and `collOid` have no counterpart. -/
def cloneColumn (lenv : LikeEnv) (attr : Attribute) : ColumnDef :=
  if lenv.enable_cluster_resize = true ∧ attr.attisdropped = true then
    { colname := attr.attname, typname := none, collClause := none, is_not_null := false
      is_serial := false, raw_default := none, constraints := [], fdwoptions := []
      cooked_default := none, storage := 0, dropped_attr := some attr }
  else
    { colname := attr.attname
      typname := some (lenv.makeTypeNameFromOid attr.atttypid attr.atttypmod)
      collClause := none, is_not_null := attr.attnotnull, is_serial := false
      raw_default := none, constraints := [], fdwoptions := [], cooked_default := none
      storage := 0, dropped_attr := none }

/-- The step "Copy default, if present and the default has been requested" of the
loop of `transformTableLikeClause`: a default that calls `nextval` on a sequence
which the source relation owns makes the column a serial one, with
`createSeqOwnedByTable`; another default is copied if the options ask for it. The
source asserts that the default is found. -/
def like_copy_default (env : TableEnv) (lenv : LikeEnv) (options : Nat) (preCheck : Bool)
    (source : LikeSource) (parentAttno : Nat) (cxt : CreateStmtContext) (column : ColumnDef) :
    Except TableError (CreateStmtContext × ColumnDef) :=
  match source.defval.find? (fun attrdef => attrdef.1 = parentAttno) with
  | none => .error .assertionFailed
  | some (_, this_default) =>
    let seqId := searchSeqidFromExpr lenv.NEXTVALFUNCOID this_default
    match (if seqId ≠ 0 ∧ lenv.getOwnedSequences ≠ [] ∧ seqId ∈ lenv.getOwnedSequences then
        createSeqOwnedByTable env cxt { column with is_serial := true } preCheck
      else .ok (cxt, column)) with
    | .error err => .error err
    | .ok (cxt1, column1) =>
      if column1.is_serial = false ∧ options &&& lenv.CREATE_TABLE_LIKE_DEFAULTS ≠ 0 then
        .ok (cxt1, { column1 with cooked_default := some this_default })
      else .ok (cxt1, column1)

/-- The copy `dup` of a clone that joins the columns of `metaInfo`: a serial column
goes without its constraints and its default. -/
def like_dup (column : ColumnDef) : ColumnDef :=
  if column.is_serial = true then { column with constraints := [], raw_default := none }
  else column

/-- One round of the loop `for (parentAttno = 1; parentAttno <= tupleDesc->natts;
parentAttno++)` of `transformTableLikeClause`. A dropped attribute is skipped unless
cluster-resize mode is on; otherwise its clone joins `cxt->columns`, `attmap` takes
the length of that list, and the default, the storage and the comment are copied as
the options ask; across node groups a copy of the clone, for a serial column without
its constraints and its default, joins the columns of `metaInfo`. The source appends
the node to `cxt->columns` first and writes to it afterwards; here the column joins
the list as it is at the end of the round, and `createSeqOwnedByTable` does not read
the list. A schema name that is NULL is the empty string in the name of the object
of the comment. -/
def like_column_step (env : TableEnv) (lenv : LikeEnv) (options : Nat)
    (preCheck multiNodegroup : Bool) (source : LikeSource) (st : LikeState)
    (parentAttno : Nat) (attr : Attribute) : Except TableError LikeState :=
  if attr.attisdropped = true ∧ lenv.enable_cluster_resize = false then .ok st
  else
    let column := cloneColumn lenv attr
    let attmap := st.attmap.set (parentAttno - 1) (st.cxt.columns.length + 1)
    match (if attr.atthasdef = true then
        like_copy_default env lenv options preCheck source parentAttno st.cxt column
      else .ok (st.cxt, column)) with
    | .error err => .error err
    | .ok (cxt1, column1) =>
      let column2 :=
        if options &&& lenv.CREATE_TABLE_LIKE_STORAGE ≠ 0 then
          { column1 with storage := attr.attstorage }
        else column1
      let comments : List CommentStmt :=
        match attr.comment with
        | some comment =>
          if options &&& lenv.CREATE_TABLE_LIKE_COMMENTS ≠ 0 then
            [{ objname := [cxt1.relation.schemaname.getD "", cxt1.relation.relname,
                 column2.colname]
               comment := comment }]
          else []
        | none => []
      .ok { cxt := { cxt1 with
                     columns := cxt1.columns ++ [column2]
                     alist := cxt1.alist ++ comments.map CommentStmt.stmt }
            attmap := attmap
            metaColumns := if multiNodegroup = true then st.metaColumns ++ [like_dup column2]
              else st.metaColumns
            metaComments := if multiNodegroup = true then st.metaComments ++ comments
              else st.metaComments }

/-- The loop over the attributes of the source relation in `transformTableLikeClause`,
from the attr number `parentAttno` on. -/
def like_columns_loop (env : TableEnv) (lenv : LikeEnv) (options : Nat)
    (preCheck multiNodegroup : Bool) (source : LikeSource) :
    Nat → List Attribute → LikeState → Except TableError LikeState
  | _, [], st => .ok st
  | parentAttno, attr :: rest, st =>
    match like_column_step env lenv options preCheck multiNodegroup source st parentAttno
        attr with
    | .error err => .error err
    | .ok st1 =>
      like_columns_loop env lenv options preCheck multiNodegroup source (parentAttno + 1) rest st1

/-- The part of `transformTableLikeClause` that clones the columns: `attmap` starts
with zeros, `metaInfo` empty, and the loop runs over all attributes of the source
relation. No other part of the function changes `cxt->columns`. -/
def transformTableLikeClause_columns (env : TableEnv) (lenv : LikeEnv) (options : Nat)
    (preCheck multiNodegroup : Bool) (source : LikeSource) (cxt : CreateStmtContext) :
    Except TableError LikeState :=
  like_columns_loop env lenv options preCheck multiNodegroup source 1 source.attrs
    { cxt := cxt, attmap := List.replicate source.attrs.length 0, metaColumns := []
      metaComments := [] }

/-- One round of the loop `foreach (cell, cxt->columns)` of
`transformTableLikeFromSerialData`: a serial column gets its sequence again, and the
sequence of another default must exist on this node. -/
def serial_data_step (env : TableEnv) (lenv : LikeEnv) (cxt : CreateStmtContext)
    (column : ColumnDef) : Except TableError (CreateStmtContext × ColumnDef) :=
  if column.is_serial = true then createSeqOwnedByTable env cxt column false
  else
    match column.cooked_default with
    | some cooked_default =>
      match checkTableLikeSequence lenv cooked_default with
      | .error err => .error err
      | .ok _ => .ok (cxt, column)
    | none => .ok (cxt, column)

/-- The loop `foreach (cell, cxt->columns)` of `transformTableLikeFromSerialData`. The
result is the context and the columns afterwards. -/
def serial_data_loop (env : TableEnv) (lenv : LikeEnv) :
    CreateStmtContext → List ColumnDef → Except TableError (CreateStmtContext × List ColumnDef)
  | cxt, [] => .ok (cxt, [])
  | cxt, column :: rest =>
    match serial_data_step env lenv cxt column with
    | .error err => .error err
    | .ok (cxt1, column1) =>
      match serial_data_loop env lenv cxt1 rest with
      | .error err => .error err
      | .ok (cxt2, rest1) => .ok (cxt2, column1 :: rest1)

/-- The function `transformTableLikeFromSerialData`: the lists of the context are
replaced by those read back from `cxt->internalData`, which is not NULL here, and
the serial columns get their sequences again. The result is the context and the
clause afterwards. The call `ExecSetTempObjectIncluded` has no counterpart. -/
def transformTableLikeFromSerialData (env : TableEnv) (lenv : LikeEnv) (cxt : CreateStmtContext)
    (table_like_clause : TableLikeClause) :
    Except TableError (CreateStmtContext × TableLikeClause) :=
  match cxt.internalData with
  | none => .error .assertionFailed
  | some internalData =>
    let metaInfo := lenv.stringToNode internalData
    let clause1 : TableLikeClause :=
      { relation :=
          if metaInfo.temp_table = true then
            { table_like_clause.relation with relpersistence := .RELPERSISTENCE_TEMP }
          else table_like_clause.relation
        options := metaInfo.options }
    let cxt1 : CreateStmtContext :=
      { cxt with
        hasoids := metaInfo.hasoids
        columns := metaInfo.columns
        csc_partTableState := metaInfo.partition
        inh_indexes := metaInfo.inh_indexes
        clusterConstraints := metaInfo.cluster_keys
        ckconstraints := metaInfo.ckconstraints
        alist := metaInfo.comments.map CommentStmt.stmt
        reloptions := metaInfo.reloptions }
    match serial_data_loop env lenv cxt1 cxt1.columns with
    | .error err => .error err
    | .ok (cxt2, columns) => .ok ({ cxt2 with columns := columns }, clause1)

/-- An attribute for samples: the name, and whether it is dropped; type 23, no
default, no comment. -/
def sampleAttribute (attname : String) (attisdropped : Bool) : Attribute :=
  { attname := attname, atttypid := 23, atttypmod := -1, attnotnull := false
    attisdropped := attisdropped, atthasdef := false, attstorage := 112, comment := none }

/-- A source relation for samples: the attributes `a`, `b` and `c`, of which `b` is
dropped. -/
def sampleLikeSource : LikeSource :=
  { attrs := [sampleAttribute "a" false, sampleAttribute "b" true, sampleAttribute "c" false]
    defval := [] }

/-- The columns of `metaInfo` for the sample source relation: the clones of `a` and
`c`. -/
def sampleMetaInfo (columns : List ColumnDef) : TableLikeCtx :=
  { options := 0, temp_table := false, hasoids := false, columns := columns
    ckconstraints := [], comments := [], cluster_keys := [], partition := none
    inh_indexes := [], reloptions := [] }

/-- An environment of the LIKE clause for samples: cluster-resize mode off, the
option bits, the type named by its identifier, no owned sequence, and a
string that is read back as the given node. -/
def sampleLikeEnv (metaInfo : TableLikeCtx) : LikeEnv :=
  { enable_cluster_resize := false
    NEXTVALFUNCOID := 1574
    CREATE_TABLE_LIKE_DEFAULTS := 1
    CREATE_TABLE_LIKE_STORAGE := 8
    CREATE_TABLE_LIKE_COMMENTS := 16
    makeTypeNameFromOid := fun atttypid _ =>
      { names := [], typeOid := .other atttypid, pct_type := false, arrayBounds := [] }
    getOwnedSequences := []
    get_rel_name := fun _ => none
    nodeToString := fun _ => "metaInfo"
    stringToNode := fun _ => metaInfo }

/-- The clones of the attributes `a` and `c` of the sample source relation. -/
def sampleClones : List ColumnDef :=
  [cloneColumn (sampleLikeEnv (sampleMetaInfo [])) (sampleAttribute "a" false),
   cloneColumn (sampleLikeEnv (sampleMetaInfo [])) (sampleAttribute "c" false)]

/-- A context for samples of the LIKE clause: CREATE TABLE `t` with the column `x`
read so far. -/
def sampleLikeContext : CreateStmtContext :=
  { sampleTableContext CREATE_TABLE none with columns := [sampleColumn "x" "int4" []] }

/-- A LIKE clause for samples: LIKE `s`, no options. -/
def sampleLikeClause : TableLikeClause :=
  { relation := { schemaname := none, relname := "s"
                  relpersistence := .RELPERSISTENCE_PERMANENT }
    options := 0 }

/-- The kinds of relation (`relkind`) that the LIKE clause tells apart. -/
inductive RelKind where
  | RELKIND_RELATION
  | RELKIND_VIEW
  | RELKIND_COMPOSITE_TYPE
  | RELKIND_FOREIGN_TABLE
  | other
  deriving DecidableEq, Repr

/-- A CHECK constraint of the source relation of a LIKE clause: its name, its
expression as the catalog stores it, and the comment that `GetComment` finds for
it. -/
structure LikeCheck where
  ccname : String
  ccbin : String
  comment : Option String

/-- The source relation of a LIKE clause as `relation_openrv_extended` and the
catalog show it: its kind and name, whether it is partitioned, temporary, in
another node group than the new table (`newGroupOid != likeGroupOid` in
`is_multi_nodegroup_createtbllike`), whether it owns a bucket, the outcome of the
privilege check, its descriptor with the attributes and the
defaults, whether the descriptor has constraints (`tupleDesc->constr`), the CHECK
constraints and the attribute numbers of the cluster key, the partition state that
`transformTableLikePartitionProperty` and the steps around it read from the catalog
(`none` if the catalog has no partitions to copy), the statements that
`generateClonedIndexStmt` makes of its indexes, its options (the lookup in the
cache may fail), the distribution that `getTableDistribution` or, off a
coordinator, `getTableHBucketDistribution` finds for it, whether it has OIDs, and
whether it is being resized. -/
structure LikeRelation where
  relkind : RelKind
  relname : String
  RELATION_IS_PARTITIONED : Bool
  RelationIsValuePartitioned : Bool
  RelationIsNonpartitioned : Bool
  IsTempTable : Bool
  otherNodeGroup : Bool
  RelationIsPartitioned : Bool
  RELATION_OWN_BUCKET : Bool
  aclcheck : Except TableError Unit
  tupleDesc : LikeSource
  constr : Bool
  check : List LikeCheck
  clusterKeys : List Nat
  partition : Option String
  relhasindex : Bool
  parentIndexes : List (IndexStmt RawExpr)
  reloptions : Except TableError (List String)
  distribution : Option DistributeBy
  tdhasoid : Bool
  RelationInClusterResizing : Bool

/-- What `transformTableLikeClause` takes from other files beyond `LikeEnv`: the mode
of the node, the lookup of the source relation by name (zero, `InvalidOid`, if there
is none) and its opening, the bits of the options, the renumbering of the variables
of an expression (`map_variable_attnos` on the expression read back, written as a
string again; the flag tells whether a whole-row variable was found), and the two
functions that remove options. -/
structure LikeCatalog where
  IS_PGXC_DATANODE : Bool
  RangeVarGetRelidExtended : RangeVar → Nat
  relation_openrv_extended : RangeVar → Except TableError LikeRelation
  MAX_TABLE_LIKE_OPTIONS : Nat
  CREATE_TABLE_LIKE_PARTITION : Nat
  CREATE_TABLE_LIKE_RELOPTIONS : Nat
  CREATE_TABLE_LIKE_DISTRIBUTION : Nat
  CREATE_TABLE_LIKE_CONSTRAINTS : Nat
  CREATE_TABLE_LIKE_INDEXES : Nat
  CREATE_TABLE_LIKE_OIDS : Nat
  map_variable_attnos : String → List Nat → String × Bool
  RemoveRelOption : List String → String → List String
  RemoveRedisRelOptionsFromList : List String → List String

/-- What `transformCreateStmt` takes from other files: the lookup of the creation
namespace, which yields the namespace, the relation of that name that exists already
(zero, `InvalidOid`, if there is none) and the relation of the statement with its
persistence as the namespace asks; whether the connection comes from a coordinator;
the macro `CAN_BUILD_INFORMATIONAL_CONSTRAINT_BY_STMT`; whether the build is for
multiple nodes; the macros `DISTRIBUTED_FEATURE_NOT_SUPPORTED` and
`FEATURE_NOT_PUBLIC_ERROR`, which raise an error or do not; the lookup of the type of
a typed table, which yields its identifier and its attributes; the option that
`makeDefElem` builds; `interpretOidsOption`; whether a server is of the wrapper
`DIST_FDW`, and whether it is an OBS or HDFS server; the relations of the INHERITS
clause as `heap_openrv` finds them; and the partition key of a partition state.
The partition state of the statement is known by its text here, so the steps on it
stand as two functions that end in an error or not: `checkPartitionSynax`, which
reads the statement, and `partitionSteps`, which stands for `checkPartitionValue`,
the resolution of the START/END entries by `transformRangePartStartEndStmt` and
`checkPartitionName`, reads the partition state and the columns of the context, and
yields the partition state afterwards. They write to no list of the context. -/
structure CreateEnv where
  RangeVarGetAndCheckCreationNamespace : RangeVar → Except TableError (Nat × Nat × RangeVar)
  IsConnFromCoord : Bool
  CAN_BUILD_INFORMATIONAL_CONSTRAINT_BY_STMT : CreateStmt → Bool
  ENABLE_MULTIPLE_NODES : Bool
  DISTRIBUTED_FEATURE_NOT_SUPPORTED : Except TableError Unit
  FEATURE_NOT_PUBLIC_ERROR : String → Except TableError Unit
  ofType : TypeName → Except TableError (TypeOid × List Attribute)
  makeDefElem : String → Nat → String
  interpretOidsOption : List String → Bool
  IsSpecifiedFDW_DIST_FDW : String → Bool
  isObsOrHdfsTableFormSrvName : String → Bool
  inhRelations : List InhRelation
  partitionKey : String → List String
  checkPartitionSynax : CreateStmt → Except TableError Unit
  partitionSteps : String → List ColumnDef → Except TableError String

/-- The first steps of `transformCreateStmt`, on the copy of the statement: a
temporary table must not name a schema; the creation namespace is looked up; with IF
NOT EXISTS and a relation of that name the function returns NIL, which is `none`
here; otherwise the name of the relation is made schema-qualified. The node group of
a logic cluster has no counterpart. -/
def transformCreateStmt_head (env : TableEnv) (cenv : CreateEnv) (stmt : CreateStmt) :
    Except TableError (Option CreateStmt) :=
  if stmt.relation.relpersistence = .RELPERSISTENCE_TEMP ∧ stmt.relation.schemaname ≠ none then
    .error .temporaryTableSchemaName
  else
    match cenv.RangeVarGetAndCheckCreationNamespace stmt.relation with
    | .error err => .error err
    | .ok (namespaceid, existingRelid, relation) =>
      if stmt.if_not_exists = true ∧ existingRelid ≠ 0 then .ok none
      else if relation.schemaname = none ∧
          relation.relpersistence ≠ .RELPERSISTENCE_TEMP then
        .ok (some { stmt with
                    relation := { relation with
                                  schemaname := some (env.get_namespace_name namespaceid) } })
      else .ok (some { stmt with relation := relation })

/-- The context that `transformCreateStmt` sets up before it reads the elements of the
statement; `uuids` is the list `stmt->uuids`, a statement with a server name is a
`CreateForeignTableStmt`. -/
def transformCreateStmt_context (cenv : CreateEnv) (stmt : CreateStmt) (uuids : List Nat) :
    CreateStmtContext :=
  { stmtType := if stmt.servername ≠ none then CREATE_FOREIGN_TABLE else CREATE_TABLE
    relation := stmt.relation
    rel := none
    canInfomationalConstraint :=
      if stmt.servername ≠ none then cenv.CAN_BUILD_INFORMATIONAL_CONSTRAINT_BY_STMT stmt
      else false
    columns := [], ckconstraints := [], fkconstraints := [], ixconstraints := []
    clusterConstraints := [], blist := [], alist := [], fallback_dist_col := []
    uuids := uuids
    internalData := stmt.internalData
    hasoids := false, csc_partTableState := none, inh_indexes := [], reloptions := []
    distributeby := none, isResizing := false }

/-- The macro `TRANSFORM_RELATION_LIKE_CLAUSE`: the relation is a table, a view, a
composite type or a foreign table. -/
def TRANSFORM_RELATION_LIKE_CLAUSE (rel_relkind : RelKind) : Bool :=
  if rel_relkind ≠ .RELKIND_RELATION ∧ rel_relkind ≠ .RELKIND_VIEW ∧
      rel_relkind ≠ .RELKIND_COMPOSITE_TYPE ∧ rel_relkind ≠ .RELKIND_FOREIGN_TABLE then false
  else true

/-- The macro `RELATION_ISNOT_REGULAR_PARTITIONED`. -/
def RELATION_ISNOT_REGULAR_PARTITIONED (relation : LikeRelation) : Bool :=
  (decide (relation.relkind ≠ .RELKIND_RELATION) &&
      decide (relation.relkind ≠ .RELKIND_FOREIGN_TABLE)) ||
    relation.RelationIsNonpartitioned

/-- The structure `metaInfo` after `memset_s`: all fields zero. -/
def TableLikeCtx.zero : TableLikeCtx :=
  { options := 0, temp_table := false, hasoids := false, columns := [], ckconstraints := []
    comments := [], cluster_keys := [], partition := none, inh_indexes := [], reloptions := [] }

/-- The loop `for (ccnum = 0; ccnum < tupleDesc->constr->num_check; ccnum++)` of
`transformTableLikeClause`: each CHECK constraint of the source relation is copied
with its variables renumbered after `attmap`, a whole-row variable is an error, and
the comment on the constraint is copied if the options ask for it; across node
groups the constraint and the comment join `metaInfo` too. -/
def like_checks_loop (lenv : LikeEnv) (lcat : LikeCatalog) (options : Nat)
    (multiNodegroup : Bool) (relname : String) (attmap : List Nat) :
    CreateStmtContext → TableLikeCtx → List LikeCheck →
      Except TableError (CreateStmtContext × TableLikeCtx)
  | cxt, metaInfo, [] => .ok (cxt, metaInfo)
  | cxt, metaInfo, check :: rest =>
    if (lcat.map_variable_attnos check.ccbin attmap).2 = true then
      .error (.wholeRowReference check.ccname relname)
    else
      let n : Constraint :=
        { makeConstraint .CONSTR_CHECK none with
          conname := some check.ccname
          cooked_expr := some (lcat.map_variable_attnos check.ccbin attmap).1 }
      let comments : List CommentStmt :=
        match check.comment with
        | some comment =>
          if options &&& lenv.CREATE_TABLE_LIKE_COMMENTS ≠ 0 then
            [{ objname := [cxt.relation.schemaname.getD "", cxt.relation.relname, check.ccname]
               comment := comment }]
          else []
        | none => []
      like_checks_loop lenv lcat options multiNodegroup relname attmap
        { cxt with
          ckconstraints := cxt.ckconstraints ++ [n]
          alist := cxt.alist ++ comments.map CommentStmt.stmt }
        (if multiNodegroup = true then
          { metaInfo with
            ckconstraints := metaInfo.ckconstraints ++ [n]
            comments := metaInfo.comments ++ comments }
        else metaInfo)
        rest

/-- The step "Copy CHECK constraints if requested" of `transformTableLikeClause`: the
loop over the CHECK constraints, and the cluster key of the source relation, which
becomes one constraint with the names of its attributes. An attribute number
outside the descriptor gives the empty name. -/
def like_constraints (lenv : LikeEnv) (lcat : LikeCatalog) (options : Nat)
    (multiNodegroup : Bool) (relation : LikeRelation) (attmap : List Nat)
    (cxt : CreateStmtContext) (metaInfo : TableLikeCtx) :
    Except TableError (CreateStmtContext × TableLikeCtx) :=
  if options &&& lcat.CREATE_TABLE_LIKE_CONSTRAINTS ≠ 0 ∧ relation.constr = true then
    match like_checks_loop lenv lcat options multiNodegroup relation.relname attmap cxt metaInfo
        relation.check with
    | .error err => .error err
    | .ok (cxt1, metaInfo1) =>
      if relation.clusterKeys ≠ [] then
        let n : Constraint :=
          { makeConstraint .CONSTR_CLUSTER none with
            keys := relation.clusterKeys.map (fun attrNum =>
              match relation.tupleDesc.attrs[attrNum - 1]? with
              | some attr => attr.attname
              | none => "") }
        .ok ({ cxt1 with clusterConstraints := cxt1.clusterConstraints ++ [n] },
          if multiNodegroup = true then
            { metaInfo1 with cluster_keys := metaInfo1.cluster_keys ++ [n] }
          else metaInfo1)
      else .ok (cxt1, metaInfo1)
  else .ok (cxt, metaInfo)

/-- The steps of `transformTableLikeClause` after the constraints: the partition
state, the indexes, the options, the distribution and the OIDs of the source
relation are copied as the options of the clause ask; across node groups `metaInfo`
is written to `cxt->internalData`; in cluster-resize mode the context records
whether the source relation is being resized, and `TryReuseFilenode` refuses a
partitioned relation with a bucket that is being resized unless the clause says
INCLUDING PARTITION. The comment of an index (`idxcomment`), `cxt->bucketOid`,
`cxt->relnodelist` and `cxt->toastnodelist` have no counterpart. -/
def like_properties (lenv : LikeEnv) (lcat : LikeCatalog) (options : Nat)
    (multiNodegroup : Bool) (relation : LikeRelation) (cxt : CreateStmtContext)
    (metaInfo : TableLikeCtx) : Except TableError CreateStmtContext :=
  let cxt1 : CreateStmtContext :=
    if options &&& lcat.CREATE_TABLE_LIKE_PARTITION ≠ 0 then
      match relation.partition with
      | some n => { cxt with csc_partTableState := some n }
      | none => cxt
    else cxt
  let cxt2 : CreateStmtContext :=
    if options &&& lcat.CREATE_TABLE_LIKE_INDEXES ≠ 0 ∧ relation.relhasindex = true then
      { cxt1 with inh_indexes := cxt1.inh_indexes ++ relation.parentIndexes }
    else cxt1
  match (if options &&& lcat.CREATE_TABLE_LIKE_RELOPTIONS ≠ 0 then
      match relation.reloptions with
      | .error err => .error err
      | .ok reloptions =>
        let reloptions1 :=
          if cxt2.relation.relpersistence ≠ .RELPERSISTENCE_TEMP ∧
              cxt2.relation.relpersistence ≠ .RELPERSISTENCE_GLOBAL_TEMP then
            lcat.RemoveRelOption reloptions "on_commit_delete_rows"
          else reloptions
        let reloptions2 := lcat.RemoveRedisRelOptionsFromList reloptions1
        .ok ({ cxt2 with reloptions := reloptions2 }, { metaInfo with reloptions := reloptions2 })
    else .ok (cxt2, metaInfo) : Except TableError (CreateStmtContext × TableLikeCtx)) with
  | .error err => .error err
  | .ok (cxt3, metaInfo1) =>
    let cxt4 : CreateStmtContext :=
      if options &&& lcat.CREATE_TABLE_LIKE_DISTRIBUTION ≠ 0 then
        { cxt3 with distributeby := relation.distribution }
      else cxt3
    let cxt5 : CreateStmtContext :=
      if options &&& lcat.CREATE_TABLE_LIKE_OIDS ≠ 0 then
        { cxt4 with hasoids := relation.tdhasoid }
      else cxt4
    let cxt6 : CreateStmtContext :=
      if multiNodegroup = true then
        { cxt5 with
          internalData := some (lenv.nodeToString
            { metaInfo1 with
              options := options
              hasoids := cxt5.hasoids
              partition := cxt5.csc_partTableState
              inh_indexes := cxt5.inh_indexes }) }
      else cxt5
    if lenv.enable_cluster_resize = true then
      if relation.RELATION_OWN_BUCKET = true ∧ relation.RelationInClusterResizing = true ∧
          relation.RelationIsPartitioned = true ∧
          options &&& lcat.CREATE_TABLE_LIKE_PARTITION = 0 then
        .error (.notSpecifyIncludingPartition relation.relname)
      else .ok { cxt6 with isResizing := relation.RelationInClusterResizing }
    else .ok cxt6

/-- The options of a LIKE clause after the step that drops INCLUDING PARTITION when
INCLUDING ALL stands on a relation without partitions: the bits above
`MAX_TABLE_LIKE_OPTIONS` are set by INCLUDING ALL, and the bits of
`CREATE_TABLE_LIKE_PARTITION` are cleared. -/
def like_options (lcat : LikeCatalog) (table_like_clause : TableLikeClause)
    (relation : LikeRelation) : Nat :=
  if table_like_clause.options >>> lcat.MAX_TABLE_LIKE_OPTIONS ≠ 0 ∧
      relation.RELATION_IS_PARTITIONED = false ∧
      relation.RelationIsValuePartitioned = false then
    table_like_clause.options ^^^ (table_like_clause.options &&& lcat.CREATE_TABLE_LIKE_PARTITION)
  else table_like_clause.options

/-- The function `is_multi_nodegroup_createtbllike`: in a build for multiple nodes,
whether the node group of the new table differs from that of the source relation;
otherwise the macro `DISTRIBUTED_FEATURE_NOT_SUPPORTED` and then false. -/
def is_multi_nodegroup_createtbllike (cenv : CreateEnv) (relation : LikeRelation) :
    Except TableError Bool :=
  if cenv.ENABLE_MULTIPLE_NODES = true then .ok relation.otherNodeGroup
  else
    match cenv.DISTRIBUTED_FEATURE_NOT_SUPPORTED with
    | .error err => .error err
    | .ok _ => .ok false

/-- The steps of `transformTableLikeClause` on the open source relation, from the
checks of the clauses that may stand once only on; `options` holds the options of
the clause as `like_options` leaves them. -/
def transformTableLikeClause_relation (env : TableEnv) (cenv : CreateEnv) (lenv : LikeEnv)
    (lcat : LikeCatalog) (cxt : CreateStmtContext) (table_like_clause : TableLikeClause)
    (preCheck : Bool) (relation : LikeRelation) (options : Nat) :
    Except TableError (CreateStmtContext × TableLikeClause) :=
  if options &&& lcat.CREATE_TABLE_LIKE_PARTITION ≠ 0 ∧
      RELATION_ISNOT_REGULAR_PARTITIONED relation = true then
    .error (.includingPartitionNonPartitioned relation.relname)
  else if options &&& lcat.CREATE_TABLE_LIKE_PARTITION ≠ 0 ∧
      cxt.csc_partTableState ≠ none then
    .error .twoIncludingPartition
  else if options &&& lcat.CREATE_TABLE_LIKE_RELOPTIONS ≠ 0 ∧ cxt.reloptions ≠ [] then
    .error .twoIncludingReloptions
  else if options &&& lcat.CREATE_TABLE_LIKE_DISTRIBUTION ≠ 0 ∧
      cxt.distributeby ≠ none then
    .error .twoIncludingDistribution
  else if relation.relkind = .RELKIND_VIEW then .error .viewInLikeClause
  else
    match (if env.IS_PGXC_COORDINATOR = true ∧ cenv.IsConnFromCoord = false then
        is_multi_nodegroup_createtbllike cenv relation
      else .ok false) with
    | .error err => .error err
    | .ok multiNodegroup =>
      match relation.aclcheck with
      | .error err => .error err
      | .ok _ =>
        match transformTableLikeClause_columns env lenv options preCheck multiNodegroup
            relation.tupleDesc cxt with
        | .error err => .error err
        | .ok st =>
          match like_constraints lenv lcat options multiNodegroup relation st.attmap st.cxt
              { TableLikeCtx.zero with
                temp_table := relation.IsTempTable
                columns := st.metaColumns
                comments := st.metaComments } with
          | .error err => .error err
          | .ok (cxt1, metaInfo) =>
            match like_properties lenv lcat options multiNodegroup relation cxt1 metaInfo with
            | .error err => .error err
            | .ok cxt2 =>
              .ok (cxt2,
                { relation :=
                    if relation.IsTempTable = true then
                      { table_like_clause.relation with relpersistence := .RELPERSISTENCE_TEMP }
                    else table_like_clause.relation
                  options := options })

/-- The function `transformTableLikeClause`. On a data node that does not know the
source relation the clause is read from `cxt->internalData`, if there is one.
Otherwise the source relation is opened and checked, the option INCLUDING PARTITION
is dropped for INCLUDING ALL on a relation without partitions, the clauses that may
stand once only are checked, a temporary source makes the relation of the clause
temporary, a view is refused, the privilege is checked, and the columns, the
constraints and the other properties are copied; the table is in another node group
than the source (`multiNodegroup`) only if this node is a coordinator that the
statement reaches from a client. The result is the context and the clause
afterwards. The error position callback, the lock that `heap_close` keeps (the one
use of `isFirstNode`) and `ExecSetTempObjectIncluded` have no counterpart. -/
def transformTableLikeClause (env : TableEnv) (cenv : CreateEnv) (lenv : LikeEnv)
    (lcat : LikeCatalog) (cxt : CreateStmtContext) (table_like_clause : TableLikeClause)
    (preCheck : Bool) : Except TableError (CreateStmtContext × TableLikeClause) :=
  if lcat.IS_PGXC_DATANODE = true ∧
      lcat.RangeVarGetRelidExtended table_like_clause.relation = 0 then
    if cxt.internalData ≠ none then
      transformTableLikeFromSerialData env lenv cxt table_like_clause
    else
      .error (.tableNotInDatanode table_like_clause.relation.schemaname
        table_like_clause.relation.relname)
  else
    match lcat.relation_openrv_extended table_like_clause.relation with
    | .error err => .error err
    | .ok relation =>
      if TRANSFORM_RELATION_LIKE_CLAUSE relation.relkind = false then
        .error (.likeWrongObjectType relation.relname)
      else
        transformTableLikeClause_relation env cenv lenv lcat cxt table_like_clause preCheck
          relation (like_options lcat table_like_clause relation)

/-- The function `transformOfType`: the type of a typed table is looked up, and each
of its attributes that is not dropped becomes a column of the context. The fields
`kvtype`, `inhcount`, `is_local`, `is_from_type`, `cmprs_mode` and `collOid` have no
counterpart. The result is the context and the type name with its identifier. -/
def transformOfType (cenv : CreateEnv) (lenv : LikeEnv) (cxt : CreateStmtContext)
    (ofTypename : TypeName) : Except TableError (CreateStmtContext × TypeName) :=
  match cenv.ofType ofTypename with
  | .error err => .error err
  | .ok (ofTypeId, attrs) =>
    .ok ({ cxt with
           columns := cxt.columns ++
             (attrs.filter (fun attr => !attr.attisdropped)).map (fun attr =>
               { colname := attr.attname
                 typname := some (lenv.makeTypeNameFromOid attr.atttypid attr.atttypmod)
                 collClause := none, is_not_null := false, is_serial := false
                 raw_default := none, constraints := [], fdwoptions := []
                 cooked_default := none, storage := 0, dropped_attr := none }) },
         { ofTypename with typeOid := ofTypeId })

/-- An element of the statement (`stmt->tableElts`) as it comes in: a column
definition, a constraint of the table, a LIKE clause, or a node of another tag. -/
inductive TableElement where
  | columnDef (column : ColumnDef)
  | constraint (constraint : Constraint)
  | tableLikeClause (clause : TableLikeClause)
  | other (tag : Nat)

/-- One round of the loop `foreach (elements, stmt->tableElts)` of
`transformCreateStmt`. The relation of the statement is the one of the context
(`cxt.relation = stmt->relation`). A node of another tag is an error. -/
def transformCreateStmt_element (env : TableEnv) (cenv : CreateEnv) (lenv : LikeEnv)
    (lcat : LikeCatalog) (stmt : CreateStmt) (uuids : List Nat) (preCheck isFirstNode : Bool)
    (cxt : CreateStmtContext) (element : TableElement) : Except TableError CreateStmtContext :=
  let cxt0 : CreateStmtContext := { cxt with uuids := uuids }
  match element with
  | .columnDef column =>
    match transformColumnDefinition env cxt0 column (!isFirstNode && preCheck) with
    | .error err => .error err
    | .ok (cxt1, _) => .ok cxt1
  | .constraint constraint => transformTableConstraint cxt0 constraint
  | .tableLikeClause tblLlikeClause =>
    match (if cenv.ENABLE_MULTIPLE_NODES = false ∧
          tblLlikeClause.options &&& lcat.CREATE_TABLE_LIKE_DISTRIBUTION ≠ 0 then
        cenv.DISTRIBUTED_FEATURE_NOT_SUPPORTED
      else .ok ()) with
    | .error err => .error err
    | .ok _ =>
      if stmt.partTableState ≠ none ∧
          tblLlikeClause.options &&& lcat.CREATE_TABLE_LIKE_PARTITION ≠ 0 then
        .error .likePartitionForPartitioned
      else if stmt.options ≠ [] ∧
          tblLlikeClause.options &&& lcat.CREATE_TABLE_LIKE_RELOPTIONS ≠ 0 then
        .error .likeReloptionsWithWith
      else if env.IS_PGXC_COORDINATOR = true ∧
          tblLlikeClause.options &&& lcat.CREATE_TABLE_LIKE_DISTRIBUTION ≠ 0 ∧
          stmt.distributeby ≠ none then
        .error .likeDistributionWithDistributeBy
      else
        match transformTableLikeClause env cenv lenv lcat cxt0 tblLlikeClause
            (!isFirstNode && preCheck) with
        | .error err => .error err
        | .ok (cxt1, clause1) =>
          if cxt1.relation.relpersistence ≠ .RELPERSISTENCE_TEMP ∧
              clause1.relation.relpersistence = .RELPERSISTENCE_TEMP then
            .error .nonLocalTempLikeLocalTemp
          else .ok cxt1
  | .other _ => .error .unrecognizedNodeType

/-- The loop `foreach (elements, stmt->tableElts)` of `transformCreateStmt`. -/
def transformCreateStmt_loop (env : TableEnv) (cenv : CreateEnv) (lenv : LikeEnv)
    (lcat : LikeCatalog) (stmt : CreateStmt) (uuids : List Nat) (preCheck isFirstNode : Bool) :
    CreateStmtContext → List TableElement → Except TableError CreateStmtContext
  | cxt, [] => .ok cxt
  | cxt, element :: rest =>
    match transformCreateStmt_element env cenv lenv lcat stmt uuids preCheck isFirstNode cxt
        element with
    | .error err => .error err
    | .ok cxt1 =>
      transformCreateStmt_loop env cenv lenv lcat stmt uuids preCheck isFirstNode cxt1 rest

/-- The steps of `transformCreateStmt` on the distribution clause: the clause of a
LIKE clause goes to the statement, and the kinds ROUNDROBIN and MODULO are refused as
the macros decide. The result is the clause of the statement afterwards. -/
def transformCreateStmt_distributeby (cenv : CreateEnv) (cxt : CreateStmtContext)
    (stmt : CreateStmt) : Except TableError (Option DistributeBy) :=
  let distributeby := if cxt.distributeby ≠ none then cxt.distributeby else stmt.distributeby
  match distributeby with
  | none => .ok distributeby
  | some clause =>
    if clause.disttype = .DISTTYPE_ROUNDROBIN then
      match stmt.servername with
      | some servername =>
        if cenv.IsSpecifiedFDW_DIST_FDW servername = true then .error .roundrobinBuiltIn
        else .ok distributeby
      | none =>
        match cenv.FEATURE_NOT_PUBLIC_ERROR "Unsupport ROUNDROBIN distribute type" with
        | .error err => .error err
        | .ok _ => .ok distributeby
    else if clause.disttype = .DISTTYPE_MODULO then
      match cenv.FEATURE_NOT_PUBLIC_ERROR "Unsupport MODULO distribute type" with
      | .error err => .error err
      | .ok _ => .ok distributeby
    else .ok distributeby

/-- The steps of `transformCreateStmt` from the context to the distribution clause:
the context is set up, the columns of a typed table are read, the loop runs over the
elements of the statement, the partition state of a LIKE clause goes to the
statement, `checkPartitionSynax` runs, `cxt.ispartitioned` and `cxt.partitionKey`
are set, from `part_state` for CREATE FOREIGN TABLE and from `partTableState`
otherwise, the other steps on the partition state run, the options of a LIKE clause
and its OIDs go to the options of the statement, from which `cxt.hasoids` is read,
and the distribution clause is settled. The statement must come without
constraints. The result is the context and the statement afterwards; the relation
of the statement is the one of the context, and `stmt->internalData` takes that of
the context if it is NULL, as the last steps have it. -/
def transformCreateStmt_elements (env : TableEnv) (cenv : CreateEnv) (lenv : LikeEnv)
    (lcat : LikeCatalog) (stmt : CreateStmt) (tableElts : List TableElement) (uuids : List Nat)
    (preCheck isFirstNode : Bool) : Except TableError (CreateStmtContext × CreateStmt) :=
  if stmt.ofTypename ≠ none ∧ stmt.hasInhRelations = true then .error .assertionFailed
  else
    match (match stmt.ofTypename with
        | some ofTypename =>
          match transformOfType cenv lenv (transformCreateStmt_context cenv stmt uuids)
              ofTypename with
          | .error err => .error err
          | .ok (cxt, ofTypename1) => .ok (cxt, { stmt with ofTypename := some ofTypename1 })
        | none => .ok (transformCreateStmt_context cenv stmt uuids, stmt) :
        Except TableError (CreateStmtContext × CreateStmt)) with
    | .error err => .error err
    | .ok (cxt0, stmt0) =>
      match transformCreateStmt_loop env cenv lenv lcat stmt0 uuids preCheck isFirstNode cxt0
          tableElts with
      | .error err => .error err
      | .ok cxt =>
        let stmt1 : CreateStmt :=
          { stmt0 with
            relation := cxt.relation
            partTableState :=
              if cxt.csc_partTableState ≠ none then cxt.csc_partTableState
              else stmt0.partTableState }
        match cenv.checkPartitionSynax stmt1 with
        | .error err => .error err
        | .ok _ =>
          let ispartitioned : Bool :=
            match stmt1.servername with
            | some _ => stmt1.part_state.isSome
            | none => stmt1.partTableState.isSome
          let partitionKey : List String :=
            match stmt1.servername with
            | some _ => stmt1.part_state.getD []
            | none =>
              match stmt1.partTableState with
              | some state => cenv.partitionKey state
              | none => []
          match (match stmt1.partTableState with
              | some state =>
                match cenv.partitionSteps state cxt.columns with
                | .error err => .error err
                | .ok state1 => .ok (some state1)
              | none => .ok none : Except TableError (Option String)) with
          | .error err => .error err
          | .ok partTableState =>
            let options1 :=
              if cxt.reloptions ≠ [] then stmt1.options ++ cxt.reloptions else stmt1.options
            let options2 :=
              if cxt.hasoids = true then options1 ++ [cenv.makeDefElem "oids" 1] else options1
            let stmt2 : CreateStmt :=
              { stmt1 with partTableState := partTableState, options := options2 }
            match transformCreateStmt_distributeby cenv cxt stmt2 with
            | .error err => .error err
            | .ok distributeby =>
              if stmt2.constraints ≠ [] then .error .assertionFailed
              else
                .ok ({ cxt with
                       ispartitioned := ispartitioned
                       partitionKey := partitionKey
                       hasoids := cenv.interpretOidsOption options2
                       distributeby := distributeby },
                     { stmt2 with
                       distributeby := distributeby
                       internalData :=
                         if stmt2.internalData = none then cxt.internalData
                         else stmt2.internalData })

/-- The constraint of `cxt->ixconstraints` with the fields that
`transformIndexConstraint` reads. That function tests the kind against PRIMARY KEY
and EXCLUDE only, so a constraint of any other kind counts as UNIQUE; it reads
`inforConstraint->nonforced` without a test of the node, and a constraint without
the node counts as forced here. -/
def index_constraint (constraint : Constraint) : OpenGauss.Constraint RawExpr :=
  { contype :=
      match constraint.contype with
      | .CONSTR_PRIMARY => .CONSTR_PRIMARY
      | .CONSTR_EXCLUSION => .CONSTR_EXCLUSION
      | _ => .CONSTR_UNIQUE
    conname := constraint.conname
    deferrable := constraint.deferrable
    initdeferred := constraint.initdeferred
    access_method := constraint.access_method
    where_clause := constraint.where_clause
    keys := constraint.keys
    exclusions := constraint.exclusions
    indexname := constraint.indexname
    nonforced :=
      match constraint.inforConstraint with
      | some inforConstraint => inforConstraint.nonforced
      | none => false }

/-- The fields of the context that `transformIndexConstraints` reads, as
`transformCreateStmt` has set them when it calls that function: `cxt.isalter` is
false, `cxt.node` is the statement, `cxt.inhRelations` the INHERITS clause of the
statement, and the columns are those of the context with their names and NOT NULL
flags. -/
def index_context (cenv : CreateEnv) (cxt : CreateStmtContext) (stmt : CreateStmt) :
    OpenGauss.CreateStmtContext RawExpr :=
  { foreignStmt :=
      decide (pg_strncasecmp cxt.stmtType.data CREATE_FOREIGN_TABLE.data cxt.stmtType.length = 0 ∨
        pg_strncasecmp cxt.stmtType.data ALTER_FOREIGN_TABLE.data cxt.stmtType.length = 0)
    relname := cxt.relation.relname
    isalter := false
    ispartitioned := cxt.ispartitioned
    obsOrHdfs :=
      match stmt.servername with
      | some servername => cenv.isObsOrHdfsTableFormSrvName servername
      | none => false
    partitionKey := cxt.partitionKey
    columns := cxt.columns.map (fun column =>
      { colname := column.colname, is_not_null := column.is_not_null })
    hasoids := cxt.hasoids
    inhRelations := if stmt.hasInhRelations = true then cenv.inhRelations else []
    ixconstraints := cxt.ixconstraints.map index_constraint
    inh_indexes := cxt.inh_indexes
    isResizing := cxt.isResizing }

/-- The function `transformCreateStmt`: the first steps, the check of the INTERNAL
DATA clause, the steps from the context to the distribution clause, and the last
steps, which read the context through `index_context`. `tableElts` holds the
elements `stmt->tableElts` of the statement as it comes in, `uuids` the list
`stmt->uuids`. -/
def transformCreateStmt (env : TableEnv) (cenv : CreateEnv) (lenv : LikeEnv)
    (lcat : LikeCatalog) (ixenv : IndexEnv) (stmt : CreateStmt) (tableElts : List TableElement)
    (uuids : List Nat) (preCheck isFirstNode : Bool) : Except TableError (List Stmt) :=
  match transformCreateStmt_head env cenv stmt with
  | .error err => .error err
  | .ok none => .ok []
  | .ok (some stmt1) =>
    if env.IS_PGXC_COORDINATOR = true ∧ cenv.IsConnFromCoord = false ∧
        stmt1.internalData ≠ none then
      .error .internalDataNotSupported
    else
      match transformCreateStmt_elements env cenv lenv lcat stmt1 tableElts uuids preCheck
          isFirstNode with
      | .error err => .error err
      | .ok (cxt, stmt2) =>
        transformCreateStmt_output env ixenv (index_context cenv cxt stmt2) cxt stmt2

/-- Whether a statement of the result is a CREATE TABLE statement. -/
def is_create (stmt : Stmt) : Bool :=
  match stmt with
  | .create _ => true
  | _ => false

/-- Whether a statement is a CREATE SEQUENCE statement, which is what the elements
of a statement leave on `cxt->blist`. -/
def is_create_seq (stmt : Stmt) : Bool :=
  match stmt with
  | .createSeq _ => true
  | _ => false

/-- Whether a statement is one of those that the elements of a statement leave on
`cxt->alist`: an ALTER SEQUENCE statement, a COMMENT statement, or the ALTER FOREIGN
TABLE statement with the options of one column. -/
def is_after_action (stmt : Stmt) : Bool :=
  match stmt with
  | .alterSeq _ => true
  | .comment _ _ => true
  | .alterTable stmt =>
    decide (stmt.relkind = .OBJECT_FOREIGN_TABLE) &&
      stmt.cmds.all (fun cmd => decide (cmd.subtype = .AT_AlterColumnGenericOptions))
  | _ => false

/-- The lists `cxt->blist` and `cxt->alist` hold statements of their kinds. -/
def action_kinds (cxt : CreateStmtContext) : Prop :=
  (∀ s ∈ cxt.blist, is_create_seq s = true) ∧ (∀ s ∈ cxt.alist, is_after_action s = true)

/-- An environment of the first steps for samples: the namespace 2200, and the
relation that exists under the name, if any; no macro raises its error, and the
partition state passes its steps unchanged. -/
def sampleCreateEnv (existingRelid : Nat) : CreateEnv :=
  { RangeVarGetAndCheckCreationNamespace := fun relation => .ok (2200, existingRelid, relation)
    IsConnFromCoord := false
    CAN_BUILD_INFORMATIONAL_CONSTRAINT_BY_STMT := fun _ => false
    ENABLE_MULTIPLE_NODES := true
    DISTRIBUTED_FEATURE_NOT_SUPPORTED := .ok ()
    FEATURE_NOT_PUBLIC_ERROR := fun _ => .ok ()
    ofType := fun _ => .ok (.InvalidOid, [])
    makeDefElem := fun name _ => name
    interpretOidsOption := fun options => options.contains "oids"
    IsSpecifiedFDW_DIST_FDW := fun _ => false
    isObsOrHdfsTableFormSrvName := fun _ => false
    inhRelations := []
    partitionKey := fun _ => []
    checkPartitionSynax := fun _ => .ok ()
    partitionSteps := fun state _ => .ok state }

/-- A catalog of the LIKE clause for samples: a coordinator, on which every lookup
of a source relation fails, and the bits of the options. -/
def sampleLikeCatalog : LikeCatalog :=
  { IS_PGXC_DATANODE := false
    RangeVarGetRelidExtended := fun _ => 0
    relation_openrv_extended := fun relation => .error (.lookupFailed relation.relname)
    MAX_TABLE_LIKE_OPTIONS := 8
    CREATE_TABLE_LIKE_PARTITION := 32
    CREATE_TABLE_LIKE_RELOPTIONS := 64
    CREATE_TABLE_LIKE_DISTRIBUTION := 128
    CREATE_TABLE_LIKE_CONSTRAINTS := 2
    CREATE_TABLE_LIKE_INDEXES := 4
    CREATE_TABLE_LIKE_OIDS := 256
    map_variable_attnos := fun ccbin _ => (ccbin, false)
    RemoveRelOption := fun options name => options.filter (fun option => option ≠ name)
    RemoveRedisRelOptionsFromList := fun options => options }

/-- A source relation for samples: the plain table `s` with the attributes `a`, which
bears the comment `first`, and `c`; it has no constraints and no indexes and is not
partitioned. -/
def sampleLikeRelation : LikeRelation :=
  { relkind := .RELKIND_RELATION, relname := "s"
    RELATION_IS_PARTITIONED := false, RelationIsValuePartitioned := false
    RelationIsNonpartitioned := true, IsTempTable := false, otherNodeGroup := false
    RelationIsPartitioned := false, RELATION_OWN_BUCKET := false
    aclcheck := .ok ()
    tupleDesc :=
      { attrs := [{ sampleAttribute "a" false with comment := some "first" },
                  sampleAttribute "c" false]
        defval := [] }
    constr := false, check := [], clusterKeys := [], partition := none
    relhasindex := false, parentIndexes := [], reloptions := .ok [], distribution := none
    tdhasoid := false, RelationInClusterResizing := false }

/-- The elements of a statement with a LIKE clause for samples: CREATE TABLE `t (x
int4, LIKE s INCLUDING COMMENTS)`. -/
def sampleLikeElements : List TableElement :=
  [.columnDef (sampleColumn "x" "int4" []),
   .tableLikeClause { sampleLikeClause with options := 16 }]

/-- The names of the columns of a CREATE TABLE statement of the result. -/
def created_columns (stmt : Stmt) : List String :=
  match stmt with
  | .create stmt => stmt.tableElts.map (fun column => column.colname)
  | _ => []

/-- The name of the object of a COMMENT statement of the result. -/
def commented_object (stmt : Stmt) : List String :=
  match stmt with
  | .comment objname _ => objname
  | _ => []

/-- The elements of a statement for samples: CREATE TABLE `t (a int4, b serial,
UNIQUE (a), FOREIGN KEY (b) REFERENCES u)`. -/
def sampleElements : List TableElement :=
  [.columnDef (sampleColumn "a" "int4" []),
   .columnDef (sampleColumn "b" "serial" []),
   .constraint { makeConstraint .CONSTR_UNIQUE none with
                 keys := ["a"], inforConstraint := some { nonforced := false } },
   .constraint (sampleForeignKey "b" "u")]

end Table

/-- An index specification is kept by a list of index specifications: some entry of the
list agrees with it in what the merge loop compares, and that entry is unique if the
specification is. -/
def kept {Expr : Type} (index : IndexStmt Expr) (alist : List (IndexStmt Expr)) : Prop :=
  ∃ out ∈ alist, specKey out = specKey index ∧ (index.unique = true → out.unique = true)

/-! ## Properties of `divide_start_end_every_internal` -/

/-- The loop of `divide_start_end_every_internal` with a positive step, started at
the point `startVal + nPart * everyVal` below `endVal`: what it returns. -/
theorem divide_loop_ok {Raw : Type} (env : KeyOps Raw) (partName : String) (s e : Int)
    (everyExpr : Raw) (d : Int) (needCheck : Bool) (hd : 0 < d) :
    ∀ (fuel nPart : Nat) (cur : Int) (result res : List Int) (n : Nat),
      cur = s + nPart * d → cur < e → result.length = nPart →
      result.Pairwise (· < ·) → (∀ x ∈ result, x ≤ cur) →
      divide_loop env partName s e everyExpr d needCheck fuel nPart cur result = .ok (res, n) →
      res.Pairwise (· < ·) ∧ res.getLast? = some e ∧ res.length = n ∧
        s + ((n : Int) - 1) * d < e ∧ e ≤ s + n * d ∧ n ≤ nPart + fuel ∧
        ∃ ext, res = result ++ ext ∧ ∀ x ∈ ext, cur < x := by
  intro fuel
  induction fuel with
  | zero => intro nPart cur result res n _ _ _ _ _ h; simp [divide_loop] at h
  | succ fuel ih =>
    intro nPart cur result res n hcur hlt hlen hpw hle h
    have hnew : ∀ x ∈ result, x < cur + d := fun x hx => by have := hle x hx; omega
    unfold divide_loop at h
    simp only at h
    split at h
    · simp at h
    · split at h
      · simp at h
      · split at h
        · rename_i hpe
          split at h
          · rename_i hnlt
            simp only [Except.ok.injEq, Prod.mk.injEq] at h
            obtain ⟨rfl, rfl⟩ := h
            have hpe' : cur + d = e := by omega
            refine ⟨?_, ?_, ?_, ?_, ?_, ?_, [cur + d], rfl, ?_⟩
            · rw [List.pairwise_append]
              exact ⟨hpw, List.pairwise_singleton _ _, fun a ha b hb => by
                simp only [List.mem_singleton] at hb; subst hb; exact hnew a ha⟩
            · simp [hpe']
            · simp [hlen]
            · push_cast; rw [hcur] at hlt; linarith
            · push_cast; rw [hcur] at hpe'; linarith
            · omega
            · intro x hx; simp only [List.mem_singleton] at hx; omega
          · rename_i hlt2
            have hlt2' : cur + d < e := by simpa using hlt2
            have := ih (nPart + 1) (cur + d) (result ++ [cur + d]) res n
              (by rw [hcur]; push_cast; ring) hlt2' (by simp [hlen])
              (by
                rw [List.pairwise_append]
                exact ⟨hpw, List.pairwise_singleton _ _, fun a ha b hb => by
                  simp only [List.mem_singleton] at hb; subst hb; exact hnew a ha⟩)
              (by
                intro x hx
                rcases List.mem_append.mp hx with hx | hx
                · exact le_of_lt (hnew x hx)
                · simp only [List.mem_singleton] at hx; omega)
              h
            obtain ⟨h1, h2, h3, h4, h5, h6, ext, hext, hgt⟩ := this
            refine ⟨h1, h2, h3, h4, h5, by omega, (cur + d) :: ext, by simp [hext], ?_⟩
            intro x hx
            rcases List.mem_cons.mp hx with hx | hx
            · omega
            · have := hgt x hx; omega
        · rename_i hpe
          split at h
          · simp at h
          · rename_i hn0
            simp only [Except.ok.injEq, Prod.mk.injEq] at h
            obtain ⟨rfl, rfl⟩ := h
            refine ⟨?_, ?_, ?_, ?_, ?_, ?_, [e], rfl, ?_⟩
            · rw [List.pairwise_append]
              exact ⟨hpw, List.pairwise_singleton _ _, fun a ha b hb => by
                simp only [List.mem_singleton] at hb; subst hb; have := hle a ha; omega⟩
            · simp
            · simp [hlen]
            · push_cast; rw [hcur] at hlt; linarith
            · push_cast; rw [hcur] at hpe; linarith
            · omega
            · intro x hx; simp only [List.mem_singleton] at hx; omega

/-- An accepted request has a positive step: the first pass rejects a step that
does not move forward. -/
theorem divide_loop_step_pos {Raw : Type} (env : KeyOps Raw) (partName : String) (s e : Int)
    (everyExpr : Raw) (d : Int) (needCheck : Bool) (fuel : Nat) (r : List Int × Nat)
    (h : divide_loop env partName s e everyExpr d needCheck fuel 0 s [] = .ok r) : 0 < d := by
  cases fuel with
  | zero => simp [divide_loop] at h
  | succ fuel =>
    unfold divide_loop at h
    simp only [true_and] at h
    split at h
    · simp at h
    · split at h
      · simp at h
      · rename_i hsmall
        omega

/-- What `divide_start_end_every_internal` returns when it accepts a request: the
step is positive, `startVal < endVal`, the end points rise strictly from above
`startVal` up to `endVal`, and `*numPart` counts them. -/
theorem divide_internal_ok {Raw : Type} (env : KeyOps Raw) (partName : String) (s e : Int)
    (everyExpr : Raw) (maxNum : Nat) (needCheck : Bool) (res : List Int) (n : Nat)
    (h : divide_start_end_every_internal env partName s e everyExpr maxNum needCheck = .ok (res, n)) :
    0 < env.GetTargetValue everyExpr ∧ s < e ∧ res.Pairwise (· < ·) ∧ res.getLast? = some e ∧
      res.length = n ∧ s + ((n : Int) - 1) * env.GetTargetValue everyExpr < e ∧
      e ≤ s + n * env.GetTargetValue everyExpr ∧ n ≤ maxNum ∧ ∀ x ∈ res, s < x := by
  unfold divide_start_end_every_internal at h
  split at h
  · simp at h
  · rename_i hse
    have hd := divide_loop_step_pos env partName s e everyExpr _ needCheck maxNum _ h
    obtain ⟨h1, h2, h3, h4, h5, h6, ext, hext, hgt⟩ :=
      divide_loop_ok env partName s e everyExpr _ needCheck hd maxNum 0 s [] res n
        (by simp) (by omega) rfl List.Pairwise.nil (by simp) h
    refine ⟨hd, by omega, h1, h2, h3, h4, h5, by omega, ?_⟩
    intro x hx
    simp only [List.nil_append] at hext
    subst hext
    exact hgt x hx

/-- C1: for an integer key with exact arithmetic, whenever
`divide_start_end_every_internal` accepts a request with `start < end` and a
positive step, the returned boundary list is strictly increasing, its last element
is `end`, and its length, which is also the value reported through `numPart`, is the
ceiling of `(end - start) / every`. -/
theorem divide_start_end_every_internal_accepts {Raw : Type} (env : KeyOps Raw)
    (partName : String) (startVal endVal : Int) (everyExpr : Raw) (maxNum : Nat)
    (needCheck : Bool) (res : List Int) (numPart : Nat)
    (_hlt : startVal < endVal) (hpos : 0 < env.GetTargetValue everyExpr)
    (h : divide_start_end_every_internal env partName startVal endVal everyExpr maxNum needCheck
      = .ok (res, numPart)) :
    res.Pairwise (· < ·) ∧ res.getLast? = some endVal ∧ res.length = numPart ∧
      (numPart : Int) = ⌈((endVal - startVal : Int) : ℚ) / ((env.GetTargetValue everyExpr : Int) : ℚ)⌉ := by
  obtain ⟨_, _, h1, h2, h3, h4, h5, _, _⟩ :=
    divide_internal_ok env partName startVal endVal everyExpr maxNum needCheck res numPart h
  refine ⟨h1, h2, h3, ?_⟩
  symm
  rw [Int.ceil_eq_iff]
  have hq : (0 : ℚ) < ((env.GetTargetValue everyExpr : Int) : ℚ) := by exact_mod_cast hpos
  constructor
  · rw [lt_div_iff₀ hq]
    have : ((numPart : Int) - 1) * env.GetTargetValue everyExpr < endVal - startVal := by linarith
    exact_mod_cast this
  · rw [div_le_iff₀ hq]
    have : endVal - startVal ≤ (numPart : Int) * env.GetTargetValue everyExpr := by linarith
    exact_mod_cast this

/-- Witness of C1: START(1) END(100) EVERY(30) yields 31, 61, 91, 100. -/
theorem divide_start_end_every_internal_accepts_witness :
    [31, 61, 91, (100 : Int)].Pairwise (· < ·) ∧
      [31, 61, 91, (100 : Int)].getLast? = some 100 ∧
      [31, 61, 91, (100 : Int)].length = 4 ∧
      ((4 : Nat) : Int) = ⌈(((100 : Int) - 1 : Int) : ℚ) / ((intKey.GetTargetValue (.val 30) : Int) : ℚ)⌉ :=
  divide_start_end_every_internal_accepts intKey "p" 1 100 (.val 30) 100 false
    [31, 61, 91, 100] 4 (by decide) (by decide) (by decide)

/-- No name is found twice exactly when the names are pairwise distinct. -/
theorem firstDuplicateName_eq_none_iff (l : List String) :
    firstDuplicateName l = none ↔ l.Nodup := by
  induction l with
  | nil => simp [firstDuplicateName]
  | cons n rest ih =>
    unfold firstDuplicateName
    rw [List.nodup_cons]
    split
    · rename_i hc
      simp only [reduceCtorEq, false_iff, not_and]
      intro hn
      exact absurd (by simpa using hc) hn
    · rename_i hc
      rw [ih]
      have : n ∉ rest := by simpa using hc
      simp [this]

/-! ## The partition list of CREATE TABLE: names and forms -/

/-- Whatever the tag of the first cell, `checkPartitionName` looks for a name that
occurs twice, and for nothing else. -/
theorem checkPartitionName_eq {Raw : Type} (partitionList : List (PartitionNode Raw)) :
    checkPartitionName partitionList =
      match firstDuplicateName (partitionList.map PartitionNode.partitionName) with
      | some n => .error (.duplicatePartitionName n)
      | none => .ok () := by
  unfold checkPartitionName
  split
  · simp [firstDuplicateName]
  · rfl
  · rfl

/-- The name reported by the name check occurs in the list. -/
theorem firstDuplicateName_mem (l : List String) (n : String)
    (h : firstDuplicateName l = some n) : n ∈ l := by
  induction l with
  | nil => simp [firstDuplicateName] at h
  | cons a rest ih =>
    unfold firstDuplicateName at h
    split at h
    · simp only [Option.some.injEq] at h
      subst h
      exact List.mem_cons_self _ _
    · exact List.mem_cons_of_mem _ (ih h)

/-- A list with a cell in less-than form is not a list in START/END form. -/
theorem is_start_end_def_list_of_lessThan {Raw : Type} (partitionList : List (PartitionNode Raw))
    (state : RangePartitionDefState) (h : PartitionNode.lessThan state ∈ partitionList) :
    is_start_end_def_list partitionList = false := by
  unfold is_start_end_def_list
  split
  · rfl
  · rw [Bool.eq_false_iff]
    intro hall
    have := List.all_eq_true.mp hall _ h
    simp at this

/-- The steps of `transformCreateStmt` on a list that is not in START/END form: the
count check and the name check, the list being kept as it is. -/
theorem transformCreateStmt_partitionList_kept {Raw : Type} (lim : Limits) (env : KeyOps Raw)
    (checkNames : Bool) (partitionList : List (PartitionNode Raw))
    (hform : is_start_end_def_list partitionList = false)
    (hlen : partitionList.length ≤ lim.MAX_PARTITION_NUM)
    (hnames : checkNames = true → (partitionList.map PartitionNode.partitionName).Nodup) :
    transformCreateStmt_partitionList lim env checkNames partitionList = .ok partitionList := by
  unfold transformCreateStmt_partitionList
  have hlen' : ¬ lim.MAX_PARTITION_NUM < partitionList.length := by omega
  simp only [hlen', ↓reduceIte, hform, Bool.false_eq_true]
  cases hc : checkNames with
  | false => simp
  | true =>
    have hnd := (firstDuplicateName_eq_none_iff _).mpr (hnames hc)
    simp [checkPartitionName_eq, hnd]

/-- C16: for a partition list in less-than form, `checkPartitionName` fails with
"duplicate partition name" if and only if two entries of the list carry the same
name. It performs no other check: it raises no other error, and its outcome is the
same for every list with the same names in the same order, whatever the boundaries
and however they are ordered. The entries and their declared order are left
unchanged: a list within the partition limit whose names are distinct is the list
that `transformCreateStmt` holds after its steps on the partition list. -/
theorem checkPartitionName_less_than_form {Raw : Type} (lim : Limits) (env : KeyOps Raw)
    (states : List RangePartitionDefState) :
    ((∃ n, checkPartitionName (states.map PartitionNode.lessThan : List (PartitionNode Raw))
        = .error (.duplicatePartitionName n)) ↔
      ¬ (states.map (fun state => state.partitionName)).Nodup) ∧
    (∀ err, checkPartitionName (states.map PartitionNode.lessThan : List (PartitionNode Raw))
        = .error err →
      ∃ n, err = .duplicatePartitionName n ∧ n ∈ states.map (fun state => state.partitionName)) ∧
    (∀ states' : List RangePartitionDefState,
      states'.map (fun state => state.partitionName)
        = states.map (fun state => state.partitionName) →
      checkPartitionName (states'.map PartitionNode.lessThan : List (PartitionNode Raw))
        = checkPartitionName (states.map PartitionNode.lessThan : List (PartitionNode Raw))) ∧
    ((states.map (fun state => state.partitionName)).Nodup →
      states.length ≤ lim.MAX_PARTITION_NUM → ∀ checkNames,
      transformCreateStmt_partitionList lim env checkNames (states.map PartitionNode.lessThan)
        = .ok (states.map PartitionNode.lessThan)) := by
  have hnames : ∀ l : List RangePartitionDefState,
      (l.map PartitionNode.lessThan : List (PartitionNode Raw)).map PartitionNode.partitionName
        = l.map (fun state => state.partitionName) := by
    intro l
    rw [List.map_map]
    rfl
  refine ⟨?_, ?_, ?_, ?_⟩
  · rw [checkPartitionName_eq, hnames, ← firstDuplicateName_eq_none_iff]
    cases hd : firstDuplicateName (states.map (fun state => state.partitionName)) with
    | none => simp
    | some n => simp
  · intro err h
    rw [checkPartitionName_eq, hnames] at h
    cases hd : firstDuplicateName (states.map (fun state => state.partitionName)) with
    | none => rw [hd] at h; simp at h
    | some n =>
      rw [hd] at h
      simp only [Except.error.injEq] at h
      exact ⟨n, h.symm, firstDuplicateName_mem _ n hd⟩
  · intro states' h
    rw [checkPartitionName_eq, checkPartitionName_eq, hnames, hnames, h]
  · intro hnd hlen checkNames
    apply transformCreateStmt_partitionList_kept
    · cases states with
      | nil => rfl
      | cons state rest =>
        exact is_start_end_def_list_of_lessThan _ state (List.mem_cons_self _ _)
    · simpa using hlen
    · intro _
      rw [hnames]
      exact hnd

/-- C16 at a sample: a less-than list with distinct names and descending boundaries
passes the name check and is kept as it is. -/
theorem checkPartitionName_less_than_form_witness :
    transformCreateStmt_partitionList sampleLimits intKey true
        [PartitionNode.lessThan (samplePart (.val 20) "p1"),
          PartitionNode.lessThan (samplePart (.val 10) "p2")]
      = .ok [PartitionNode.lessThan (samplePart (.val 20) "p1"),
          PartitionNode.lessThan (samplePart (.val 10) "p2")] :=
  (checkPartitionName_less_than_form sampleLimits intKey
    [samplePart (.val 20) "p1", samplePart (.val 10) "p2"]).2.2.2 (by decide) (by decide) true

/-! ## Index constraints: the primary key -/

/-- What a successful `transformIndexConstraint` returns: the flags of the node follow
the kind of the constraint, and `cxt->pkey` is set by a PRIMARY KEY constraint only,
which finds it NULL. -/
theorem transformIndexConstraint_ok {Expr : Type} (env : IndexEnv) (cxt : CreateStmtContext Expr)
    (constraint : Constraint Expr) (pos : Nat) (pkey pkey1 : Option Nat)
    (columns columns1 : List ColumnDef) (index : IndexStmt Expr)
    (h : transformIndexConstraint env cxt constraint pos pkey columns
      = .ok (index, pkey1, columns1)) :
    index.primary = decide (constraint.contype = .CONSTR_PRIMARY) ∧
      index.unique = decide (constraint.contype ≠ .CONSTR_EXCLUSION) ∧
      index.idxname = constraint.conname ∧
      (constraint.contype = .CONSTR_PRIMARY → pkey = none ∧ pkey1 = some pos) ∧
      (constraint.contype ≠ .CONSTR_PRIMARY → pkey1 = pkey) := by
  unfold transformIndexConstraint at h
  split at h
  · split at h <;> simp at h
  · rename_i hpk
    simp only at h
    split at h
    · simp at h
    · split at h
      · simp only [Except.ok.injEq, Prod.mk.injEq] at h
        obtain ⟨rfl, rfl, rfl⟩ := h
        rename_i hex
        refine ⟨rfl, rfl, rfl, ?_, ?_⟩
        · intro hp; rw [hp] at hex; simp at hex
        · intro hp; simp [hp]
      · split at h
        · simp at h
        · simp only [Except.ok.injEq, Prod.mk.injEq] at h
          obtain ⟨rfl, rfl, rfl⟩ := h
          refine ⟨rfl, rfl, rfl, ?_, ?_⟩
          · intro hp
            constructor
            · by_contra hne; exact hpk ⟨hp, hne⟩
            · simp [hp]
          · intro hp; simp [hp]

/-- Appending a node that is primary exactly if `pkey` moves to its place keeps the
link between `pkey` and `indexlist`. -/
theorem PkeyInv.append_index {Expr : Type} {st : IndexState Expr} (hinv : PkeyInv st)
    (index : IndexStmt Expr) (columns : List ColumnDef) (pkey1 : Option Nat)
    (hp : index.primary = true → st.pkey = none ∧ pkey1 = some st.indexlist.length)
    (hn : index.primary = false → pkey1 = st.pkey) :
    PkeyInv { columns := columns, pkey := pkey1, indexlist := st.indexlist ++ [index] } := by
  constructor
  · intro j ix hj
    simp only at hj ⊢
    by_cases hlt : j < st.indexlist.length
    · rw [List.getElem?_append_left hlt] at hj
      have := hinv.primary_iff j ix hj
      cases hpr : index.primary with
      | false => rw [hn hpr]; exact this
      | true =>
        obtain ⟨hnone, hsome⟩ := hp hpr
        rw [hsome]
        rw [hnone] at this
        constructor
        · intro hix; exact absurd (this.mp hix) (by simp)
        · intro hj'; simp only [Option.some.injEq] at hj'; omega
    · rw [List.getElem?_append_right (by omega)] at hj
      have hj0 : j = st.indexlist.length := by
        by_contra hne
        have : j - st.indexlist.length ≠ 0 := by omega
        obtain ⟨m, hm⟩ := Nat.exists_eq_succ_of_ne_zero this
        rw [hm] at hj
        simp at hj
      subst hj0
      simp only [Nat.sub_self, List.getElem?_cons_zero, Option.some.injEq] at hj
      subst hj
      cases hpr : index.primary with
      | false =>
        rw [hn hpr]
        simp only [Bool.false_eq_true, false_iff]
        intro hj'
        have := hinv.bound _ hj'
        omega
      | true => simp [(hp hpr).2]
  · intro j hj
    simp only [List.length_append, List.length_singleton] at hj ⊢
    cases hpr : index.primary with
    | false => rw [hn hpr] at hj; have := hinv.bound j hj; omega
    | true => rw [(hp hpr).2] at hj; simp only [Option.some.injEq] at hj; omega

/-- The first loop of `transformIndexConstraints` keeps the link between `pkey` and
`indexlist`, extends the list, and passes at most one PRIMARY KEY constraint. -/
theorem constraints_loop_ok {Expr : Type} (env : IndexEnv) (cxt : CreateStmtContext Expr) :
    ∀ (constraints : List (Constraint Expr)) (st st1 : IndexState Expr), PkeyInv st →
      constraints_loop env cxt st constraints = .ok st1 →
      PkeyInv st1 ∧ primaryConstraints constraints + pkeyCount st.pkey = pkeyCount st1.pkey ∧
        ∃ ext, st1.indexlist = st.indexlist ++ ext := by
  intro constraints
  induction constraints with
  | nil =>
    intro st st1 hinv h
    simp only [constraints_loop, Except.ok.injEq] at h
    subst h
    exact ⟨hinv, by simp [primaryConstraints], [], by simp⟩
  | cons c rest ih =>
    intro st st1 hinv h
    unfold constraints_loop at h
    split at h
    · simp at h
    · split at h
      · simp at h
      · rename_i index pkey1 columns1 hc
        obtain ⟨hprim, _, _, hp, hn⟩ := transformIndexConstraint_ok env cxt c _ _ _ _ _ _ hc
        have hinv1 := hinv.append_index index columns1 pkey1
          (by intro hi; rw [hprim] at hi; exact hp (by simpa using hi))
          (by intro hi; rw [hprim] at hi; exact hn (by simpa using hi))
        obtain ⟨hinv2, hcount, ext, hext⟩ := ih _ st1 hinv1 h
        refine ⟨hinv2, ?_, index :: ext, by rw [hext]; simp⟩
        rw [← hcount]
        simp only [primaryConstraints, List.filter_cons]
        by_cases hcp : c.contype = .CONSTR_PRIMARY
        · obtain ⟨hnone, hsome⟩ := hp hcp
          simp [hcp, hnone, hsome, pkeyCount]
        · simp [hcp, hn hcp]

/-- The second loop of `transformIndexConstraints` keeps the link between `pkey` and
`indexlist`, appends the cloned indexes, and passes at most one primary index if
`pkey` is still NULL, none otherwise. -/
theorem inh_indexes_loop_ok {Expr : Type} (cxt : CreateStmtContext Expr) :
    ∀ (indexes : List (IndexStmt Expr)) (st st1 : IndexState Expr), PkeyInv st →
      inh_indexes_loop cxt st indexes = .ok st1 →
      PkeyInv st1 ∧ primaryIndexes indexes + pkeyCount st.pkey = pkeyCount st1.pkey ∧
        st1.indexlist = st.indexlist ++ indexes ∧ st1.columns = st.columns := by
  intro indexes
  induction indexes with
  | nil =>
    intro st st1 hinv h
    simp only [inh_indexes_loop, Except.ok.injEq] at h
    subst h
    exact ⟨hinv, by simp [primaryIndexes], by simp, rfl⟩
  | cons index rest ih =>
    intro st st1 hinv h
    unfold inh_indexes_loop at h
    split at h
    · simp at h
    · rename_i hnot
      have hinv1 := hinv.append_index index st.columns
        (if index.primary = true then some st.indexlist.length else st.pkey)
        (by
          intro hi
          refine ⟨?_, by simp [hi]⟩
          by_contra hne
          exact hnot ⟨hi, hne⟩)
        (by intro hi; simp [hi])
      obtain ⟨hinv2, hcount, hlist, hcols⟩ := ih _ st1 hinv1 h
      refine ⟨hinv2, ?_, by rw [hlist]; simp, hcols⟩
      rw [← hcount]
      simp only [primaryIndexes, List.filter_cons]
      cases hpr : index.primary with
      | false => simp
      | true =>
        have hnone : st.pkey = none := by
          by_contra hne
          exact hnot ⟨hpr, hne⟩
        simp [hnone, pkeyCount]

/-- The empty list of index specifications with `cxt->pkey` NULL. -/
theorem PkeyInv.empty {Expr : Type} (columns : List ColumnDef) :
    PkeyInv ({ columns := columns, pkey := none, indexlist := [] } : IndexState Expr) :=
  ⟨by intro j ix hj; simp at hj, by intro j hj; simp at hj⟩

/-- The first two loops of `transformIndexConstraints`, when they succeed, have met at
most one primary key: `pkey` is its place, and the list holds the index
specifications of the constraints followed by the cloned ones. -/
theorem collect_indexes_ok {Expr : Type} (env : IndexEnv) (cxt : CreateStmtContext Expr)
    (st : IndexState Expr) (h : collect_indexes env cxt = .ok st) :
    PkeyInv st ∧
      primaryConstraints cxt.ixconstraints + primaryIndexes cxt.inh_indexes = pkeyCount st.pkey ∧
      ∃ built, st.indexlist = built ++ cxt.inh_indexes := by
  unfold collect_indexes at h
  split at h
  · simp at h
  · rename_i st0 h0
    obtain ⟨hinv0, hc0, ext, hext⟩ := constraints_loop_ok env cxt _ _ st0 (PkeyInv.empty _) h0
    obtain ⟨hinv1, hc1, hlist, _⟩ := inh_indexes_loop_ok cxt _ st0 st hinv0 h
    refine ⟨hinv1, ?_, ext, by rw [hlist, hext]; simp⟩
    have hzero : pkeyCount (none : Option Nat) = 0 := rfl
    simp only [hzero] at hc0
    omega

/-- Forcing a column to be NOT NULL changes no column name. -/
theorem force_not_null_names (key : String) (columns : List ColumnDef) :
    (force_not_null key columns).map (fun column => column.colname)
      = columns.map (fun column => column.colname) := by
  induction columns with
  | nil => rfl
  | cons column rest ih =>
    unfold force_not_null
    split
    · simp
    · simp [ih]

/-- Whether a column of the given name exists depends on the column names only. -/
theorem any_colname_congr (key : String) (columns columns' : List ColumnDef)
    (h : columns.map (fun column => column.colname) = columns'.map (fun column => column.colname)) :
    columns.any (fun column => decide (column.colname = key))
      = columns'.any (fun column => decide (column.colname = key)) := by
  have hmem : ∀ l : List ColumnDef, (l.any (fun column => decide (column.colname = key)) = true) ↔
      key ∈ l.map (fun column => column.colname) := by
    intro l
    simp only [List.any_eq_true, decide_eq_true_eq, List.mem_map]
  rw [Bool.eq_iff_iff, hmem, hmem, h]

/-- The search for a key column changes no column name, and finds the same whatever
the NOT NULL flags of the columns are. -/
theorem find_key_names {Expr : Type} (env : IndexEnv) (cxt : CreateStmtContext Expr)
    (constraint : Constraint Expr) (key : String) (columns columns' columns1 : List ColumnDef)
    (found : Bool)
    (hnames : columns.map (fun column => column.colname)
      = columns'.map (fun column => column.colname))
    (h : find_key env cxt constraint key columns = .ok (found, columns1)) :
    columns1.map (fun column => column.colname) = columns.map (fun column => column.colname) ∧
      ∃ columns1', find_key env cxt constraint key columns' = .ok (found, columns1') ∧
        columns1'.map (fun column => column.colname)
          = columns'.map (fun column => column.colname) := by
  unfold find_key at h ⊢
  rw [← any_colname_congr key columns columns' hnames]
  by_cases hany : columns.any (fun column => decide (column.colname = key)) = true
  · simp only [hany, ↓reduceIte, Except.ok.injEq, Prod.mk.injEq] at h ⊢
    obtain ⟨rfl, rfl⟩ := h
    refine ⟨?_, _, ⟨rfl, rfl⟩, ?_⟩
    · split
      · rw [force_not_null_names]
      · rfl
    · split
      · rw [force_not_null_names]
      · rfl
  · simp only [hany, Bool.false_eq_true, ↓reduceIte] at h ⊢
    by_cases hsys : env.SystemAttributeByName key cxt.hasoids = true
    · simp only [hsys, ↓reduceIte, Except.ok.injEq, Prod.mk.injEq] at h ⊢
      obtain ⟨rfl, rfl⟩ := h
      exact ⟨rfl, _, ⟨rfl, rfl⟩, rfl⟩
    · simp only [hsys, Bool.false_eq_true, ↓reduceIte] at h ⊢
      cases hinh : find_in_inherited key cxt.inhRelations with
      | error err => rw [hinh] at h; simp at h
      | ok f =>
        rw [hinh] at h
        simp only [Except.ok.injEq, Prod.mk.injEq] at h ⊢
        obtain ⟨rfl, rfl⟩ := h
        exact ⟨rfl, _, ⟨rfl, rfl⟩, rfl⟩

/-- The key loop of `transformIndexConstraint` changes no column name, and succeeds
on the same keys whatever the NOT NULL flags of the columns are. -/
theorem transform_keys_names {Expr : Type} (env : IndexEnv) (cxt : CreateStmtContext Expr)
    (constraint : Constraint Expr) :
    ∀ (keys : List String) (columns columns' columns1 : List ColumnDef)
      (indexParams indexParams1 : List (IndexElem Expr)),
      columns.map (fun column => column.colname) = columns'.map (fun column => column.colname) →
      transform_keys env cxt constraint keys columns indexParams = .ok (columns1, indexParams1) →
      columns1.map (fun column => column.colname) = columns.map (fun column => column.colname) ∧
        ∃ columns1', transform_keys env cxt constraint keys columns' indexParams
          = .ok (columns1', indexParams1) := by
  intro keys
  induction keys with
  | nil =>
    intro columns columns' columns1 indexParams indexParams1 _ h
    simp only [transform_keys, Except.ok.injEq, Prod.mk.injEq] at h
    obtain ⟨rfl, rfl⟩ := h
    exact ⟨rfl, columns', rfl⟩
  | cons key rest ih =>
    intro columns columns' columns1 indexParams indexParams1 hnames h
    unfold transform_keys at h ⊢
    cases hf : find_key env cxt constraint key columns with
    | error err => rw [hf] at h; simp at h
    | ok fc =>
      obtain ⟨found, c1⟩ := fc
      rw [hf] at h
      obtain ⟨hn1, c1', hf', hn1'⟩ := find_key_names env cxt constraint key columns columns' c1
        found hnames hf
      rw [hf']
      simp only at h ⊢
      by_cases hmiss : found = false ∧ cxt.isalter = false
      · simp [hmiss] at h
      · simp only [hmiss, ↓reduceIte] at h ⊢
        by_cases htwice : indexParams.any (fun iparam => decide (iparam.name = some key)) = true
        · simp only [htwice, ↓reduceIte] at h
          split at h <;> simp at h
        · simp only [htwice, Bool.false_eq_true, ↓reduceIte] at h ⊢
          obtain ⟨h1, c2', h2⟩ := ih c1 c1' columns1 _ indexParams1 (by rw [hn1, hn1', hnames]) h
          exact ⟨by rw [h1, hn1], c2', h2⟩

/-- A constraint that `transformIndexConstraint` accepts at the head of the list is
accepted at any place and whatever the NOT NULL flags of the columns are, unless it
is a second PRIMARY KEY; it changes no column name. -/
theorem transformIndexConstraint_alone {Expr : Type} (env : IndexEnv)
    (cxt : CreateStmtContext Expr) (constraint : Constraint Expr)
    (r : IndexStmt Expr × Option Nat × List ColumnDef)
    (h : transformIndexConstraint env cxt constraint 0 none cxt.columns = .ok r)
    (pos : Nat) (pkey : Option Nat) (columns : List ColumnDef)
    (hnames : columns.map (fun column => column.colname)
      = cxt.columns.map (fun column => column.colname))
    (hpk : constraint.contype = .CONSTR_PRIMARY → pkey = none) :
    ∃ r', transformIndexConstraint env cxt constraint pos pkey columns = .ok r' ∧
      r'.2.2.map (fun column => column.colname)
        = cxt.columns.map (fun column => column.colname) := by
  unfold transformIndexConstraint at h ⊢
  have hcond : ¬ (constraint.contype = .CONSTR_PRIMARY ∧ pkey ≠ none) := by
    rintro ⟨h1, h2⟩; exact h2 (hpk h1)
  simp only [hcond, ↓reduceIte]
  simp only [ne_eq, not_true_eq_false, and_false, ↓reduceIte] at h
  have hrest : ∀ keys : List String,
      (if constraint.contype = .CONSTR_EXCLUSION then
        (.ok (({ idxname := constraint.conname
                 accessMethod := constraint.access_method.getD env.DEFAULT_INDEX_TYPE
                 indexParams := constraint.exclusions.map Prod.fst
                 whereClause := constraint.where_clause
                 excludeOpNames := constraint.exclusions.map Prod.snd
                 unique := decide (constraint.contype ≠ .CONSTR_EXCLUSION)
                 primary := decide (constraint.contype = .CONSTR_PRIMARY)
                 isconstraint := true
                 deferrable := constraint.deferrable
                 initdeferred := constraint.initdeferred } : IndexStmt Expr),
               (if constraint.contype = .CONSTR_PRIMARY then some 0 else none), cxt.columns) :
          Except IndexError (IndexStmt Expr × Option Nat × List ColumnDef))
      else
        match transform_keys env cxt constraint keys cxt.columns [] with
        | .error err => .error err
        | .ok (columns1, indexParams) =>
          .ok ({ idxname := constraint.conname
                 accessMethod := constraint.access_method.getD env.DEFAULT_INDEX_TYPE
                 indexParams := indexParams
                 whereClause := constraint.where_clause
                 excludeOpNames := []
                 unique := decide (constraint.contype ≠ .CONSTR_EXCLUSION)
                 primary := decide (constraint.contype = .CONSTR_PRIMARY)
                 isconstraint := true
                 deferrable := constraint.deferrable
                 initdeferred := constraint.initdeferred },
            (if constraint.contype = .CONSTR_PRIMARY then some 0 else none), columns1)) = .ok r →
      ∃ r', (if constraint.contype = .CONSTR_EXCLUSION then
        (.ok (({ idxname := constraint.conname
                 accessMethod := constraint.access_method.getD env.DEFAULT_INDEX_TYPE
                 indexParams := constraint.exclusions.map Prod.fst
                 whereClause := constraint.where_clause
                 excludeOpNames := constraint.exclusions.map Prod.snd
                 unique := decide (constraint.contype ≠ .CONSTR_EXCLUSION)
                 primary := decide (constraint.contype = .CONSTR_PRIMARY)
                 isconstraint := true
                 deferrable := constraint.deferrable
                 initdeferred := constraint.initdeferred } : IndexStmt Expr),
               (if constraint.contype = .CONSTR_PRIMARY then some pos else pkey), columns) :
          Except IndexError (IndexStmt Expr × Option Nat × List ColumnDef))
      else
        match transform_keys env cxt constraint keys columns [] with
        | .error err => .error err
        | .ok (columns1, indexParams) =>
          .ok ({ idxname := constraint.conname
                 accessMethod := constraint.access_method.getD env.DEFAULT_INDEX_TYPE
                 indexParams := indexParams
                 whereClause := constraint.where_clause
                 excludeOpNames := []
                 unique := decide (constraint.contype ≠ .CONSTR_EXCLUSION)
                 primary := decide (constraint.contype = .CONSTR_PRIMARY)
                 isconstraint := true
                 deferrable := constraint.deferrable
                 initdeferred := constraint.initdeferred },
            (if constraint.contype = .CONSTR_PRIMARY then some pos else pkey), columns1)) = .ok r' ∧
        r'.2.2.map (fun column => column.colname)
          = cxt.columns.map (fun column => column.colname) := by
    intro keys hk
    by_cases hex : constraint.contype = .CONSTR_EXCLUSION
    · simp only [hex, ↓reduceIte]
      exact ⟨_, rfl, hnames⟩
    · simp only [hex, ↓reduceIte] at hk ⊢
      cases ht : transform_keys env cxt constraint keys cxt.columns [] with
      | error err => rw [ht] at hk; simp at hk
      | ok cp =>
        obtain ⟨columns1, indexParams1⟩ := cp
        obtain ⟨_, c1', h2⟩ := transform_keys_names env cxt constraint keys cxt.columns columns
          columns1 [] indexParams1 hnames.symm ht
        obtain ⟨h3, _⟩ := transform_keys_names env cxt constraint keys columns columns
          c1' [] indexParams1 rfl h2
        rw [h2]
        exact ⟨_, rfl, by simp only; rw [h3, hnames]⟩
  cases hi : constraint.indexname with
  | none =>
    rw [hi] at h
    exact hrest constraint.keys h
  | some indexName =>
    rw [hi] at h
    simp only at h ⊢
    by_cases halter : cxt.isalter = false
    · simp [halter] at h
    · simp only [halter, ↓reduceIte] at h ⊢
      cases hx : env.existingIndexKeys indexName with
      | error err => rw [hx] at h; simp at h
      | ok names =>
        rw [hx] at h
        exact hrest (constraint.keys ++ names) h

/-- The first loop of `transformIndexConstraints` over constraints each of which passes
its checks when it stands alone: it fails exactly at a second primary key, with the
"multiple primary keys" error of the statement type. -/
theorem constraints_loop_alone {Expr : Type} (env : IndexEnv) (cxt : CreateStmtContext Expr) :
    ∀ (constraints : List (Constraint Expr)) (st : IndexState Expr),
      st.columns.map (fun column => column.colname)
        = cxt.columns.map (fun column => column.colname) →
      (∀ c ∈ constraints, check_partition_key cxt c = .ok () ∧
        ∃ r, transformIndexConstraint env cxt c 0 none cxt.columns = .ok r) →
      (pkeyCount st.pkey + primaryConstraints constraints ≤ 1 →
        ∃ st1, constraints_loop env cxt st constraints = .ok st1) ∧
      (1 < pkeyCount st.pkey + primaryConstraints constraints →
        constraints_loop env cxt st constraints =
          .error (if cxt.foreignStmt = true then .multiplePrimaryKeysForeign cxt.relname
            else .multiplePrimaryKeys cxt.relname)) := by
  intro constraints
  induction constraints with
  | nil =>
    intro st _ _
    refine ⟨fun _ => ⟨st, rfl⟩, fun h => ?_⟩
    have : pkeyCount st.pkey ≤ 1 := by unfold pkeyCount; split <;> omega
    simp [primaryConstraints] at h
    omega
  | cons c rest ih =>
    intro st hnames hall
    obtain ⟨hcheck, r, hr⟩ := hall c (List.mem_cons_self _ _)
    have hall' : ∀ c' ∈ rest, check_partition_key cxt c' = .ok () ∧
        ∃ r, transformIndexConstraint env cxt c' 0 none cxt.columns = .ok r :=
      fun c' hc' => hall c' (List.mem_cons_of_mem _ hc')
    have hcount : primaryConstraints (c :: rest)
        = (if c.contype = .CONSTR_PRIMARY then 1 else 0) + primaryConstraints rest := by
      simp only [primaryConstraints, List.filter_cons]
      by_cases hcp : c.contype = .CONSTR_PRIMARY
      · simp [hcp]; omega
      · simp [hcp]
    unfold constraints_loop
    rw [hcheck]
    simp only
    by_cases hsecond : c.contype = .CONSTR_PRIMARY ∧ st.pkey ≠ none
    · have herr : transformIndexConstraint env cxt c st.indexlist.length st.pkey st.columns
          = .error (if cxt.foreignStmt = true then .multiplePrimaryKeysForeign cxt.relname
            else .multiplePrimaryKeys cxt.relname) := by
        unfold transformIndexConstraint
        simp only [hsecond, ne_eq, not_false_eq_true, and_self, ↓reduceIte]
        split <;> rfl
      rw [herr]
      have hone : pkeyCount st.pkey = 1 := by
        unfold pkeyCount
        split
        · rfl
        · exact absurd ‹st.pkey = none› hsecond.2
      refine ⟨fun h => ?_, fun _ => rfl⟩
      rw [hcount, hone] at h
      simp [hsecond.1] at h
    · obtain ⟨r', hr', hn'⟩ := transformIndexConstraint_alone env cxt c r hr st.indexlist.length
        st.pkey st.columns hnames
        (by intro hcp; by_contra hne; exact hsecond ⟨hcp, hne⟩)
      obtain ⟨index, pkey1, columns1⟩ := r'
      rw [hr']
      simp only
      obtain ⟨_, _, _, hp, hn⟩ := transformIndexConstraint_ok env cxt c _ _ _ _ _ _ hr'
      have hpk : pkeyCount pkey1 + primaryConstraints rest
          = pkeyCount st.pkey + primaryConstraints (c :: rest) := by
        rw [hcount]
        by_cases hcp : c.contype = .CONSTR_PRIMARY
        · obtain ⟨hnone, hsome⟩ := hp hcp
          simp [hcp, hnone, hsome, pkeyCount]
        · simp [hcp, hn hcp]
      have := ih { columns := columns1, pkey := pkey1, indexlist := st.indexlist ++ [index] }
        hn' hall'
      simp only at this
      rw [hpk] at this
      exact this

/-- The second loop of `transformIndexConstraints`: it fails exactly at a second
primary key, with "multiple primary keys for table". -/
theorem inh_indexes_loop_total {Expr : Type} (cxt : CreateStmtContext Expr) :
    ∀ (indexes : List (IndexStmt Expr)) (st : IndexState Expr),
      (pkeyCount st.pkey + primaryIndexes indexes ≤ 1 →
        ∃ st1, inh_indexes_loop cxt st indexes = .ok st1) ∧
      (1 < pkeyCount st.pkey + primaryIndexes indexes →
        inh_indexes_loop cxt st indexes = .error (.multiplePrimaryKeys cxt.relname)) := by
  intro indexes
  induction indexes with
  | nil =>
    intro st
    refine ⟨fun _ => ⟨st, rfl⟩, fun h => ?_⟩
    have : pkeyCount st.pkey ≤ 1 := by unfold pkeyCount; split <;> omega
    simp [primaryIndexes] at h
    omega
  | cons index rest ih =>
    intro st
    have hcount : primaryIndexes (index :: rest)
        = (if index.primary = true then 1 else 0) + primaryIndexes rest := by
      simp only [primaryIndexes, List.filter_cons]
      cases index.primary with
      | false => simp
      | true => simp; omega
    unfold inh_indexes_loop
    by_cases hsecond : index.primary = true ∧ st.pkey ≠ none
    · simp only [hsecond, ne_eq, not_false_eq_true, and_self, ↓reduceIte]
      have hone : pkeyCount st.pkey = 1 := by
        unfold pkeyCount
        split
        · rfl
        · exact absurd ‹st.pkey = none› hsecond.2
      refine ⟨fun h => ?_, fun _ => trivial⟩
      rw [hcount, hone] at h
      simp [hsecond.1] at h
    · simp only [hsecond, ↓reduceIte]
      have hpk : pkeyCount (if index.primary = true then some st.indexlist.length else st.pkey)
          + primaryIndexes rest = pkeyCount st.pkey + primaryIndexes (index :: rest) := by
        rw [hcount]
        cases hpr : index.primary with
        | false => simp
        | true =>
          have hnone : st.pkey = none := by
            by_contra hne
            exact hsecond ⟨hpr, hne⟩
          simp [hnone, pkeyCount]
      have := ih { st with
        pkey := if index.primary = true then some st.indexlist.length else st.pkey
        indexlist := st.indexlist ++ [index] }
      simp only at this
      rw [hpk] at this
      exact this

/-- The inner loop of `transformIndexConstraints` leaves `keep` true exactly if the
index is redundant with no prior index. -/
theorem merge_into_prior_none {Expr : Type} [DecidableEq Expr] (index : IndexStmt Expr) :
    ∀ alist : List (IndexStmt Expr),
      merge_into_prior index alist = none ↔ ∀ p ∈ alist, redundant index p = false := by
  intro alist
  induction alist with
  | nil => simp [merge_into_prior]
  | cons p rest ih =>
    unfold merge_into_prior
    by_cases hr : redundant index p = true
    · simp [hr]
    · simp only [hr, Bool.false_eq_true, ↓reduceIte, List.mem_cons, forall_eq_or_imp]
      cases hm : merge_into_prior index rest with
      | none =>
        simp only [true_iff]
        exact ⟨by simp [hr], ih.mp hm⟩
      | some rest1 =>
        simp only [reduceCtorEq, false_iff, not_and]
        intro _ hall
        rw [ih.mpr hall] at hm
        simp at hm

/-- The inner loop of `transformIndexConstraints`, when it merges: the first prior
index that the index is redundant with is replaced by the merged one, and nothing
else changes. -/
theorem merge_into_prior_some {Expr : Type} [DecidableEq Expr] (index : IndexStmt Expr) :
    ∀ alist alist1 : List (IndexStmt Expr), merge_into_prior index alist = some alist1 →
      ∃ pre p post, alist = pre ++ p :: post ∧ (∀ q ∈ pre, redundant index q = false) ∧
        redundant index p = true ∧ alist1 = pre ++ merged p index :: post := by
  intro alist
  induction alist with
  | nil => intro alist1 h; simp [merge_into_prior] at h
  | cons p rest ih =>
    intro alist1 h
    unfold merge_into_prior at h
    by_cases hr : redundant index p = true
    · simp only [hr, ↓reduceIte, Option.some.injEq] at h
      exact ⟨[], p, rest, rfl, by simp, hr, by rw [← h]; rfl⟩
    · simp only [hr, Bool.false_eq_true, ↓reduceIte] at h
      cases hm : merge_into_prior index rest with
      | none => rw [hm] at h; simp at h
      | some rest1 =>
        rw [hm] at h
        simp only [Option.some.injEq] at h
        obtain ⟨pre, q, post, hl, hpre, hq, hl1⟩ := ih rest1 hm
        refine ⟨p :: pre, q, post, by rw [hl]; rfl, ?_, hq, by rw [← h, hl1]; rfl⟩
        intro x hx
        rcases List.mem_cons.mp hx with hx | hx
        · subst hx; simp at hr; simp [hr]
        · exact hpre x hx

/-- A property of `cxt->alist` that is kept when an index is appended and when an
index is merged into a prior one holds after the merge loop. -/
theorem dedup_loop_induction {Expr : Type} [DecidableEq Expr] (pkey : Option Nat)
    (isResizing : Bool) (P : List (IndexStmt Expr) → Prop) (Good : IndexStmt Expr → Prop)
    (happ : ∀ l x, P l → Good x → P (l ++ [x]))
    (hmerge : ∀ pre p post x, P (pre ++ p :: post) → Good x → redundant x p = true →
      P (pre ++ merged p x :: post)) :
    ∀ (rest : List (IndexStmt Expr)) (i : Nat) (alist : List (IndexStmt Expr)), P alist →
      (∀ k ix, rest[k]? = some ix → pkey ≠ some (i + k) → Good ix) →
      P (dedup_loop pkey isResizing i rest alist) := by
  intro rest
  induction rest with
  | nil => intro i alist hP _; exact hP
  | cons index rest ih =>
    intro i alist hP hgood
    have hrest : ∀ k ix, rest[k]? = some ix → pkey ≠ some (i + 1 + k) → Good ix := by
      intro k ix hk hne
      exact hgood (k + 1) ix (by simpa using hk) (by rw [show i + (k + 1) = i + 1 + k by omega]; exact hne)
    unfold dedup_loop
    by_cases hpk : pkey = some i
    · simp only [hpk, ↓reduceIte]
      rw [hpk] at ih
      exact ih (i + 1) alist hP (by rw [← hpk]; exact hrest)
    · have hg : Good index := hgood 0 index (by simp) (by simpa using hpk)
      simp only [hpk, ↓reduceIte]
      cases isResizing with
      | true =>
        simp only [↓reduceIte]
        exact ih (i + 1) _ (happ alist index hP hg) hrest
      | false =>
        simp only [Bool.false_eq_true, ↓reduceIte]
        cases hm : merge_into_prior index alist with
        | none => exact ih (i + 1) _ (happ alist index hP hg) hrest
        | some alist1 =>
          obtain ⟨pre, p, post, hl, _, hp, hl1⟩ := merge_into_prior_some index alist alist1 hm
          simp only
          rw [hl1]
          exact ih (i + 1) _ (hmerge pre p post index (by rw [← hl]; exact hP) hg hp) hrest

/-! ## Index constraints: the merge loop -/

/-- An index is redundant with a prior one exactly if the two agree on what the merge
loop compares. -/
theorem redundant_iff {Expr : Type} [DecidableEq Expr] (index priorindex : IndexStmt Expr) :
    redundant index priorindex = true ↔ specKey index = specKey priorindex := by
  simp only [redundant, equal, specKey, Bool.and_eq_true, decide_eq_true_eq, Prod.mk.injEq]
  tauto

/-- Merging an index into a prior one changes neither what the merge loop compares
nor the primary flag. -/
theorem specKey_merged {Expr : Type} (priorindex index : IndexStmt Expr) :
    specKey (merged priorindex index) = specKey priorindex ∧
      (merged priorindex index).primary = priorindex.primary :=
  ⟨rfl, rfl⟩

/-- One round of the merge loop, seen on the index specifications of one kind. -/
theorem sameSpec_step {Expr : Type} [DecidableEq Expr]
    (K : List (IndexElem Expr) × Option Expr × List (List String) × String × Bool × Bool)
    (index : IndexStmt Expr) (alist : List (IndexStmt Expr)) :
    sameSpec K (match merge_into_prior index alist with
        | some alist1 => alist1
        | none => alist ++ [index])
      = if specKey index = K then class_fold [index] (sameSpec K alist) else sameSpec K alist := by
  have hfilter_none : ∀ l : List (IndexStmt Expr), (∀ q ∈ l, redundant index q = false) →
      specKey index = K → sameSpec K l = [] := by
    intro l hl hk
    unfold sameSpec
    rw [List.filter_eq_nil_iff]
    intro q hq
    have := hl q hq
    rw [Bool.eq_false_iff, ne_eq, redundant_iff, hk] at this
    simp only [decide_eq_true_eq]
    exact fun h => this h.symm
  cases hm : merge_into_prior index alist with
  | none =>
    have hall := (merge_into_prior_none index alist).mp hm
    simp only
    by_cases hk : specKey index = K
    · simp only [hk, ↓reduceIte]
      have h0 := hfilter_none alist hall hk
      unfold sameSpec at h0 ⊢
      rw [List.filter_append, h0]
      simp [hk, class_fold]
    · simp only [hk, ↓reduceIte]
      unfold sameSpec
      rw [List.filter_append]
      simp [hk]
  | some alist1 =>
    obtain ⟨pre, p, post, hl, hpre, hp, hl1⟩ := merge_into_prior_some index alist alist1 hm
    simp only
    rw [hl1, hl]
    have hpk : specKey p = specKey index := ((redundant_iff index p).mp hp).symm
    by_cases hk : specKey index = K
    · simp only [hk, ↓reduceIte]
      have h0 := hfilter_none pre hpre hk
      unfold sameSpec at h0 ⊢
      rw [List.filter_append, List.filter_append, h0]
      have h1 : decide (specKey (merged p index) = K) = true := by
        rw [(specKey_merged p index).1, hpk, hk]; simp
      have h2 : decide (specKey p = K) = true := by rw [hpk, hk]; simp
      simp [List.filter_cons, h1, h2, class_fold]
    · simp only [hk, ↓reduceIte]
      unfold sameSpec
      rw [List.filter_append, List.filter_append]
      have h1 : decide (specKey (merged p index) = K) = false := by
        rw [(specKey_merged p index).1, hpk]; simp [hk]
      have h2 : decide (specKey p = K) = false := by rw [hpk]; simp [hk]
      simp [List.filter_cons, h1, h2]

/-- Folding a list of index specifications in two parts. -/
theorem class_fold_cons {Expr : Type} (index : IndexStmt Expr)
    (rest acc : List (IndexStmt Expr)) :
    class_fold (index :: rest) acc = class_fold rest (class_fold [index] acc) := by
  cases acc with
  | nil => simp [class_fold]
  | cons p ps => simp [class_fold]

/-- Outside cluster-resize mode, the merge loop seen on the index specifications of one
kind, the node `cxt->pkey` not being of that kind: the first one stays, and each
later one is merged into it. -/
theorem dedup_loop_sameSpec {Expr : Type} [DecidableEq Expr] (pkey : Option Nat)
    (K : List (IndexElem Expr) × Option Expr × List (List String) × String × Bool × Bool) :
    ∀ (rest : List (IndexStmt Expr)) (i : Nat) (alist : List (IndexStmt Expr)),
      (∀ k ix, rest[k]? = some ix → pkey = some (i + k) → specKey ix ≠ K) →
      sameSpec K (dedup_loop pkey false i rest alist)
        = class_fold (sameSpec K rest) (sameSpec K alist) := by
  intro rest
  induction rest with
  | nil => intro i alist _; simp [dedup_loop, sameSpec, class_fold]
  | cons index rest ih =>
    intro i alist hpk
    have hrest : ∀ k ix, rest[k]? = some ix → pkey = some (i + 1 + k) → specKey ix ≠ K := by
      intro k ix hk he
      exact hpk (k + 1) ix (by simpa using hk) (by rw [he]; congr 1; omega)
    unfold dedup_loop
    by_cases hi : pkey = some i
    · simp only [hi, ↓reduceIte]
      have hne : specKey index ≠ K := hpk 0 index (by simp) (by simpa using hi)
      rw [hi] at ih hrest
      rw [ih (i + 1) alist hrest]
      congr 1
      unfold sameSpec
      simp [List.filter_cons, hne]
    · simp only [hi, ↓reduceIte, Bool.false_eq_true]
      have hstep := sameSpec_step K index alist
      have hcons : sameSpec K (index :: rest)
          = if specKey index = K then index :: sameSpec K rest else sameSpec K rest := by
        unfold sameSpec
        by_cases hk : specKey index = K
        · simp [List.filter_cons, hk]
        · simp [List.filter_cons, hk]
      cases hm : merge_into_prior index alist with
      | none =>
        rw [hm] at hstep
        simp only at hstep ⊢
        rw [ih (i + 1) _ hrest, hstep, hcons]
        by_cases hk : specKey index = K
        · simp only [hk, ↓reduceIte]
          exact (class_fold_cons index _ _).symm
        · simp only [hk, ↓reduceIte]
      | some alist1 =>
        rw [hm] at hstep
        simp only at hstep ⊢
        rw [ih (i + 1) _ hrest, hstep, hcons]
        by_cases hk : specKey index = K
        · simp only [hk, ↓reduceIte]
          exact (class_fold_cons index _ _).symm
        · simp only [hk, ↓reduceIte]

/-- The list `cxt->alist` after the merge loop, when the primary indexes of
`indexlist` sit exactly at the place `pkey`: without a primary key no entry is
primary; with one, the list starts with the primary-key node, which may have taken
a name and the unique flag from merged entries, and no other entry is primary. -/
theorem dedup_loop_primary {Expr : Type} [DecidableEq Expr] (st : IndexState Expr)
    (hinv : PkeyInv st) (isResizing : Bool) :
    (st.pkey = none →
      ∀ x ∈ dedup_loop st.pkey isResizing 0 st.indexlist [], x.primary = false) ∧
    (∀ i, st.pkey = some i → ∃ pk, st.indexlist[i]? = some pk ∧ pk.primary = true ∧
      ∃ u n rest, dedup_loop st.pkey isResizing 0 st.indexlist [pk]
          = { pk with unique := u, idxname := n } :: rest ∧
        (pk.unique = true → u = true) ∧ (∀ name, pk.idxname = some name → n = some name) ∧
        ∀ r ∈ rest, r.primary = false) := by
  have hgood : ∀ k ix, st.indexlist[k]? = some ix → st.pkey ≠ some (0 + k) →
      ix.primary = false := by
    intro k ix hk hne
    rw [Nat.zero_add] at hne
    have := hinv.primary_iff k ix hk
    cases hp : ix.primary with
    | false => rfl
    | true => exact absurd (this.mp hp) hne
  constructor
  · intro _
    apply dedup_loop_induction st.pkey isResizing
      (fun l => ∀ x ∈ l, x.primary = false) (fun x => x.primary = false)
    · intro l x hl hx y hy
      rcases List.mem_append.mp hy with hy | hy
      · exact hl y hy
      · simp only [List.mem_singleton] at hy; subst hy; exact hx
    · intro pre p post x hl _ _ y hy
      rcases List.mem_append.mp hy with hy | hy
      · exact hl y (List.mem_append_left _ hy)
      · rcases List.mem_cons.mp hy with hy | hy
        · subst hy
          exact hl p (List.mem_append_right _ (List.mem_cons_self _ _))
        · exact hl y (List.mem_append_right _ (List.mem_cons_of_mem _ hy))
    · intro x hx; simp at hx
    · exact hgood
  · intro i hi
    have hlt := hinv.bound i hi
    obtain ⟨pk, hpk⟩ : ∃ pk, st.indexlist[i]? = some pk :=
      ⟨st.indexlist[i], List.getElem?_eq_getElem hlt⟩
    have hprim : pk.primary = true := (hinv.primary_iff i pk hpk).mpr hi
    refine ⟨pk, hpk, hprim, ?_⟩
    apply dedup_loop_induction st.pkey isResizing
      (fun l => ∃ u n rest, l = { pk with unique := u, idxname := n } :: rest ∧
        (pk.unique = true → u = true) ∧ (∀ name, pk.idxname = some name → n = some name) ∧
        ∀ r ∈ rest, r.primary = false) (fun x => x.primary = false)
    · rintro l x ⟨u, n, rest, hl, hu, hn, hrest⟩ hx
      refine ⟨u, n, rest ++ [x], by rw [hl]; rfl, hu, hn, ?_⟩
      intro y hy
      rcases List.mem_append.mp hy with hy | hy
      · exact hrest y hy
      · simp only [List.mem_singleton] at hy; subst hy; exact hx
    · rintro pre p post x ⟨u, n, rest, hl, hu, hn, hrest⟩ _ _
      cases pre with
      | nil =>
        simp only [List.nil_append, List.cons.injEq] at hl
        obtain ⟨hp, hpost⟩ := hl
        subst hp hpost
        refine ⟨u || x.unique, if n = none then x.idxname else n, post, rfl, ?_, ?_, hrest⟩
        · intro h; simp [hu h]
        · intro name h; simp [hn name h]
      | cons q pre' =>
        simp only [List.cons_append, List.cons.injEq] at hl
        obtain ⟨hq, hrest'⟩ := hl
        subst hq
        refine ⟨u, n, pre' ++ merged p x :: post, rfl, hu, hn, ?_⟩
        intro y hy
        rcases List.mem_append.mp hy with hy | hy
        · exact hrest y (by rw [← hrest']; exact List.mem_append_left _ hy)
        · rcases List.mem_cons.mp hy with hy | hy
          · subst hy
            exact hrest p (by rw [← hrest']; exact List.mem_append_right _ (List.mem_cons_self _ _))
          · exact hrest y (by rw [← hrest']; exact List.mem_append_right _ (List.mem_cons_of_mem _ hy))
    · exact ⟨pk.unique, pk.idxname, [], rfl, fun h => h, fun _ h => h, by simp⟩
    · exact hgood

/-- C18: `transformIndexConstraints` fails whenever the PRIMARY KEY constraints of the
statement together with the primary indexes cloned by LIKE ... INCLUDING INDEXES
number more than one; the error is "multiple primary keys" (in its wording for a
foreign table if a second PRIMARY KEY constraint of a foreign-table statement raises
it) provided that no other check of a constraint fails first, that is, provided that
every constraint passes the partition-key check and is accepted by
`transformIndexConstraint` when it stands alone. Consequently, on success at most
one index specification of the output is primary. -/
theorem transformIndexConstraints_multiple_primary_keys {Expr : Type} [DecidableEq Expr]
    (env : IndexEnv) (cxt : CreateStmtContext Expr) :
    (1 < primaryConstraints cxt.ixconstraints + primaryIndexes cxt.inh_indexes →
      (∃ err, transformIndexConstraints env cxt = .error err) ∧
      ((∀ c ∈ cxt.ixconstraints, check_partition_key cxt c = .ok () ∧
          ∃ r, transformIndexConstraint env cxt c 0 none cxt.columns = .ok r) →
        transformIndexConstraints env cxt =
          .error (if cxt.foreignStmt = true ∧ 1 < primaryConstraints cxt.ixconstraints then
            .multiplePrimaryKeysForeign cxt.relname else .multiplePrimaryKeys cxt.relname))) ∧
    (∀ out, transformIndexConstraints env cxt = .ok out → primaryIndexes out.alist ≤ 1) := by
  constructor
  · intro hmany
    constructor
    · cases hc : collect_indexes env cxt with
      | error err => exact ⟨err, by unfold transformIndexConstraints; rw [hc]⟩
      | ok st =>
        obtain ⟨_, hcount, _⟩ := collect_indexes_ok env cxt st hc
        have : pkeyCount st.pkey ≤ 1 := by unfold pkeyCount; split <;> omega
        omega
    · intro hall
      have h1 := constraints_loop_alone env cxt cxt.ixconstraints
        { columns := cxt.columns, pkey := none, indexlist := [] } rfl hall
      have hzero : pkeyCount (none : Option Nat) = 0 := rfl
      simp only [hzero, Nat.zero_add] at h1
      unfold transformIndexConstraints collect_indexes
      by_cases hcs : 1 < primaryConstraints cxt.ixconstraints
      · rw [h1.2 hcs]
        simp only [hcs, and_true]
      · obtain ⟨st1, hst1⟩ := h1.1 (by omega)
        rw [hst1]
        obtain ⟨_, hcount, _⟩ := constraints_loop_ok env cxt _ _ st1 (PkeyInv.empty _) hst1
        rw [hzero] at hcount
        simp only
        rw [(inh_indexes_loop_total cxt cxt.inh_indexes st1).2 (by omega)]
        simp only [hcs, and_false, Bool.false_eq_true, ↓reduceIte]
  · intro out h
    unfold transformIndexConstraints at h
    cases hc : collect_indexes env cxt with
    | error err => rw [hc] at h; simp at h
    | ok st =>
      rw [hc] at h
      simp only [Except.ok.injEq] at h
      subst h
      obtain ⟨hinv, _, _⟩ := collect_indexes_ok env cxt st hc
      obtain ⟨hnone, hsome⟩ := dedup_loop_primary st hinv cxt.isResizing
      simp only
      cases hp : st.pkey with
      | none =>
        rw [hp] at hnone
        have : primaryIndexes (dedup_loop none cxt.isResizing 0 st.indexlist []) = 0 := by
          unfold primaryIndexes
          rw [List.length_eq_zero, List.filter_eq_nil_iff]
          intro x hx
          simp [hnone rfl x hx]
        simp only [this]
        omega
      | some i =>
        obtain ⟨pk, hpk, _, u, n, rest, hl, _, _, hrest⟩ := hsome i hp
        rw [hp] at hl
        simp only [hpk, Option.toList_some, hl]
        have : (rest.filter (fun index => index.primary)) = [] := by
          rw [List.filter_eq_nil_iff]
          intro x hx
          simp [hrest x hx]
        unfold primaryIndexes
        rw [List.filter_cons, this]
        split <;> simp

/-- C18 at a sample: two PRIMARY KEY constraints in CREATE TABLE `t (a, b)`. -/
theorem transformIndexConstraints_multiple_primary_keys_witness :
    transformIndexConstraints sampleIndexEnv
        (sampleContext [sampleConstraint .CONSTR_PRIMARY none ["a"],
          sampleConstraint .CONSTR_PRIMARY (some "k") ["b"]] [] false)
      = .error (.multiplePrimaryKeys "t") :=
  ((transformIndexConstraints_multiple_primary_keys sampleIndexEnv
    (sampleContext [sampleConstraint .CONSTR_PRIMARY none ["a"],
      sampleConstraint .CONSTR_PRIMARY (some "k") ["b"]] [] false)).1 (by decide)).2
    (by
      intro c hc
      simp only [sampleContext, List.mem_cons, List.mem_singleton, List.not_mem_nil,
        or_false] at hc
      rcases hc with rfl | rfl
      · exact ⟨rfl, _, rfl⟩
      · exact ⟨rfl, _, rfl⟩)

/-- C20: if a primary-key index is present (from a PRIMARY KEY constraint or a cloned
primary index) and `transformIndexConstraints` succeeds, the index list it produces
starts with the primary-key node and holds it exactly once: the first entry is that
node, which keeps its own name and unique flag if it has them and otherwise may have
taken them from index specifications merged into it, and no other entry is primary.
This holds in both modes, and whatever other index specifications look the same to
the merge loop. -/
theorem transformIndexConstraints_primary_first {Expr : Type} [DecidableEq Expr]
    (env : IndexEnv) (cxt : CreateStmtContext Expr) (out : IndexOutcome Expr)
    (hpresent : 0 < primaryConstraints cxt.ixconstraints + primaryIndexes cxt.inh_indexes)
    (h : transformIndexConstraints env cxt = .ok out) :
    ∃ st i pk, collect_indexes env cxt = .ok st ∧ st.pkey = some i ∧
      st.indexlist[i]? = some pk ∧ pk.primary = true ∧
      ∃ u n rest, out.alist = { pk with unique := u, idxname := n } :: rest ∧
        (pk.unique = true → u = true) ∧ (∀ name, pk.idxname = some name → n = some name) ∧
        (∀ r ∈ rest, r.primary = false) ∧ primaryIndexes out.alist = 1 := by
  unfold transformIndexConstraints at h
  cases hc : collect_indexes env cxt with
  | error err => rw [hc] at h; simp at h
  | ok st =>
    rw [hc] at h
    simp only [Except.ok.injEq] at h
    subst h
    obtain ⟨hinv, hcount, _⟩ := collect_indexes_ok env cxt st hc
    obtain ⟨_, hsome⟩ := dedup_loop_primary st hinv cxt.isResizing
    cases hp : st.pkey with
    | none => rw [hp] at hcount; simp only [pkeyCount] at hcount; omega
    | some i =>
      obtain ⟨pk, hpk, hprim, u, n, rest, hl, hu, hn, hrest⟩ := hsome i hp
      rw [hp] at hl
      refine ⟨st, i, pk, rfl, hp, hpk, hprim, u, n, rest, ?_, hu, hn, hrest, ?_⟩
      · simp only [hp, hpk, Option.toList_some, hl]
      · simp only [hp, hpk, Option.toList_some, hl]
        have : (rest.filter (fun index => index.primary)) = [] := by
          rw [List.filter_eq_nil_iff]
          intro x hx
          simp [hrest x hx]
        unfold primaryIndexes
        rw [List.filter_cons, this]
        simp [hprim]

/-- C20 at a sample: UNIQUE `u` on `a` written in front of an unnamed PRIMARY KEY on
`a`, and a UNIQUE `v` on `b`: the primary key comes first, once, under the name `u`. -/
theorem transformIndexConstraints_primary_first_witness :
    ∃ st i pk, collect_indexes sampleIndexEnv
        (sampleContext [sampleConstraint .CONSTR_UNIQUE (some "u") ["a"],
          sampleConstraint .CONSTR_PRIMARY none ["a"],
          sampleConstraint .CONSTR_UNIQUE (some "v") ["b"]] [] false) = .ok st ∧
      st.pkey = some i ∧ st.indexlist[i]? = some pk ∧ pk.primary = true ∧
      ∃ u n rest,
        [{ idxname := some "u", accessMethod := "btree", indexParams := [columnElem "a"],
            whereClause := none, excludeOpNames := [], unique := true, primary := true,
            isconstraint := true, deferrable := false, initdeferred := false },
          { idxname := some "v", accessMethod := "btree", indexParams := [columnElem "b"],
            whereClause := none, excludeOpNames := [], unique := true, primary := false,
            isconstraint := true, deferrable := false, initdeferred := false }]
          = ({ pk with unique := u, idxname := n } : IndexStmt String) :: rest ∧
        (pk.unique = true → u = true) ∧ (∀ name, pk.idxname = some name → n = some name) ∧
        (∀ r ∈ rest, r.primary = false) ∧
        primaryIndexes
          [({ idxname := some "u", accessMethod := "btree", indexParams := [columnElem "a"],
              whereClause := none, excludeOpNames := [], unique := true, primary := true,
              isconstraint := true, deferrable := false, initdeferred := false } :
              IndexStmt String),
            { idxname := some "v", accessMethod := "btree", indexParams := [columnElem "b"],
              whereClause := none, excludeOpNames := [], unique := true, primary := false,
              isconstraint := true, deferrable := false, initdeferred := false }] = 1 :=
  transformIndexConstraints_primary_first sampleIndexEnv
    (sampleContext [sampleConstraint .CONSTR_UNIQUE (some "u") ["a"],
      sampleConstraint .CONSTR_PRIMARY none ["a"],
      sampleConstraint .CONSTR_UNIQUE (some "v") ["b"]] [] false)
    ⟨[{ idxname := some "u", accessMethod := "btree", indexParams := [columnElem "a"],
          whereClause := none, excludeOpNames := [], unique := true, primary := true,
          isconstraint := true, deferrable := false, initdeferred := false },
        { idxname := some "v", accessMethod := "btree", indexParams := [columnElem "b"],
          whereClause := none, excludeOpNames := [], unique := true, primary := false,
          isconstraint := true, deferrable := false, initdeferred := false }],
      [{ colname := "a", is_not_null := true }, { colname := "b", is_not_null := false }]⟩
    (by decide) rfl

/-- C19: when `transformIndexConstraints`, outside cluster-resize mode, processes two
index specifications `a` and `b`, in this order, that are UNIQUE, not primary and
structurally identical (same key elements, predicate, excluded operators, access
method and deferrability), no other collected index specification being
structurally identical to them, then exactly one index specification of that same
kind results; it is flagged unique, and it bears the name of `a` if `a` has one
and the name of `b` otherwise: if one of the two has an explicit name and the
other has none, the result carries that name, whichever of the two comes first. -/
theorem transformIndexConstraints_merges_unique {Expr : Type} [DecidableEq Expr]
    (env : IndexEnv) (cxt : CreateStmtContext Expr) (st : IndexState Expr)
    (a b : IndexStmt Expr) (hc : collect_indexes env cxt = .ok st)
    (hres : cxt.isResizing = false) (hab : sameSpec (specKey a) st.indexlist = [a, b])
    (hau : a.unique = true) (_hbu : b.unique = true) (hap : a.primary = false)
    (hbp : b.primary = false) :
    ∃ out, transformIndexConstraints env cxt = .ok out ∧
      sameSpec (specKey a) out.alist = [merged a b] ∧
      (merged a b).unique = true ∧ specKey (merged a b) = specKey a ∧
      (∀ name, a.idxname = some name → b.idxname = none →
        (merged a b).idxname = some name) ∧
      (∀ name, a.idxname = none → b.idxname = some name →
        (merged a b).idxname = some name) := by
  obtain ⟨hinv, _, _⟩ := collect_indexes_ok env cxt st hc
  have hmem : ∀ ix ∈ st.indexlist, specKey ix = specKey a → ix.primary = false := by
    intro ix hix hk
    have : ix ∈ sameSpec (specKey a) st.indexlist := by
      unfold sameSpec
      rw [List.mem_filter]
      exact ⟨hix, by simpa using hk⟩
    rw [hab] at this
    simp only [List.mem_cons, List.mem_singleton, List.not_mem_nil, or_false] at this
    rcases this with rfl | rfl
    · exact hap
    · exact hbp
  have hpk : ∀ k ix, st.indexlist[k]? = some ix → st.pkey = some (0 + k) →
      specKey ix ≠ specKey a := by
    intro k ix hk hp hkey
    rw [Nat.zero_add] at hp
    have h1 := (hinv.primary_iff k ix hk).mpr hp
    have h2 := hmem ix (List.getElem?_mem hk) hkey
    rw [h1] at h2
    simp at h2
  have hinit : sameSpec (specKey a) (match st.pkey with
      | some i => (st.indexlist[i]?).toList
      | none => []) = [] := by
    cases hp : st.pkey with
    | none => rfl
    | some i =>
      simp only
      cases hi : st.indexlist[i]? with
      | none => rfl
      | some pk =>
        have := hpk i pk hi (by rw [hp, Nat.zero_add])
        simp [sameSpec, List.filter_cons, this]
  refine ⟨_, by unfold transformIndexConstraints; rw [hc], ?_, ?_, rfl, ?_, ?_⟩
  · simp only [hres]
    rw [dedup_loop_sameSpec st.pkey (specKey a) st.indexlist 0 _ hpk, hinit, hab]
    rfl
  · simp [merged, hau]
  · intro name ha _
    simp [merged, ha]
  · intro name ha hb
    simp [merged, ha, hb]

/-- C19 at a sample: two UNIQUE indexes on `a` cloned by LIKE, the first unnamed and
the second named `n`, collapse to a single unique index named `n`. -/
theorem transformIndexConstraints_merges_unique_witness :
    ∃ out, transformIndexConstraints sampleIndexEnv
        (sampleContext [] [sampleIndex none ["a"] true false,
          sampleIndex (some "n") ["a"] true false] false) = .ok out ∧
      sameSpec (specKey (sampleIndex none ["a"] true false)) out.alist
        = [merged (sampleIndex none ["a"] true false) (sampleIndex (some "n") ["a"] true false)] ∧
      (merged (sampleIndex none ["a"] true false)
        (sampleIndex (some "n") ["a"] true false)).unique = true ∧
      specKey (merged (sampleIndex none ["a"] true false)
          (sampleIndex (some "n") ["a"] true false))
        = specKey (sampleIndex none ["a"] true false) ∧
      (∀ name, (sampleIndex none ["a"] true false).idxname = some name →
        (sampleIndex (some "n") ["a"] true false).idxname = none →
        (merged (sampleIndex none ["a"] true false)
          (sampleIndex (some "n") ["a"] true false)).idxname = some name) ∧
      (∀ name, (sampleIndex none ["a"] true false).idxname = none →
        (sampleIndex (some "n") ["a"] true false).idxname = some name →
        (merged (sampleIndex none ["a"] true false)
          (sampleIndex (some "n") ["a"] true false)).idxname = some name) :=
  transformIndexConstraints_merges_unique sampleIndexEnv
    (sampleContext [] [sampleIndex none ["a"] true false,
      sampleIndex (some "n") ["a"] true false] false)
    { columns := [{ colname := "a", is_not_null := false }, { colname := "b", is_not_null := false }],
      pkey := none,
      indexlist := [sampleIndex none ["a"] true false, sampleIndex (some "n") ["a"] true false] }
    (sampleIndex none ["a"] true false) (sampleIndex (some "n") ["a"] true false)
    rfl rfl (by decide) rfl rfl rfl rfl

/-! ## Index constraints: the partition key and the key columns -/

/-- The first loop of `transformIndexConstraints` over a list in two parts: the second
part starts in the state that the first part leaves. -/
theorem constraints_loop_append {Expr : Type} (env : IndexEnv) (cxt : CreateStmtContext Expr) :
    ∀ (pre rest : List (Constraint Expr)) (st : IndexState Expr),
      constraints_loop env cxt st (pre ++ rest) =
        match constraints_loop env cxt st pre with
        | .error err => .error err
        | .ok st1 => constraints_loop env cxt st1 rest := by
  intro pre
  induction pre with
  | nil => intro rest st; simp [constraints_loop]
  | cons c pre ih =>
    intro rest st
    simp only [List.cons_append, constraints_loop]
    cases hc : check_partition_key cxt c with
    | error err => rfl
    | ok u =>
      simp only
      cases ht : transformIndexConstraint env cxt c st.indexlist.length st.pkey st.columns with
      | error err => rfl
      | ok r =>
        obtain ⟨index, pkey, columns⟩ := r
        simp only
        exact ih rest _

/-- A failure of the first loop of `transformIndexConstraints` comes from the first
constraint that is not accepted: from the check of the partition key, or from
`transformIndexConstraint`. -/
theorem constraints_loop_error {Expr : Type} (env : IndexEnv) (cxt : CreateStmtContext Expr)
    (err : IndexError) :
    ∀ (constraints : List (Constraint Expr)) (st : IndexState Expr),
      constraints_loop env cxt st constraints = .error err →
      ∃ pre c post st1, constraints = pre ++ c :: post ∧
        constraints_loop env cxt st pre = .ok st1 ∧
        (check_partition_key cxt c = .error err ∨
          transformIndexConstraint env cxt c st1.indexlist.length st1.pkey st1.columns
            = .error err) := by
  intro constraints
  induction constraints with
  | nil => intro st h; simp [constraints_loop] at h
  | cons c rest ih =>
    intro st h
    unfold constraints_loop at h
    cases hc : check_partition_key cxt c with
    | error e =>
      rw [hc] at h
      simp only [Except.error.injEq] at h
      subst h
      exact ⟨[], c, rest, st, rfl, rfl, Or.inl hc⟩
    | ok u =>
      rw [hc] at h
      simp only at h
      cases ht : transformIndexConstraint env cxt c st.indexlist.length st.pkey st.columns with
      | error e =>
        rw [ht] at h
        simp only [Except.error.injEq] at h
        subst h
        exact ⟨[], c, rest, st, rfl, rfl, Or.inr ht⟩
      | ok r =>
        obtain ⟨index, pkey, columns⟩ := r
        rw [ht] at h
        simp only at h
        obtain ⟨pre, c', post, st1, hl, hpre, hor⟩ := ih _ h
        refine ⟨c :: pre, c', post, st1, by rw [hl]; rfl, ?_, hor⟩
        unfold constraints_loop
        rw [hc]
        simp only
        rw [ht]
        exact hpre

/-- The search in the inherited relations fails with "inherited relation is not a
table" only. -/
theorem find_in_inherited_error (key : String) :
    ∀ (inhRelations : List InhRelation) (err : IndexError),
      find_in_inherited key inhRelations = .error err → ∃ relname, err = .inheritedNotTable relname := by
  intro inhRelations
  induction inhRelations with
  | nil => intro err h; simp [find_in_inherited] at h
  | cons inh rest ih =>
    intro err h
    unfold find_in_inherited at h
    split at h
    · simp only [Except.error.injEq] at h
      exact ⟨_, h.symm⟩
    · split at h
      · simp at h
      · exact ih err h

/-- The errors of the key loop of `transformIndexConstraint`: an inherited relation
that is not a table, a column that does not exist (never under ALTER), or a column
that appears twice. -/
theorem transform_keys_error {Expr : Type} (env : IndexEnv) (cxt : CreateStmtContext Expr)
    (constraint : Constraint Expr) (err : IndexError) :
    ∀ (keys : List String) (columns : List ColumnDef) (indexParams : List (IndexElem Expr)),
      transform_keys env cxt constraint keys columns indexParams = .error err →
      (∃ relname, err = .inheritedNotTable relname) ∨
        (∃ key ∈ keys, err = .columnDoesNotExist key ∧ cxt.isalter = false) ∨
        (∃ key, err = .appearsTwicePrimary key) ∨ (∃ key, err = .appearsTwiceUnique key) := by
  intro keys
  induction keys with
  | nil => intro columns indexParams h; simp [transform_keys] at h
  | cons key rest ih =>
    intro columns indexParams h
    unfold transform_keys at h
    cases hf : find_key env cxt constraint key columns with
    | error e =>
      rw [hf] at h
      simp only [Except.error.injEq] at h
      subst h
      left
      unfold find_key at hf
      split at hf
      · simp at hf
      · split at hf
        · simp at hf
        · cases hi : find_in_inherited key cxt.inhRelations with
          | error e' =>
            rw [hi] at hf
            simp only [Except.error.injEq] at hf
            subst hf
            exact find_in_inherited_error key _ _ hi
          | ok b => rw [hi] at hf; simp at hf
    | ok fc =>
      obtain ⟨found, columns1⟩ := fc
      rw [hf] at h
      simp only at h
      by_cases hmiss : found = false ∧ cxt.isalter = false
      · simp only [hmiss, and_self, ↓reduceIte, Except.error.injEq] at h
        exact Or.inr (Or.inl ⟨key, List.mem_cons_self _ _, h.symm, hmiss.2⟩)
      · simp only [hmiss, ↓reduceIte] at h
        by_cases htwice : indexParams.any (fun iparam => decide (iparam.name = some key)) = true
        · simp only [htwice, ↓reduceIte] at h
          split at h
          · simp only [Except.error.injEq] at h
            exact Or.inr (Or.inr (Or.inl ⟨key, h.symm⟩))
          · simp only [Except.error.injEq] at h
            exact Or.inr (Or.inr (Or.inr ⟨key, h.symm⟩))
        · simp only [htwice, Bool.false_eq_true, ↓reduceIte] at h
          rcases ih _ _ h with h1 | ⟨k, hk, h2⟩ | h3 | h4
          · exact Or.inl h1
          · exact Or.inr (Or.inl ⟨k, List.mem_cons_of_mem _ hk, h2⟩)
          · exact Or.inr (Or.inr (Or.inl h3))
          · exact Or.inr (Or.inr (Or.inr h4))

/-- The errors of `transformIndexConstraint`: a second primary key, USING INDEX in
CREATE TABLE, an error of the checks of the existing index, or an error of the key
loop. -/
theorem transformIndexConstraint_error {Expr : Type} (env : IndexEnv)
    (cxt : CreateStmtContext Expr) (constraint : Constraint Expr) (pos : Nat)
    (pkey : Option Nat) (columns : List ColumnDef) (err : IndexError)
    (h : transformIndexConstraint env cxt constraint pos pkey columns = .error err) :
    err = .multiplePrimaryKeysForeign cxt.relname ∨ err = .multiplePrimaryKeys cxt.relname ∨
      err = .cannotUseExistingIndex ∨
      (cxt.isalter = true ∧ ∃ indexName, env.existingIndexKeys indexName = .error err) ∨
      (∃ keys columns0 indexParams,
        transform_keys env cxt constraint keys columns0 indexParams = .error err) := by
  unfold transformIndexConstraint at h
  split at h
  · split at h
    · simp only [Except.error.injEq] at h; exact Or.inl h.symm
    · simp only [Except.error.injEq] at h; exact Or.inr (Or.inl h.symm)
  · simp only at h
    cases hi : constraint.indexname with
    | some indexName =>
      rw [hi] at h
      simp only at h
      cases halter : cxt.isalter with
      | false =>
        simp only [halter, ↓reduceIte, Except.error.injEq] at h
        exact Or.inr (Or.inr (Or.inl h.symm))
      | true =>
        simp only [halter, Bool.true_eq_false, ↓reduceIte] at h
        cases hx : env.existingIndexKeys indexName with
        | error e =>
          rw [hx] at h
          simp only [Except.error.injEq] at h
          subst h
          exact Or.inr (Or.inr (Or.inr (Or.inl ⟨rfl, indexName, hx⟩)))
        | ok names =>
          rw [hx] at h
          simp only at h
          split at h
          · simp at h
          · split at h
            · rename_i e ht
              simp only [Except.error.injEq] at h
              subst h
              exact Or.inr (Or.inr (Or.inr (Or.inr ⟨_, _, _, ht⟩)))
            · simp at h
    | none =>
      rw [hi] at h
      simp only at h
      split at h
      · simp at h
      · split at h
        · rename_i e ht
          simp only [Except.error.injEq] at h
          subst h
          exact Or.inr (Or.inr (Or.inr (Or.inr ⟨_, _, _, ht⟩)))
        · simp at h


/-- In CREATE TABLE, `transformIndexConstraint` never fails with "Must contain
PARTITION KEY". -/
theorem transformIndexConstraint_not_partition_key {Expr : Type} (env : IndexEnv)
    (cxt : CreateStmtContext Expr) (constraint : Constraint Expr) (pos : Nat)
    (pkey : Option Nat) (columns : List ColumnDef) (hcreate : cxt.isalter = false) :
    transformIndexConstraint env cxt constraint pos pkey columns
      ≠ .error .mustContainPartitionKey := by
  intro h
  rcases transformIndexConstraint_error env cxt constraint pos pkey columns _ h with
    h1 | h1 | h1 | ⟨h1, _⟩ | ⟨keys, columns0, indexParams, h1⟩
  · simp at h1
  · simp at h1
  · simp at h1
  · rw [hcreate] at h1; simp at h1
  · rcases transform_keys_error env cxt constraint _ keys columns0 indexParams h1 with
      ⟨_, h2⟩ | ⟨_, _, h2, _⟩ | ⟨_, h2⟩ | ⟨_, h2⟩ <;> simp at h2

/-- The check of the partition key on a constraint of a partitioned table that is being
created, OBS and HDFS foreign tables apart: it fails with "Must contain PARTITION KEY"
exactly on a PRIMARY KEY or UNIQUE constraint whose keys miss a column of the
partition key. -/
theorem check_partition_key_iff {Expr : Type} (cxt : CreateStmtContext Expr)
    (constraint : Constraint Expr) (hpart : cxt.ispartitioned = true)
    (hcreate : cxt.isalter = false) (hsrv : cxt.obsOrHdfs = false) :
    check_partition_key cxt constraint = .error .mustContainPartitionKey ↔
      (constraint.contype = .CONSTR_PRIMARY ∨ constraint.contype = .CONSTR_UNIQUE) ∧
        ∃ pkname ∈ cxt.partitionKey, pkname ∉ constraint.keys := by
  unfold check_partition_key
  simp only [hpart, hcreate, and_self, ↓reduceIte, hsrv, Bool.false_eq_true]
  by_cases hex : constraint.contype = .CONSTR_EXCLUSION
  · simp [hex]
  · have hkind : constraint.contype = .CONSTR_PRIMARY ∨ constraint.contype = .CONSTR_UNIQUE := by
      cases hc : constraint.contype
      · exact Or.inl rfl
      · exact Or.inr rfl
      · exact absurd hc hex
    simp only [hex, ↓reduceIte, hkind, true_and]
    by_cases hall : cxt.partitionKey.all (fun pkname => constraint.keys.contains pkname) = true
    · simp only [hall, ↓reduceIte, reduceCtorEq, false_iff, not_exists, not_and, not_not]
      intro pkname hp
      simp only [List.all_eq_true] at hall
      have := hall pkname hp
      simpa using this
    · simp only [hall, Bool.false_eq_true, ↓reduceIte, true_iff]
      simp only [List.all_eq_true, not_forall] at hall
      obtain ⟨pkname, hp, hn⟩ := hall
      exact ⟨pkname, hp, by simpa using hn⟩

/-- C21: in CREATE of a partitioned table, OBS and HDFS foreign tables apart,
`transformIndexConstraints` fails with "Columns of PRIMARY KEY/UNIQUE constraint Must
contain PARTITION KEY" if and only if the first constraint that it does not accept is
a PRIMARY KEY or UNIQUE constraint whose column list misses a column of the partition
key. -/
theorem transformIndexConstraints_must_contain_partition_key {Expr : Type} [DecidableEq Expr]
    (env : IndexEnv) (cxt : CreateStmtContext Expr) (hpart : cxt.ispartitioned = true)
    (hcreate : cxt.isalter = false) (hsrv : cxt.obsOrHdfs = false) :
    transformIndexConstraints env cxt = .error .mustContainPartitionKey ↔
      ∃ pre constraint post st, cxt.ixconstraints = pre ++ constraint :: post ∧
        constraints_loop env cxt { columns := cxt.columns, pkey := none, indexlist := [] } pre
          = .ok st ∧
        (constraint.contype = .CONSTR_PRIMARY ∨ constraint.contype = .CONSTR_UNIQUE) ∧
        ∃ pkname ∈ cxt.partitionKey, pkname ∉ constraint.keys := by
  constructor
  · intro h
    unfold transformIndexConstraints collect_indexes at h
    cases hl : constraints_loop env cxt { columns := cxt.columns, pkey := none, indexlist := [] }
        cxt.ixconstraints with
    | error err =>
      rw [hl] at h
      simp only [Except.error.injEq] at h
      subst h
      obtain ⟨pre, c, post, st1, hsplit, hpre, hor⟩ := constraints_loop_error env cxt _ _ _ hl
      rcases hor with hcheck | htrans
      · exact ⟨pre, c, post, st1, hsplit, hpre,
          (check_partition_key_iff cxt c hpart hcreate hsrv).mp hcheck⟩
      · exact absurd htrans
          (transformIndexConstraint_not_partition_key env cxt c _ _ _ hcreate)
    | ok st =>
      rw [hl] at h
      simp only at h
      by_cases hcount : pkeyCount st.pkey + primaryIndexes cxt.inh_indexes ≤ 1
      · obtain ⟨st1, h1⟩ := (inh_indexes_loop_total cxt cxt.inh_indexes st).1 hcount
        rw [h1] at h
        simp at h
      · rw [(inh_indexes_loop_total cxt cxt.inh_indexes st).2 (by omega)] at h
        simp at h
  · rintro ⟨pre, c, post, st, hsplit, hpre, hkind, hmiss⟩
    have hcheck := (check_partition_key_iff cxt c hpart hcreate hsrv).mpr ⟨hkind, hmiss⟩
    unfold transformIndexConstraints collect_indexes
    rw [hsplit, constraints_loop_append, hpre]
    simp only
    unfold constraints_loop
    rw [hcheck]

/-- C21, on a sample: CREATE TABLE `t (a, b)` partitioned by `a` with UNIQUE (b) is
rejected. -/
theorem transformIndexConstraints_must_contain_partition_key_witness :
    transformIndexConstraints sampleIndexEnv
      (samplePartitioned [sampleConstraint .CONSTR_UNIQUE none ["b"]])
      = .error .mustContainPartitionKey :=
  (transformIndexConstraints_must_contain_partition_key sampleIndexEnv
    (samplePartitioned [sampleConstraint .CONSTR_UNIQUE none ["b"]]) rfl rfl rfl).mpr
    ⟨[], sampleConstraint .CONSTR_UNIQUE none ["b"], [], _, rfl, rfl, Or.inr rfl,
      "a", by decide, by decide⟩


/-- The search in the inherited relations finds a key only in the attributes of one of
them. -/
theorem find_in_inherited_true (key : String) :
    ∀ (inhRelations : List InhRelation), find_in_inherited key inhRelations = .ok true →
      inhRelations.any (fun inh => inh.attnames.contains key) = true := by
  intro inhRelations
  induction inhRelations with
  | nil => intro h; simp [find_in_inherited] at h
  | cons inh rest ih =>
    intro h
    unfold find_in_inherited at h
    split at h
    · simp at h
    · split at h
      · rename_i hc
        simp only [List.any_cons, hc, Bool.true_or]
      · simp only [List.any_cons, ih h, Bool.or_true]

/-- The search in inherited relations that are all tables never fails: it tells whether
one of them has an attribute of the name. -/
theorem find_in_inherited_tables (key : String) :
    ∀ (inhRelations : List InhRelation), (∀ inh ∈ inhRelations, inh.isTable = true) →
      find_in_inherited key inhRelations
        = .ok (inhRelations.any (fun inh => inh.attnames.contains key)) := by
  intro inhRelations
  induction inhRelations with
  | nil => intro _; rfl
  | cons inh rest ih =>
    intro hall
    unfold find_in_inherited
    have h1 := hall inh (List.mem_cons_self _ _)
    simp only [h1, Bool.true_eq_false, ↓reduceIte, List.any_cons]
    by_cases hc : inh.attnames.contains key = true
    · simp only [hc, ↓reduceIte, Bool.true_or]
    · simp only [hc, Bool.false_eq_true, ↓reduceIte]
      rw [ih (fun inh' h' => hall inh' (List.mem_cons_of_mem _ h'))]
      simp only [Bool.not_eq_true] at hc
      simp only [hc, Bool.false_or]

/-- Whether a key is missing depends on the names of the columns only. -/
theorem key_missing_congr {Expr : Type} (env : IndexEnv) (cxt : CreateStmtContext Expr)
    (columns columns' : List ColumnDef) (key : String)
    (h : columns.map (fun column => column.colname) = columns'.map (fun column => column.colname)) :
    key_missing env cxt columns key = key_missing env cxt columns' key := by
  unfold key_missing
  rw [any_colname_congr key columns columns' h]

/-- The search for a missing key fails or finds nothing. -/
theorem find_key_missing {Expr : Type} (env : IndexEnv) (cxt : CreateStmtContext Expr)
    (constraint : Constraint Expr) (key : String) (columns columns1 : List ColumnDef)
    (found : Bool) (hmiss : key_missing env cxt columns key = true)
    (h : find_key env cxt constraint key columns = .ok (found, columns1)) :
    found = false := by
  unfold key_missing at hmiss
  simp only [Bool.and_eq_true, Bool.not_eq_true'] at hmiss
  obtain ⟨⟨hcol, hsys⟩, hinh⟩ := hmiss
  unfold find_key at h
  simp only [hcol, Bool.false_eq_true, ↓reduceIte, hsys] at h
  cases hf : find_in_inherited key cxt.inhRelations with
  | error err => rw [hf] at h; simp at h
  | ok b =>
    rw [hf] at h
    simp only [Except.ok.injEq, Prod.mk.injEq] at h
    cases b with
    | false => exact h.1.symm
    | true =>
      have := find_in_inherited_true key _ hf
      rw [this] at hinh
      simp at hinh

/-- The search for a key when every inherited relation is a table: it never fails, and
it finds the key exactly if the key is not missing. -/
theorem find_key_tables {Expr : Type} (env : IndexEnv) (cxt : CreateStmtContext Expr)
    (constraint : Constraint Expr) (key : String) (columns : List ColumnDef)
    (htables : ∀ inh ∈ cxt.inhRelations, inh.isTable = true) :
    ∃ columns1, find_key env cxt constraint key columns
        = .ok (!key_missing env cxt columns key, columns1) ∧
      columns1.map (fun column => column.colname) = columns.map (fun column => column.colname) := by
  unfold find_key key_missing
  by_cases hcol : columns.any (fun column => decide (column.colname = key)) = true
  · simp only [hcol, ↓reduceIte, Bool.not_true, Bool.false_and, Bool.not_false]
    refine ⟨_, rfl, ?_⟩
    split
    · rw [force_not_null_names]
    · rfl
  · simp only [hcol, Bool.false_eq_true, ↓reduceIte, Bool.not_false, Bool.true_and]
    by_cases hsys : env.SystemAttributeByName key cxt.hasoids = true
    · simp only [hsys, ↓reduceIte, Bool.not_true, Bool.false_and, Bool.not_false]
      exact ⟨_, rfl, rfl⟩
    · simp only [hsys, Bool.false_eq_true, ↓reduceIte, Bool.not_false, Bool.true_and,
        Bool.not_not]
      rw [find_in_inherited_tables key _ htables]
      exact ⟨_, rfl, rfl⟩

/-- Under CREATE, the key loop of `transformIndexConstraint` fails if one of the keys
is missing. -/
theorem transform_keys_missing_fails {Expr : Type} (env : IndexEnv)
    (cxt : CreateStmtContext Expr) (constraint : Constraint Expr) (key : String)
    (columns0 : List ColumnDef) (hcreate : cxt.isalter = false)
    (hmiss : key_missing env cxt columns0 key = true) :
    ∀ (keys : List String) (columns : List ColumnDef) (indexParams : List (IndexElem Expr)),
      key ∈ keys →
      columns.map (fun column => column.colname) = columns0.map (fun column => column.colname) →
      ∃ err, transform_keys env cxt constraint keys columns indexParams = .error err := by
  intro keys
  induction keys with
  | nil => intro _ _ hk; simp at hk
  | cons k0 rest ih =>
    intro columns indexParams hk hnames
    unfold transform_keys
    cases hf : find_key env cxt constraint k0 columns with
    | error err => exact ⟨err, rfl⟩
    | ok fc =>
      obtain ⟨found, columns1⟩ := fc
      simp only
      by_cases hnone : found = false ∧ cxt.isalter = false
      · simp only [hnone, and_self, ↓reduceIte]
        exact ⟨_, rfl⟩
      · simp only [hnone, ↓reduceIte]
        by_cases htwice : indexParams.any (fun iparam => decide (iparam.name = some k0)) = true
        · simp only [htwice, ↓reduceIte]
          split
          · exact ⟨_, rfl⟩
          · exact ⟨_, rfl⟩
        · simp only [htwice, Bool.false_eq_true, ↓reduceIte]
          have hn1 := (find_key_names env cxt constraint k0 columns columns columns1 found rfl hf).1
          have hne : key ≠ k0 := by
            rintro rfl
            have hm : key_missing env cxt columns key = true := by
              rw [key_missing_congr env cxt columns columns0 key hnames]; exact hmiss
            exact hnone ⟨find_key_missing env cxt constraint key columns columns1 found hm hf,
              hcreate⟩
          have hk' : key ∈ rest := by
            rcases List.mem_cons.mp hk with h1 | h1
            · exact absurd h1 hne
            · exact h1
          exact ih columns1 _ hk' (by rw [hn1, hnames])

/-- Under CREATE, with inherited relations that are all tables and keys that are all
different, the key loop of `transformIndexConstraint` fails at the first missing key
with "column ... named in key does not exist". -/
theorem transform_keys_first_missing {Expr : Type} (env : IndexEnv)
    (cxt : CreateStmtContext Expr) (constraint : Constraint Expr) (key : String)
    (columns0 : List ColumnDef) (hcreate : cxt.isalter = false)
    (htables : ∀ inh ∈ cxt.inhRelations, inh.isTable = true) :
    ∀ (keys : List String) (columns : List ColumnDef) (indexParams : List (IndexElem Expr)),
      keys.Nodup →
      (∀ k ∈ keys, indexParams.any (fun iparam => decide (iparam.name = some k)) = false) →
      columns.map (fun column => column.colname) = columns0.map (fun column => column.colname) →
      keys.find? (key_missing env cxt columns0) = some key →
      transform_keys env cxt constraint keys columns indexParams
        = .error (.columnDoesNotExist key) := by
  intro keys
  induction keys with
  | nil => intro _ _ _ _ _ hfind; simp at hfind
  | cons k0 rest ih =>
    intro columns indexParams hnodup hfresh hnames hfind
    unfold transform_keys
    obtain ⟨columns1, hf, hn1⟩ := find_key_tables env cxt constraint k0 columns htables
    rw [hf]
    simp only
    rw [key_missing_congr env cxt columns columns0 k0 hnames]
    rw [List.find?_cons] at hfind
    cases hm : key_missing env cxt columns0 k0 with
    | true =>
      rw [hm] at hfind
      simp only [Option.some.injEq] at hfind
      subst hfind
      simp [hcreate]
    | false =>
      rw [hm] at hfind
      simp only at hfind
      have h0 := hfresh k0 (List.mem_cons_self _ _)
      simp only [Bool.not_false, Bool.true_eq_false, false_and, ↓reduceIte, h0,
        Bool.false_eq_true]
      have hnd := List.nodup_cons.mp hnodup
      refine ih columns1 _ hnd.2 ?_ (by rw [hn1, hnames]) hfind
      intro k hk
      have h1 := hfresh k (List.mem_cons_of_mem _ hk)
      have hne : k0 ≠ k := by rintro rfl; exact hnd.1 hk
      simp only [List.any_append, h1, Bool.false_or, List.any_cons, List.any_nil, Bool.or_false,
        columnElem, Option.some.injEq, hne, decide_False]


/-- C22: let a PRIMARY KEY or UNIQUE constraint name a column that is neither a column
of the new table, nor a system column, nor an attribute of an inherited table. Under
CREATE, `transformIndexConstraint` fails on it; when the constraint passes the earlier
checks (it is not a second primary key, it names no existing index, the inherited
relations are tables and no key is repeated), the error is "column ... named in key
does not exist" for the first such key. Under ALTER, no such error is raised. -/
theorem transformIndexConstraint_column_does_not_exist {Expr : Type} (env : IndexEnv)
    (cxt : CreateStmtContext Expr) (constraint : Constraint Expr) (pos : Nat)
    (pkey : Option Nat) (columns : List ColumnDef) (key : String)
    (hkind : constraint.contype = .CONSTR_PRIMARY ∨ constraint.contype = .CONSTR_UNIQUE)
    (hkey : key ∈ constraint.keys)
    (hmiss : key_missing env cxt columns key = true) :
    (cxt.isalter = false →
      (∃ err, transformIndexConstraint env cxt constraint pos pkey columns = .error err) ∧
      (¬ (constraint.contype = .CONSTR_PRIMARY ∧ pkey ≠ none) → constraint.indexname = none →
        (∀ inh ∈ cxt.inhRelations, inh.isTable = true) → constraint.keys.Nodup →
        ∃ k, constraint.keys.find? (key_missing env cxt columns) = some k ∧
          transformIndexConstraint env cxt constraint pos pkey columns
            = .error (.columnDoesNotExist k))) ∧
    (cxt.isalter = true →
      (∀ indexName k, env.existingIndexKeys indexName ≠ .error (.columnDoesNotExist k)) →
      ∀ k, transformIndexConstraint env cxt constraint pos pkey columns
        ≠ .error (.columnDoesNotExist k)) := by
  have hex : constraint.contype ≠ .CONSTR_EXCLUSION := by
    rcases hkind with h | h <;> rw [h] <;> decide
  refine ⟨fun hcreate => ⟨?_, ?_⟩, ?_⟩
  · unfold transformIndexConstraint
    by_cases hsecond : constraint.contype = .CONSTR_PRIMARY ∧ pkey ≠ none
    · simp only [hsecond, ne_eq, not_false_eq_true, and_self, ↓reduceIte]
      split
      · exact ⟨_, rfl⟩
      · exact ⟨_, rfl⟩
    · simp only [hsecond, ↓reduceIte]
      cases hi : constraint.indexname with
      | some indexName =>
        simp only [hcreate, ↓reduceIte]
        exact ⟨_, rfl⟩
      | none =>
        simp only [hex, ↓reduceIte]
        obtain ⟨err, herr⟩ := transform_keys_missing_fails env cxt constraint key columns hcreate
          hmiss constraint.keys columns [] hkey rfl
        rw [herr]
        exact ⟨_, rfl⟩
  · intro hsecond hi htables hnodup
    cases hfind : constraint.keys.find? (key_missing env cxt columns) with
    | none =>
      have := List.find?_eq_none.mp hfind key hkey
      exact absurd hmiss this
    | some k =>
      refine ⟨k, rfl, ?_⟩
      unfold transformIndexConstraint
      simp only [hsecond, ↓reduceIte, hi, hex]
      rw [transform_keys_first_missing env cxt constraint k columns hcreate htables
        constraint.keys columns [] hnodup (by intro _ _; rfl) rfl hfind]
  · intro halter henv k h
    rcases transformIndexConstraint_error env cxt constraint pos pkey columns _ h with
      h1 | h1 | h1 | ⟨_, indexName, h1⟩ | ⟨keys, columns0, indexParams, h1⟩
    · simp at h1
    · simp at h1
    · simp at h1
    · exact henv indexName k h1
    · rcases transform_keys_error env cxt constraint _ keys columns0 indexParams h1 with
        ⟨_, h2⟩ | ⟨_, _, _, h2⟩ | ⟨_, h2⟩ | ⟨_, h2⟩
      · simp at h2
      · rw [halter] at h2; simp at h2
      · simp at h2
      · simp at h2

/-- C22, on a sample: for the table `t (a, b)`, PRIMARY KEY (a, zz) is rejected under
CREATE with "column zz named in key does not exist", and raises no such error under
ALTER. -/
theorem transformIndexConstraint_column_does_not_exist_witness :
    (∃ k, ["a", "zz"].find? (key_missing sampleIndexEnv (sampleContext [] [] false)
        (sampleContext [] [] false).columns) = some k ∧
      transformIndexConstraint sampleIndexEnv (sampleContext [] [] false)
        (sampleConstraint .CONSTR_PRIMARY none ["a", "zz"]) 0 none
        (sampleContext [] [] false).columns = .error (.columnDoesNotExist k)) ∧
    ∀ k, transformIndexConstraint sampleIndexEnv
        { sampleContext [] [] false with isalter := true }
        (sampleConstraint .CONSTR_PRIMARY none ["a", "zz"]) 0 none
        (sampleContext [] [] false).columns ≠ .error (.columnDoesNotExist k) :=
  ⟨((transformIndexConstraint_column_does_not_exist sampleIndexEnv (sampleContext [] [] false)
      (sampleConstraint .CONSTR_PRIMARY none ["a", "zz"]) 0 none
      (sampleContext [] [] false).columns "zz" (Or.inl rfl) (by decide) (by decide)).1 rfl).2
      (by decide) rfl (by intro inh h; cases h) (by decide),
    (transformIndexConstraint_column_does_not_exist sampleIndexEnv
      { sampleContext [] [] false with isalter := true }
      (sampleConstraint .CONSTR_PRIMARY none ["a", "zz"]) 0 none
      (sampleContext [] [] false).columns "zz" (Or.inl rfl) (by decide) (by decide)).2 rfl
      (by intro indexName k h; simp [sampleIndexEnv] at h)⟩


/-! ## Index constraints: the NOT NULL flag of the key columns -/

/-- The loop of `divide_start_end_every_internal`, started after `nPart` rounds at the
point `startVal + nPart * everyVal` with the end points so far at their multiples of
the step: every end point but the last one is `startVal` plus its position times the
step. -/
theorem divide_loop_positions {Raw : Type} (env : KeyOps Raw) (partName : String) (s e : Int)
    (everyExpr : Raw) (d : Int) (needCheck : Bool) :
    ∀ (fuel nPart : Nat) (cur : Int) (result res : List Int) (n : Nat),
      cur = s + nPart * d → result.length = nPart →
      (∀ i : Nat, i < nPart → result[i]? = some (s + ((i : Int) + 1) * d)) →
      divide_loop env partName s e everyExpr d needCheck fuel nPart cur result = .ok (res, n) →
      ∀ i : Nat, i + 1 < n → res[i]? = some (s + ((i : Int) + 1) * d) := by
  intro fuel
  induction fuel with
  | zero => intro nPart cur result res n _ _ _ h; simp [divide_loop] at h
  | succ fuel ih =>
    intro nPart cur result res n hcur hlen hpos h i hi
    have hsnoc : ∀ (x : Int) (j : Nat), j < nPart →
        (result ++ [x])[j]? = some (s + ((j : Int) + 1) * d) := by
      intro x j hj
      rw [List.getElem?_append_left (by omega)]
      exact hpos j hj
    unfold divide_loop at h
    simp only at h
    split at h
    · simp at h
    · split at h
      · simp at h
      · split at h
        · split at h
          · simp only [Except.ok.injEq, Prod.mk.injEq] at h
            obtain ⟨rfl, rfl⟩ := h
            exact hsnoc _ i (by omega)
          · refine ih (nPart + 1) (cur + d) (result ++ [cur + d]) res n
              (by rw [hcur]; push_cast; ring) (by simp [hlen]) ?_ h i hi
            intro j hj
            by_cases hjn : j < nPart
            · exact hsnoc _ j hjn
            · have hjeq : j = nPart := by omega
              subst hjeq
              rw [List.getElem?_append_right (by omega)]
              simp only [hlen, Nat.sub_self, List.getElem?_cons_zero, Option.some.injEq]
              rw [hcur]; ring
        · split at h
          · simp at h
          · simp only [Except.ok.injEq, Prod.mk.injEq] at h
            obtain ⟨rfl, rfl⟩ := h
            exact hsnoc _ i (by omega)

/-- C35: for an integer key, in every list of `n` end points that
`divide_start_end_every_internal` returns, the end point at the 1-based position
`i < n` is `start + i * every`, and the last one is `end`, where
`start + (n - 1) * every < end <= start + n * every`: a last step that overshoots is
cut back to `end`. The list is not empty, and `n` is the number handed back through
`numPart`. -/
theorem divide_start_end_every_internal_positions {Raw : Type} (env : KeyOps Raw)
    (partName : String) (startVal endVal : Int) (everyExpr : Raw) (maxNum : Nat)
    (needCheck : Bool) (res : List Int) (n : Nat)
    (h : divide_start_end_every_internal env partName startVal endVal everyExpr maxNum needCheck
      = .ok (res, n)) :
    res.length = n ∧ 0 < n ∧
      (∀ i : Nat, 1 ≤ i → i < n →
        res[i - 1]? = some (startVal + (i : Int) * env.GetTargetValue everyExpr)) ∧
      res[n - 1]? = some endVal ∧
      startVal + ((n : Int) - 1) * env.GetTargetValue everyExpr < endVal ∧
      endVal ≤ startVal + (n : Int) * env.GetTargetValue everyExpr := by
  obtain ⟨_, _, _, hlast, hlen, hlow, hup, _, _⟩ :=
    divide_internal_ok env partName startVal endVal everyExpr maxNum needCheck res n h
  have hn : 0 < n := by
    cases res with
    | nil => simp at hlast
    | cons x xs => simp only [List.length_cons] at hlen; omega
  refine ⟨hlen, hn, ?_, ?_, hlow, hup⟩
  · intro i hi1 hin
    unfold divide_start_end_every_internal at h
    split at h
    · simp at h
    · have := divide_loop_positions env partName startVal endVal everyExpr _ needCheck
        maxNum 0 startVal [] res n (by simp) rfl (by intro j hj; omega) h (i - 1) (by omega)
      rw [this]
      congr 2
      have : ((i - 1 : Nat) : Int) = (i : Int) - 1 := by omega
      rw [this]; ring
  · rw [← hlen, ← List.getLast?_eq_getElem?]
    exact hlast

/-- C35, on a sample: START(1) END(100) EVERY(30) yields 31, 61, 91 at the positions
1, 2, 3 and the end 100 at position 4, where 1 + 3 * 30 < 100 <= 1 + 4 * 30. -/
theorem divide_start_end_every_internal_positions_witness :
    [31, 61, 91, (100 : Int)].length = 4 ∧ 0 < 4 ∧
      (∀ i : Nat, 1 ≤ i → i < 4 →
        [31, 61, 91, (100 : Int)][i - 1]? = some (1 + (i : Int) * intKey.GetTargetValue (.val 30))) ∧
      [31, 61, 91, (100 : Int)][4 - 1]? = some 100 ∧
      1 + (((4 : Nat) : Int) - 1) * intKey.GetTargetValue (.val 30) < 100 ∧
      100 ≤ 1 + ((4 : Nat) : Int) * intKey.GetTargetValue (.val 30) :=
  divide_start_end_every_internal_positions intKey "p" 1 100 (.val 30) 100 false
    [31, 61, 91, 100] 4 (by decide)

/-! ## The check for integer constants -/

/-- The macro `precheck_point_value_internal` on a value that may be absent, `check`
being what is done with it: nothing happens, or the value is present, its cast to
the key type is not MAXVALUE and differs from the value itself, and the error names
the entry. -/
theorem precheck_point_value_internal_cases {Raw : Type} (ops : TypeOps Raw) (partName : String)
    (check : Option Raw → Except PartError Unit) (hnone : check none = .ok ())
    (hsome : ∀ a, check (some a) = Typed.precheck_point_value_internal ops partName a)
    (v : Option Raw) :
    (check v = .ok () ∧
      ¬ ∃ a, v = some a ∧ ops.GetPartitionValue a false ≠ .maxvalue ∧
        ops.compareWithOriginal a ≠ 0) ∨
    (check v = .error (.notConstInteger partName) ∧
      ∃ a, v = some a ∧ ops.GetPartitionValue a false ≠ .maxvalue ∧
        ops.compareWithOriginal a ≠ 0) := by
  cases v with
  | none => exact Or.inl ⟨hnone, by rintro ⟨a, h, _⟩; cases h⟩
  | some a =>
    rw [hsome a]
    simp only [Typed.precheck_point_value_internal]
    cases hv : ops.GetPartitionValue a false with
    | maxvalue =>
      refine Or.inl ⟨rfl, ?_⟩
      rintro ⟨b, hb, hmax, _⟩
      cases hb
      exact hmax hv
    | val x =>
      by_cases hc : ops.compareWithOriginal a ≠ 0
      · refine Or.inr ⟨if_pos hc, a, rfl, ?_, hc⟩
        rw [hv]; simp
      · refine Or.inl ⟨if_neg hc, ?_⟩
        rintro ⟨b, hb, _, hne⟩
        cases hb
        exact hc hne

/-- C40: for a key of type smallint, int or bigint, `precheck_start_end_defstate`
rejects an entry if and only if one of its START, END and EVERY values that is
present, and whose cast to the key type is not MAXVALUE, differs from that cast, and
the error is then "start/end/every value must be an const-integer" with the name of
the entry; for a key of any other type it rejects nothing. -/
theorem precheck_start_end_defstate_const_integer {Raw : Type} (ops : TypeOps Raw)
    (atttypid : KeyType) (defState : RangePartitionStartEndDefState Raw) :
    ((atttypid = .INT2OID ∨ atttypid = .INT4OID ∨ atttypid = .INT8OID) →
      ((∃ err, Typed.precheck_start_end_defstate ops atttypid defState = .error err) ↔
        ∃ a, (defState.startValue = some a ∨ defState.endValue = some a ∨
            defState.everyValue = some a) ∧
          ops.GetPartitionValue a false ≠ .maxvalue ∧ ops.compareWithOriginal a ≠ 0) ∧
      (∀ err, Typed.precheck_start_end_defstate ops atttypid defState = .error err →
        err = .notConstInteger defState.partitionName)) ∧
    (¬ (atttypid = .INT2OID ∨ atttypid = .INT4OID ∨ atttypid = .INT8OID) →
      Typed.precheck_start_end_defstate ops atttypid defState = .ok ()) := by
  constructor
  · intro hint
    have hpoint := precheck_point_value_internal_cases ops defState.partitionName
      (fun v => match v with
        | some a => Typed.precheck_point_value_internal ops defState.partitionName a
        | none => .ok ()) rfl (fun _ => rfl)
    unfold Typed.precheck_start_end_defstate
    simp only [hint, ↓reduceIte]
    rcases hpoint defState.startValue with ⟨hs, hns⟩ | ⟨hs, a, ha, hb⟩
    · rcases hpoint defState.endValue with ⟨he, hne⟩ | ⟨he, a, ha, hb⟩
      · rcases hpoint defState.everyValue with ⟨hv, hnv⟩ | ⟨hv, a, ha, hb⟩
        · split
          · rename_i heq; cases hs.symm.trans heq
          · split
            · rename_i heq; cases he.symm.trans heq
            · refine ⟨⟨fun h => ?_, ?_⟩, fun err h => ?_⟩
              · obtain ⟨err, h⟩ := h; cases hv.symm.trans h
              · rintro ⟨a, hor, ha⟩
                rcases hor with h | h | h
                · exact absurd ⟨a, h, ha⟩ hns
                · exact absurd ⟨a, h, ha⟩ hne
                · exact absurd ⟨a, h, ha⟩ hnv
              · cases hv.symm.trans h
        · split
          · rename_i heq; cases hs.symm.trans heq
          · split
            · rename_i heq; cases he.symm.trans heq
            · exact ⟨⟨fun _ => ⟨a, Or.inr (Or.inr ha), hb⟩, fun _ => ⟨_, hv⟩⟩,
                fun err h => (Except.error.inj (hv.symm.trans h)).symm⟩
      · split
        · rename_i heq; cases hs.symm.trans heq
        · split
          · rename_i e2 heq
            cases he.symm.trans heq
            exact ⟨⟨fun _ => ⟨a, Or.inr (Or.inl ha), hb⟩, fun _ => ⟨_, rfl⟩⟩,
              fun err h => (Except.error.inj h).symm⟩
          · rename_i heq; cases he.symm.trans heq
    · split
      · rename_i e1 heq
        cases hs.symm.trans heq
        exact ⟨⟨fun _ => ⟨a, Or.inl ha, hb⟩, fun _ => ⟨_, rfl⟩⟩,
          fun err h => (Except.error.inj h).symm⟩
      · rename_i heq; cases hs.symm.trans heq
  · intro hother
    unfold Typed.precheck_start_end_defstate
    simp only [hother, ↓reduceIte]

/-- C40, on samples: on an INT4 key whose START value 3 is not its own cast, the entry
is rejected; on a NUMERIC key the same entry passes. -/
theorem precheck_start_end_defstate_const_integer_witness :
    (∃ err, Typed.precheck_start_end_defstate
        { integerOps intKey with compareWithOriginal := fun a => if a = .val 3 then 1 else 0 }
        .INT4OID (sampleEntry "p1" (some (.val 3)) (some (.val 9)) none) = .error err) ∧
      Typed.precheck_start_end_defstate
        { integerOps intKey with compareWithOriginal := fun a => if a = .val 3 then 1 else 0 }
        .NUMERICOID (sampleEntry "p1" (some (.val 3)) (some (.val 9)) none) = .ok () :=
  ⟨((precheck_start_end_defstate_const_integer
      { integerOps intKey with compareWithOriginal := fun a => if a = .val 3 then 1 else 0 }
      .INT4OID (sampleEntry "p1" (some (.val 3)) (some (.val 9)) none)).1
        (Or.inr (Or.inl rfl))).1.mpr ⟨.val 3, Or.inl rfl, by decide, by decide⟩,
    (precheck_start_end_defstate_const_integer
      { integerOps intKey with compareWithOriginal := fun a => if a = .val 3 then 1 else 0 }
      .NUMERICOID (sampleEntry "p1" (some (.val 3)) (some (.val 9)) none)).2 (by decide)⟩

/-! ## Index constraints: no entry twice, no index lost -/

/-- The inner loop of `transformIndexConstraints`, when it merges, changes nothing of
what the merge loop compares, place by place. -/
theorem merge_into_prior_specKey {Expr : Type} [DecidableEq Expr] (index : IndexStmt Expr)
    (alist alist1 : List (IndexStmt Expr)) (h : merge_into_prior index alist = some alist1) :
    alist1.map specKey = alist.map specKey := by
  obtain ⟨pre, p, post, hl, _, _, hl1⟩ := merge_into_prior_some index alist alist1 h
  rw [hl, hl1]
  simp [(specKey_merged p index).1]

/-- Outside cluster-resize mode the merge loop keeps the entries of `cxt->alist`
different in what it compares. -/
theorem dedup_loop_nodup {Expr : Type} [DecidableEq Expr] (pkey : Option Nat) :
    ∀ (rest : List (IndexStmt Expr)) (i : Nat) (alist : List (IndexStmt Expr)),
      (alist.map specKey).Nodup → ((dedup_loop pkey false i rest alist).map specKey).Nodup := by
  intro rest
  induction rest with
  | nil => intro i alist h; exact h
  | cons index rest ih =>
    intro i alist h
    unfold dedup_loop
    by_cases hpk : pkey = some i
    · simp only [hpk, ↓reduceIte]
      rw [hpk] at ih
      exact ih (i + 1) alist h
    · simp only [hpk, ↓reduceIte, Bool.false_eq_true]
      cases hm : merge_into_prior index alist with
      | none =>
        simp only
        apply ih
        rw [List.map_append, List.nodup_append]
        refine ⟨h, List.nodup_singleton _, ?_⟩
        intro K hK hK2
        simp only [List.map_cons, List.map_nil, List.mem_singleton] at hK2
        obtain ⟨p, hp, hpK⟩ := List.mem_map.mp hK
        have hred := (merge_into_prior_none index alist).mp hm p hp
        have : redundant index p = true := (redundant_iff index p).mpr (by rw [hpK, hK2])
        rw [hred] at this
        exact absurd this (by decide)
      | some alist1 =>
        simp only
        apply ih
        rw [merge_into_prior_specKey index alist alist1 hm]
        exact h

/-- C36: outside cluster-resize mode, no two entries of the index list that
`transformIndexConstraints` produces are equivalent: any two of them differ in the
list of key elements, in the predicate, in the list of excluded operators, in the
access method, or in one of the flags `deferrable` and `initdeferred`. -/
theorem transformIndexConstraints_deduplicated {Expr : Type} [DecidableEq Expr]
    (env : IndexEnv) (cxt : CreateStmtContext Expr) (outcome : IndexOutcome Expr)
    (hresize : cxt.isResizing = false)
    (h : transformIndexConstraints env cxt = .ok outcome) :
    outcome.alist.Pairwise (fun a b =>
      ¬ (a.indexParams = b.indexParams ∧ a.whereClause = b.whereClause ∧
        a.excludeOpNames = b.excludeOpNames ∧ a.accessMethod = b.accessMethod ∧
        a.deferrable = b.deferrable ∧ a.initdeferred = b.initdeferred)) := by
  unfold transformIndexConstraints at h
  cases hc : collect_indexes env cxt with
  | error err => rw [hc] at h; simp at h
  | ok st =>
    rw [hc] at h
    simp only [Except.ok.injEq] at h
    subst h
    simp only [hresize]
    have hsingle : ∀ init : List (IndexStmt Expr), init.length ≤ 1 →
        (dedup_loop st.pkey false 0 st.indexlist init).Pairwise (fun a b =>
          ¬ (a.indexParams = b.indexParams ∧ a.whereClause = b.whereClause ∧
            a.excludeOpNames = b.excludeOpNames ∧ a.accessMethod = b.accessMethod ∧
            a.deferrable = b.deferrable ∧ a.initdeferred = b.initdeferred)) := by
      intro init hlen
      have hnodup := dedup_loop_nodup st.pkey st.indexlist 0 init (by
        cases init with
        | nil => exact List.nodup_nil
        | cons x xs =>
          cases xs with
          | nil => exact List.nodup_singleton _
          | cons y ys => simp only [List.length_cons] at hlen; omega)
      rw [List.Nodup, List.pairwise_map] at hnodup
      refine hnodup.imp ?_
      intro a b hne heq
      apply hne
      obtain ⟨h1, h2, h3, h4, h5, h6⟩ := heq
      simp only [specKey, h1, h2, h3, h4, h5, h6]
    apply hsingle
    cases st.pkey with
    | none => exact Nat.zero_le _
    | some i =>
      show (st.indexlist[i]?).toList.length ≤ 1
      cases st.indexlist[i]? with
      | none => exact Nat.zero_le _
      | some pk => exact Nat.le_refl _

/-- C36, on a sample: of three UNIQUE constraints on `a`, `a` and `b` in CREATE TABLE
`t (a, b)`, the index list keeps entries that are not equivalent. -/
theorem transformIndexConstraints_deduplicated_witness :
    ∃ outcome, transformIndexConstraints sampleIndexEnv
        (sampleContext [sampleConstraint .CONSTR_UNIQUE none ["a"],
          sampleConstraint .CONSTR_UNIQUE (some "u") ["a"],
          sampleConstraint .CONSTR_UNIQUE none ["b"]] [] false) = .ok outcome ∧
      outcome.alist.length = 2 ∧
      outcome.alist.Pairwise (fun a b =>
        ¬ (a.indexParams = b.indexParams ∧ a.whereClause = b.whereClause ∧
          a.excludeOpNames = b.excludeOpNames ∧ a.accessMethod = b.accessMethod ∧
          a.deferrable = b.deferrable ∧ a.initdeferred = b.initdeferred)) :=
  ⟨_, rfl, rfl, transformIndexConstraints_deduplicated sampleIndexEnv
    (sampleContext [sampleConstraint .CONSTR_UNIQUE none ["a"],
      sampleConstraint .CONSTR_UNIQUE (some "u") ["a"],
      sampleConstraint .CONSTR_UNIQUE none ["b"]] [] false) _ rfl rfl⟩

theorem Const.keyBy_val {α : Type} (key : Int → α) (v : Int) :
    (Const.val v).keyBy key = ((key v : α) : WithTop α) := rfl

theorem Const.keyBy_maxvalue {α : Type} (key : Int → α) : Const.maxvalue.keyBy key = ⊤ := rfl

theorem KeyOrder.compare_nonneg {Raw α : Type} [LinearOrder α] {ops : TypeOps Raw}
    {key : Int → α} (hk : KeyOrder ops key) (a b : Const) :
    0 ≤ ops.partitonKeyCompare a b ↔ b.keyBy key ≤ a.keyBy key := by
  have h1 := hk.compare_neg a b
  constructor
  · intro h
    exact not_lt.mp (fun hlt => by have := h1.mpr hlt; omega)
  · intro h
    exact not_lt.mp (fun hlt => absurd (h1.mp hlt) (not_lt.mpr h))

theorem KeyOrder.compare_nonpos {Raw α : Type} [LinearOrder α] {ops : TypeOps Raw}
    {key : Int → α} (hk : KeyOrder ops key) (a b : Const) :
    ops.partitonKeyCompare a b ≤ 0 ↔ a.keyBy key ≤ b.keyBy key := by
  have h1 := hk.compare_pos a b
  constructor
  · intro h
    exact not_lt.mp (fun hlt => by have := h1.mpr hlt; omega)
  · intro h
    exact not_lt.mp (fun hlt => absurd (h1.mp hlt) (not_lt.mpr h))

theorem KeyOrder.compare_zero {Raw α : Type} [LinearOrder α] {ops : TypeOps Raw}
    {key : Int → α} (hk : KeyOrder ops key) (a b : Const) :
    ops.partitonKeyCompare a b = 0 ↔ a.keyBy key = b.keyBy key := by
  constructor
  · intro h
    exact le_antisymm ((hk.compare_nonpos a b).mp (by omega)) ((hk.compare_nonneg a b).mp (by omega))
  · intro h
    have h1 := (hk.compare_nonpos a b).mpr (le_of_eq h)
    have h2 := (hk.compare_nonneg a b).mpr (le_of_eq h.symm)
    omega

theorem KeyOrder.le_false {Raw α : Type} [LinearOrder α] {ops : TypeOps Raw}
    {key : Int → α} (hk : KeyOrder ops key) (a b : Int) :
    ops.le a b = false ↔ key b < key a := by
  rw [← not_le, ← hk.le_iff]
  simp

theorem KeyOrder.lt_false {Raw α : Type} [LinearOrder α] {ops : TypeOps Raw}
    {key : Int → α} (hk : KeyOrder ops key) (a b : Int) :
    ops.lt a b = false ↔ key b ≤ key a := by
  rw [← not_lt, ← hk.lt_iff]
  simp

/-- The integer comparison of boundary values is the order of the integers with a top
element. -/
theorem partitonKeyCompare_neg_iff (a b : Const) :
    partitonKeyCompare a b < 0 ↔ a.keyBy (fun x : Int => x) < b.keyBy (fun x : Int => x) := by
  cases a <;> cases b <;> simp [partitonKeyCompare, Const.keyBy]
  split_ifs <;> omega

theorem partitonKeyCompare_pos_iff (a b : Const) :
    0 < partitonKeyCompare a b ↔ b.keyBy (fun x : Int => x) < a.keyBy (fun x : Int => x) := by
  cases a <;> cases b <;> simp [partitonKeyCompare, Const.keyBy]
  split_ifs <;> omega

/-- The operations of an integer key with exact arithmetic are those of the order of
the integers. -/
theorem integerOps_keyOrder {Raw : Type} (env : KeyOps Raw) :
    KeyOrder (integerOps env) (fun x : Int => x) where
  compare_neg := partitonKeyCompare_neg_iff
  compare_pos := partitonKeyCompare_pos_iff
  le_iff := fun a b => by simp [integerOps]
  lt_iff := fun a b => by simp [integerOps]
  plus_mono := fun a b v a1 b1 ha hb hab => by
    simp only [integerOps, Option.some.injEq] at ha hb
    omega

/-- The operations of the sample timestamp key are those of the order of the integers. -/
theorem timestampOps_keyOrder : KeyOrder timestampOps (fun x : Int => x) where
  compare_neg := partitonKeyCompare_neg_iff
  compare_pos := partitonKeyCompare_pos_iff
  le_iff := fun a b => by simp [timestampOps]
  lt_iff := fun a b => by simp [timestampOps]
  plus_mono := fun a b v a1 b1 ha hb hab => by
    simp only [timestampOps, Option.some.injEq] at ha hb
    omega

/-- The operations of the sample decimal key are those of the order of the integers. -/
theorem decimalOps_keyOrder : KeyOrder decimalOps (fun x : Int => x) where
  compare_neg := partitonKeyCompare_neg_iff
  compare_pos := partitonKeyCompare_pos_iff
  le_iff := fun a b => by simp [decimalOps]
  lt_iff := fun a b => by simp [decimalOps]
  plus_mono := fun a b v a1 b1 ha hb hab => by
    simp only [decimalOps, Option.some.injEq] at ha hb
    omega

theorem bounds_add {α : Type} (key : Int → α) (xL : List RangePartitionDefState) (b : Const)
    (n t : String) :
    bounds key (add_range_partition_def_state xL b n t) = bounds key xL ++ [b.keyBy key] := by
  simp [bounds, add_range_partition_def_state]

theorem length_add (xL : List RangePartitionDefState) (b : Const) (n t : String) :
    (add_range_partition_def_state xL b n t).length = xL.length + 1 := by
  simp [add_range_partition_def_state]

/-- Appending a boundary above everything placed so far keeps the list strictly increasing. -/
theorem pairwise_snoc {α : Type} [LinearOrder α] {bs : List (WithTop α)} {f b : WithTop α}
    (hs : bs.Pairwise (· < ·)) (hle : ∀ x ∈ bs, x ≤ f) (hb : f < b) :
    (bs ++ [b]).Pairwise (· < ·) := by
  rw [List.pairwise_append]
  exact ⟨hs, List.pairwise_singleton _ _, fun a ha c hc => by
    simp only [List.mem_singleton] at hc; subst hc; exact lt_of_le_of_lt (hle a ha) hb⟩

theorem Ordered.snoc {α : Type} [LinearOrder α] {lo : Option (WithTop α)}
    {bs : List (WithTop α)} {f : Option (WithTop α)}
    {b : WithTop α} (h : Ordered lo bs f) (hb : ∀ x ∈ f, x < b)
    (hnone : f = none → bs = [] ∧ ∀ l ∈ lo, l < b) : Ordered lo (bs ++ [b]) (some b) := by
  cases f with
  | none =>
    obtain ⟨rfl, hl⟩ := hnone rfl
    refine ⟨by simp, ?_, ?_, ?_⟩
    · intro l hl' x hx
      simp only [List.nil_append, List.mem_singleton] at hx
      subst hx; exact hl l hl'
    · intro x hx y hy
      simp only [Option.mem_def, Option.some.injEq] at hx
      simp only [List.nil_append, List.mem_singleton] at hy
      subst hx; subst hy; exact le_refl _
    · intro l hl' x hx
      simp only [Option.mem_def, Option.some.injEq] at hx
      subst hx; exact le_of_lt (hl l hl')
  | some x =>
    have hxb : x < b := hb x rfl
    refine ⟨pairwise_snoc h.sorted (h.below x rfl) hxb, ?_, ?_, ?_⟩
    · intro l hl y hy
      rcases List.mem_append.mp hy with hy | hy
      · exact h.above l hl y hy
      · simp only [List.mem_singleton] at hy
        subst hy; exact lt_of_le_of_lt (h.lo_le l hl x rfl) hxb
    · intro z hz y hy
      simp only [Option.mem_def, Option.some.injEq] at hz
      subst hz
      rcases List.mem_append.mp hy with hy | hy
      · exact le_of_lt (lt_of_le_of_lt (h.below x rfl y hy) hxb)
      · simp only [List.mem_singleton] at hy
        subst hy; exact le_refl _
    · intro l hl z hz
      simp only [Option.mem_def, Option.some.injEq] at hz
      subst hz; exact le_of_lt (lt_of_le_of_lt (h.lo_le l hl x rfl) hxb)

theorem Ordered.empty_front {α : Type} [LinearOrder α] {lo : Option (WithTop α)}
    (x : WithTop α) (hlo : lo = none) : Ordered lo [] (some x) := by
  subst hlo
  exact ⟨List.Pairwise.nil, by simp, by simp, by simp⟩

/-- The front value may be replaced by an equal one. -/
theorem Ordered.front_eq {α : Type} [LinearOrder α] {lo : Option (WithTop α)}
    {bs : List (WithTop α)} {x y : WithTop α} (h : Ordered lo bs (some x)) (hxy : x = y) :
    Ordered lo bs (some y) := by
  subst hxy
  exact h

/-- Appending a strictly increasing run that starts above the front `x` and ends at `e`. -/
theorem Ordered.append_run {α : Type} [LinearOrder α] {lo : Option (WithTop α)}
    {bs : List (WithTop α)} {x e : WithTop α}
    (h : Ordered lo bs (some x)) (run : List (WithTop α)) (hrun : run.Pairwise (· < ·))
    (hgt : ∀ y ∈ run, x < y) (hle : ∀ y ∈ run, y ≤ e) (hxe : x ≤ e) :
    Ordered lo (bs ++ run) (some e) := by
  refine ⟨?_, ?_, ?_, ?_⟩
  · rw [List.pairwise_append]
    exact ⟨h.sorted, hrun, fun a ha c hc => lt_of_le_of_lt (h.below x rfl a ha) (hgt c hc)⟩
  · intro l hl y hy
    rcases List.mem_append.mp hy with hy | hy
    · exact h.above l hl y hy
    · exact lt_of_le_of_lt (h.lo_le l hl x rfl) (hgt y hy)
  · intro z hz y hy
    simp only [Option.mem_def, Option.some.injEq] at hz
    subst hz
    rcases List.mem_append.mp hy with hy | hy
    · exact le_trans (h.below x rfl y hy) hxe
    · exact hle y hy
  · intro l hl z hz
    simp only [Option.mem_def, Option.some.injEq] at hz
    subst hz; exact le_trans (h.lo_le l hl x rfl) hxe

/-! ## The loop of `divide_start_end_every_internal` for every key type -/

/-- One pass of the loop of `divide_start_end_every_internal` after the first: the sum
is formed, and the loop ends on it, goes on from it, or ends on the end value. -/
theorem typed_divide_loop_later_pass {Raw : Type} (ops : TypeOps Raw) (partName : String)
    (s e : Int) (everyExpr : Raw) (d : Int) (needCheck : Bool) (fuel nPart : Nat) (cur : Int)
    (result : List Int) (hn : nPart ≠ 0) :
    Typed.divide_loop ops partName s e everyExpr d needCheck (fuel + 1) nPart cur result =
      match ops.plus cur d with
      | none => .error .operatorError
      | some pnt =>
        if ops.le pnt e = true then
          if ops.lt pnt e = false then .ok (result ++ [pnt], nPart + 1)
          else Typed.divide_loop ops partName s e everyExpr d needCheck fuel (nPart + 1) pnt
            (result ++ [pnt])
        else .ok (result ++ [e], nPart + 1) := by
  conv_lhs => unfold Typed.divide_loop
  cases ops.plus cur d with
  | none => rfl
  | some pnt => simp only [hn, false_and, ↓reduceIte]

/-- The first pass of the loop of `divide_start_end_every_internal`. -/
theorem typed_divide_loop_first_pass {Raw : Type} (ops : TypeOps Raw) (partName : String)
    (s e : Int) (everyExpr : Raw) (d : Int) (needCheck : Bool) (fuel : Nat) (cur : Int)
    (result : List Int) :
    Typed.divide_loop ops partName s e everyExpr d needCheck (fuel + 1) 0 cur result =
      match ops.plus cur d with
      | none => .error .operatorError
      | some pnt =>
        match (if needCheck = true then ops.equalsUncastSum pnt s everyExpr else some true) with
        | none => .error .operatorError
        | some false => .error (.ambiguousEvery partName)
        | some true =>
          if ops.le pnt s = true then .error (.stepTooSmall partName)
          else if ops.le pnt e = true then
            if ops.lt pnt e = false then .ok (result ++ [pnt], 1)
            else Typed.divide_loop ops partName s e everyExpr d needCheck fuel 1 pnt
              (result ++ [pnt])
          else .error (.stepTooBig partName) := by
  conv_lhs => unfold Typed.divide_loop
  cases ops.plus cur d with
  | none => rfl
  | some pnt =>
    simp only [true_and, ↓reduceIte, Nat.zero_add]

/-- The loop of `divide_start_end_every_internal` appends to the end points it has,
counts them, and takes no more passes than it is given. -/
theorem typed_divide_loop_shape {Raw : Type} (ops : TypeOps Raw) (partName : String)
    (s e : Int) (everyExpr : Raw) (d : Int) (needCheck : Bool) :
    ∀ (fuel nPart : Nat) (cur : Int) (result res : List Int) (n : Nat),
      result.length = nPart →
      Typed.divide_loop ops partName s e everyExpr d needCheck fuel nPart cur result
        = .ok (res, n) →
      res.length = n ∧ nPart < n ∧ n ≤ nPart + fuel ∧ ∃ ext, res = result ++ ext := by
  intro fuel
  induction fuel with
  | zero => intro nPart cur result res n _ h; simp [Typed.divide_loop] at h
  | succ fuel ih =>
    intro nPart cur result res n hlen h
    have hrec : ∀ pnt, Typed.divide_loop ops partName s e everyExpr d needCheck fuel (nPart + 1)
        pnt (result ++ [pnt]) = .ok (res, n) →
        res.length = n ∧ nPart < n ∧ n ≤ nPart + (fuel + 1) ∧ ∃ ext, res = result ++ ext := by
      intro pnt h
      obtain ⟨h1, h2, h3, ext, hext⟩ := ih (nPart + 1) pnt (result ++ [pnt]) res n
        (by simp [hlen]) h
      exact ⟨h1, by omega, by omega, pnt :: ext, by simp [hext]⟩
    have hone : ∀ x : Int, (Except.ok (result ++ [x], nPart + 1) : Except PartError _)
        = .ok (res, n) →
        res.length = n ∧ nPart < n ∧ n ≤ nPart + (fuel + 1) ∧ ∃ ext, res = result ++ ext := by
      intro x h
      simp only [Except.ok.injEq, Prod.mk.injEq] at h
      obtain ⟨rfl, rfl⟩ := h
      exact ⟨by simp [hlen], by omega, by omega, [x], rfl⟩
    unfold Typed.divide_loop at h
    split at h
    · simp at h
    · rename_i pnt _
      split at h
      · simp at h
      · simp at h
      · split at h
        · simp at h
        · split at h
          · split at h
            · exact hone _ h
            · exact hrec _ h
          · split at h
            · simp at h
            · exact hone _ h

/-- A loop that has stopped moving forward below the end value never returns: it
repeats its point until the room is used up. -/
theorem typed_divide_loop_stuck {Raw α : Type} [LinearOrder α] (ops : TypeOps Raw)
    (key : Int → α) (hk : KeyOrder ops key) (partName : String) (s e : Int) (everyExpr : Raw)
    (d : Int) (needCheck : Bool) :
    ∀ (fuel nPart : Nat) (cur prev : Int) (result : List Int) (r : List Int × Nat),
      nPart ≠ 0 → key cur < key e → ops.plus prev d = some cur → key cur ≤ key prev →
      Typed.divide_loop ops partName s e everyExpr d needCheck fuel nPart cur result ≠ .ok r := by
  intro fuel
  induction fuel with
  | zero => intro nPart cur prev result r _ _ _ _; simp [Typed.divide_loop]
  | succ fuel ih =>
    intro nPart cur prev result r hn hlt hprev hle
    rw [typed_divide_loop_later_pass ops partName s e everyExpr d needCheck fuel nPart cur
      result hn]
    cases hp : ops.plus cur d with
    | none => simp
    | some pnt =>
      have hpc : key pnt ≤ key cur := hk.plus_mono cur prev d pnt cur hp hprev hle
      have h1 : ops.le pnt e = true := (hk.le_iff pnt e).mpr (le_of_lt (lt_of_le_of_lt hpc hlt))
      have h2 : ops.lt pnt e = true := (hk.lt_iff pnt e).mpr (lt_of_le_of_lt hpc hlt)
      simp only [h1, h2, ↓reduceIte, Bool.true_eq_false]
      exact ih (nPart + 1) pnt cur (result ++ [pnt]) r (by omega) (lt_of_le_of_lt hpc hlt) hp hpc

/-- On the operations of an order, the end points that the loop of
`divide_start_end_every_internal` appends rise strictly, from above the point it
starts at up to the end value. -/
theorem typed_divide_loop_ord {Raw α : Type} [LinearOrder α] (ops : TypeOps Raw)
    (key : Int → α) (hk : KeyOrder ops key) (partName : String) (s e : Int) (everyExpr : Raw)
    (d : Int) (needCheck : Bool) :
    ∀ (fuel nPart : Nat) (cur : Int) (result res : List Int) (n : Nat),
      key cur < key e → (nPart = 0 → cur = s) →
      (nPart ≠ 0 → ∃ prev, ops.plus prev d = some cur ∧ key prev ≤ key cur) →
      (result.map key).Pairwise (· < ·) → (∀ x ∈ result, key x ≤ key cur) →
      Typed.divide_loop ops partName s e everyExpr d needCheck fuel nPart cur result
        = .ok (res, n) →
      (res.map key).Pairwise (· < ·) ∧
        ∃ ext, res = result ++ ext ∧ ∀ x ∈ ext, key cur < key x ∧ key x ≤ key e := by
  intro fuel
  induction fuel with
  | zero => intro nPart cur result res n _ _ _ _ _ h; simp [Typed.divide_loop] at h
  | succ fuel ih =>
    intro nPart cur result res n hlt h0 hprev hpw hle h
    have hsnoc : ∀ x : Int, key cur < key x →
        ((result ++ [x]).map key).Pairwise (· < ·) := by
      intro x hx
      rw [List.map_append, List.pairwise_append]
      refine ⟨hpw, by simp, ?_⟩
      intro a ha b hb
      simp only [List.map_cons, List.map_nil, List.mem_singleton] at hb
      subst hb
      obtain ⟨y, hy, rfl⟩ := List.mem_map.mp ha
      exact lt_of_le_of_lt (hle y hy) hx
    have hone : ∀ x : Int, key cur < key x → key x ≤ key e →
        (Except.ok (result ++ [x], nPart + 1) : Except PartError _) = .ok (res, n) →
        (res.map key).Pairwise (· < ·) ∧
          ∃ ext, res = result ++ ext ∧ ∀ x ∈ ext, key cur < key x ∧ key x ≤ key e := by
      intro x hx hxe h
      simp only [Except.ok.injEq, Prod.mk.injEq] at h
      obtain ⟨rfl, rfl⟩ := h
      refine ⟨hsnoc x hx, [x], rfl, ?_⟩
      intro y hy
      simp only [List.mem_singleton] at hy
      subst hy
      exact ⟨hx, hxe⟩
    have hrec : ∀ pnt, ops.plus cur d = some pnt → key cur ≤ key pnt → key pnt < key e →
        Typed.divide_loop ops partName s e everyExpr d needCheck fuel (nPart + 1) pnt
          (result ++ [pnt]) = .ok (res, n) →
        (res.map key).Pairwise (· < ·) ∧
          ∃ ext, res = result ++ ext ∧ ∀ x ∈ ext, key cur < key x ∧ key x ≤ key e := by
      intro pnt hp hcp hpe h
      have hstrict : key cur < key pnt := by
        by_contra hnot
        exact typed_divide_loop_stuck ops key hk partName s e everyExpr d needCheck fuel
          (nPart + 1) pnt cur (result ++ [pnt]) (res, n) (by omega) hpe hp (not_lt.mp hnot) h
      obtain ⟨h1, ext, hext, hall⟩ := ih (nPart + 1) pnt (result ++ [pnt]) res n hpe
        (by omega) (fun _ => ⟨cur, hp, hcp⟩) (hsnoc pnt hstrict)
        (by
          intro x hx
          rcases List.mem_append.mp hx with hx | hx
          · exact le_trans (hle x hx) hcp
          · simp only [List.mem_singleton] at hx
            subst hx
            exact le_refl _) h
      refine ⟨h1, pnt :: ext, by simp [hext], ?_⟩
      intro x hx
      rcases List.mem_cons.mp hx with hx | hx
      · subst hx
        exact ⟨hstrict, le_of_lt hpe⟩
      · exact ⟨lt_trans hstrict (hall x hx).1, (hall x hx).2⟩
    by_cases hn : nPart = 0
    · subst hn
      have hcur := h0 rfl
      subst hcur
      rw [typed_divide_loop_first_pass] at h
      split at h
      · simp at h
      · rename_i pnt hp
        split at h
        · simp at h
        · simp at h
        · split at h
          · simp at h
          · rename_i hsmall
            have hgt : key cur < key pnt := (hk.le_false pnt cur).mp (by simpa using hsmall)
            split at h
            · rename_i hpe
              have hpe' := (hk.le_iff pnt e).mp hpe
              split at h
              · exact hone pnt hgt hpe' h
              · rename_i hlt2
                exact hrec pnt hp (le_of_lt hgt)
                  ((hk.lt_iff pnt e).mp (by simpa using hlt2)) h
            · simp at h
    · obtain ⟨prev, hpv, hpc⟩ := hprev hn
      rw [typed_divide_loop_later_pass ops partName s e everyExpr d needCheck fuel nPart cur
        result hn] at h
      split at h
      · simp at h
      · rename_i pnt hp
        have hcp : key cur ≤ key pnt := hk.plus_mono prev cur d cur pnt hpv hp hpc
        split at h
        · rename_i hpe
          have hpe' := (hk.le_iff pnt e).mp hpe
          split at h
          · rename_i hnlt
            have hge : key e ≤ key pnt := (hk.lt_false pnt e).mp hnlt
            exact hone pnt (lt_of_lt_of_le hlt hge) hpe' h
          · rename_i hlt2
            exact hrec pnt hp hcp ((hk.lt_iff pnt e).mp (by simpa using hlt2)) h
        · exact hone e hlt (le_refl _) h

/-- What `divide_start_end_every_internal` returns when it accepts a request: `*numPart`
counts the end points, of which there is at least one and no more than the room; and on
the operations of an order the start value lies below the end value and the end
points rise strictly from above the start value up to the end value. -/
theorem typed_divide_internal_ok {Raw α : Type} [LinearOrder α] (ops : TypeOps Raw)
    (key : Int → α) (partName : String) (s e : Int) (everyExpr : Raw) (maxNum : Nat)
    (isinterval needCheck : Bool) (res : List Int) (n : Nat)
    (h : Typed.divide_start_end_every_internal ops partName s e everyExpr maxNum isinterval
      needCheck = .ok (res, n)) :
    res.length = n ∧ 0 < n ∧ n ≤ maxNum ∧
      (KeyOrder ops key → key s < key e ∧ (res.map key).Pairwise (· < ·) ∧
        ∀ x ∈ res, key s < key x ∧ key x ≤ key e) := by
  unfold Typed.divide_start_end_every_internal at h
  split at h
  · simp at h
  · rename_i hse
    obtain ⟨h1, h2, h3, _⟩ := typed_divide_loop_shape ops partName s e everyExpr _ needCheck
      maxNum 0 s [] res n rfl h
    refine ⟨h1, by omega, by omega, ?_⟩
    intro hk
    have hlt : key s < key e := (hk.le_false e s).mp (by simpa using hse)
    obtain ⟨hpw, ext, hext, hall⟩ := typed_divide_loop_ord ops key hk partName s e everyExpr _
      needCheck maxNum 0 s [] res n hlt (fun _ => rfl) (fun hn => absurd rfl hn)
      List.Pairwise.nil (by simp) h
    simp only [List.nil_append] at hext
    subst hext
    exact ⟨hlt, hpw, hall⟩

/-- The `switch` of `DividePartitionStartEndInterval` ends in a call of
`divide_start_end_every_internal` whenever it returns. -/
theorem typed_divide_ok {Raw : Type} (ops : TypeOps Raw) (atttypid : KeyType)
    (partName : String) (s e v : Int) (everyExpr : Raw) (maxNum : Nat) (r : List Int × Nat)
    (h : Typed.DividePartitionStartEndInterval ops atttypid partName s e v everyExpr maxNum
      = .ok r) :
    ∃ isinterval needCheck, Typed.divide_start_end_every_internal ops partName s e everyExpr
      maxNum isinterval needCheck = .ok r := by
  unfold Typed.DividePartitionStartEndInterval at h
  split at h
  · split at h
    · simp at h
    · exact ⟨_, _, h⟩
  · split at h
    · simp at h
    · exact ⟨_, _, h⟩
  · split at h
    · simp at h
    · exact ⟨_, _, h⟩
  · exact ⟨_, _, h⟩
  · exact ⟨_, _, h⟩
  · exact ⟨_, _, h⟩
  · split at h
    · simp at h
    · exact ⟨_, _, h⟩
  · split at h
    · simp at h
    · exact ⟨_, _, h⟩
  · split at h
    · simp at h
    · exact ⟨_, _, h⟩
  · simp at h

/-! ## The loop invariant -/

/-- What passing the gap check says: there is no previous END value, or the previous END
value is not MAXVALUE and the START value compares equal to it. -/
theorem check_start_against_last_ok {Raw : Type} (ops : TypeOps Raw) (lastVal : Option Const)
    (startVal : Const) (partName : String)
    (h : Typed.check_start_against_last ops lastVal startVal partName = .ok ()) :
    lastVal = none ∨ ∃ lv, lastVal = some lv ∧ lv ≠ .maxvalue ∧
      ops.partitonKeyCompare lv startVal = 0 := by
  unfold Typed.check_start_against_last at h
  split at h
  · exact Or.inl rfl
  · rename_i lv
    right
    split at h
    · simp at h
    · rename_i hmax
      split at h
      · simp at h
      · rename_i h1
        split at h
        · simp at h
        · rename_i h2
          exact ⟨lv, rfl, hmax, by omega⟩

/-- What a successful `add_last_single_start_partition` does: the pending START value
compares below the current one, and one partition ending at the current START value is
appended. -/
theorem add_last_single_start_partition_ok {Raw : Type} (lim : Limits) (ops : TypeOps Raw)
    (lowBound : Option Const) (st st1 : LoopState Raw)
    (ls d : RangePartitionStartEndDefState Raw) (sv : Const)
    (h : Typed.add_last_single_start_partition lim ops lowBound st ls d sv = .ok st1) :
    ∃ raw name, ls.startValue = some raw ∧
      ops.partitonKeyCompare (ops.GetPartitionValue raw false) sv < 0 ∧
      st1 = { st with
              newPartList := add_range_partition_def_state st.newPartList sv name ls.tableSpaceName
              totalPart := st.totalPart + 1 } := by
  unfold Typed.add_last_single_start_partition at h
  split at h
  · simp at h
  · rename_i raw hraw
    split at h
    · simp at h
    · rename_i hcmp
      have hlt : ops.partitonKeyCompare (ops.GetPartitionValue raw false) sv < 0 := by omega
      split at h
      · split at h
        · simp at h
        · rename_i name _
          simp only [Except.ok.injEq] at h
          exact ⟨raw, name, hraw, hlt, h.symm⟩
      · simp only [Except.ok.injEq] at h
        exact ⟨raw, ls.partitionName, hraw, hlt, h.symm⟩

theorem front_of_lastVal {Raw α : Type} (key : Int → α) (st : LoopState Raw) (lv : Const)
    (h : st.lastVal = some lv) : front key st = some (lv.keyBy key) := by
  simp [front, h]

theorem front_of_pending {Raw α : Type} (key : Int → α) (st : LoopState Raw)
    (ds : RangePartitionStartEndDefState Raw)
    (sv : Const) (h : st.lastVal = none) (hd : st.defState = some ds)
    (hs : st.startVal = some sv) : front key st = some (sv.keyBy key) := by
  simp [front, h, hd, hs]

theorem front_of_fresh {Raw α : Type} (key : Int → α) (st : LoopState Raw)
    (h : st.lastVal = none) (hd : st.defState = none) : front key st = none := by
  simp [front, h, hd]

/-- The block in front of an entry with a START value `v` leaves a list ordered
below `v`, counted by `totalPart`, that extends the one it found. -/
theorem build_before_start_ok {Raw α : Type} [LinearOrder α] (lim : Limits) (ops : TypeOps Raw)
    (key : Int → α) (lowBound upBound : Option Const) (E : Nat) (lo : Option (WithTop α))
    (st0 st1 : LoopState Raw) (d : RangePartitionStartEndDefState Raw) (v : Int)
    (hinv : Inv ops key E lo st0) (hlo : st0.defState = none → lo = none)
    (hchk : Typed.check_start_against_last ops st0.lastVal (.val v) d.partitionName = .ok ())
    (h : Typed.build_before_start lim ops lowBound upBound { st0 with defState := some d }
      st0.defState d (.val v) = .ok st1) :
    (KeyOrder ops key →
        Ordered lo (bounds key st1.newPartList) (some ((key v : α) : WithTop α))) ∧
      st1.totalPart = E + st1.newPartList.length ∧ st1.defState = some d ∧
      st1.curDefState = st0.curDefState ∧ st1.lastVal = st0.lastVal ∧
      ∃ ext, st1.newPartList = st0.newPartList ++ ext := by
  unfold Typed.build_before_start at h
  simp only at h
  split at h
  · rename_i lv hlv
    simp only [Except.ok.injEq] at h
    subst h
    rcases check_start_against_last_ok _ _ _ _ hchk with hnone | ⟨lv', hsome, _, hzero⟩
    · rw [hnone] at hlv; simp at hlv
    · refine ⟨?_, hinv.count, rfl, rfl, rfl, [], by simp⟩
      intro hk
      have hord := hinv.ord hk
      rw [front_of_lastVal key st0 _ hsome] at hord
      exact hord.front_eq ((hk.compare_zero _ _).mp hzero)
  · rename_i hnone
    split at h
    · rename_i ls hls
      obtain ⟨raw, name, hraw, hlt, rfl⟩ := add_last_single_start_partition_ok _ _ _ _ _ _ _ _ h
      obtain ⟨raw', v0, hraw', _, hv0, hsv0⟩ := hinv.pending hnone ls hls
      rw [hraw] at hraw'
      simp only [Option.some.injEq] at hraw'
      subst hraw'
      rw [hv0] at hlt
      refine ⟨?_, ?_, rfl, rfl, rfl, _, rfl⟩
      · intro hk
        have hord := hinv.ord hk
        rw [front_of_pending key st0 ls _ hnone hls hsv0] at hord
        simp only [bounds_add]
        exact hord.snoc (by
          intro x hx
          simp only [Option.mem_def, Option.some.injEq] at hx
          subst hx
          exact (hk.compare_neg _ _).mp hlt) (by simp)
      · simp only [length_add, hinv.count]; omega
    · rename_i hfresh
      obtain ⟨hnil, _⟩ := hinv.fresh hfresh
      have hlo' := hlo hfresh
      split at h
      · split at h
        · simp at h
        · rename_i name _
          simp only [Except.ok.injEq] at h
          subst h
          refine ⟨?_, ?_, rfl, rfl, rfl, _, rfl⟩
          · intro hk
            have hord := hinv.ord hk
            rw [front_of_fresh key st0 hnone hfresh, hnil] at hord
            simp only [bounds_add, hnil]
            exact hord.snoc (by simp) (by intro _; subst hlo'; simp [bounds])
          · simp only [length_add, hinv.count]; omega
      · split at h
        · simp at h
        · simp only [Except.ok.injEq] at h
          subst h
          refine ⟨?_, hinv.count, rfl, rfl, rfl, [], by simp⟩
          intro _
          simp only [hnil]
          exact Ordered.empty_front _ hlo'

/-- The partitions that `add_divided` appends carry the divided end points, in order. -/
theorem add_divided_ok {α : Type} (key : Int → α) (lim : Limits)
    (namePrefix tblSpaceName : String) :
    ∀ (res : List Int) (j : Nat) (xL xL' : List RangePartitionDefState),
      add_divided lim namePrefix tblSpaceName j res xL = .ok xL' →
      ∃ ext, xL' = xL ++ ext ∧
        bounds key ext = res.map (fun x => ((key x : α) : WithTop α)) ∧
        ext.length = res.length := by
  intro res
  induction res with
  | nil =>
    intro j xL xL' h
    simp only [add_divided, Except.ok.injEq] at h
    exact ⟨[], by simp [h], rfl, rfl⟩
  | cons pnt rest ih =>
    intro j xL xL' h
    unfold add_divided at h
    split at h
    · simp at h
    · rename_i partName _
      obtain ⟨ext, hext, hb, hl⟩ := ih _ _ _ h
      refine ⟨⟨.val pnt, partName, tblSpaceName⟩ :: ext, ?_, ?_, ?_⟩
      · rw [hext]; simp [add_range_partition_def_state]
      · simp only [bounds, List.map_cons] at hb ⊢
        rw [hb]; rfl
      · simp [hl]

/-- Entry START + END + EVERY keeps the loop invariant. -/
theorem transform_start_end_every_inv {Raw α : Type} [LinearOrder α] (lim : Limits)
    (ops : TypeOps Raw) (key : Int → α) (atttypid : KeyType) (isinterval : Bool)
    (lowBound upBound : Option Const) (E : Nat) (lo : Option (WithTop α))
    (st0 st1 : LoopState Raw) (d : RangePartitionStartEndDefState Raw) (sE eE vE : Raw)
    (hinv : Inv ops key E lo st0) (hlo : st0.defState = none → lo = none)
    (hend : d.endValue = some eE)
    (h : Typed.transform_start_end_every lim ops atttypid isinterval lowBound upBound
      { st0 with defState := some d } st0.defState d sE eE vE = .ok st1) :
    Inv ops key E lo st1 ∧ st1.defState = some d ∧ st1.curDefState = st0.curDefState ∧
      ∃ ext, st1.newPartList = st0.newPartList ++ ext := by
  unfold Typed.transform_start_end_every at h
  split at h
  · rename_i s e v hs he _
    split at h
    · simp at h
    · split at h
      · simp at h
      · rename_i hchk
        split at h
        · simp at h
        · rename_i stb hb
          simp only at hchk
          obtain ⟨hord, hcnt, hds, hcur, _, extb, hextb⟩ :=
            build_before_start_ok lim ops key lowBound upBound E lo st0 stb d s hinv hlo hchk hb
          split at h
          · simp at h
          · split at h
            · simp at h
            · rename_i resList numPart hdiv
              split at h
              · simp at h
              · rename_i xL hadd
                simp only [Except.ok.injEq] at h
                subst h
                obtain ⟨iv, nc, hdiv'⟩ := typed_divide_ok ops atttypid _ s e v vE _ _ hdiv
                obtain ⟨hlen, _, _, hdord⟩ :=
                  typed_divide_internal_ok ops key _ s e vE _ iv nc resList numPart hdiv'
                obtain ⟨ext, hxL, hbe, hle⟩ := add_divided_ok key _ _ _ _ _ _ _ hadd
                refine ⟨⟨?_, ?_, ?_, ?_, ?_, ?_⟩, hds, hcur, extb ++ ext, ?_⟩
                · intro hk
                  obtain ⟨hse, hpw, hall⟩ := hdord hk
                  rw [front_of_lastVal key _ (.val e) rfl]
                  simp only [hxL, bounds, List.map_append]
                  have hbe' : List.map (fun p => p.boundary.keyBy key) ext
                      = resList.map (fun x => ((key x : α) : WithTop α)) := hbe
                  rw [hbe']
                  refine Ordered.append_run (hord hk) _ ?_ ?_ ?_ ?_
                  · rw [List.pairwise_map] at hpw ⊢
                    exact hpw.imp (fun hab => by exact_mod_cast hab)
                  · intro y hy
                    obtain ⟨x, hx, rfl⟩ := List.mem_map.mp hy
                    exact_mod_cast (hall x hx).1
                  · intro y hy
                    obtain ⟨x, hx, rfl⟩ := List.mem_map.mp hy
                    simp only [Const.keyBy]
                    exact_mod_cast (hall x hx).2
                  · simp only [Const.keyBy]
                    exact_mod_cast le_of_lt hse
                · simp only [hxL, List.length_append, hle, hlen, hcnt]; omega
                · intro hnone; simp [hds] at hnone
                · intro hnone; simp at hnone
                · intro ds hds' e' he'
                  simp only [hds, Option.some.injEq] at hds'
                  subst hds'
                  rw [hend] at he'
                  simp only [Option.some.injEq] at he'
                  subst he'
                  simp [he]
                · intro ds hds' hn
                  simp only [hds, Option.some.injEq] at hds'
                  subst hds'
                  rw [hend] at hn
                  simp at hn
                · simp only [hxL, hextb, List.append_assoc]
  · simp at h

/-- Entry single START keeps the loop invariant. -/
theorem transform_start_inv {Raw α : Type} [LinearOrder α] (lim : Limits) (ops : TypeOps Raw)
    (key : Int → α) (lowBound upBound : Option Const) (E : Nat) (lo : Option (WithTop α))
    (st0 st1 : LoopState Raw) (d : RangePartitionStartEndDefState Raw) (sE : Raw)
    (hinv : Inv ops key E lo st0) (hlo : st0.defState = none → lo = none)
    (hstart : d.startValue = some sE) (hend : d.endValue = none)
    (h : Typed.transform_start lim ops lowBound upBound { st0 with defState := some d }
      st0.defState d sE = .ok st1) :
    Inv ops key E lo st1 ∧ st1.defState = some d ∧ st1.curDefState = st0.curDefState ∧
      ∃ ext, st1.newPartList = st0.newPartList ++ ext := by
  unfold Typed.transform_start at h
  simp only at h
  split at h
  · simp at h
  · rename_i hmax
    cases hv : ops.GetPartitionValue sE false with
    | maxvalue => exact absurd hv hmax
    | val v =>
      rw [hv] at h
      split at h
      · simp at h
      · rename_i hchk
        split at h
        · simp at h
        · rename_i stb hb
          simp only [Except.ok.injEq] at h
          subst h
          obtain ⟨hord, hcnt, hds, hcur, _, extb, hextb⟩ :=
            build_before_start_ok lim ops key lowBound upBound E lo st0 stb d v hinv hlo hchk hb
          refine ⟨⟨?_, hcnt, ?_, ?_, ?_, fun _ _ _ => rfl⟩, hds, hcur, extb, hextb⟩
          · intro hk
            have hf : front key { stb with startVal := some (.val v), lastVal := none }
                = some ((key v : α) : WithTop α) := by simp [front, hds, Const.keyBy]
            rw [hf]
            exact hord hk
          · intro hnone; simp [hds] at hnone
          · intro _ ds hds'
            simp only [hds, Option.some.injEq] at hds'
            subst hds'
            exact ⟨sE, v, hstart, hend, hv, rfl⟩
          · intro ds hds' e' he'
            simp only [hds, Option.some.injEq] at hds'
            subst hds'
            rw [hend] at he'
            simp at he'

/-- Entry START + END keeps the loop invariant. -/
theorem transform_start_end_inv {Raw α : Type} [LinearOrder α] (lim : Limits)
    (ops : TypeOps Raw) (key : Int → α)
    (lowBound upBound : Option Const) (E : Nat) (lo : Option (WithTop α))
    (st0 st1 : LoopState Raw) (d : RangePartitionStartEndDefState Raw) (sE eE : Raw)
    (hinv : Inv ops key E lo st0) (hlo : st0.defState = none → lo = none)
    (hend : d.endValue = some eE)
    (h : Typed.transform_start_end lim ops lowBound upBound { st0 with defState := some d }
      st0.defState d sE eE = .ok st1) :
    Inv ops key E lo st1 ∧ st1.defState = some d ∧ st1.curDefState = st0.curDefState ∧
      ∃ ext, st1.newPartList = st0.newPartList ++ ext := by
  unfold Typed.transform_start_end at h
  simp only at h
  split at h
  · simp at h
  · rename_i hmax
    cases hv : ops.GetPartitionValue sE false with
    | maxvalue => exact absurd hv hmax
    | val v =>
      rw [hv] at h
      split at h
      · simp at h
      · rename_i hcmp
        have hve : KeyOrder ops key →
            ((key v : α) : WithTop α) < (ops.GetPartitionValue eE false).keyBy key := by
          intro hk
          have := (hk.compare_neg (.val v) (ops.GetPartitionValue eE false)).mp (by omega)
          simpa [Const.keyBy] using this
        split at h
        · simp at h
        · rename_i hchk
          -- the state after the block in front of the END boundary
          have key1 : ∀ st2 : LoopState Raw,
              (KeyOrder ops key → Ordered lo (bounds key st2.newPartList)
                (some ((ops.GetPartitionValue eE false).keyBy key))) →
              st2.totalPart = E + st2.newPartList.length → st2.defState = some d →
              st2.curDefState = st0.curDefState →
              (∃ ext, st2.newPartList = st0.newPartList ++ ext) →
              st1 = { st2 with startVal := some (.val v),
                               endVal := some (ops.GetPartitionValue eE false),
                               lastVal := some (ops.GetPartitionValue eE false) } →
              Inv ops key E lo st1 ∧ st1.defState = some d ∧ st1.curDefState = st0.curDefState ∧
                ∃ ext, st1.newPartList = st0.newPartList ++ ext := by
            intro st2 hord hcnt hds hcur hext hst1
            subst hst1
            refine ⟨⟨?_, hcnt, ?_, ?_, ?_, ?_⟩, hds, hcur, hext⟩
            · intro hk
              rw [front_of_lastVal key _ (ops.GetPartitionValue eE false) rfl]
              exact hord hk
            · intro hnone; simp [hds] at hnone
            · intro hnone; simp at hnone
            · intro ds hds' e' he'
              simp only [hds, Option.some.injEq] at hds'
              subst hds'
              rw [hend] at he'
              simp only [Option.some.injEq] at he'
              subst he'
              exact ⟨rfl, rfl⟩
            · intro ds hds' hn
              simp only [hds, Option.some.injEq] at hds'
              subst hds'
              rw [hend] at hn
              simp at hn
          split at h
          · simp at h
          · rename_i st2 hst2
            simp only [Except.ok.injEq] at h
            have snocE : KeyOrder ops key → ∀ bs : List (WithTop α),
                Ordered lo bs (some ((key v : α) : WithTop α)) →
                Ordered lo (bs ++ [(ops.GetPartitionValue eE false).keyBy key])
                  (some ((ops.GetPartitionValue eE false).keyBy key)) := fun hk bs hbs =>
              hbs.snoc (by
                intro x hx
                simp only [Option.mem_def, Option.some.injEq] at hx
                subst hx; exact hve hk) (by simp)
            split at hst2
            · -- the previous entry had an END value
              rename_i lv hlv
              simp only [Except.ok.injEq] at hst2
              rcases check_start_against_last_ok _ _ _ _ hchk with hnone | ⟨lv', hsome, _, hzero⟩
              · rw [hlv] at hnone; simp at hnone
              · refine key1 st2 ?_ ?_ ?_ ?_ ?_ h.symm <;> subst hst2
                · intro hk
                  have hord := hinv.ord hk
                  rw [front_of_lastVal key st0 _ hsome] at hord
                  simp only [bounds_add]
                  exact snocE hk _ (hord.front_eq ((hk.compare_zero _ _).mp hzero))
                · simp only [length_add, hinv.count]; omega
                · rfl
                · rfl
                · exact ⟨_, rfl⟩
            · rename_i hnone
              split at hst2
              · -- the previous entry was a single START
                rename_i ls hls
                split at hst2
                · simp at hst2
                · rename_i stb hadd
                  simp only [Except.ok.injEq] at hst2
                  have hb : Typed.build_before_start lim ops lowBound upBound
                      { st0 with defState := some d } st0.defState d (.val v) = .ok stb := by
                    unfold Typed.build_before_start
                    simp only
                    split
                    · rename_i lv1 hlv1
                      rw [hnone] at hlv1; simp at hlv1
                    · split
                      · rename_i ls1 hls1
                        rw [hls] at hls1
                        simp only [Option.some.injEq] at hls1
                        subst hls1
                        exact hadd
                      · rename_i hf
                        rw [hls] at hf; simp at hf
                  obtain ⟨hord, hcnt, hds, hcur, _, extb, hextb⟩ :=
                    build_before_start_ok lim ops key lowBound upBound E lo st0 stb d v hinv hlo
                      hchk hb
                  refine key1 st2 ?_ ?_ ?_ ?_ ?_ h.symm <;> subst hst2
                  · intro hk
                    simp only [bounds_add]
                    exact snocE hk _ (hord hk)
                  · simp only [length_add, hcnt]; omega
                  · exact hds
                  · exact hcur
                  · exact ⟨extb ++ [⟨ops.GetPartitionValue eE false, d.partitionName,
                      d.tableSpaceName⟩], by
                      simp only [add_range_partition_def_state, hextb, List.append_assoc]⟩
              · -- this is the first entry
                rename_i hfresh
                obtain ⟨hnil, _⟩ := hinv.fresh hfresh
                have hlo' := hlo hfresh
                subst hlo'
                split at hst2
                · split at hst2
                  · simp at hst2
                  · split at hst2
                    · simp at hst2
                    · split at hst2
                      · simp at hst2
                      · rename_i pfx _ name0 _ _ name1 _
                        simp only [Except.ok.injEq] at hst2
                        refine key1 st2 ?_ ?_ ?_ ?_ ?_ h.symm <;> subst hst2
                        · intro hk
                          simp only [bounds_add, hnil]
                          have h0 : Ordered (none : Option (WithTop α))
                              (bounds key ([] : List RangePartitionDefState)) none :=
                            ⟨List.Pairwise.nil, by simp, by simp, by simp⟩
                          have h1 := h0.snoc (b := ((key v : α) : WithTop α)) (by simp)
                            (by simp [bounds])
                          exact snocE hk _ h1
                        · simp only [length_add, hinv.count]; omega
                        · rfl
                        · rfl
                        · exact ⟨[⟨.val v, name0, d.tableSpaceName⟩,
                            ⟨ops.GetPartitionValue eE false, name1, d.tableSpaceName⟩], by
                              simp [add_range_partition_def_state]⟩
                · split at hst2
                  · simp at hst2
                  · simp only [Except.ok.injEq] at hst2
                    refine key1 st2 ?_ ?_ ?_ ?_ ?_ h.symm <;> subst hst2
                    · intro hk
                      simp only [bounds_add, hnil]
                      have h0 : Ordered (none : Option (WithTop α))
                          (bounds key ([] : List RangePartitionDefState))
                          (some ((key v : α) : WithTop α)) := Ordered.empty_front _ rfl
                      exact snocE hk _ h0
                    · simp only [length_add, hinv.count]; omega
                    · rfl
                    · rfl
                    · exact ⟨_, rfl⟩

/-- Entry single END keeps the loop invariant. -/
theorem transform_end_inv {Raw α : Type} [LinearOrder α] (ops : TypeOps Raw) (key : Int → α)
    (lowBound : Option Const) (E : Nat) (lo : Option (WithTop α))
    (st0 st1 : LoopState Raw) (d : RangePartitionStartEndDefState Raw) (eE : Raw)
    (hinv : Inv ops key E lo st0) (hlo : st0.defState = none → lo = none)
    (hend : d.endValue = some eE)
    (h : Typed.transform_end ops lowBound { st0 with defState := some d } st0.defState d eE
      = .ok st1) :
    Inv ops key E lo st1 ∧ st1.defState = some d ∧ st1.curDefState = st0.curDefState ∧
      ∃ ext, st1.newPartList = st0.newPartList ++ ext := by
  unfold Typed.transform_end at h
  simp only at h
  split at h
  · simp at h
  · rename_i hchk
    simp only [Except.ok.injEq] at h
    subst h
    have hord : KeyOrder ops key →
        Ordered lo (bounds key st0.newPartList ++ [(ops.GetPartitionValue eE false).keyBy key])
          (some ((ops.GetPartitionValue eE false).keyBy key)) := by
      intro hk
      split at hchk
      · rename_i lv hlv
        split at hchk
        · simp at hchk
        · split at hchk
          · simp at hchk
          · rename_i hcmp
            have hlt : lv.keyBy key < (ops.GetPartitionValue eE false).keyBy key :=
              (hk.compare_neg _ _).mp (by omega)
            have hord := hinv.ord hk
            rw [front_of_lastVal key st0 _ hlv] at hord
            exact hord.snoc (by
              intro x hx
              simp only [Option.mem_def, Option.some.injEq] at hx
              subst hx; exact hlt) (by simp)
      · rename_i hnone
        split at hchk
        · simp at hchk
        · rename_i hfresh
          obtain ⟨hnil, _⟩ := hinv.fresh hfresh
          have hlo' := hlo hfresh
          subst hlo'
          have hord := hinv.ord hk
          rw [front_of_fresh key st0 hnone hfresh] at hord
          exact hord.snoc (by simp) (by intro _; simp [hnil, bounds])
    refine ⟨⟨?_, ?_, ?_, ?_, ?_, ?_⟩, rfl, rfl, _, rfl⟩
    · intro hk
      rw [front_of_lastVal key _ (ops.GetPartitionValue eE false) rfl]
      simp only [bounds_add]
      exact hord hk
    · simp only [length_add, hinv.count]; omega
    · intro hnone; simp at hnone
    · intro hnone; simp at hnone
    · intro ds hds' e' he'
      simp only [Option.some.injEq] at hds'
      subst hds'
      rw [hend] at he'
      simp only [Option.some.injEq] at he'
      subst he'
      exact ⟨rfl, rfl⟩
    · intro ds hds' hn
      simp only [Option.some.injEq] at hds'
      subst hds'
      rw [hend] at hn
      simp at hn

/-- One dispatched entry keeps the loop invariant. -/
theorem transform_entry_inv {Raw α : Type} [LinearOrder α] (lim : Limits) (ops : TypeOps Raw)
    (key : Int → α) (atttypid : KeyType) (isinterval : Bool)
    (lowBound upBound : Option Const) (E : Nat) (lo : Option (WithTop α))
    (st0 st1 : LoopState Raw) (d : RangePartitionStartEndDefState Raw)
    (hinv : Inv ops key E lo st0) (hlo : st0.defState = none → lo = none)
    (h : Typed.transform_entry lim ops atttypid isinterval lowBound upBound
      { st0 with defState := some d } st0.defState d = .ok st1) :
    Inv ops key E lo st1 ∧ st1.defState = some d ∧ st1.curDefState = st0.curDefState ∧
      ∃ ext, st1.newPartList = st0.newPartList ++ ext := by
  unfold Typed.transform_entry at h
  split at h
  · rename_i s e v _ he _
    exact transform_start_end_every_inv lim ops key atttypid isinterval lowBound upBound E lo
      st0 st1 d s e v hinv hlo he h
  · rename_i s e _ he _
    exact transform_start_end_inv lim ops key lowBound upBound E lo st0 st1 d s e hinv hlo he h
  · rename_i s hs he
    exact transform_start_inv lim ops key lowBound upBound E lo st0 st1 d s hinv hlo hs he h
  · rename_i e _ he
    exact transform_end_inv ops key lowBound E lo st0 st1 d e hinv hlo he h
  · simp at h

/-- The invariant does not read `curDefState`. -/
theorem Inv.set_curDefState {Raw α : Type} [LinearOrder α] {ops : TypeOps Raw} {key : Int → α}
    {E : Nat} {lo : Option (WithTop α)}
    {st : LoopState Raw} (h : Inv ops key E lo st) (c : Nat) :
    Inv ops key E lo { st with curDefState := c } :=
  ⟨h.ord, h.count, h.fresh, h.pending, h.ended, h.started⟩

/-- One round of the main loop keeps the invariant, records the entry, extends the
list, and stays within `MAX_PARTITION_NUM`. -/
theorem loop_body_inv {Raw α : Type} [LinearOrder α] (lim : Limits) (ops : TypeOps Raw)
    (key : Int → α) (atttypid : KeyType) (isinterval : Bool)
    (lowBound upBound : Option Const) (E : Nat) (lo : Option (WithTop α))
    (st0 st1 : LoopState Raw) (d : RangePartitionStartEndDefState Raw) (hasNext : Bool)
    (hinv : Inv ops key E lo st0) (hlo : st0.defState = none → lo = none)
    (h : Typed.loop_body lim ops atttypid isinterval lowBound upBound st0 d hasNext = .ok st1) :
    Inv ops key E lo st1 ∧ st1.defState = some d ∧ st1.totalPart ≤ lim.MAX_PARTITION_NUM ∧
      (hasNext = true → st1.totalPart < lim.MAX_PARTITION_NUM) ∧
      ∃ ext, st1.newPartList = st0.newPartList ++ ext := by
  unfold Typed.loop_body at h
  split at h
  · simp at h
  · split at h
    · simp at h
    · rename_i st2 hst2
      obtain ⟨hinv2, hds, _, hext⟩ :=
        transform_entry_inv lim ops key atttypid isinterval lowBound upBound E lo st0 st2 d
          hinv hlo hst2
      split at h
      · split at h
        · rename_i hbrk
          simp only [Except.ok.injEq] at h
          subst h
          exact ⟨hinv2, hds, by omega, by intro hn; rw [hbrk.2] at hn; simp at hn, hext⟩
        · simp at h
      · rename_i hlt
        simp only [Except.ok.injEq] at h
        subst h
        exact ⟨hinv2.set_curDefState _, hds, by simp only; omega, by intro _; simp only; omega, hext⟩

/-- The main loop keeps the invariant; after a non-empty list the recorded entry is
the last one, and the list of partitions has only grown. -/
theorem main_loop_inv {Raw α : Type} [LinearOrder α] (lim : Limits) (ops : TypeOps Raw)
    (key : Int → α) (atttypid : KeyType) (isinterval : Bool)
    (lowBound upBound : Option Const) (E : Nat) (lo : Option (WithTop α)) :
    ∀ (l : List (RangePartitionStartEndDefState Raw)) (st0 st1 : LoopState Raw),
      Inv ops key E lo st0 → (st0.defState = none → lo = none) →
      st0.totalPart ≤ lim.MAX_PARTITION_NUM →
      Typed.main_loop lim ops atttypid isinterval lowBound upBound st0 l = .ok st1 →
      Inv ops key E lo st1 ∧ (∀ x, l.getLast? = some x → st1.defState = some x) ∧
        st1.totalPart ≤ lim.MAX_PARTITION_NUM ∧
        ∃ ext, st1.newPartList = st0.newPartList ++ ext := by
  intro l
  induction l with
  | nil =>
    intro st0 st1 hinv _ hle h
    simp only [Typed.main_loop, Except.ok.injEq] at h
    subst h
    exact ⟨hinv, by simp, hle, [], by simp⟩
  | cons d rest ih =>
    intro st0 st1 hinv hlo _ h
    unfold Typed.main_loop at h
    split at h
    · simp at h
    · rename_i st2 hst2
      obtain ⟨hinv2, hds2, hle2, _, ext2, hext2⟩ :=
        loop_body_inv lim ops key atttypid isinterval lowBound upBound E lo st0 st2 d _ hinv hlo
          hst2
      obtain ⟨hinv1, hlast, hle1, ext1, hext1⟩ :=
        ih st2 st1 hinv2 (by intro hn; rw [hds2] at hn; simp at hn) hle2 h
      refine ⟨hinv1, ?_, hle1, ext2 ++ ext1, by rw [hext1, hext2, List.append_assoc]⟩
      intro x hx
      cases rest with
      | nil =>
        simp only [List.getLast?_singleton, Option.some.injEq] at hx
        subst hx
        simp only [Typed.main_loop, Except.ok.injEq] at h
        subst h
        exact hds2
      | cons r rs =>
        apply hlast
        rw [List.getLast?_cons_cons] at hx
        exact hx

/-- The invariant holds when the main loop is entered. -/
theorem Inv.init {Raw α : Type} [LinearOrder α] (ops : TypeOps Raw) (key : Int → α) (E : Nat)
    (lo : Option (WithTop α)) :
    Inv ops key E lo (initial_state E : LoopState Raw) :=
  ⟨fun _ => ⟨List.Pairwise.nil, by simp [bounds, initial_state], by simp [bounds, initial_state],
      by simp [front, initial_state]⟩,
    by simp [initial_state], by simp [initial_state], by simp [initial_state],
    by simp [initial_state], by simp [initial_state]⟩

/-- The shape of a successful call of `transformRangePartStartEndStmt`. -/
theorem transformRangePartStartEndStmt_ok {Raw : Type} (lim : Limits) (ops : TypeOps Raw)
    (atttypid : KeyType)
    (partitionList : List (RangePartitionStartEndDefState Raw)) (existPartNum : Nat)
    (lowBound upBound : Option Const) (parts : List RangePartitionDefState)
    (h : Typed.transformRangePartStartEndStmt lim ops atttypid partitionList existPartNum
      lowBound upBound = .ok parts) :
    (partitionList = [] ∧ parts = []) ∨
      ∃ lastDef isinterval st st1, partitionList.getLast? = some lastDef ∧
        check_partition_name_start_end partitionList = .ok () ∧
        Typed.isinterval_of atttypid = some isinterval ∧
        existPartNum < lim.MAX_PARTITION_NUM ∧
        Typed.main_loop lim ops atttypid isinterval lowBound upBound
          (initial_state existPartNum) partitionList = .ok st ∧
        Typed.final_stage lim ops lowBound upBound st lastDef = .ok st1 ∧
        st1.totalPart ≤ lim.MAX_PARTITION_NUM ∧
        firstDuplicateName (st1.newPartList.map (fun p => p.partitionName)) = none ∧
        parts = st1.newPartList := by
  unfold Typed.transformRangePartStartEndStmt at h
  split at h
  · rename_i hnone
    simp only [Except.ok.injEq] at h
    left
    exact ⟨List.getLast?_eq_none_iff.mp hnone, h.symm⟩
  · rename_i lastDef hlast
    right
    split at h
    · simp at h
    · rename_i hnames
      split at h
      · simp at h
      · rename_i isinterval hiv
        split at h
        · simp at h
        · rename_i hE
          split at h
          · simp at h
          · rename_i st hst
            split at h
            · simp at h
            · rename_i st1 hst1
              split at h
              · simp at h
              · rename_i hle
                split at h
                · simp at h
                · rename_i hdup
                  simp only [Except.ok.injEq] at h
                  exact ⟨lastDef, isinterval, st, st1, hlast, hnames, hiv, by omega, hst, hst1,
                    by omega, hdup, h.symm⟩

/-- The final stage on a state that satisfies the loop invariant: the list stays
counted and, on the operations of an order, ordered; after a single START it gains
exactly one partition, ending at the upper bound (which compares above the START
value) or at MAXVALUE; after an entry with an END value nothing is added, and that
value compares equal to the upper bound if there is one. -/
theorem final_stage_ok {Raw α : Type} [LinearOrder α] (lim : Limits) (ops : TypeOps Raw)
    (key : Int → α) (lowBound upBound : Option Const) (E : Nat) (lo : Option (WithTop α))
    (st st1 : LoopState Raw) (lastDef : RangePartitionStartEndDefState Raw)
    (hinv : Inv ops key E lo st) (hds : st.defState = some lastDef)
    (h : Typed.final_stage lim ops lowBound upBound st lastDef = .ok st1) :
    (KeyOrder ops key → (bounds key st1.newPartList).Pairwise (· < ·) ∧
        (∀ l ∈ lo, ∀ b ∈ bounds key st1.newPartList, l < b)) ∧
      st1.totalPart = E + st1.newPartList.length ∧
      (∃ ext, st1.newPartList = st.newPartList ++ ext) ∧
      (lastDef.endValue = none → ∃ raw v p, lastDef.startValue = some raw ∧
        ops.GetPartitionValue raw false = .val v ∧ st1.newPartList = st.newPartList ++ [p] ∧
        (upBound = none → p.boundary = .maxvalue) ∧
        (∀ ub, upBound = some ub → p.boundary = ub ∧ 0 < ops.partitonKeyCompare ub (.val v))) ∧
      (∀ e, lastDef.endValue = some e → st1 = st ∧
        ∀ ub, upBound = some ub →
          ops.partitonKeyCompare ub (ops.GetPartitionValue e false) = 0) := by
  unfold Typed.final_stage at h
  split at h
  · rename_i hend
    have hnone := hinv.started lastDef hds hend
    obtain ⟨raw, v, hraw, _, hv, hsv⟩ := hinv.pending hnone lastDef hds
    split at h
    · simp at h
    · rename_i boundary hb
      have hbv : (KeyOrder ops key → ((key v : α) : WithTop α) < boundary.keyBy key) ∧
          (upBound = none → boundary = .maxvalue) ∧
          (∀ ub, upBound = some ub → boundary = ub ∧ 0 < ops.partitonKeyCompare ub (.val v)) := by
        split at hb
        · simp only [Except.ok.injEq] at hb
          subst hb
          exact ⟨fun _ => by simp [Const.keyBy], fun _ => rfl, by simp⟩
        · rename_i ub
          rw [hsv] at hb
          simp only at hb
          split at hb
          · simp at hb
          · rename_i hcmp
            simp only [Except.ok.injEq] at hb
            subst hb
            refine ⟨fun hk => ?_, by simp, ?_⟩
            · have := (hk.compare_pos ub (.val v)).mp (by omega)
              simpa [Const.keyBy] using this
            · intro ub' hub'
              simp only [Option.some.injEq] at hub'
              subst hub'
              exact ⟨rfl, by omega⟩
      have hsn : KeyOrder ops key →
          Ordered lo (bounds key st.newPartList ++ [boundary.keyBy key])
            (some (boundary.keyBy key)) := by
        intro hk
        have hord := hinv.ord hk
        rw [front_of_pending key st lastDef _ hnone hds hsv] at hord
        exact hord.snoc (by
          intro x hx
          simp only [Option.mem_def, Option.some.injEq] at hx
          subst hx; exact hbv.1 hk) (by simp)
      obtain ⟨name, hst1⟩ : ∃ name : String,
          st1 = { st with
                  newPartList := add_range_partition_def_state st.newPartList boundary name
                    lastDef.tableSpaceName
                  totalPart := st.totalPart + 1 } := by
        split at h
        · split at h
          · simp at h
          · rename_i name _
            simp only [Except.ok.injEq] at h
            exact ⟨name, h.symm⟩
        · simp only [Except.ok.injEq] at h
          exact ⟨_, h.symm⟩
      subst hst1
      refine ⟨?_, ?_, ⟨_, rfl⟩, ?_, ?_⟩
      · intro hk
        simp only [bounds_add]
        exact ⟨(hsn hk).sorted, (hsn hk).above⟩
      · simp only [length_add, hinv.count]; omega
      · intro _
        exact ⟨raw, v, ⟨boundary, name, lastDef.tableSpaceName⟩, hraw, hv, rfl, hbv.2.1,
          hbv.2.2⟩
      · intro e he; rw [hend] at he; simp at he
  · rename_i e0 hend
    have hst : st1 = st ∧ ∀ ub, upBound = some ub →
        ops.partitonKeyCompare ub (ops.GetPartitionValue e0 false) = 0 := by
      obtain ⟨_, hev⟩ := hinv.ended lastDef hds e0 hend
      split at h
      · rename_i ub endVal hendVal
        split at h
        · simp at h
        · rename_i hcmp
          simp only [Except.ok.injEq] at h
          refine ⟨h.symm, ?_⟩
          intro ub' hub'
          simp only [Option.some.injEq] at hub'
          subst hub'
          rw [hev] at hendVal
          simp only [Option.some.injEq] at hendVal
          subst hendVal
          by_contra hne; exact hcmp hne
      · simp at h
      · simp only [Except.ok.injEq] at h
        exact ⟨h.symm, by simp⟩
    obtain ⟨rfl, hub⟩ := hst
    refine ⟨fun hk => ⟨(hinv.ord hk).sorted, (hinv.ord hk).above⟩, hinv.count, ⟨[], by simp⟩,
      ?_, ?_⟩
    · intro hn; rw [hend] at hn; simp at hn
    · intro e he
      rw [hend] at he
      simp only [Option.some.injEq] at he
      subst he
      exact ⟨rfl, hub⟩

/-- A successful call on a non-empty list, seen through the loop invariant: what
the main loop and the final stage have established about the returned partitions. -/
theorem transformRangePartStartEndStmt_run {Raw α : Type} [LinearOrder α] (lim : Limits)
    (ops : TypeOps Raw) (key : Int → α) (atttypid : KeyType)
    (partitionList : List (RangePartitionStartEndDefState Raw)) (existPartNum : Nat)
    (lowBound upBound : Option Const) (parts : List RangePartitionDefState)
    (d : RangePartitionStartEndDefState Raw) (hlast : partitionList.getLast? = some d)
    (h : Typed.transformRangePartStartEndStmt lim ops atttypid partitionList existPartNum
      lowBound upBound = .ok parts) :
    ∃ st st1, Inv ops key existPartNum none st ∧ st.defState = some d ∧
      Typed.final_stage lim ops lowBound upBound st d = .ok st1 ∧
      st1.totalPart ≤ lim.MAX_PARTITION_NUM ∧ parts = st1.newPartList ∧
      firstDuplicateName (parts.map (fun p => p.partitionName)) = none := by
  rcases transformRangePartStartEndStmt_ok lim ops atttypid partitionList existPartNum lowBound
    upBound parts h with ⟨hnil, _⟩ | ⟨lastDef, iv, st, st1, hl, _, _, hE, hloop, hfin, hle, hdup,
      hparts⟩
  · rw [hnil] at hlast; simp at hlast
  · rw [hlast] at hl
    simp only [Option.some.injEq] at hl
    subst hl
    obtain ⟨hinv, hds, _, _⟩ := main_loop_inv lim ops key atttypid iv lowBound upBound
      existPartNum none partitionList _ st (Inv.init ops key existPartNum none) (fun _ => rfl)
      (by simp only [initial_state]; omega) hloop
    exact ⟨st, st1, hinv, hds d hlast, hfin, hle, hparts, by rw [hparts]; exact hdup⟩

/-- The names `p_0` to `p_4` fit every name buffer of at least four bytes. -/
theorem sprintf_partName_p (lim : Limits) (h2 : 4 ≤ lim.NAMEDATALEN) :
    sprintf_partName lim "p" 0 = .ok "p_0" ∧ sprintf_partName lim "p" 1 = .ok "p_1" ∧
      sprintf_partName lim "p" 2 = .ok "p_2" ∧ sprintf_partName lim "p" 3 = .ok "p_3" ∧
      sprintf_partName lim "p" 4 = .ok "p_4" := by
  have key : ∀ s : String, s.utf8ByteSize = 3 →
      (if s.utf8ByteSize < lim.NAMEDATALEN then (Except.ok s : Except PartError String)
        else .error .bufferTooSmall) = .ok s := fun s hs => by
    rw [if_pos (by omega)]
  refine ⟨?_, ?_, ?_, ?_, ?_⟩
  · exact key "p_0" (by decide)
  · exact key "p_1" (by decide)
  · exact key "p_2" (by decide)
  · exact key "p_3" (by decide)
  · exact key "p_4" (by decide)

/-- C3: the single entry START(1) END(100) EVERY(30) with partition name `p` on an
integer key, with no existing partitions and no low or upper bound, yields exactly
the five partitions `p_0`, `p_1`, `p_2`, `p_3`, `p_4`, in that order, with the upper
boundaries 1, 31, 61, 91, 100: `p_0` is the auto-included MINVALUE partition and the
last partition ends at 100, not at 121. This holds for all limits that admit five
partitions, names of three bytes and a prefix of one byte. -/
theorem transformRangePartStartEndStmt_start1_end100_every30 (lim : Limits) (ts : String)
    (h1 : 5 ≤ lim.MAX_PARTITION_NUM) (h2 : 4 ≤ lim.NAMEDATALEN)
    (h3 : 1 ≤ lim.LEN_PARTITION_PREFIX) :
    transformRangePartStartEndStmt lim intKey
      [{ partitionName := "p", startValue := some (.val 1), endValue := some (.val 100),
         everyValue := some (.val 30), tableSpaceName := ts }] 0 none none =
      .ok [⟨.val 1, "p_0", ts⟩, ⟨.val 31, "p_1", ts⟩, ⟨.val 61, "p_2", ts⟩, ⟨.val 91, "p_3", ts⟩,
           ⟨.val 100, "p_4", ts⟩] := by
  obtain ⟨k, hk⟩ : ∃ k, lim.MAX_PARTITION_NUM = k + 5 := ⟨lim.MAX_PARTITION_NUM - 5, by omega⟩
  have hp : "p".utf8ByteSize = 1 := by decide
  obtain ⟨hn0, hn1, hn2, hn3, hn4⟩ := sprintf_partName_p lim h2
  have hpre : get_range_partition_name_prefix lim "p" = .ok "p" := by
    simp only [ get_range_partition_name_prefix, hp]
    rw [if_neg (by omega), if_neg (by omega)]
  simp [transformRangePartStartEndStmt, check_partition_name_start_end, firstDuplicateName,
    main_loop, loop_body, initial_state, precheck_start_end_defstate,
    precheck_point_value_internal, intKey, transform_entry, transform_start_end_every,
    partitonKeyCompare, check_start_against_last, build_before_start, prefixed_partName,
    hpre, hn0, hn1, hn2, hn3, hn4, DividePartitionStartEndInterval,
    divide_start_end_every_internal, hk, divide_loop, add_divided,
    add_range_partition_def_state, final_stage]
  by_cases hk0 : k = 0 <;> simp [hk0, firstDuplicateName]

/-- Witness of C3: the example under the sample limits. -/
theorem transformRangePartStartEndStmt_start1_end100_every30_witness :
    transformRangePartStartEndStmt sampleLimits intKey
      [{ partitionName := "p", startValue := some (.val 1), endValue := some (.val 100),
         everyValue := some (.val 30), tableSpaceName := "ts" }] 0 none none =
      .ok [⟨.val 1, "p_0", "ts"⟩, ⟨.val 31, "p_1", "ts"⟩, ⟨.val 61, "p_2", "ts"⟩,
           ⟨.val 91, "p_3", "ts"⟩, ⟨.val 100, "p_4", "ts"⟩] :=
  transformRangePartStartEndStmt_start1_end100_every30 sampleLimits "ts"
    (by decide) (by decide) (by decide)

/-- C8: for a key of any type, when the last entry of the list is a single START (it
has no END value) and `transformRangePartStartEndStmt` succeeds, the last partition
returned is the one appended for that entry: its upper boundary is the upper bound if
one is supplied, and then the upper bound compares strictly above the START value (the
request is rejected otherwise), and MAXVALUE if none is supplied. -/
theorem transformRangePartStartEndStmt_last_single_start {Raw : Type} (lim : Limits)
    (ops : TypeOps Raw) (atttypid : KeyType)
    (partitionList : List (RangePartitionStartEndDefState Raw))
    (existPartNum : Nat) (lowBound upBound : Option Const) (parts : List RangePartitionDefState)
    (d : RangePartitionStartEndDefState Raw) (hlast : partitionList.getLast? = some d)
    (hend : d.endValue = none)
    (h : Typed.transformRangePartStartEndStmt lim ops atttypid partitionList existPartNum
      lowBound upBound = .ok parts) :
    ∃ raw v p, d.startValue = some raw ∧ ops.GetPartitionValue raw false = .val v ∧
      parts.getLast? = some p ∧
      (upBound = none → p.boundary = .maxvalue) ∧
      (∀ ub, upBound = some ub →
        p.boundary = ub ∧ 0 < ops.partitonKeyCompare ub (.val v)) := by
  obtain ⟨st, st1, hinv, hds, hfin, _, hparts, _⟩ :=
    transformRangePartStartEndStmt_run lim ops (fun x : Int => x) atttypid partitionList
      existPartNum lowBound upBound parts d hlast h
  obtain ⟨_, _, _, hsingle, _⟩ :=
    final_stage_ok lim ops (fun x : Int => x) lowBound upBound existPartNum none st st1 d hinv
      hds hfin
  obtain ⟨raw, v, p, hraw, hv, hnew, hmax, hub⟩ := hsingle hend
  refine ⟨raw, v, p, hraw, hv, ?_, hmax, hub⟩
  rw [hparts, hnew]; simp

/-- Witness of C8: on an `int4` key, END(10), START(10) to split a partition that ends
at 50 yields a last partition that ends at 50. -/
theorem transformRangePartStartEndStmt_last_single_start_witness :
    ∃ raw v p, (sampleEntry "b" (some (.val 10)) none none).startValue = some raw ∧
      int4Ops.GetPartitionValue raw false = .val v ∧
      [samplePart (.val 10) "a", samplePart (.val 50) "b"].getLast? = some p ∧
      (some (Const.val 50) = none → p.boundary = .maxvalue) ∧
      (∀ ub, some (Const.val 50) = some ub →
        p.boundary = ub ∧ 0 < int4Ops.partitonKeyCompare ub (.val v)) :=
  transformRangePartStartEndStmt_last_single_start sampleLimits int4Ops .INT4OID
    [sampleEntry "a" none (some (.val 10)) none, sampleEntry "b" (some (.val 10)) none none]
    3 (some (.val 0)) (some (.val 50)) [samplePart (.val 10) "a", samplePart (.val 50) "b"]
    (sampleEntry "b" (some (.val 10)) none none) (by rfl) (by rfl) (by decide)

/-- C6: for a key of any type, whenever `transformRangePartStartEndStmt` succeeds, the
names of the returned partitions are pairwise distinct; and whenever the partitions
built by the main loop and the final stage carry the same name twice (by prefix
truncation, by the suffixes `_0`, `_1`, ..., or by a name given to another entry), the
call fails with the duplicate-partition-name error. -/
theorem transformRangePartStartEndStmt_names_distinct {Raw : Type} (lim : Limits)
    (ops : TypeOps Raw) (atttypid : KeyType)
    (partitionList : List (RangePartitionStartEndDefState Raw))
    (existPartNum : Nat) (lowBound upBound : Option Const) :
    (∀ parts, Typed.transformRangePartStartEndStmt lim ops atttypid partitionList existPartNum
        lowBound upBound = .ok parts → (parts.map (fun p => p.partitionName)).Nodup) ∧
    (∀ lastDef isinterval st st1, existPartNum < lim.MAX_PARTITION_NUM →
      partitionList.getLast? = some lastDef →
      Typed.isinterval_of atttypid = some isinterval →
      Typed.main_loop lim ops atttypid isinterval lowBound upBound (initial_state existPartNum)
        partitionList = .ok st →
      Typed.final_stage lim ops lowBound upBound st lastDef = .ok st1 →
      st1.totalPart ≤ lim.MAX_PARTITION_NUM →
      ¬ (st1.newPartList.map (fun p => p.partitionName)).Nodup →
      ∃ n, Typed.transformRangePartStartEndStmt lim ops atttypid partitionList existPartNum
        lowBound upBound = .error (.duplicatePartitionName n)) := by
  constructor
  · intro parts h
    rcases transformRangePartStartEndStmt_ok lim ops atttypid partitionList existPartNum
      lowBound upBound parts h with ⟨_, hp⟩ | ⟨_, _, _, _, _, _, _, _, _, _, _, hdup, hparts⟩
    · subst hp; simp
    · rw [hparts]
      exact (firstDuplicateName_eq_none_iff _).mp hdup
  · intro lastDef isinterval st st1 hE hlast hiv hloop hfin hle hnd
    unfold Typed.transformRangePartStartEndStmt
    simp only [hlast]
    cases hnames : check_partition_name_start_end partitionList with
    | error e =>
      unfold check_partition_name_start_end at hnames
      split at hnames
      · rename_i n _
        simp only [Except.error.injEq] at hnames
        subst hnames
        exact ⟨n, rfl⟩
      · simp at hnames
    | ok u =>
      simp only [hiv]
      rw [if_neg (by omega)]
      simp only [hloop, hfin]
      rw [if_neg (by omega)]
      cases hdup : firstDuplicateName (st1.newPartList.map (fun p => p.partitionName)) with
      | none => exact absurd ((firstDuplicateName_eq_none_iff _).mp hdup) hnd
      | some n => exact ⟨n, rfl⟩

/-- Witness of C6: on an `int4` key, START(1) END(10) EVERY(5) named `p` generates `p_0`,
`p_1`, `p_2`; an END(20) entry named `p_1` then makes the call fail on the duplicate
name. -/
theorem transformRangePartStartEndStmt_names_distinct_witness :
    ∃ n, Typed.transformRangePartStartEndStmt sampleLimits int4Ops .INT4OID
        [sampleEntry "p" (some (.val 1)) (some (.val 10)) (some (.val 5)),
         sampleEntry "p_1" none (some (.val 20)) none] 0 none none
      = .error (.duplicatePartitionName n) :=
  (transformRangePartStartEndStmt_names_distinct sampleLimits int4Ops .INT4OID
    [sampleEntry "p" (some (.val 1)) (some (.val 10)) (some (.val 5)),
     sampleEntry "p_1" none (some (.val 20)) none] 0 none none).2
    (sampleEntry "p_1" none (some (.val 20)) none) false
    { newPartList := [samplePart (.val 1) "p_0", samplePart (.val 6) "p_1",
        samplePart (.val 10) "p_2", samplePart (.val 20) "p_1"],
      startVal := none, endVal := some (.val 20), lastVal := some (.val 20), totalPart := 4,
      defState := some (sampleEntry "p_1" none (some (.val 20)) none), curDefState := 2 }
    { newPartList := [samplePart (.val 1) "p_0", samplePart (.val 6) "p_1",
        samplePart (.val 10) "p_2", samplePart (.val 20) "p_1"],
      startVal := none, endVal := some (.val 20), lastVal := some (.val 20), totalPart := 4,
      defState := some (sampleEntry "p_1" none (some (.val 20)) none), curDefState := 2 }
    (by decide) (by rfl) (by rfl) (by rfl) (by rfl) (by decide) (by decide)

/-- After the first pass the loop of `divide_start_end_every_internal` does not raise
the error of a step that is too big. -/
theorem typed_divide_loop_later_big {Raw : Type} (ops : TypeOps Raw)
    (partName name : String) (s e : Int) (everyExpr : Raw) (d : Int) (needCheck : Bool) :
    ∀ (fuel nPart : Nat) (cur : Int) (result : List Int), 0 < nPart →
      Typed.divide_loop ops partName s e everyExpr d needCheck fuel nPart cur result
        ≠ .error (.stepTooBig name) := by
  intro fuel
  induction fuel with
  | zero => intro nPart cur result _; simp [Typed.divide_loop]
  | succ fuel ih =>
    intro nPart cur result hn
    rw [typed_divide_loop_later_pass ops partName s e everyExpr d needCheck fuel nPart cur
      result (by omega)]
    split
    · simp
    · split
      · split
        · simp
        · exact ih (nPart + 1) _ _ (by omega)
      · simp

/-- C10, as amended: in `divide_start_end_every_internal`, for a key of any type and a
request with the start value below the end value and room for at least one partition,
an error that the operator `+` raises on `start + every` (for an integer key, a sum
outside the range of the type) ends the call; when the sum is formed, passes the
ambiguity check and lies above the start value, a first increment that exceeds the
end value is always rejected as "partition step is too big", and a first increment
that lands exactly on the end value is accepted with that single boundary. The error
"partition step is too big" is raised in no other case. -/
theorem divide_start_end_every_internal_first_step {Raw : Type} (ops : TypeOps Raw)
    (partName : String) (startVal endVal : Int) (everyExpr : Raw) (maxNum : Nat)
    (isinterval needCheck : Bool) (hlt : ops.le endVal startVal = false) (hmax : 0 < maxNum) :
    (ops.plus startVal (ops.GetTargetValue everyExpr isinterval) = none →
      Typed.divide_start_end_every_internal ops partName startVal endVal everyExpr maxNum
        isinterval needCheck = .error .operatorError) ∧
    (∀ pnt, ops.plus startVal (ops.GetTargetValue everyExpr isinterval) = some pnt →
      (needCheck = true → ops.equalsUncastSum pnt startVal everyExpr = some true) →
      ops.le pnt startVal = false →
      (ops.le pnt endVal = false →
        Typed.divide_start_end_every_internal ops partName startVal endVal everyExpr maxNum
          isinterval needCheck = .error (.stepTooBig partName)) ∧
      (ops.le pnt endVal = true → ops.lt pnt endVal = false →
        Typed.divide_start_end_every_internal ops partName startVal endVal everyExpr maxNum
          isinterval needCheck = .ok ([pnt], 1))) ∧
    (∀ name, Typed.divide_start_end_every_internal ops partName startVal endVal everyExpr
        maxNum isinterval needCheck = .error (.stepTooBig name) →
      name = partName ∧
        ∃ pnt, ops.plus startVal (ops.GetTargetValue everyExpr isinterval) = some pnt ∧
          (needCheck = true → ops.equalsUncastSum pnt startVal everyExpr = some true) ∧
          ops.le pnt startVal = false ∧ ops.le pnt endVal = false) := by
  obtain ⟨k, rfl⟩ : ∃ k, maxNum = k + 1 := ⟨maxNum - 1, by omega⟩
  have hrun : Typed.divide_start_end_every_internal ops partName startVal endVal everyExpr
      (k + 1) isinterval needCheck
      = Typed.divide_loop ops partName startVal endVal everyExpr
          (ops.GetTargetValue everyExpr isinterval) needCheck (k + 1) 0 startVal [] := by
    unfold Typed.divide_start_end_every_internal
    simp only [hlt, Bool.false_eq_true, ↓reduceIte]
  rw [hrun, typed_divide_loop_first_pass]
  refine ⟨?_, ?_, ?_⟩
  · intro hp
    rw [hp]
  · intro pnt hp hamb hfwd
    have hchk : (if needCheck = true then ops.equalsUncastSum pnt startVal everyExpr
        else some true) = some true := by
      by_cases hn : needCheck = true
      · rw [if_pos hn, hamb hn]
      · rw [if_neg hn]
    rw [hp]
    simp only [hchk, hfwd, Bool.false_eq_true, ↓reduceIte]
    constructor
    · intro hbig
      simp only [hbig, Bool.false_eq_true, ↓reduceIte]
    · intro hle hnlt
      simp only [hle, hnlt, ↓reduceIte, List.nil_append]
  · intro name h
    split at h
    · simp at h
    · rename_i pnt hp
      split at h
      · simp at h
      · simp at h
      · rename_i hchk
        have hamb : needCheck = true → ops.equalsUncastSum pnt startVal everyExpr = some true := by
          intro hn
          rw [if_pos hn] at hchk
          exact hchk
        split at h
        · simp at h
        · rename_i hsmall
          split at h
          · split at h
            · simp at h
            · exact absurd h (typed_divide_loop_later_big ops partName name startVal endVal
                everyExpr _ needCheck k 1 pnt _ (by omega))
          · rename_i hbig
            simp only [Except.error.injEq, PartError.stepTooBig.injEq] at h
            exact ⟨h.symm, pnt, hp, hamb, by simpa using hsmall, by simpa using hbig⟩

/-- Witness of the amended C10: on an `int4` key, START(1) END(10) EVERY(20) is rejected
as too big, its first increment 21 exceeding the end value, and START(1) END(10)
EVERY(2147483647) ends with the error of the operator, the sum being out of range. -/
theorem divide_start_end_every_internal_first_step_witness :
    Typed.divide_start_end_every_internal int4Ops "p" 1 10 (.val 20) 100 false false
        = .error (.stepTooBig "p") ∧
      Typed.divide_start_end_every_internal int4Ops "p" 1 10 (.val 2147483647) 100 false false
        = .error .operatorError :=
  ⟨((divide_start_end_every_internal_first_step int4Ops "p" 1 10 (.val 20) 100 false false
      (by decide) (by decide)).2.1 21 (by decide) (by decide) (by decide)).1 (by decide),
    (divide_start_end_every_internal_first_step int4Ops "p" 1 10 (.val 2147483647) 100 false
      false (by decide) (by decide)).1 (by decide)⟩

/-- C10 as stated fails on an `int4` key at START(1) END(10) EVERY(20): the first
increment 21 exceeds the end value 10 and is the only increment needed to reach it,
yet the request is not accepted; it is rejected as "partition step is too big". -/
theorem divide_start_end_every_internal_only_increment_rejected :
    int4Ops.plus 1 (int4Ops.GetTargetValue (.val 20) false) = some 21 ∧
      int4Ops.le 21 10 = false ∧
      (¬ ∃ r, Typed.DividePartitionStartEndInterval int4Ops .INT4OID "p" 1 10 20 (.val 20) 100
        = .ok r) ∧
      Typed.DividePartitionStartEndInterval int4Ops .INT4OID "p" 1 10 20 (.val 20) 100
        = .error (.stepTooBig "p") := by
  have h : Typed.DividePartitionStartEndInterval int4Ops .INT4OID "p" 1 10 20 (.val 20) 100
      = .error (.stepTooBig "p") := by decide
  refine ⟨by decide, by decide, ?_, h⟩
  rintro ⟨r, hr⟩
  rw [h] at hr
  simp at hr

/-! ## The first entry -/

/-- The main loop over a list is the leading rounds over an initial run, followed
by the main loop over the rest, provided the rest is not empty. -/
theorem main_loop_append {Raw : Type} (lim : Limits) (ops : TypeOps Raw)
    (atttypid : KeyType) (isinterval : Bool)
    (lowBound upBound : Option Const) (d : RangePartitionStartEndDefState Raw)
    (post : List (RangePartitionStartEndDefState Raw)) :
    ∀ (pre : List (RangePartitionStartEndDefState Raw)) (st : LoopState Raw),
      Typed.main_loop lim ops atttypid isinterval lowBound upBound st (pre ++ d :: post) =
        match Typed.leading_rounds lim ops atttypid isinterval lowBound upBound st pre with
        | .error err => .error err
        | .ok st1 => Typed.main_loop lim ops atttypid isinterval lowBound upBound st1
            (d :: post) := by
  intro pre
  induction pre with
  | nil => intro st; simp [Typed.leading_rounds]
  | cons p pre ih =>
    intro st
    have hne : (!(pre ++ d :: post).isEmpty) = true := by
      cases pre <;> simp
    have hstep : Typed.main_loop lim ops atttypid isinterval lowBound upBound st
          (p :: (pre ++ d :: post)) =
        match Typed.loop_body lim ops atttypid isinterval lowBound upBound st p true with
        | .error err => .error err
        | .ok st1 => Typed.main_loop lim ops atttypid isinterval lowBound upBound st1
            (pre ++ d :: post) := by
      conv_lhs => unfold Typed.main_loop
      rw [hne]
    rw [List.cons_append, hstep]
    conv_rhs => unfold Typed.leading_rounds
    cases Typed.loop_body lim ops atttypid isinterval lowBound upBound st p true with
    | error e => rfl
    | ok st1 => exact ih st1

/-- The leading rounds keep the loop invariant and record the last entry they saw. -/
theorem leading_rounds_inv {Raw α : Type} [LinearOrder α] (lim : Limits) (ops : TypeOps Raw)
    (key : Int → α) (atttypid : KeyType) (isinterval : Bool)
    (lowBound upBound : Option Const) (E : Nat) :
    ∀ (l : List (RangePartitionStartEndDefState Raw)) (st0 st1 : LoopState Raw),
      Inv ops key E none st0 →
      Typed.leading_rounds lim ops atttypid isinterval lowBound upBound st0 l = .ok st1 →
      Inv ops key E none st1 ∧ (∀ x, l.getLast? = some x → st1.defState = some x) := by
  intro l
  induction l with
  | nil =>
    intro st0 st1 hinv h
    simp only [Typed.leading_rounds, Except.ok.injEq] at h
    subst h
    exact ⟨hinv, by simp⟩
  | cons d rest ih =>
    intro st0 st1 hinv h
    unfold Typed.leading_rounds at h
    split at h
    · simp at h
    · rename_i st2 hst2
      obtain ⟨hinv2, hds2, _, _, _⟩ :=
        loop_body_inv lim ops key atttypid isinterval lowBound upBound E none st0 st2 d true hinv
          (fun _ => rfl) hst2
      obtain ⟨hinv1, hlast⟩ := ih st2 st1 hinv2 h
      refine ⟨hinv1, ?_⟩
      intro x hx
      cases rest with
      | nil =>
        simp only [List.getLast?_singleton, Option.some.injEq] at hx
        subst hx
        simp only [Typed.leading_rounds, Except.ok.injEq] at h
        subst h
        exact hds2
      | cons r rs =>
        apply hlast
        rw [List.getLast?_cons_cons] at hx
        exact hx

/-- An accepted entry with a START value that follows an END value starts exactly
at that END value: the two compare equal, and the END value is not MAXVALUE. -/
theorem transform_entry_meets_last {Raw : Type} (lim : Limits) (ops : TypeOps Raw)
    (atttypid : KeyType) (isinterval : Bool)
    (lowBound upBound : Option Const) (st st1 : LoopState Raw)
    (lastState : Option (RangePartitionStartEndDefState Raw))
    (d : RangePartitionStartEndDefState Raw) (sE : Raw) (lv : Const)
    (hs : d.startValue = some sE) (hlv : st.lastVal = some lv)
    (h : Typed.transform_entry lim ops atttypid isinterval lowBound upBound st lastState d
      = .ok st1) :
    lv ≠ .maxvalue ∧ ops.partitonKeyCompare lv (ops.GetPartitionValue sE false) = 0 := by
  have key : ∀ u : Unit, Typed.check_start_against_last ops st.lastVal
      (ops.GetPartitionValue sE false) d.partitionName = .ok u →
      lv ≠ .maxvalue ∧ ops.partitonKeyCompare lv (ops.GetPartitionValue sE false) = 0 := by
    intro u hchk
    rcases check_start_against_last_ok _ _ _ _ hchk with hnone | ⟨lv', hsome, hmax, hzero⟩
    · rw [hlv] at hnone; simp at hnone
    · rw [hlv] at hsome
      simp only [Option.some.injEq] at hsome
      subst hsome
      exact ⟨hmax, hzero⟩
  unfold Typed.transform_entry at h
  split at h
  · rename_i s e v hs' _ _
    rw [hs] at hs'
    simp only [Option.some.injEq] at hs'
    subst hs'
    unfold Typed.transform_start_end_every at h
    split at h
    · rename_i sv ev _ hsv _ _
      split at h
      · simp at h
      · split at h
        · simp at h
        · rename_i u hchk
          rw [← hsv] at hchk
          exact key u hchk
    · simp at h
  · rename_i s e hs' _ _
    rw [hs] at hs'
    simp only [Option.some.injEq] at hs'
    subst hs'
    unfold Typed.transform_start_end at h
    simp only at h
    split at h
    · simp at h
    · split at h
      · simp at h
      · split at h
        · simp at h
        · rename_i u hchk
          exact key u hchk
  · rename_i s hs' _
    rw [hs] at hs'
    simp only [Option.some.injEq] at hs'
    subst hs'
    unfold Typed.transform_start at h
    simp only at h
    split at h
    · simp at h
    · split at h
      · simp at h
      · rename_i u hchk
        exact key u hchk
  · rename_i hn _
    rw [hs] at hn
    simp at hn
  · simp at h

/-- An accepted entry with START and END values has its START value strictly below
its END value. -/
theorem transform_entry_start_lt_end {Raw : Type} (lim : Limits) (ops : TypeOps Raw)
    (atttypid : KeyType) (isinterval : Bool)
    (lowBound upBound : Option Const) (st st1 : LoopState Raw)
    (lastState : Option (RangePartitionStartEndDefState Raw))
    (d : RangePartitionStartEndDefState Raw) (sE eE : Raw)
    (hs : d.startValue = some sE) (he : d.endValue = some eE)
    (h : Typed.transform_entry lim ops atttypid isinterval lowBound upBound st lastState d
      = .ok st1) :
    ops.partitonKeyCompare (ops.GetPartitionValue sE false) (ops.GetPartitionValue eE false)
      < 0 := by
  unfold Typed.transform_entry at h
  split at h
  · rename_i s e v hs' he' _
    rw [hs] at hs'
    rw [he] at he'
    simp only [Option.some.injEq] at hs' he'
    subst hs'
    subst he'
    unfold Typed.transform_start_end_every at h
    split at h
    · rename_i sv ev _ hsv hev _
      split at h
      · simp at h
      · rename_i hcmp
        rw [hsv, hev]
        omega
    · simp at h
  · rename_i s e hs' he' _
    rw [hs] at hs'
    rw [he] at he'
    simp only [Option.some.injEq] at hs' he'
    subst hs'
    subst he'
    unfold Typed.transform_start_end at h
    simp only at h
    split at h
    · simp at h
    · split at h
      · simp at h
      · rename_i hcmp
        omega
  · rename_i s _ he'
    rw [he] at he'
    simp at he'
  · rename_i hn _
    rw [hs] at hn
    simp at hn
  · simp at h

/-- In a successful call, every entry was reached by the leading rounds over the
entries in front of it, in a state that satisfies the loop invariant, and was
accepted there. -/
theorem transformRangePartStartEndStmt_round {Raw α : Type} [LinearOrder α] (lim : Limits)
    (ops : TypeOps Raw) (key : Int → α) (atttypid : KeyType)
    (pre : List (RangePartitionStartEndDefState Raw)) (d : RangePartitionStartEndDefState Raw)
    (post : List (RangePartitionStartEndDefState Raw)) (existPartNum : Nat)
    (lowBound upBound : Option Const) (parts : List RangePartitionDefState)
    (h : Typed.transformRangePartStartEndStmt lim ops atttypid (pre ++ d :: post) existPartNum
      lowBound upBound = .ok parts) :
    ∃ isinterval st st2, Typed.isinterval_of atttypid = some isinterval ∧
      Typed.leading_rounds lim ops atttypid isinterval lowBound upBound
        (initial_state existPartNum) pre = .ok st ∧
      Inv ops key existPartNum none st ∧ (∀ x, pre.getLast? = some x → st.defState = some x) ∧
      Typed.transform_entry lim ops atttypid isinterval lowBound upBound
        { st with defState := some d } st.defState d = .ok st2 := by
  rcases transformRangePartStartEndStmt_ok lim ops atttypid _ existPartNum lowBound upBound
    parts h with ⟨hnil, _⟩ | ⟨_, iv, stf, _, _, _, hiv, _, hloop, _⟩
  · simp at hnil
  · rw [main_loop_append] at hloop
    split at hloop
    · simp at hloop
    · rename_i st hst
      obtain ⟨hinv, hds⟩ := leading_rounds_inv lim ops key atttypid iv lowBound upBound
        existPartNum pre _ st (Inv.init ops key existPartNum none) hst
      unfold Typed.main_loop at hloop
      split at hloop
      · simp at hloop
      · rename_i st1 hst1
        unfold Typed.loop_body at hst1
        split at hst1
        · simp at hst1
        · split at hst1
          · simp at hst1
          · rename_i st2 hst2
            exact ⟨iv, st, st2, hiv, hst, hinv, hds, hst2⟩

/-- A round that fails after successful leading rounds is the failure of the call,
once the name check and the check of the existing partition number have passed. -/
theorem transformRangePartStartEndStmt_round_error {Raw : Type} (lim : Limits)
    (ops : TypeOps Raw) (atttypid : KeyType) (isinterval : Bool)
    (pre : List (RangePartitionStartEndDefState Raw))
    (d : RangePartitionStartEndDefState Raw)
    (post : List (RangePartitionStartEndDefState Raw)) (existPartNum : Nat)
    (lowBound upBound : Option Const) (st : LoopState Raw) (err : PartError)
    (hiv : Typed.isinterval_of atttypid = some isinterval)
    (hnames : check_partition_name_start_end (pre ++ d :: post) = .ok ())
    (hE : existPartNum < lim.MAX_PARTITION_NUM)
    (hpre : Typed.leading_rounds lim ops atttypid isinterval lowBound upBound
      (initial_state existPartNum) pre = .ok st)
    (hpc : Typed.precheck_start_end_defstate ops atttypid d = .ok ())
    (herr : Typed.transform_entry lim ops atttypid isinterval lowBound upBound
      { st with defState := some d } st.defState d = .error err) :
    Typed.transformRangePartStartEndStmt lim ops atttypid (pre ++ d :: post) existPartNum
      lowBound upBound = .error err := by
  have hloop : Typed.main_loop lim ops atttypid isinterval lowBound upBound
      (initial_state existPartNum) (pre ++ d :: post) = .error err := by
    rw [main_loop_append, hpre]
    simp only
    unfold Typed.main_loop Typed.loop_body
    simp only [hpc, herr]
  unfold Typed.transformRangePartStartEndStmt
  cases hl : (pre ++ d :: post).getLast? with
  | none =>
    have := List.getLast?_eq_none_iff.mp hl
    simp at this
  | some lastDef =>
    simp only [hnames, hiv, hloop]
    rw [if_neg (by omega)]

/-- C4: for a key of any type, in `transformRangePartStartEndStmt` an entry `d2` that
carries a START value and directly follows an entry `d1` that carried an END value is
accepted only if its START value equals that END value under the partition-key
comparison: no call in which the two compare unequal succeeds. When the rounds up to
`d1` succeed, the END value of `d1` and the START value of `d2` are concrete values and
`d2` passes the checks made on it alone (integer constants, START below its own END, no
MAXVALUE in a START/END/EVERY clause), a START value that compares below the END value
of `d1` fails as "start value ... is too low" and one that compares above it as "start
value ... is too high". -/
theorem transformRangePartStartEndStmt_no_gap_no_overlap {Raw : Type} (lim : Limits)
    (ops : TypeOps Raw) (atttypid : KeyType)
    (pre : List (RangePartitionStartEndDefState Raw))
    (d1 d2 : RangePartitionStartEndDefState Raw)
    (post : List (RangePartitionStartEndDefState Raw)) (existPartNum : Nat)
    (lowBound upBound : Option Const) (e1 s2 : Raw)
    (he1 : d1.endValue = some e1) (hs2 : d2.startValue = some s2) :
    (∀ parts, Typed.transformRangePartStartEndStmt lim ops atttypid (pre ++ d1 :: d2 :: post)
        existPartNum lowBound upBound = .ok parts →
      ops.partitonKeyCompare (ops.GetPartitionValue e1 false) (ops.GetPartitionValue s2 false)
        = 0) ∧
    (∀ isinterval st1 v1 v2,
      Typed.isinterval_of atttypid = some isinterval →
      check_partition_name_start_end (pre ++ d1 :: d2 :: post) = .ok () →
      existPartNum < lim.MAX_PARTITION_NUM →
      Typed.leading_rounds lim ops atttypid isinterval lowBound upBound
        (initial_state existPartNum) (pre ++ [d1]) = .ok st1 →
      ops.GetPartitionValue e1 false = .val v1 → ops.GetPartitionValue s2 false = .val v2 →
      Typed.precheck_start_end_defstate ops atttypid d2 = .ok () →
      (∀ e2, d2.endValue = some e2 →
        ops.partitonKeyCompare (.val v2) (ops.GetPartitionValue e2 false) < 0) →
      (∀ e2 ev, d2.endValue = some e2 → d2.everyValue = some ev →
        ops.GetPartitionValue e2 false ≠ .maxvalue ∧
          ops.GetPartitionValue ev isinterval ≠ .maxvalue) →
      (0 < ops.partitonKeyCompare (.val v1) (.val v2) →
        Typed.transformRangePartStartEndStmt lim ops atttypid (pre ++ d1 :: d2 :: post)
          existPartNum lowBound upBound = .error (.startTooLow d2.partitionName)) ∧
      (ops.partitonKeyCompare (.val v1) (.val v2) < 0 →
        Typed.transformRangePartStartEndStmt lim ops atttypid (pre ++ d1 :: d2 :: post)
          existPartNum lowBound upBound = .error (.startTooHigh d2.partitionName))) := by
  have hsplit : pre ++ d1 :: d2 :: post = (pre ++ [d1]) ++ d2 :: post := by simp
  constructor
  · intro parts h
    rw [hsplit] at h
    obtain ⟨iv, st, st2, _, _, hinv, hds, hst2⟩ :=
      transformRangePartStartEndStmt_round lim ops (fun x : Int => x) atttypid _ d2 post
        existPartNum lowBound upBound parts h
    have hd1 : st.defState = some d1 := hds d1 (by simp)
    obtain ⟨hlv, _⟩ := hinv.ended d1 hd1 e1 he1
    exact (transform_entry_meets_last lim ops atttypid iv lowBound upBound
      { st with defState := some d2 } st2 _ d2 s2 _ hs2 hlv hst2).2
  · intro iv st1 v1 v2 hiv hnames hE hpre hv1 hv2 hpc hown hevery
    obtain ⟨hinv, hds⟩ := leading_rounds_inv lim ops (fun x : Int => x) atttypid iv lowBound
      upBound existPartNum _ _ st1 (Inv.init ops (fun x : Int => x) existPartNum none) hpre
    have hd1 : st1.defState = some d1 := hds d1 (by simp)
    obtain ⟨hlv, _⟩ := hinv.ended d1 hd1 e1 he1
    rw [hv1] at hlv
    rw [hsplit] at hnames ⊢
    have hchk : ∀ err,
        (0 < ops.partitonKeyCompare (.val v1) (.val v2) ∧
          err = PartError.startTooLow d2.partitionName) ∨
        (ops.partitonKeyCompare (.val v1) (.val v2) < 0 ∧
          err = PartError.startTooHigh d2.partitionName) →
        Typed.check_start_against_last ops (some (.val v1)) (.val v2) d2.partitionName
          = .error err := by
      intro err herr
      rcases herr with ⟨hlt, rfl⟩ | ⟨hlt, rfl⟩
      · simp [Typed.check_start_against_last, hlt]
      · have h1 : ¬ ops.partitonKeyCompare (.val v1) (.val v2) > 0 := by omega
        simp [Typed.check_start_against_last, h1, hlt]
    have hentry : ∀ err,
        (0 < ops.partitonKeyCompare (.val v1) (.val v2) ∧
          err = PartError.startTooLow d2.partitionName) ∨
        (ops.partitonKeyCompare (.val v1) (.val v2) < 0 ∧
          err = PartError.startTooHigh d2.partitionName) →
        Typed.transform_entry lim ops atttypid iv lowBound upBound
          { st1 with defState := some d2 } st1.defState d2 = .error err := by
      intro err herr
      have hc := hchk err herr
      unfold Typed.transform_entry
      cases hE2 : d2.endValue with
      | none =>
        simp only [hs2]
        unfold Typed.transform_start
        simp only [hv2, reduceCtorEq, ↓reduceIte, hlv, hc]
      | some e2 =>
        have ho := hown e2 hE2
        cases hV2 : d2.everyValue with
        | none =>
          simp only [hs2]
          unfold Typed.transform_start_end
          simp only [hv2, reduceCtorEq, ↓reduceIte, hlv, hc]
          rw [if_neg (by omega)]
        | some ev =>
          obtain ⟨hne, hnv⟩ := hevery e2 ev hE2 hV2
          simp only [hs2]
          unfold Typed.transform_start_end_every
          cases hev : ops.GetPartitionValue e2 false with
          | maxvalue => exact absurd hev hne
          | val e =>
            cases hvv : ops.GetPartitionValue ev iv with
            | maxvalue => exact absurd hvv hnv
            | val w =>
              rw [hev] at ho
              simp only [hv2, hlv, hc]
              rw [if_neg (by omega)]
    constructor
    · intro hlt
      exact transformRangePartStartEndStmt_round_error lim ops atttypid iv _ d2 post existPartNum
        lowBound upBound st1 _ hiv hnames hE hpre hpc (hentry _ (Or.inl ⟨hlt, rfl⟩))
    · intro hlt
      exact transformRangePartStartEndStmt_round_error lim ops atttypid iv _ d2 post existPartNum
        lowBound upBound st1 _ hiv hnames hE hpre hpc (hentry _ (Or.inr ⟨hlt, rfl⟩))

/-- Witness of C4: on an `int4` key, END(10) followed by START(5) END(20) fails with
"start value ... is too low". -/
theorem transformRangePartStartEndStmt_no_gap_no_overlap_witness :
    Typed.transformRangePartStartEndStmt sampleLimits int4Ops .INT4OID
        [sampleEntry "a" none (some (.val 10)) none,
         sampleEntry "b" (some (.val 5)) (some (.val 20)) none] 0 none none
      = .error (.startTooLow "b") :=
  ((transformRangePartStartEndStmt_no_gap_no_overlap sampleLimits int4Ops .INT4OID []
      (sampleEntry "a" none (some (.val 10)) none)
      (sampleEntry "b" (some (.val 5)) (some (.val 20)) none) [] 0 none none
      (.val 10) (.val 5) rfl rfl).2 false
    { newPartList := [samplePart (.val 10) "a"], startVal := none, endVal := some (.val 10),
      lastVal := some (.val 10), totalPart := 1,
      defState := some (sampleEntry "a" none (some (.val 10)) none), curDefState := 1 }
    10 5 (by rfl) (by decide) (by decide) (by rfl) rfl rfl (by decide)
    (by
      intro e2 h
      simp only [sampleEntry, Option.some.injEq] at h
      subst h
      decide)
    (by
      intro e2 ev _ h
      simp [sampleEntry] at h)).1 (by decide)

/-- C9: for a key of any type, in `transformRangePartStartEndStmt` no call succeeds on
a list that holds a START + END + EVERY or START + END entry whose START value compares
equal to or above its END value; and when the rounds in front of such an entry
succeed and the entry holds integer constants, with no MAXVALUE as START value and,
in a START + END + EVERY entry, none as END or EVERY value either, the call fails with
the "start value must be less than end value" error. In particular a pair
`start == end` is never accepted. -/
theorem transformRangePartStartEndStmt_start_below_end {Raw : Type} (lim : Limits)
    (ops : TypeOps Raw) (atttypid : KeyType)
    (partitionList : List (RangePartitionStartEndDefState Raw))
    (existPartNum : Nat) (lowBound upBound : Option Const) :
    (∀ parts, Typed.transformRangePartStartEndStmt lim ops atttypid partitionList existPartNum
        lowBound upBound = .ok parts →
      ∀ d ∈ partitionList, ∀ sE eE, d.startValue = some sE → d.endValue = some eE →
        ops.partitonKeyCompare (ops.GetPartitionValue sE false) (ops.GetPartitionValue eE false)
          < 0) ∧
    (∀ isinterval pre d post st sE eE, partitionList = pre ++ d :: post →
      Typed.isinterval_of atttypid = some isinterval →
      check_partition_name_start_end partitionList = .ok () →
      existPartNum < lim.MAX_PARTITION_NUM →
      Typed.leading_rounds lim ops atttypid isinterval lowBound upBound
        (initial_state existPartNum) pre = .ok st →
      Typed.precheck_start_end_defstate ops atttypid d = .ok () →
      d.startValue = some sE → d.endValue = some eE →
      ops.GetPartitionValue sE false ≠ .maxvalue →
      (∀ ev, d.everyValue = some ev →
        ops.GetPartitionValue eE false ≠ .maxvalue ∧
          ops.GetPartitionValue ev isinterval ≠ .maxvalue) →
      ops.partitonKeyCompare (ops.GetPartitionValue sE false) (ops.GetPartitionValue eE false)
        ≥ 0 →
      Typed.transformRangePartStartEndStmt lim ops atttypid partitionList existPartNum lowBound
        upBound = .error (.startNotLessThanEnd d.partitionName)) := by
  constructor
  · intro parts h d hd sE eE hs he
    obtain ⟨pre, post, rfl⟩ := List.append_of_mem hd
    obtain ⟨iv, st, st2, _, _, _, _, hst2⟩ :=
      transformRangePartStartEndStmt_round lim ops (fun x : Int => x) atttypid pre d post
        existPartNum lowBound upBound parts h
    exact transform_entry_start_lt_end lim ops atttypid iv lowBound upBound _ st2 _ d sE eE hs he
      hst2
  · intro iv pre d post st sE eE hlist hiv hnames hE hpre hpc hs he hsmax hvmax hge
    subst hlist
    apply transformRangePartStartEndStmt_round_error lim ops atttypid iv pre d post existPartNum
      lowBound upBound st _ hiv hnames hE hpre hpc
    unfold Typed.transform_entry
    cases hsv : ops.GetPartitionValue sE false with
    | maxvalue => exact absurd hsv hsmax
    | val sv =>
      rw [hsv] at hge
      cases hV : d.everyValue with
      | none =>
        simp only [hs, he]
        unfold Typed.transform_start_end
        simp only [hsv, reduceCtorEq, ↓reduceIte]
        rw [if_pos hge]
      | some ev =>
        obtain ⟨hne, hnv⟩ := hvmax ev hV
        simp only [hs, he]
        unfold Typed.transform_start_end_every
        cases hev : ops.GetPartitionValue eE false with
        | maxvalue => exact absurd hev hne
        | val e =>
          cases hvv : ops.GetPartitionValue ev iv with
          | maxvalue => exact absurd hvv hnv
          | val w =>
            rw [hev] at hge
            simp only [hsv]
            rw [if_pos hge]

/-- Witness of C9: on an `int4` key, the single entry START(5) END(5) fails with "start
value must be less than end value". -/
theorem transformRangePartStartEndStmt_start_below_end_witness :
    Typed.transformRangePartStartEndStmt sampleLimits int4Ops .INT4OID
        [sampleEntry "a" (some (.val 5)) (some (.val 5)) none] 0 none none
      = .error (.startNotLessThanEnd "a") :=
  (transformRangePartStartEndStmt_start_below_end sampleLimits int4Ops .INT4OID
      [sampleEntry "a" (some (.val 5)) (some (.val 5)) none] 0 none none).2
    false [] (sampleEntry "a" (some (.val 5)) (some (.val 5)) none) [] (initial_state 0)
    (.val 5) (.val 5) rfl (by rfl) (by decide) (by decide) (by rfl) (by decide) rfl rfl
    (by decide)
    (by
      intro ev h
      simp [sampleEntry] at h)
    (by decide)

/-! ## The partition limit -/

/-- With less room the loop of `divide_start_end_every_internal` returns the same
result or runs out of room. -/
theorem divide_loop_fuel_mono {Raw : Type} (ops : TypeOps Raw) (partName : String) (s e : Int)
    (everyExpr : Raw) (d : Int) (needCheck : Bool) :
    ∀ (fuel' fuel nPart : Nat) (cur : Int) (result : List Int) (r : List Int × Nat),
      fuel ≤ fuel' →
      Typed.divide_loop ops partName s e everyExpr d needCheck fuel' nPart cur result = .ok r →
      Typed.divide_loop ops partName s e everyExpr d needCheck fuel nPart cur result = .ok r ∨
        Typed.divide_loop ops partName s e everyExpr d needCheck fuel nPart cur result
          = .error (.tooManyPartitions partName) := by
  intro fuel'
  induction fuel' with
  | zero => intro fuel nPart cur result r _ h; simp [Typed.divide_loop] at h
  | succ f' ih =>
    intro fuel nPart cur result r hle h
    cases fuel with
    | zero => right; simp [Typed.divide_loop]
    | succ f =>
      unfold Typed.divide_loop at h ⊢
      cases hp : ops.plus cur d with
      | none => simp [hp] at h
      | some pnt =>
        simp only [hp] at h ⊢
        generalize (if nPart = 0 ∧ needCheck = true then ops.equalsUncastSum pnt s everyExpr
          else some true) = c at h ⊢
        cases c with
        | none => simp at h
        | some b =>
          cases b with
          | false => simp at h
          | true =>
            simp only at h ⊢
            split_ifs at h ⊢
            all_goals first
              | exact Or.inl h
              | exact ih f _ _ _ r (by omega) h

/-- With less room `DividePartitionStartEndInterval` returns the same result or runs out
of room. -/
theorem typed_divide_fuel_mono {Raw : Type} (ops : TypeOps Raw) (atttypid : KeyType)
    (partName : String) (s e v : Int) (everyExpr : Raw) (maxNum' maxNum : Nat)
    (r : List Int × Nat) (hle : maxNum ≤ maxNum')
    (h : Typed.DividePartitionStartEndInterval ops atttypid partName s e v everyExpr maxNum'
      = .ok r) :
    Typed.DividePartitionStartEndInterval ops atttypid partName s e v everyExpr maxNum = .ok r ∨
      Typed.DividePartitionStartEndInterval ops atttypid partName s e v everyExpr maxNum
        = .error (.tooManyPartitions partName) := by
  have hint : ∀ isinterval needCheck,
      Typed.divide_start_end_every_internal ops partName s e everyExpr maxNum' isinterval
        needCheck = .ok r →
      Typed.divide_start_end_every_internal ops partName s e everyExpr maxNum isinterval
          needCheck = .ok r ∨
        Typed.divide_start_end_every_internal ops partName s e everyExpr maxNum isinterval
          needCheck = .error (.tooManyPartitions partName) := by
    intro isinterval needCheck h
    unfold Typed.divide_start_end_every_internal at h ⊢
    by_cases hse : ops.le e s = true
    · simp [hse] at h
    · simp only [hse, ↓reduceIte] at h ⊢
      exact divide_loop_fuel_mono ops partName s e everyExpr _ needCheck _ _ 0 s [] r hle h
  unfold Typed.DividePartitionStartEndInterval at h ⊢
  cases atttypid with
  | NUMERICOID =>
    simp only at h ⊢
    split_ifs at h ⊢
    exact hint _ _ h
  | FLOAT4OID =>
    simp only at h ⊢
    split_ifs at h ⊢
    exact hint _ _ h
  | FLOAT8OID =>
    simp only at h ⊢
    split_ifs at h ⊢
    exact hint _ _ h
  | INT2OID => exact hint _ _ h
  | INT4OID => exact hint _ _ h
  | INT8OID => exact hint _ _ h
  | DATEOID =>
    simp only at h ⊢
    split_ifs at h ⊢
    exact hint _ _ h
  | TIMESTAMPOID =>
    simp only at h ⊢
    split_ifs at h ⊢
    exact hint _ _ h
  | TIMESTAMPTZOID =>
    simp only at h ⊢
    split_ifs at h ⊢
    exact hint _ _ h
  | other => simp at h

/-- The names given to divided intervals do not depend on the partition limit. -/
theorem add_divided_limit (lim : Limits) (big : Nat) (namePrefix tblSpaceName : String) :
    ∀ (res : List Int) (j : Nat) (xL : List RangePartitionDefState),
      add_divided { lim with MAX_PARTITION_NUM := big } namePrefix tblSpaceName j res xL
        = add_divided lim namePrefix tblSpaceName j res xL := by
  intro res
  induction res with
  | nil => intro j xL; rfl
  | cons pnt rest ih =>
    intro j xL
    unfold add_divided
    have hs : sprintf_partName { lim with MAX_PARTITION_NUM := big } namePrefix j
        = sprintf_partName lim namePrefix j := rfl
    rw [hs]
    cases sprintf_partName lim namePrefix j with
    | error e => rfl
    | ok name => exact ih _ _

/-- Under a smaller partition limit an accepted START + END + EVERY entry is
accepted with the same result, or fails with "too many partitions". -/
theorem transform_start_end_every_limit {Raw : Type} (lim : Limits) (big : Nat)
    (ops : TypeOps Raw) (atttypid : KeyType) (isinterval : Bool)
    (lowBound upBound : Option Const) (st st1 : LoopState Raw)
    (lastState : Option (RangePartitionStartEndDefState Raw))
    (d : RangePartitionStartEndDefState Raw) (s e v : Raw)
    (hbig : lim.MAX_PARTITION_NUM ≤ big)
    (h : Typed.transform_start_end_every { lim with MAX_PARTITION_NUM := big } ops atttypid
      isinterval lowBound upBound st lastState d s e v = .ok st1) :
    Typed.transform_start_end_every lim ops atttypid isinterval lowBound upBound st lastState d
        s e v = .ok st1 ∨
      ∃ n, Typed.transform_start_end_every lim ops atttypid isinterval lowBound upBound st
        lastState d s e v = .error (.tooManyPartitions n) := by
  have e1 : ∀ sv, Typed.build_before_start { lim with MAX_PARTITION_NUM := big } ops lowBound
      upBound st lastState d sv
        = Typed.build_before_start lim ops lowBound upBound st lastState d sv :=
    fun _ => rfl
  have e2 : get_range_partition_name_prefix { lim with MAX_PARTITION_NUM := big } d.partitionName
      = get_range_partition_name_prefix lim d.partitionName := rfl
  unfold Typed.transform_start_end_every at h ⊢
  rw [e2] at h
  simp only [e1, add_divided_limit] at h
  cases hsv : ops.GetPartitionValue s false with
  | maxvalue => simp [hsv] at h
  | val sv =>
    cases hev : ops.GetPartitionValue e false with
    | maxvalue => simp [hsv, hev] at h
    | val ev =>
      cases hvv : ops.GetPartitionValue v isinterval with
      | maxvalue => simp [hsv, hev, hvv] at h
      | val vv =>
        simp only [hsv, hev, hvv] at h ⊢
        by_cases hcmp : ops.partitonKeyCompare (.val sv) (.val ev) ≥ 0
        · simp [hcmp] at h
        · simp only [hcmp, ↓reduceIte] at h ⊢
          cases hchk : Typed.check_start_against_last ops st.lastVal (.val sv) d.partitionName with
          | error err => simp [hchk] at h
          | ok u =>
            simp only [hchk] at h ⊢
            cases hb : Typed.build_before_start lim ops lowBound upBound st lastState d
                (.val sv) with
            | error err => simp [hb] at h
            | ok stb =>
              simp only [hb] at h ⊢
              cases hp : get_range_partition_name_prefix lim d.partitionName with
              | error err => simp [hp] at h
              | ok namePrefix =>
                simp only [hp] at h ⊢
                cases hdiv : Typed.DividePartitionStartEndInterval ops atttypid d.partitionName
                    sv ev vv v (big - stb.totalPart) with
                | error err => simp [hdiv] at h
                | ok r =>
                  have hmono := typed_divide_fuel_mono ops atttypid d.partitionName sv ev vv v
                    (big - stb.totalPart) (lim.MAX_PARTITION_NUM - stb.totalPart) r (by omega)
                    hdiv
                  simp only [hdiv] at h
                  rcases hmono with hok | herr
                  · simp only [hok]
                    exact Or.inl h
                  · simp only [herr]
                    exact Or.inr ⟨_, rfl⟩

/-- Under a smaller partition limit an accepted entry is accepted with the same
result, or fails with "too many partitions". -/
theorem transform_entry_limit {Raw : Type} (lim : Limits) (big : Nat) (ops : TypeOps Raw)
    (atttypid : KeyType) (isinterval : Bool)
    (lowBound upBound : Option Const) (st st1 : LoopState Raw)
    (lastState : Option (RangePartitionStartEndDefState Raw))
    (d : RangePartitionStartEndDefState Raw) (hbig : lim.MAX_PARTITION_NUM ≤ big)
    (h : Typed.transform_entry { lim with MAX_PARTITION_NUM := big } ops atttypid isinterval
      lowBound upBound st lastState d = .ok st1) :
    Typed.transform_entry lim ops atttypid isinterval lowBound upBound st lastState d = .ok st1 ∨
      ∃ n, Typed.transform_entry lim ops atttypid isinterval lowBound upBound st lastState d
        = .error (.tooManyPartitions n) := by
  unfold Typed.transform_entry at h ⊢
  split at h
  · exact transform_start_end_every_limit lim big ops atttypid isinterval lowBound upBound st st1
      lastState d _ _ _ hbig h
  · exact Or.inl h
  · exact Or.inl h
  · exact Or.inl h
  · simp at h

/-- Under a smaller partition limit a successful round succeeds with the same state,
or fails with "too many partitions", or is the `break` on the last cell at exactly
the limit, which leaves `curDefState` one behind. -/
theorem loop_body_limit {Raw : Type} (lim : Limits) (big : Nat) (ops : TypeOps Raw)
    (atttypid : KeyType) (isinterval : Bool)
    (lowBound upBound : Option Const) (st st1 : LoopState Raw)
    (d : RangePartitionStartEndDefState Raw) (hasNext : Bool)
    (hbig : lim.MAX_PARTITION_NUM ≤ big)
    (h : Typed.loop_body { lim with MAX_PARTITION_NUM := big } ops atttypid isinterval lowBound
      upBound st d hasNext = .ok st1) :
    Typed.loop_body lim ops atttypid isinterval lowBound upBound st d hasNext = .ok st1 ∨
      (∃ n, Typed.loop_body lim ops atttypid isinterval lowBound upBound st d hasNext
        = .error (.tooManyPartitions n)) ∨
      (hasNext = false ∧ ∃ st2,
        Typed.loop_body lim ops atttypid isinterval lowBound upBound st d hasNext = .ok st2 ∧
        st2.totalPart = lim.MAX_PARTITION_NUM ∧
        st1 = { st2 with curDefState := st2.curDefState + 1 }) := by
  unfold Typed.loop_body at h ⊢
  cases hpc : Typed.precheck_start_end_defstate ops atttypid d with
  | error err => simp [hpc] at h
  | ok u =>
    simp only [hpc] at h ⊢
    cases hte : Typed.transform_entry { lim with MAX_PARTITION_NUM := big } ops atttypid
        isinterval lowBound upBound { st with defState := some d } st.defState d with
    | error err => simp [hte] at h
    | ok st2 =>
      simp only [hte] at h
      rcases transform_entry_limit lim big ops atttypid isinterval lowBound upBound _ st2 _ d hbig
        hte with hok | ⟨n, herr⟩
      · simp only [hok]
        by_cases hlt : st2.totalPart < lim.MAX_PARTITION_NUM
        · rw [if_neg (by omega)]
          rw [if_neg (by omega)] at h
          exact Or.inl h
        · rw [if_pos (by omega)]
          by_cases hbrk : st2.totalPart = lim.MAX_PARTITION_NUM ∧ hasNext = false
          · rw [if_pos hbrk]
            by_cases hb2 : big ≤ st2.totalPart
            · rw [if_pos hb2] at h
              have hbm : big = lim.MAX_PARTITION_NUM := by omega
              rw [if_pos ⟨by omega, hbrk.2⟩] at h
              exact Or.inl h
            · rw [if_neg hb2] at h
              simp only [Except.ok.injEq] at h
              exact Or.inr (Or.inr ⟨hbrk.2, st2, rfl, hbrk.1, h.symm⟩)
          · rw [if_neg hbrk]
            exact Or.inr (Or.inl ⟨_, rfl⟩)
      · simp only [herr]
        exact Or.inr (Or.inl ⟨n, rfl⟩)

/-- Under a smaller partition limit a successful main loop succeeds with the same
state, or fails with "too many partitions", or ends by the `break` at exactly the
limit, which leaves `curDefState` one behind. -/
theorem main_loop_limit {Raw : Type} (lim : Limits) (big : Nat) (ops : TypeOps Raw)
    (atttypid : KeyType) (isinterval : Bool)
    (lowBound upBound : Option Const) (hbig : lim.MAX_PARTITION_NUM ≤ big) :
    ∀ (l : List (RangePartitionStartEndDefState Raw)) (st st1 : LoopState Raw),
      Typed.main_loop { lim with MAX_PARTITION_NUM := big } ops atttypid isinterval lowBound
        upBound st l = .ok st1 →
      Typed.main_loop lim ops atttypid isinterval lowBound upBound st l = .ok st1 ∨
        (∃ n, Typed.main_loop lim ops atttypid isinterval lowBound upBound st l
          = .error (.tooManyPartitions n)) ∨
        (∃ st2, Typed.main_loop lim ops atttypid isinterval lowBound upBound st l = .ok st2 ∧
          st2.totalPart = lim.MAX_PARTITION_NUM ∧
          st1 = { st2 with curDefState := st2.curDefState + 1 }) := by
  intro l
  induction l with
  | nil =>
    intro st st1 h
    simp only [Typed.main_loop] at h ⊢
    exact Or.inl h
  | cons d rest ih =>
    intro st st1 h
    unfold Typed.main_loop at h ⊢
    cases hb : Typed.loop_body { lim with MAX_PARTITION_NUM := big } ops atttypid isinterval
        lowBound upBound st d (!rest.isEmpty) with
    | error err => simp [hb] at h
    | ok stm =>
      simp only [hb] at h
      rcases loop_body_limit lim big ops atttypid isinterval lowBound upBound st stm d _ hbig hb
        with hok | ⟨n, herr⟩ | ⟨hnn, st2, hok2, htot, hst⟩
      · simp only [hok]
        exact ih stm st1 h
      · simp only [herr]
        exact Or.inr (Or.inl ⟨n, rfl⟩)
      · have hrest : rest = [] := by
          cases rest with
          | nil => rfl
          | cons r rs => simp at hnn
        subst hrest
        simp only [Typed.main_loop, Except.ok.injEq] at h
        subst h
        simp only [hok2, Typed.main_loop]
        exact Or.inr (Or.inr ⟨st2, rfl, htot, hst⟩)

/-- After a single START as last entry, the final stage adds one partition whatever
`curDefState` is, provided the name `<prefix>_1` of that entry fits its buffer. -/
theorem final_stage_single_start_total {Raw : Type} (lim : Limits) (big c : Nat)
    (ops : TypeOps Raw)
    (lowBound upBound : Option Const) (st2 st1 : LoopState Raw)
    (lastDef : RangePartitionStartEndDefState Raw) (hend : lastDef.endValue = none)
    (hfit : ∃ n, prefixed_partName lim lastDef.partitionName 1 = .ok n)
    (h : Typed.final_stage { lim with MAX_PARTITION_NUM := big } ops lowBound upBound
      { st2 with curDefState := c } lastDef = .ok st1) :
    ∃ st3, Typed.final_stage lim ops lowBound upBound st2 lastDef = .ok st3 ∧
      st3.totalPart = st2.totalPart + 1 := by
  obtain ⟨n, hn⟩ := hfit
  have fin : ∀ boundary : Const, ∃ st3,
      (if lowBound = none ∧ st2.curDefState = 1 then
        match prefixed_partName lim lastDef.partitionName 1 with
        | .error err => .error err
        | .ok partName =>
          .ok { st2 with
                newPartList := add_range_partition_def_state st2.newPartList boundary partName
                  lastDef.tableSpaceName
                totalPart := st2.totalPart + 1 }
      else
        .ok { st2 with
              newPartList := add_range_partition_def_state st2.newPartList boundary
                lastDef.partitionName lastDef.tableSpaceName
              totalPart := st2.totalPart + 1 } : Except PartError (LoopState Raw)) = .ok st3 ∧
      st3.totalPart = st2.totalPart + 1 := by
    intro boundary
    simp only [hn]
    by_cases hc : lowBound = none ∧ st2.curDefState = 1
    · rw [if_pos hc]
      exact ⟨_, rfl, rfl⟩
    · rw [if_neg hc]
      exact ⟨_, rfl, rfl⟩
  unfold Typed.final_stage at h ⊢
  simp only [hend] at h ⊢
  cases upBound with
  | none => exact fin _
  | some ub =>
    cases hsv : st2.startVal with
    | none => simp [hsv] at h
    | some sv =>
      simp only [hsv] at h ⊢
      by_cases hcmp : ops.partitonKeyCompare ub sv ≤ 0
      · simp [hcmp] at h
      · simp only [hcmp, ↓reduceIte]
        have hfin := fin ub
        simp only [hsv] at hfin
        exact hfin

/-- C5: for a key of any type and a number of existing partitions below
`MAX_PARTITION_NUM` (as at every call site), whenever `transformRangePartStartEndStmt`
succeeds the number of partitions it returns plus `existPartNum` does not exceed
`MAX_PARTITION_NUM`; and a request that would produce more partitions than that (one
that succeeds under a larger limit with more than `MAX_PARTITION_NUM - existPartNum`
partitions) fails with a "too many partitions" error, given that the name `<prefix>_1`
of the last entry fits the name buffer. -/
theorem transformRangePartStartEndStmt_partition_limit {Raw : Type} (lim : Limits)
    (ops : TypeOps Raw) (atttypid : KeyType)
    (partitionList : List (RangePartitionStartEndDefState Raw))
    (existPartNum : Nat) (lowBound upBound : Option Const)
    (hE : existPartNum < lim.MAX_PARTITION_NUM)
    (hfit : ∀ d, partitionList.getLast? = some d →
      ∃ n, prefixed_partName lim d.partitionName 1 = .ok n) :
    (∀ parts, Typed.transformRangePartStartEndStmt lim ops atttypid partitionList existPartNum
        lowBound upBound = .ok parts → parts.length + existPartNum ≤ lim.MAX_PARTITION_NUM) ∧
    (∀ big parts, Typed.transformRangePartStartEndStmt { lim with MAX_PARTITION_NUM := big } ops
        atttypid partitionList existPartNum lowBound upBound = .ok parts →
      lim.MAX_PARTITION_NUM < parts.length + existPartNum →
      ∃ n, Typed.transformRangePartStartEndStmt lim ops atttypid partitionList existPartNum
        lowBound upBound = .error (.tooManyPartitions n)) := by
  have count : ∀ (lm : Limits) parts,
      Typed.transformRangePartStartEndStmt lm ops atttypid partitionList existPartNum lowBound
        upBound = .ok parts → partitionList ≠ [] →
      ∃ lastDef iv st st1, partitionList.getLast? = some lastDef ∧
        check_partition_name_start_end partitionList = .ok () ∧
        Typed.isinterval_of atttypid = some iv ∧
        Typed.main_loop lm ops atttypid iv lowBound upBound (initial_state existPartNum)
          partitionList = .ok st ∧
        Typed.final_stage lm ops lowBound upBound st lastDef = .ok st1 ∧
        st1.totalPart ≤ lm.MAX_PARTITION_NUM ∧ parts = st1.newPartList ∧
        st1.totalPart = existPartNum + parts.length ∧
        (∀ e, lastDef.endValue = some e → st1 = st) := by
    intro lm parts h hne
    rcases transformRangePartStartEndStmt_ok lm ops atttypid partitionList existPartNum lowBound
      upBound parts h with ⟨hnil, _⟩ | ⟨lastDef, iv, st, st1, hl, hnames, hiv, hE', hloop, hfin,
        hle, _, hparts⟩
    · exact absurd hnil hne
    · obtain ⟨hinv, hds, _, _⟩ := main_loop_inv lm ops (fun x : Int => x) atttypid iv lowBound
        upBound existPartNum none partitionList _ st
        (Inv.init ops (fun x : Int => x) existPartNum none) (fun _ => rfl)
        (by simp only [initial_state]; omega) hloop
      obtain ⟨_, hcnt, _, _, hsame⟩ := final_stage_ok lm ops (fun x : Int => x) lowBound upBound
        existPartNum none st st1 lastDef hinv (hds lastDef hl) hfin
      exact ⟨lastDef, iv, st, st1, hl, hnames, hiv, hloop, hfin, hle, hparts,
        by rw [hparts]; exact hcnt, fun e he => (hsame e he).1⟩
  constructor
  · intro parts h
    by_cases hne : partitionList = []
    · rcases transformRangePartStartEndStmt_ok lim ops atttypid partitionList existPartNum
        lowBound upBound parts h with ⟨_, hp⟩ | ⟨lastDef, _, _, _, hl, _⟩
      · subst hp; simp only [List.length_nil]; omega
      · rw [hne] at hl; simp at hl
    · obtain ⟨_, _, _, st1, _, _, _, _, _, hle, _, hcnt, _⟩ := count lim parts h hne
      omega
  · intro big parts h hgt
    by_cases hne : partitionList = []
    · rcases transformRangePartStartEndStmt_ok _ ops atttypid partitionList existPartNum lowBound
        upBound parts h with ⟨_, hp⟩ | ⟨lastDef, _, _, _, hl, _⟩
      · subst hp; simp only [List.length_nil] at hgt; omega
      · rw [hne] at hl; simp at hl
    · obtain ⟨lastDef, iv, st, st1, hl, hnames, hiv, hloop, hfin, hle, hparts, hcnt, hsame⟩ :=
        count _ parts h hne
      have hle' : st1.totalPart ≤ big := hle
      have hbig : lim.MAX_PARTITION_NUM ≤ big := by omega
      have hfin' : Typed.final_stage lim ops lowBound upBound st lastDef = .ok st1 := hfin
      unfold Typed.transformRangePartStartEndStmt
      simp only [hl, hnames, hiv]
      rw [if_neg (by omega)]
      rcases main_loop_limit lim big ops atttypid iv lowBound upBound hbig partitionList _ st
        hloop with hok | ⟨n, herr⟩ | ⟨st2, hok2, htot, hst⟩
      · simp only [hok, hfin']
        rw [if_pos (by omega)]
        exact ⟨_, rfl⟩
      · simp only [herr]
        exact ⟨n, rfl⟩
      · simp only [hok2]
        cases hend : lastDef.endValue with
        | some e =>
          have := hsame e hend
          rw [this, hst] at hcnt
          simp only at hcnt
          omega
        | none =>
          rw [hst] at hfin
          obtain ⟨st3, hst3, htot3⟩ := final_stage_single_start_total lim big _ ops lowBound
            upBound st2 st1 lastDef hend (hfit lastDef hl) hfin
          simp only [hst3]
          rw [if_pos (by omega)]
          exact ⟨_, rfl⟩

/-- Witness of C5: on an `int4` key, START(1) END(100) EVERY(30) produces five
partitions under the sample limits, and fails with "too many partitions" when only
three are allowed. -/
theorem transformRangePartStartEndStmt_partition_limit_witness :
    ∃ n, Typed.transformRangePartStartEndStmt smallLimits int4Ops .INT4OID
        [sampleEntry "p" (some (.val 1)) (some (.val 100)) (some (.val 30))] 0 none none
      = .error (.tooManyPartitions n) :=
  (transformRangePartStartEndStmt_partition_limit smallLimits int4Ops .INT4OID
      [sampleEntry "p" (some (.val 1)) (some (.val 100)) (some (.val 30))] 0 none none
      (by decide)
      (by
        intro d h
        simp only [List.getLast?_singleton, Option.some.injEq] at h
        subst h
        exact ⟨"p_1", by decide⟩)).2
    32767
    [samplePart (.val 1) "p_0", samplePart (.val 31) "p_1", samplePart (.val 61) "p_2",
      samplePart (.val 91) "p_3", samplePart (.val 100) "p_4"]
    (by decide) (by decide)

/-! ## The external bounds -/

/-- With both bounds given, the block in front of a first entry with a START value
passes only if that value compares equal to the low bound. -/
theorem build_before_start_first_split {Raw : Type} (lim : Limits) (ops : TypeOps Raw)
    (lb ub : Const) (st stb : LoopState Raw) (d : RangePartitionStartEndDefState Raw)
    (sv : Const) (hlast : st.lastVal = none)
    (h : Typed.build_before_start lim ops (some lb) (some ub) st none d sv = .ok stb) :
    ops.partitonKeyCompare lb sv = 0 := by
  unfold Typed.build_before_start at h
  rw [hlast] at h
  simp only [reduceCtorEq, ↓reduceIte, Typed.check_start_point] at h
  by_cases hc : ops.partitonKeyCompare lb sv = 0
  · exact hc
  · simp [hc] at h

/-- With both bounds given, a first entry with a START value is accepted only if that
value compares equal to the low bound. -/
theorem transform_entry_first_split {Raw : Type} (lim : Limits) (ops : TypeOps Raw)
    (atttypid : KeyType) (isinterval : Bool)
    (lb ub : Const) (E : Nat) (st1 : LoopState Raw)
    (d : RangePartitionStartEndDefState Raw) (sE : Raw) (hs : d.startValue = some sE)
    (h : Typed.transform_entry lim ops atttypid isinterval (some lb) (some ub)
      { (initial_state E : LoopState Raw) with defState := some d } none d = .ok st1) :
    ops.partitonKeyCompare lb (ops.GetPartitionValue sE false) = 0 := by
  unfold Typed.transform_entry at h
  split at h
  · -- START + END + EVERY
    rename_i s e v hs' _ _
    rw [hs] at hs'
    simp only [Option.some.injEq] at hs'
    subst hs'
    unfold Typed.transform_start_end_every at h
    split at h
    · rename_i sv ev _ hsv _ _
      split at h
      · simp at h
      · split at h
        · simp at h
        · split at h
          · simp at h
          · rename_i stb hb
            rw [hsv]
            exact build_before_start_first_split lim ops lb ub _ stb d (.val sv) rfl hb
    · simp at h
  · -- START + END
    rename_i s e hs' _ _
    rw [hs] at hs'
    simp only [Option.some.injEq] at hs'
    subst hs'
    unfold Typed.transform_start_end at h
    simp only [initial_state, Typed.check_start_point] at h
    split at h
    · simp at h
    · split at h
      · simp at h
      · split at h
        · simp at h
        · by_cases hc : ops.partitonKeyCompare lb (ops.GetPartitionValue sE false) = 0
          · exact hc
          · simp [hc] at h
  · -- START
    rename_i s hs' _
    rw [hs] at hs'
    simp only [Option.some.injEq] at hs'
    subst hs'
    unfold Typed.transform_start at h
    simp only at h
    split at h
    · simp at h
    · split at h
      · simp at h
      · split at h
        · simp at h
        · rename_i stb hb
          exact build_before_start_first_split lim ops lb ub _ stb d _ rfl hb
  · rename_i hs' _
    rw [hs] at hs'
    simp at hs'
  · rename_i hs' _
    rw [hs] at hs'
    simp at hs'

/-- The macro `add_last_single_start_partition` asks only whether there is a low bound. -/
theorem add_last_single_start_partition_low {Raw : Type} (lim : Limits) (ops : TypeOps Raw)
    (lb lb' : Const) (st : LoopState Raw) (ls d : RangePartitionStartEndDefState Raw)
    (sv : Const) :
    Typed.add_last_single_start_partition lim ops (some lb) st ls d sv
      = Typed.add_last_single_start_partition lim ops (some lb') st ls d sv := by
  unfold Typed.add_last_single_start_partition
  simp only [reduceCtorEq, false_and, ↓reduceIte]

/-- Without an upper bound, the block in front of an entry with a START value does
not read the value of the low bound. -/
theorem build_before_start_low {Raw : Type} (lim : Limits) (ops : TypeOps Raw)
    (lb lb' : Const) (st : LoopState Raw)
    (lastState : Option (RangePartitionStartEndDefState Raw))
    (d : RangePartitionStartEndDefState Raw) (sv : Const) :
    Typed.build_before_start lim ops (some lb) none st lastState d sv
      = Typed.build_before_start lim ops (some lb') none st lastState d sv := by
  unfold Typed.build_before_start
  simp only [reduceCtorEq, ↓reduceIte, Typed.check_start_point,
    add_last_single_start_partition_low lim ops lb lb']

/-- Without an upper bound, one round of the main loop does not read the value of the
low bound, unless the entry is a single END at the head of the list. -/
theorem loop_body_low {Raw : Type} (lim : Limits) (ops : TypeOps Raw)
    (atttypid : KeyType) (isinterval : Bool)
    (lb lb' : Const) (st : LoopState Raw) (d : RangePartitionStartEndDefState Raw)
    (hasNext : Bool) (hd : d.startValue ≠ none ∨ st.defState ≠ none) :
    Typed.loop_body lim ops atttypid isinterval (some lb) none st d hasNext
      = Typed.loop_body lim ops atttypid isinterval (some lb') none st d hasNext := by
  have hentry : Typed.transform_entry lim ops atttypid isinterval (some lb) none
        { st with defState := some d } st.defState d
      = Typed.transform_entry lim ops atttypid isinterval (some lb') none
        { st with defState := some d } st.defState d := by
    unfold Typed.transform_entry
    split
    · unfold Typed.transform_start_end_every
      simp only [build_before_start_low lim ops lb lb']
    · unfold Typed.transform_start_end
      simp only [reduceCtorEq, ↓reduceIte, Typed.check_start_point,
        add_last_single_start_partition_low lim ops lb lb']
    · unfold Typed.transform_start
      simp only [build_before_start_low lim ops lb lb']
    · rename_i e hs _
      rcases hd with hd | hd
      · exact absurd hs hd
      · unfold Typed.transform_end
        cases hl : st.lastVal with
        | some lv => rfl
        | none =>
          cases hds : st.defState with
          | none => exact absurd hds hd
          | some ls => rfl
    · rfl
  unfold Typed.loop_body
  rw [hentry]

/-- Without an upper bound, the rounds after the first do not read the value of the
low bound. -/
theorem main_loop_low {Raw : Type} (lim : Limits) (ops : TypeOps Raw)
    (atttypid : KeyType) (isinterval : Bool) (lb lb' : Const) (E : Nat) :
    ∀ (l : List (RangePartitionStartEndDefState Raw)) (st : LoopState Raw),
      Inv ops (fun x : Int => x) E none st → st.defState ≠ none →
      Typed.main_loop lim ops atttypid isinterval (some lb) none st l
        = Typed.main_loop lim ops atttypid isinterval (some lb') none st l := by
  intro l
  induction l with
  | nil => intro st _ _; rfl
  | cons d rest ih =>
    intro st hinv hds
    unfold Typed.main_loop
    rw [loop_body_low lim ops atttypid isinterval lb lb' st d _ (Or.inr hds)]
    cases hb : Typed.loop_body lim ops atttypid isinterval (some lb') none st d
        (!rest.isEmpty) with
    | error err => rfl
    | ok st1 =>
      obtain ⟨hinv1, hds1, _⟩ := loop_body_inv lim ops (fun x : Int => x) atttypid isinterval
        (some lb') none E none st st1 d _ hinv (fun _ => rfl) hb
      exact ih st1 hinv1 (by rw [hds1]; simp)

/-- The final stage asks only whether there is a low bound. -/
theorem final_stage_low {Raw : Type} (lim : Limits) (ops : TypeOps Raw) (lb lb' : Const)
    (upBound : Option Const)
    (st : LoopState Raw) (d : RangePartitionStartEndDefState Raw) :
    Typed.final_stage lim ops (some lb) upBound st d
      = Typed.final_stage lim ops (some lb') upBound st d := by
  unfold Typed.final_stage
  simp only [reduceCtorEq, false_and, ↓reduceIte]

/-- With a low bound and no upper bound (ADD PARTITION), a list whose first entry
carries a START value is resolved without reading the value of the low bound. -/
theorem transformRangePartStartEndStmt_low {Raw : Type} (lim : Limits) (ops : TypeOps Raw)
    (atttypid : KeyType)
    (d : RangePartitionStartEndDefState Raw) (rest : List (RangePartitionStartEndDefState Raw))
    (existPartNum : Nat) (lb lb' : Const) (hs : d.startValue ≠ none) :
    Typed.transformRangePartStartEndStmt lim ops atttypid (d :: rest) existPartNum (some lb)
        none
      = Typed.transformRangePartStartEndStmt lim ops atttypid (d :: rest) existPartNum
        (some lb') none := by
  have hloop : ∀ iv, Typed.main_loop lim ops atttypid iv (some lb) none
        (initial_state existPartNum) (d :: rest)
      = Typed.main_loop lim ops atttypid iv (some lb') none (initial_state existPartNum)
        (d :: rest) := by
    intro iv
    unfold Typed.main_loop
    rw [loop_body_low lim ops atttypid iv lb lb' _ d _ (Or.inl hs)]
    cases hb : Typed.loop_body lim ops atttypid iv (some lb') none (initial_state existPartNum) d
        (!rest.isEmpty) with
    | error err => rfl
    | ok st1 =>
      obtain ⟨hinv1, hds1, _⟩ := loop_body_inv lim ops (fun x : Int => x) atttypid iv (some lb')
        none existPartNum none (initial_state existPartNum) st1 d _
        (Inv.init ops (fun x : Int => x) existPartNum none) (fun _ => rfl) hb
      exact main_loop_low lim ops atttypid iv lb lb' existPartNum rest st1 hinv1
        (by rw [hds1]; simp)
  unfold Typed.transformRangePartStartEndStmt
  simp only [hloop, final_stage_low lim ops lb lb']

/-- C12, amended: for a key of any type, when both a low bound and an upper bound are
supplied (the split of an existing partition) and the first entry carries a START
value, the request is rejected unless that START value equals the low bound under the
partition-key comparison; when a low bound is supplied without an upper bound (the
table already has partitions, as in ADD PARTITION), the START value of the first entry
is not compared with the low bound: the outcome does not depend on the value of the
low bound at all. -/
theorem transformRangePartStartEndStmt_first_start_low_bound {Raw : Type} (lim : Limits)
    (ops : TypeOps Raw) (atttypid : KeyType) (d : RangePartitionStartEndDefState Raw)
    (rest : List (RangePartitionStartEndDefState Raw)) (existPartNum : Nat) (sE : Raw)
    (hs : d.startValue = some sE) :
    (∀ lb ub parts,
      Typed.transformRangePartStartEndStmt lim ops atttypid (d :: rest) existPartNum (some lb)
        (some ub) = .ok parts →
      ops.partitonKeyCompare lb (ops.GetPartitionValue sE false) = 0) ∧
    (∀ lb lb',
      Typed.transformRangePartStartEndStmt lim ops atttypid (d :: rest) existPartNum (some lb)
          none
        = Typed.transformRangePartStartEndStmt lim ops atttypid (d :: rest) existPartNum
          (some lb') none) := by
  constructor
  · intro lb ub parts h
    rcases transformRangePartStartEndStmt_ok lim ops atttypid (d :: rest) existPartNum (some lb)
      (some ub) parts h with ⟨hnil, _⟩ | ⟨lastDef, iv, st, st2, _, _, _, _, hloop, _⟩
    · simp at hnil
    · unfold Typed.main_loop at hloop
      split at hloop
      · simp at hloop
      · rename_i st1 hst1
        unfold Typed.loop_body at hst1
        split at hst1
        · simp at hst1
        · split at hst1
          · simp at hst1
          · rename_i st0 hst0
            exact transform_entry_first_split lim ops atttypid iv lb ub existPartNum st0 d sE hs
              hst0
  · intro lb lb'
    exact transformRangePartStartEndStmt_low lim ops atttypid d rest existPartNum lb lb'
      (by rw [hs]; simp)

/-- C12, amended, at a sample: on an `int4` key, splitting the partition from 100 to 300,
START 100 END 300 EVERY 100 is accepted, and its START value is the low bound. -/
theorem transformRangePartStartEndStmt_first_start_low_bound_witness :
    (sampleEntry "q" (some (.val 100)) (some (.val 300)) (some (.val 100))).startValue
        = some (.val 100) ∧
      Typed.transformRangePartStartEndStmt sampleLimits int4Ops .INT4OID
        [sampleEntry "q" (some (.val 100)) (some (.val 300)) (some (.val 100))] 7
        (some (.val 100)) (some (.val 300))
        = .ok [samplePart (.val 200) "q_1", samplePart (.val 300) "q_2"] ∧
      int4Ops.partitonKeyCompare (.val 100) (int4Ops.GetPartitionValue (.val 100) false) = 0 :=
  ⟨rfl, by decide,
    (transformRangePartStartEndStmt_first_start_low_bound sampleLimits int4Ops .INT4OID
      (sampleEntry "q" (some (.val 100)) (some (.val 300)) (some (.val 100))) [] 7 (.val 100)
      rfl).1 (.val 100) (.val 300)
      [samplePart (.val 200) "q_1", samplePart (.val 300) "q_2"] (by decide)⟩

/-- C12 as stated fails: on an `int4` key, with the low bound 100 of a table that has 7
partitions and no upper bound (ADD PARTITION), the entry START 150 END 300 EVERY 50 is
accepted although its START value is not the low bound. -/
theorem transformRangePartStartEndStmt_add_partition_start_above_low_bound :
    Typed.transformRangePartStartEndStmt sampleLimits int4Ops .INT4OID
        [sampleEntry "q" (some (.val 150)) (some (.val 300)) (some (.val 50))] 7
        (some (.val 100)) none
        = .ok [samplePart (.val 200) "q_1", samplePart (.val 250) "q_2",
            samplePart (.val 300) "q_3"] ∧
      int4Ops.GetPartitionValue (.val 150) false ≠ .val 100 ∧
      int4Ops.partitonKeyCompare (.val 100) (int4Ops.GetPartitionValue (.val 150) false) ≠ 0 := by
  decide

/-- C13: for a key of any type, when an upper bound is supplied to
`transformRangePartStartEndStmt` (the split of an existing partition) and the last entry
carries an END value, every successful call has that END value equal to the upper
bound under the partition-key comparison: the request is rejected unless the two are
equal. -/
theorem transformRangePartStartEndStmt_last_end_up_bound {Raw : Type} (lim : Limits)
    (ops : TypeOps Raw) (atttypid : KeyType)
    (partitionList : List (RangePartitionStartEndDefState Raw))
    (existPartNum : Nat) (lowBound : Option Const) (ub : Const)
    (parts : List RangePartitionDefState) (d : RangePartitionStartEndDefState Raw) (eE : Raw)
    (hlast : partitionList.getLast? = some d) (he : d.endValue = some eE)
    (h : Typed.transformRangePartStartEndStmt lim ops atttypid partitionList existPartNum
      lowBound (some ub) = .ok parts) :
    ops.partitonKeyCompare ub (ops.GetPartitionValue eE false) = 0 := by
  obtain ⟨st, st1, hinv, hds, hfin, _, _, _⟩ := transformRangePartStartEndStmt_run lim ops
    (fun x : Int => x) atttypid partitionList existPartNum lowBound (some ub) parts d hlast h
  obtain ⟨_, _, _, _, hend⟩ := final_stage_ok lim ops (fun x : Int => x) lowBound (some ub)
    existPartNum none st st1 d hinv hds hfin
  exact (hend eE he).2 ub rfl

/-- C13 at a sample: on an `int4` key, splitting the partition from 100 to 300 by START
100 END 200 and END 300 is accepted, and the last END value is the upper bound. -/
theorem transformRangePartStartEndStmt_last_end_up_bound_witness :
    [sampleEntry "q" (some (.val 100)) (some (.val 200)) none,
        sampleEntry "r" none (some (.val 300)) none].getLast?
        = some (sampleEntry "r" none (some (.val 300)) none) ∧
      (sampleEntry "r" none (some (.val 300)) none).endValue = some (.val 300) ∧
      Typed.transformRangePartStartEndStmt sampleLimits int4Ops .INT4OID
        [sampleEntry "q" (some (.val 100)) (some (.val 200)) none,
          sampleEntry "r" none (some (.val 300)) none] 7 (some (.val 100)) (some (.val 300))
        = .ok [samplePart (.val 200) "q", samplePart (.val 300) "r"] ∧
      int4Ops.partitonKeyCompare (.val 300) (int4Ops.GetPartitionValue (.val 300) false) = 0 :=
  ⟨rfl, rfl, by decide,
    transformRangePartStartEndStmt_last_end_up_bound sampleLimits int4Ops .INT4OID
      [sampleEntry "q" (some (.val 100)) (some (.val 200)) none,
        sampleEntry "r" none (some (.val 300)) none] 7 (some (.val 100)) (.val 300)
      [samplePart (.val 200) "q", samplePart (.val 300) "r"]
      (sampleEntry "r" none (some (.val 300)) none) (.val 300) rfl rfl (by decide)⟩

/-! ## The resolver for every key type: agreement with the integer key -/

/-- On the operations of an integer key with exact arithmetic, the loop of
`divide_start_end_every_internal` for every key type is the loop for an integer key. -/
theorem typed_divide_loop_integer {Raw : Type} (env : KeyOps Raw) (partName : String)
    (s e : Int) (everyExpr : Raw) (d : Int) (needCheck : Bool) :
    ∀ (fuel nPart : Nat) (cur : Int) (result : List Int),
      Typed.divide_loop (integerOps env) partName s e everyExpr d needCheck fuel nPart cur result
        = divide_loop env partName s e everyExpr d needCheck fuel nPart cur result := by
  intro fuel
  induction fuel with
  | zero => intro nPart cur result; rfl
  | succ fuel ih =>
    intro nPart cur result
    have hplus : (integerOps env).plus cur d = some (cur + d) := rfl
    have hle : ∀ a b : Int, ((integerOps env).le a b = true) = (a ≤ b) := fun a b => by
      simp [integerOps]
    have hlt : ∀ a b : Int, ((integerOps env).lt a b = false) = (¬ a < b) := fun a b => by
      simp [integerOps]
    have heq : ∀ p : Int, (integerOps env).equalsUncastSum p s everyExpr
        = some (env.equalsUncastSum p s everyExpr) := fun _ => rfl
    unfold Typed.divide_loop divide_loop
    simp only [hplus, hle, hlt, heq, ih]
    by_cases hn : nPart = 0 ∧ needCheck = true
    · rw [if_pos hn]
      cases hu : env.equalsUncastSum (cur + d) s everyExpr with
      | false =>
        simp only [hn.1, hn.2, hu, and_self, ↓reduceIte]
      | true =>
        simp only [hn.1, hn.2, hu, Bool.true_eq_false, and_false, ↓reduceIte, true_and]
    · rw [if_neg hn]
      have hn' : ¬ (nPart = 0 ∧ needCheck = true ∧
          env.equalsUncastSum (cur + d) s everyExpr = false) := fun h => hn ⟨h.1, h.2.1⟩
      simp only [hn', ↓reduceIte]

/-- On the operations of an integer key and for an integer type,
`DividePartitionStartEndInterval` for every key type is the one for an integer key. -/
theorem typed_divide_integer {Raw : Type} (env : KeyOps Raw) (atttypid : KeyType)
    (hint : atttypid = .INT2OID ∨ atttypid = .INT4OID ∨ atttypid = .INT8OID)
    (partName : String) (s e v : Int) (everyExpr : Raw) (maxNum : Nat) :
    Typed.DividePartitionStartEndInterval (integerOps env) atttypid partName s e v everyExpr maxNum
      = DividePartitionStartEndInterval env partName s e everyExpr maxNum := by
  have h : Typed.divide_start_end_every_internal (integerOps env) partName s e everyExpr maxNum
      false false = divide_start_end_every_internal env partName s e everyExpr maxNum false := by
    unfold Typed.divide_start_end_every_internal divide_start_end_every_internal
    rw [typed_divide_loop_integer]
    simp only [integerOps, decide_eq_true_eq]
  unfold Typed.DividePartitionStartEndInterval DividePartitionStartEndInterval
  rcases hint with rfl | rfl | rfl <;> exact h

/-- On the operations of a machine integer key, the loop of
`divide_start_end_every_internal` ends with the error of the operator `+`, or it is
the loop for an integer key with exact arithmetic. -/
theorem bounded_divide_loop_integer {Raw : Type} (lo hi : Int) (env : KeyOps Raw)
    (partName : String) (s e : Int) (everyExpr : Raw) (d : Int) (needCheck : Bool) :
    ∀ (fuel nPart : Nat) (cur : Int) (result : List Int),
      Typed.divide_loop (boundedIntegerOps lo hi env) partName s e everyExpr d needCheck fuel
          nPart cur result = .error .operatorError ∨
        Typed.divide_loop (boundedIntegerOps lo hi env) partName s e everyExpr d needCheck fuel
            nPart cur result
          = divide_loop env partName s e everyExpr d needCheck fuel nPart cur result := by
  intro fuel
  induction fuel with
  | zero => intro nPart cur result; exact Or.inr rfl
  | succ fuel ih =>
    intro nPart cur result
    by_cases hr : lo ≤ cur + d ∧ cur + d ≤ hi
    · have hplus : (boundedIntegerOps lo hi env).plus cur d = some (cur + d) := by
        simp only [boundedIntegerOps, hr, and_self, ↓reduceIte]
      have hle : ∀ a b : Int, ((boundedIntegerOps lo hi env).le a b = true) = (a ≤ b) :=
        fun a b => by simp [boundedIntegerOps]
      have hlt : ∀ a b : Int, ((boundedIntegerOps lo hi env).lt a b = false) = (¬ a < b) :=
        fun a b => by simp [boundedIntegerOps]
      have heq : ∀ p : Int, (boundedIntegerOps lo hi env).equalsUncastSum p s everyExpr
          = some (env.equalsUncastSum p s everyExpr) := fun _ => rfl
      unfold Typed.divide_loop divide_loop
      simp only [hplus, hle, hlt, heq]
      by_cases hn : nPart = 0 ∧ needCheck = true
      · rw [if_pos hn]
        have hn2 := hn.2
        subst hn2
        cases hu : env.equalsUncastSum (cur + d) s everyExpr with
        | false =>
          right
          simp only [hn.1, hu, and_self, ↓reduceIte]
        | true =>
          simp only [hn.1, hu, Bool.true_eq_false, and_false, ↓reduceIte, true_and]
          split
          · exact Or.inr rfl
          · split
            · split
              · exact Or.inr rfl
              · exact ih _ _ _
            · exact Or.inr rfl
      · rw [if_neg hn]
        have hn' : ¬ (nPart = 0 ∧ needCheck = true ∧
            env.equalsUncastSum (cur + d) s everyExpr = false) := fun h => hn ⟨h.1, h.2.1⟩
        simp only [hn', ↓reduceIte]
        split
        · exact Or.inr rfl
        · split
          · split
            · exact Or.inr rfl
            · exact ih _ _ _
          · split
            · exact Or.inr rfl
            · exact Or.inr rfl
    · left
      have hplus : (boundedIntegerOps lo hi env).plus cur d = none := by
        simp only [boundedIntegerOps, hr, ↓reduceIte]
      unfold Typed.divide_loop
      simp only [hplus]

/-- On the operations of a machine integer key and for an integer type,
`DividePartitionStartEndInterval` ends with the error of the operator `+`, which it
raises when a sum leaves the values from `lo` to `hi` of the type, or it is the
function for an integer key with exact arithmetic. -/
theorem bounded_divide_integer {Raw : Type} (lo hi : Int) (env : KeyOps Raw)
    (atttypid : KeyType)
    (hint : atttypid = .INT2OID ∨ atttypid = .INT4OID ∨ atttypid = .INT8OID)
    (partName : String) (s e v : Int) (everyExpr : Raw) (maxNum : Nat) :
    Typed.DividePartitionStartEndInterval (boundedIntegerOps lo hi env) atttypid partName s e v
        everyExpr maxNum = .error .operatorError ∨
      Typed.DividePartitionStartEndInterval (boundedIntegerOps lo hi env) atttypid partName s e v
          everyExpr maxNum
        = DividePartitionStartEndInterval env partName s e everyExpr maxNum := by
  have h : Typed.divide_start_end_every_internal (boundedIntegerOps lo hi env) partName s e
        everyExpr maxNum false false = .error .operatorError ∨
      Typed.divide_start_end_every_internal (boundedIntegerOps lo hi env) partName s e
          everyExpr maxNum false false
        = divide_start_end_every_internal env partName s e everyExpr maxNum false := by
    unfold Typed.divide_start_end_every_internal divide_start_end_every_internal
    by_cases hes : e ≤ s
    · right
      simp [boundedIntegerOps, hes]
    · have hle : (boundedIntegerOps lo hi env).le e s = false := by
        simp [boundedIntegerOps, hes]
      simp only [hle, Bool.false_eq_true, ↓reduceIte, hes]
      exact bounded_divide_loop_integer lo hi env partName s e everyExpr _ false maxNum 0 s []
  unfold Typed.DividePartitionStartEndInterval DividePartitionStartEndInterval
  rcases hint with rfl | rfl | rfl <;> exact h

/-- On the operations of an integer key and for an integer type, one round of the main
loop for every key type is the round for an integer key. -/
theorem typed_loop_body_integer {Raw : Type} (lim : Limits) (env : KeyOps Raw)
    (atttypid : KeyType)
    (hint : atttypid = .INT2OID ∨ atttypid = .INT4OID ∨ atttypid = .INT8OID)
    (lowBound upBound : Option Const) (st : LoopState Raw)
    (defState : RangePartitionStartEndDefState Raw) (hasNext : Bool) :
    Typed.loop_body lim (integerOps env) atttypid false lowBound upBound st defState hasNext
      = loop_body lim env lowBound upBound st defState hasNext := by
  have hpre : Typed.precheck_start_end_defstate (integerOps env) atttypid defState
      = precheck_start_end_defstate env defState := by
    unfold Typed.precheck_start_end_defstate
    rw [if_pos hint]
    rfl
  have hsee : ∀ (st : LoopState Raw) (lastState : Option (RangePartitionStartEndDefState Raw))
      (s e v : Raw),
      Typed.transform_start_end_every lim (integerOps env) atttypid false lowBound upBound st
        lastState defState s e v
      = transform_start_end_every lim env lowBound upBound st lastState defState s e v := by
    intro st lastState s e v
    unfold Typed.transform_start_end_every transform_start_end_every
    simp only [typed_divide_integer env atttypid hint]
    rfl
  have hentry : ∀ (st : LoopState Raw) (lastState : Option (RangePartitionStartEndDefState Raw)),
      Typed.transform_entry lim (integerOps env) atttypid false lowBound upBound st lastState
        defState
      = transform_entry lim env lowBound upBound st lastState defState := by
    intro st lastState
    unfold Typed.transform_entry transform_entry
    simp only [hsee]
    rfl
  unfold Typed.loop_body loop_body
  rw [hpre, hentry]

/-- On the operations of an integer key and for an integer type,
`transformRangePartStartEndStmt` for every key type is the function for an integer
key: the two embeddings agree. -/
theorem typed_transform_integer {Raw : Type} (lim : Limits) (env : KeyOps Raw)
    (atttypid : KeyType)
    (hint : atttypid = .INT2OID ∨ atttypid = .INT4OID ∨ atttypid = .INT8OID)
    (partitionList : List (RangePartitionStartEndDefState Raw)) (existPartNum : Nat)
    (lowBound upBound : Option Const) :
    Typed.transformRangePartStartEndStmt lim (integerOps env) atttypid partitionList
        existPartNum lowBound upBound
      = transformRangePartStartEndStmt lim env partitionList existPartNum lowBound upBound := by
  have hloop : ∀ (l : List (RangePartitionStartEndDefState Raw)) (st : LoopState Raw),
      Typed.main_loop lim (integerOps env) atttypid false lowBound upBound st l
        = main_loop lim env lowBound upBound st l := by
    intro l
    induction l with
    | nil => intro st; rfl
    | cons d rest ih =>
      intro st
      unfold Typed.main_loop main_loop
      rw [typed_loop_body_integer lim env atttypid hint]
      simp only [ih]
  have hfinal : ∀ (st : LoopState Raw) (d : RangePartitionStartEndDefState Raw),
      Typed.final_stage lim (integerOps env) lowBound upBound st d
        = final_stage lim lowBound upBound st d := by
    intro st d
    rfl
  have hiv : Typed.isinterval_of atttypid = some false := by
    rcases hint with rfl | rfl | rfl <;> rfl
  unfold Typed.transformRangePartStartEndStmt transformRangePartStartEndStmt
  simp only [hiv, hloop, hfinal]

/-! ## The resolver for every key type: the ambiguity check -/

/-- After the first pass the loop of `divide_start_end_every_internal` does not raise
the ambiguity error. -/
theorem typed_divide_loop_later {Raw : Type} (ops : TypeOps Raw) (partName name : String)
    (s e : Int) (everyExpr : Raw) (d : Int) (needCheck : Bool) :
    ∀ (fuel nPart : Nat) (cur : Int) (result : List Int), 0 < nPart →
      Typed.divide_loop ops partName s e everyExpr d needCheck fuel nPart cur result
        ≠ .error (.ambiguousEvery name) := by
  intro fuel
  induction fuel with
  | zero => intro nPart cur result _; simp [Typed.divide_loop]
  | succ fuel ih =>
    intro nPart cur result hn
    rw [typed_divide_loop_later_pass ops partName s e everyExpr d needCheck fuel nPart cur
      result (by omega)]
    split
    · simp
    · split
      · split
        · simp
        · exact ih (nPart + 1) _ _ (by omega)
      · simp

/-- When `divide_start_end_every_internal` raises the ambiguity error: the check is
on, the start value is below the end value, there is room for one partition, the
first sum is formed, and cast to the key type it is not the sum with the uncast step.
The error names the partition. -/
theorem typed_divide_internal_ambiguous {Raw : Type} (ops : TypeOps Raw) (partName : String)
    (s e : Int) (everyExpr : Raw) (maxNum : Nat) (isinterval needCheck : Bool) (name : String) :
    Typed.divide_start_end_every_internal ops partName s e everyExpr maxNum isinterval
        needCheck = .error (.ambiguousEvery name) ↔
      (name = partName ∧ needCheck = true ∧ ops.le e s = false ∧ 0 < maxNum ∧
        ∃ pnt, ops.plus s (ops.GetTargetValue everyExpr isinterval) = some pnt ∧
          ops.equalsUncastSum pnt s everyExpr = some false) := by
  unfold Typed.divide_start_end_every_internal
  by_cases hle : ops.le e s = true
  · simp [hle]
  · have hle' : ops.le e s = false := by simpa using hle
    simp only [hle, Bool.false_eq_true, ↓reduceIte, hle', true_and]
    cases maxNum with
    | zero => simp [Typed.divide_loop]
    | succ fuel =>
      rw [typed_divide_loop_first_pass]
      simp only [Nat.zero_lt_succ, true_and]
      cases hp : ops.plus s (ops.GetTargetValue everyExpr isinterval) with
      | none => simp
      | some pnt =>
        simp only [Option.some.injEq, exists_eq_left']
        by_cases hn : needCheck = true
        · simp only [hn, ↓reduceIte, true_and]
          cases hu : ops.equalsUncastSum pnt s everyExpr with
          | none => simp
          | some b =>
            cases b with
            | false =>
              simp only [Except.error.injEq, PartError.ambiguousEvery.injEq, and_true]
              exact eq_comm
            | true =>
              simp only [Option.some.injEq, Bool.true_eq_false, and_false, iff_false]
              intro h
              split at h
              · simp at h
              · split at h
                · split at h
                  · simp at h
                  · exact typed_divide_loop_later ops partName name s e everyExpr _ true fuel
                      1 _ _ (by omega) h
                · simp at h
        · simp only [hn, Bool.false_eq_true, ↓reduceIte, false_and, and_false, iff_false]
          intro h
          split at h
          · simp at h
          · split at h
            · split at h
              · simp at h
              · exact typed_divide_loop_later ops partName name s e everyExpr _ _ fuel
                  1 _ _ (by omega) h
            · simp at h

/-- C14: `DividePartitionStartEndInterval` raises the error "ambiguous partition rule is
raised by EVERY parameter" if and only if the key type is numeric, float4 or float8
and, on the first step, start + every cast to the key type differs from start plus
the uncast every value; that the first step is taken and compared means that no
operand is NaN (numeric) or infinite (float4, float8), that the start value is below
the end value, that there is room for one partition and that the operator `+` has
formed the two sums without raising an error of its own. The error names the partition
at hand. For smallint, int and bigint keys the check is bypassed and the error is never
raised. -/
theorem DividePartitionStartEndInterval_ambiguous {Raw : Type} (ops : TypeOps Raw)
    (atttypid : KeyType) (partName : String) (s e v : Int) (everyExpr : Raw) (maxNum : Nat) :
    (∀ name, Typed.DividePartitionStartEndInterval ops atttypid partName s e v everyExpr maxNum
        = .error (.ambiguousEvery name) ↔
      (name = partName ∧
        ((atttypid = .NUMERICOID ∧ ops.NUMERIC_IS_NAN s = false ∧ ops.NUMERIC_IS_NAN e = false ∧
            ops.NUMERIC_IS_NAN v = false) ∨
          ((atttypid = .FLOAT4OID ∨ atttypid = .FLOAT8OID) ∧ ops.isinf s = false ∧
            ops.isinf e = false ∧ ops.isinf v = false)) ∧
        ops.le e s = false ∧ 0 < maxNum ∧
        ∃ pnt, ops.plus s (ops.GetTargetValue everyExpr false) = some pnt ∧
          ops.equalsUncastSum pnt s everyExpr = some false)) ∧
    ((atttypid = .INT2OID ∨ atttypid = .INT4OID ∨ atttypid = .INT8OID) →
      ∀ name, Typed.DividePartitionStartEndInterval ops atttypid partName s e v everyExpr maxNum
        ≠ .error (.ambiguousEvery name)) := by
  have hcheck := fun name =>
    typed_divide_internal_ambiguous ops partName s e everyExpr maxNum false true name
  have hint : ∀ name, Typed.divide_start_end_every_internal ops partName s e everyExpr maxNum
      false false ≠ .error (.ambiguousEvery name) := by
    intro name h
    have := (typed_divide_internal_ambiguous ops partName s e everyExpr maxNum false false
      name).mp h
    simp at this
  have hdate : ∀ name, Typed.divide_start_end_every_internal ops partName s e everyExpr maxNum
      true false ≠ .error (.ambiguousEvery name) := by
    intro name h
    have := (typed_divide_internal_ambiguous ops partName s e everyExpr maxNum true false
      name).mp h
    simp at this
  simp only [true_and] at hcheck
  constructor
  · intro name
    unfold Typed.DividePartitionStartEndInterval
    cases atttypid with
    | NUMERICOID =>
      by_cases hnan : ops.NUMERIC_IS_NAN s = true ∨ ops.NUMERIC_IS_NAN e = true ∨
          ops.NUMERIC_IS_NAN v = true
      · simp only [hnan, ↓reduceIte]
        constructor
        · intro h; simp at h
        · rintro ⟨_, ⟨_, h1, h2, h3⟩ | ⟨h, _⟩, _⟩
          · rcases hnan with h | h | h <;> simp_all
          · simp at h
      · have h' : ops.NUMERIC_IS_NAN s = false ∧ ops.NUMERIC_IS_NAN e = false ∧
            ops.NUMERIC_IS_NAN v = false := by
          simp only [not_or, Bool.not_eq_true] at hnan
          exact hnan
        simp only [hnan, ↓reduceIte, h', and_self, true_and, reduceCtorEq, false_or, false_and,
          or_false]
        exact hcheck name
    | FLOAT4OID =>
      by_cases hinf : ops.isinf v = true ∨ ops.isinf s = true ∨ ops.isinf e = true
      · simp only [hinf, ↓reduceIte]
        constructor
        · intro h; simp at h
        · rintro ⟨_, ⟨h, _⟩ | ⟨_, h1, h2, h3⟩, _⟩
          · simp at h
          · rcases hinf with h | h | h <;> simp_all
      · have h' : ops.isinf s = false ∧ ops.isinf e = false ∧ ops.isinf v = false := by
          simp only [not_or, Bool.not_eq_true] at hinf
          exact ⟨hinf.2.1, hinf.2.2, hinf.1⟩
        simp only [hinf, ↓reduceIte, h', and_self, true_and, reduceCtorEq, false_or, false_and,
          or_false, true_or]
        exact hcheck name
    | FLOAT8OID =>
      by_cases hinf : ops.isinf v = true ∨ ops.isinf s = true ∨ ops.isinf e = true
      · simp only [hinf, ↓reduceIte]
        constructor
        · intro h; simp at h
        · rintro ⟨_, ⟨h, _⟩ | ⟨_, h1, h2, h3⟩, _⟩
          · simp at h
          · rcases hinf with h | h | h <;> simp_all
      · have h' : ops.isinf s = false ∧ ops.isinf e = false ∧ ops.isinf v = false := by
          simp only [not_or, Bool.not_eq_true] at hinf
          exact ⟨hinf.2.1, hinf.2.2, hinf.1⟩
        simp only [hinf, ↓reduceIte, h', and_self, true_and, reduceCtorEq, false_or, false_and,
          or_false, or_true]
        exact hcheck name
    | INT2OID => simpa using hint name
    | INT4OID => simpa using hint name
    | INT8OID => simpa using hint name
    | DATEOID =>
      by_cases hfin : ops.TIMESTAMP_NOT_FINITE s = true ∨ ops.TIMESTAMP_NOT_FINITE e = true
      · simp [hfin]
      · simpa [hfin] using hdate name
    | TIMESTAMPOID =>
      by_cases hfin : ops.TIMESTAMP_NOT_FINITE s = true ∨ ops.TIMESTAMP_NOT_FINITE e = true
      · simp [hfin]
      · simpa [hfin] using hdate name
    | TIMESTAMPTZOID =>
      by_cases hfin : ops.TIMESTAMP_NOT_FINITE s = true ∨ ops.TIMESTAMP_NOT_FINITE e = true
      · simp [hfin]
      · simpa [hfin] using hdate name
    | other => simp
  · intro hty name
    unfold Typed.DividePartitionStartEndInterval
    rcases hty with rfl | rfl | rfl <;> exact hint name

/-- C14 at a sample: on a decimal key without fractional digits, START 1 END 2 EVERY
0.4 raises the ambiguity error; on an integer key the same request does not. -/
theorem DividePartitionStartEndInterval_ambiguous_witness :
    Typed.DividePartitionStartEndInterval decimalOps .NUMERICOID "p" 1 2 0 4 10
        = .error (.ambiguousEvery "p") ∧
      Typed.DividePartitionStartEndInterval decimalOps .INT4OID "p" 1 2 0 4 10
        ≠ .error (.ambiguousEvery "p") :=
  ⟨((DividePartitionStartEndInterval_ambiguous decimalOps .NUMERICOID "p" 1 2 0 4 10).1 "p").mpr
      ⟨rfl, Or.inl ⟨rfl, rfl, rfl, rfl⟩, by decide, by decide, 1, by decide, by decide⟩,
    (DividePartitionStartEndInterval_ambiguous decimalOps .INT4OID "p" 1 2 0 4 10).2
      (Or.inr (Or.inl rfl)) "p"⟩

/-! ## The resolver for every key type: NaN, infinity and values that are not finite -/

/-- The operands that `DividePartitionStartEndInterval` refuses end the call in an
error. -/
theorem typed_divide_invalid {Raw : Type} (ops : TypeOps Raw) (atttypid : KeyType)
    (partName : String) (s e v : Int) (everyExpr : Raw) (maxNum : Nat)
    (hbad : invalid_operands ops atttypid (.val s) (.val e) (.val v) = true) :
    ∃ err, Typed.DividePartitionStartEndInterval ops atttypid partName s e v everyExpr maxNum
      = .error err := by
  unfold Typed.DividePartitionStartEndInterval
  cases atttypid with
  | NUMERICOID =>
    simp only [invalid_operands, failsTest, Bool.or_eq_true] at hbad
    have : ops.NUMERIC_IS_NAN s = true ∨ ops.NUMERIC_IS_NAN e = true ∨
        ops.NUMERIC_IS_NAN v = true := by tauto
    simp only [this, ↓reduceIte]
    exact ⟨_, rfl⟩
  | FLOAT4OID =>
    simp only [invalid_operands, failsTest, Bool.or_eq_true] at hbad
    have : ops.isinf v = true ∨ ops.isinf s = true ∨ ops.isinf e = true := by tauto
    simp only [this, ↓reduceIte]
    exact ⟨_, rfl⟩
  | FLOAT8OID =>
    simp only [invalid_operands, failsTest, Bool.or_eq_true] at hbad
    have : ops.isinf v = true ∨ ops.isinf s = true ∨ ops.isinf e = true := by tauto
    simp only [this, ↓reduceIte]
    exact ⟨_, rfl⟩
  | DATEOID =>
    simp only [invalid_operands, failsTest, Bool.or_eq_true] at hbad
    simp only [hbad, ↓reduceIte]
    exact ⟨_, rfl⟩
  | TIMESTAMPOID =>
    simp only [invalid_operands, failsTest, Bool.or_eq_true] at hbad
    simp only [hbad, ↓reduceIte]
    exact ⟨_, rfl⟩
  | TIMESTAMPTZOID =>
    simp only [invalid_operands, failsTest, Bool.or_eq_true] at hbad
    simp only [hbad, ↓reduceIte]
    exact ⟨_, rfl⟩
  | INT2OID => simp [invalid_operands] at hbad
  | INT4OID => simp [invalid_operands] at hbad
  | INT8OID => simp [invalid_operands] at hbad
  | other => exact ⟨_, rfl⟩

/-- A round of the main loop on an entry with START, END and EVERY whose operands
`DividePartitionStartEndInterval` refuses ends in an error, whatever the state. -/
theorem typed_loop_body_invalid {Raw : Type} (lim : Limits) (ops : TypeOps Raw)
    (atttypid : KeyType) (isinterval : Bool) (lowBound upBound : Option Const)
    (st : LoopState Raw) (d : RangePartitionStartEndDefState Raw) (hasNext : Bool)
    (s e v : Raw) (hs : d.startValue = some s) (he : d.endValue = some e)
    (hv : d.everyValue = some v)
    (hbad : invalid_operands ops atttypid (ops.GetPartitionValue s false)
      (ops.GetPartitionValue e false) (ops.GetPartitionValue v isinterval) = true) :
    ∃ err, Typed.loop_body lim ops atttypid isinterval lowBound upBound st d hasNext
      = .error err := by
  have hentry : ∀ (st : LoopState Raw) (lastState : Option (RangePartitionStartEndDefState Raw)),
      ∃ err, Typed.transform_entry lim ops atttypid isinterval lowBound upBound st lastState d
        = .error err := by
    intro st lastState
    unfold Typed.transform_entry
    rw [hs, he, hv]
    simp only
    unfold Typed.transform_start_end_every
    split
    · rename_i sv ev vv hsv hev hvv
      rw [hsv, hev, hvv] at hbad
      obtain ⟨err, herr⟩ := typed_divide_invalid ops atttypid d.partitionName sv ev vv v
        (lim.MAX_PARTITION_NUM -
          (match Typed.build_before_start lim ops lowBound upBound st lastState d (.val sv) with
           | .ok st1 => st1.totalPart
           | .error _ => 0)) hbad
      split
      · exact ⟨_, rfl⟩
      · split
        · exact ⟨_, rfl⟩
        · split
          · exact ⟨_, rfl⟩
          · rename_i st1 hb
            rw [hb] at herr
            simp only at herr
            split
            · exact ⟨_, rfl⟩
            · rw [herr]
              exact ⟨_, rfl⟩
    · exact ⟨_, rfl⟩
  unfold Typed.loop_body
  split
  · exact ⟨_, rfl⟩
  · obtain ⟨err, herr⟩ := hentry { st with defState := some d } st.defState
    rw [herr]
    exact ⟨_, rfl⟩

/-- The main loop over a list that holds such an entry ends in an error. -/
theorem typed_main_loop_invalid {Raw : Type} (lim : Limits) (ops : TypeOps Raw)
    (atttypid : KeyType) (isinterval : Bool) (lowBound upBound : Option Const)
    (d : RangePartitionStartEndDefState Raw) (s e v : Raw) (hs : d.startValue = some s)
    (he : d.endValue = some e) (hv : d.everyValue = some v)
    (hbad : invalid_operands ops atttypid (ops.GetPartitionValue s false)
      (ops.GetPartitionValue e false) (ops.GetPartitionValue v isinterval) = true) :
    ∀ (l : List (RangePartitionStartEndDefState Raw)) (st : LoopState Raw), d ∈ l →
      ∃ err, Typed.main_loop lim ops atttypid isinterval lowBound upBound st l = .error err := by
  intro l
  induction l with
  | nil => intro st hd; simp at hd
  | cons x rest ih =>
    intro st hd
    unfold Typed.main_loop
    rcases List.mem_cons.mp hd with hx | hx
    · subst hx
      obtain ⟨err, herr⟩ := typed_loop_body_invalid lim ops atttypid isinterval lowBound upBound
        st d (!rest.isEmpty) s e v hs he hv hbad
      rw [herr]
      exact ⟨_, rfl⟩
    · split
      · exact ⟨_, rfl⟩
      · rename_i st1 _
        exact ih st1 hx

/-- A round of the main loop on an entry that lacks a START, an END or an EVERY value
does not apply the tests for NaN, infinity and values that are not finite. -/
theorem typed_loop_body_tests {Raw : Type} (lim : Limits) (ops : TypeOps Raw)
    (atttypid : KeyType) (isinterval : Bool) (lowBound upBound : Option Const)
    (st : LoopState Raw) (d : RangePartitionStartEndDefState Raw) (hasNext : Bool)
    (f g h : Int → Bool)
    (hd : d.startValue = none ∨ d.endValue = none ∨ d.everyValue = none) :
    Typed.loop_body lim { ops with NUMERIC_IS_NAN := f, isinf := g, TIMESTAMP_NOT_FINITE := h }
        atttypid isinterval lowBound upBound st d hasNext
      = Typed.loop_body lim ops atttypid isinterval lowBound upBound st d hasNext := by
  have hentry : ∀ (st : LoopState Raw) (lastState : Option (RangePartitionStartEndDefState Raw)),
      Typed.transform_entry lim
          { ops with NUMERIC_IS_NAN := f, isinf := g, TIMESTAMP_NOT_FINITE := h }
          atttypid isinterval lowBound upBound st lastState d
        = Typed.transform_entry lim ops atttypid isinterval lowBound upBound st lastState d := by
    intro st lastState
    unfold Typed.transform_entry
    cases hs : d.startValue with
    | none =>
      cases he : d.endValue with
      | none => rfl
      | some e => rfl
    | some s =>
      cases he : d.endValue with
      | none => rfl
      | some e =>
        cases hv : d.everyValue with
        | none => rfl
        | some v =>
          rw [hs, he, hv] at hd
          simp at hd
  unfold Typed.loop_body
  rw [hentry]
  rfl

/-- C15, amended: in the start/end form, `transformRangePartStartEndStmt` rejects a
list as soon as one entry with START, END and EVERY has a decimal NaN or a float or
double infinity among its start, end and every operands, or a date or timestamp
value that is not finite among its start and end operands. Entries without an EVERY
clause (START with END, a single START, a single END) are not checked for such
values: on a list without an entry that has all three values, the outcome does not
depend on the tests for NaN, infinity and finiteness at all. -/
theorem transformRangePartStartEndStmt_invalid_operands {Raw : Type} (lim : Limits)
    (ops : TypeOps Raw) (atttypid : KeyType)
    (partitionList : List (RangePartitionStartEndDefState Raw)) (existPartNum : Nat)
    (lowBound upBound : Option Const) :
    (∀ d s e v, d ∈ partitionList → d.startValue = some s → d.endValue = some e →
      d.everyValue = some v →
      invalid_operands ops atttypid (ops.GetPartitionValue s false)
        (ops.GetPartitionValue e false)
        (ops.GetPartitionValue v ((Typed.isinterval_of atttypid).getD false)) = true →
      ∃ err, Typed.transformRangePartStartEndStmt lim ops atttypid partitionList existPartNum
        lowBound upBound = .error err) ∧
    ((∀ d ∈ partitionList, d.startValue = none ∨ d.endValue = none ∨ d.everyValue = none) →
      ∀ f g h : Int → Bool,
        Typed.transformRangePartStartEndStmt lim
            { ops with NUMERIC_IS_NAN := f, isinf := g, TIMESTAMP_NOT_FINITE := h }
            atttypid partitionList existPartNum lowBound upBound
          = Typed.transformRangePartStartEndStmt lim ops atttypid partitionList existPartNum
            lowBound upBound) := by
  constructor
  · intro d s e v hd hs he hv hbad
    unfold Typed.transformRangePartStartEndStmt
    cases hl : partitionList.getLast? with
    | none =>
      rw [List.getLast?_eq_none_iff] at hl
      rw [hl] at hd
      simp at hd
    | some lastDef =>
      simp only
      split
      · exact ⟨_, rfl⟩
      · cases hiv : Typed.isinterval_of atttypid with
        | none => exact ⟨_, rfl⟩
        | some isinterval =>
          rw [hiv] at hbad
          simp only [Option.getD_some] at hbad
          simp only
          split
          · exact ⟨_, rfl⟩
          · obtain ⟨err, herr⟩ := typed_main_loop_invalid lim ops atttypid isinterval lowBound
              upBound d s e v hs he hv hbad partitionList (initial_state existPartNum) hd
            rw [herr]
            exact ⟨_, rfl⟩
  · intro hall f g h
    have hloop : ∀ (isinterval : Bool) (l : List (RangePartitionStartEndDefState Raw))
        (st : LoopState Raw),
        (∀ d ∈ l, d.startValue = none ∨ d.endValue = none ∨ d.everyValue = none) →
        Typed.main_loop lim
            { ops with NUMERIC_IS_NAN := f, isinf := g, TIMESTAMP_NOT_FINITE := h }
            atttypid isinterval lowBound upBound st l
          = Typed.main_loop lim ops atttypid isinterval lowBound upBound st l := by
      intro isinterval l
      induction l with
      | nil => intro st _; rfl
      | cons x rest ih =>
        intro st hl
        unfold Typed.main_loop
        rw [typed_loop_body_tests lim ops atttypid isinterval lowBound upBound st x _ f g h
          (hl x (List.mem_cons_self _ _))]
        cases Typed.loop_body lim ops atttypid isinterval lowBound upBound st x (!rest.isEmpty) with
        | error err => rfl
        | ok st1 => exact ih st1 (fun d hd => hl d (List.mem_cons_of_mem _ hd))
    have hfinal : ∀ (st : LoopState Raw) (d : RangePartitionStartEndDefState Raw),
        Typed.final_stage lim
            { ops with NUMERIC_IS_NAN := f, isinf := g, TIMESTAMP_NOT_FINITE := h }
            lowBound upBound st d
          = Typed.final_stage lim ops lowBound upBound st d := by
      intro st d
      rfl
    unfold Typed.transformRangePartStartEndStmt
    simp only [hfinal]
    cases partitionList.getLast? with
    | none => rfl
    | some lastDef =>
      simp only
      cases check_partition_name_start_end partitionList with
      | error err => rfl
      | ok u =>
        simp only
        cases Typed.isinterval_of atttypid with
        | none => rfl
        | some isinterval =>
          simp only
          rw [hloop isinterval partitionList _ hall]

/-- C15, amended, at a sample: on a timestamp key, the entry START -infinity END 0
EVERY 1000 is rejected. -/
theorem transformRangePartStartEndStmt_invalid_operands_witness :
    ∃ err, Typed.transformRangePartStartEndStmt sampleLimits timestampOps .TIMESTAMPOID
      [sampleEntry "p" (some (.val (-9223372036854775808))) (some (.val 0)) (some (.val 1000))]
      0 none none = .error err :=
  (transformRangePartStartEndStmt_invalid_operands sampleLimits timestampOps .TIMESTAMPOID
    [sampleEntry "p" (some (.val (-9223372036854775808))) (some (.val 0)) (some (.val 1000))]
    0 none none).1
    (sampleEntry "p" (some (.val (-9223372036854775808))) (some (.val 0)) (some (.val 1000)))
    (.val (-9223372036854775808)) (.val 0) (.val 1000) (List.mem_cons_self _ _) rfl rfl rfl
    (by decide)

/-- C15 as stated fails: on a timestamp key, the entry START 0 END infinity, which has no
EVERY clause, is accepted although its END value is not finite, and so is the single
entry END infinity. -/
theorem transformRangePartStartEndStmt_accepts_infinite_end :
    timestampOps.TIMESTAMP_NOT_FINITE 9223372036854775807 = true ∧
      Typed.transformRangePartStartEndStmt sampleLimits timestampOps .TIMESTAMPOID
        [sampleEntry "p" (some (.val 0)) (some (.val 9223372036854775807)) none] 0 none none
        = .ok [samplePart (.val 0) "p_0", samplePart (.val 9223372036854775807) "p_1"] ∧
      Typed.transformRangePartStartEndStmt sampleLimits timestampOps .TIMESTAMPOID
        [sampleEntry "q" none (some (.val 9223372036854775807)) none] 0 none none
        = .ok [samplePart (.val 9223372036854775807) "q"] := by
  decide

/-! ## The resolver for every key type: a step without forward progress -/

/-- After the first pass the loop of `divide_start_end_every_internal` does not raise
the error of a step that is too small. -/
theorem typed_divide_loop_later_small {Raw : Type} (ops : TypeOps Raw)
    (partName name : String) (s e : Int) (everyExpr : Raw) (d : Int) (needCheck : Bool) :
    ∀ (fuel nPart : Nat) (cur : Int) (result : List Int), 0 < nPart →
      Typed.divide_loop ops partName s e everyExpr d needCheck fuel nPart cur result
        ≠ .error (.stepTooSmall name) := by
  intro fuel
  induction fuel with
  | zero => intro nPart cur result _; simp [Typed.divide_loop]
  | succ fuel ih =>
    intro nPart cur result hn
    rw [typed_divide_loop_later_pass ops partName s e everyExpr d needCheck fuel nPart cur
      result (by omega)]
    split
    · simp
    · split
      · split
        · simp
        · exact ih (nPart + 1) _ _ (by omega)
      · simp

/-- When `divide_start_end_every_internal` raises the error of a step that is too
small: the start value is below the end value, there is room for one partition, the
first sum is formed and is not above the start value, and the ambiguity check is off
or passes. -/
theorem typed_divide_internal_too_small {Raw : Type} (ops : TypeOps Raw) (partName : String)
    (s e : Int) (everyExpr : Raw) (maxNum : Nat) (isinterval needCheck : Bool) (name : String) :
    Typed.divide_start_end_every_internal ops partName s e everyExpr maxNum isinterval
        needCheck = .error (.stepTooSmall name) ↔
      (name = partName ∧ ops.le e s = false ∧ 0 < maxNum ∧
        ∃ pnt, ops.plus s (ops.GetTargetValue everyExpr isinterval) = some pnt ∧
          ops.le pnt s = true ∧
          (needCheck = true → ops.equalsUncastSum pnt s everyExpr = some true)) := by
  unfold Typed.divide_start_end_every_internal
  by_cases hle : ops.le e s = true
  · simp [hle]
  · have hle' : ops.le e s = false := by simpa using hle
    simp only [hle, Bool.false_eq_true, ↓reduceIte, hle', true_and]
    cases maxNum with
    | zero => simp [Typed.divide_loop]
    | succ fuel =>
      rw [typed_divide_loop_first_pass]
      simp only [Nat.zero_lt_succ, true_and]
      cases hp : ops.plus s (ops.GetTargetValue everyExpr isinterval) with
      | none => simp
      | some pnt =>
        simp only [Option.some.injEq, exists_eq_left']
        have hrest : ∀ (hchk : needCheck = true → ops.equalsUncastSum pnt s everyExpr = some true),
            ((if ops.le pnt s = true then
                (Except.error (.stepTooSmall partName) : Except PartError (List Int × Nat))
              else if ops.le pnt e = true then
                if ops.lt pnt e = false then .ok ([] ++ [pnt], 1)
                else Typed.divide_loop ops partName s e everyExpr
                  (ops.GetTargetValue everyExpr isinterval) needCheck fuel 1 pnt ([] ++ [pnt])
              else .error (.stepTooBig partName)) = .error (.stepTooSmall name) ↔
              name = partName ∧ ops.le pnt s = true ∧
                (needCheck = true → ops.equalsUncastSum pnt s everyExpr = some true)) := by
          intro hchk
          by_cases hsmall : ops.le pnt s = true
          · simp only [hsmall, ↓reduceIte, Except.error.injEq, PartError.stepTooSmall.injEq,
              true_and]
            constructor
            · intro h; exact ⟨h.symm, hchk⟩
            · intro h; exact h.1.symm
          · simp only [hsmall, Bool.false_eq_true, ↓reduceIte, false_and, and_false, iff_false]
            intro h
            split at h
            · split at h
              · simp at h
              · exact typed_divide_loop_later_small ops partName name s e everyExpr _ needCheck
                  fuel 1 _ _ (by omega) h
            · simp at h
        by_cases hn : needCheck = true
        · simp only [hn, ↓reduceIte]
          cases hu : ops.equalsUncastSum pnt s everyExpr with
          | none => simp
          | some b =>
            cases b with
            | false => simp
            | true =>
              have := hrest (fun _ => hu)
              simp only [hn, hu, true_implies] at this
              simpa using this
        · have hn' : needCheck = false := by simpa using hn
          have := hrest (fun h => absurd h hn)
          simp only [hn', Bool.false_eq_true, false_implies, and_true] at this
          simpa [hn'] using this

/-- C11, amended: for a key of any type and every request with the start value below
the end value and room for at least one partition, `divide_start_end_every_internal`
rejects a step without forward progress (start + every, cast to the key type, is at
most start) in its first pass, before any boundary is produced: with "ambiguous
partition rule" when the ambiguity check is on and fails, that check coming first,
and with "partition step is too small" when the check is off or passes; this last
error is raised in no other case. For a machine integer key, where
`DividePartitionStartEndInterval` turns the ambiguity check off, "partition step is too
small" is raised exactly when the step is at most zero and start + every is still a
value of the type; when start + every falls below the values of the type, the call
ends with the error of the operator `+` instead. -/
theorem divide_start_end_every_internal_no_progress {Raw : Type} (ops : TypeOps Raw)
    (env : KeyOps Raw) (lo hi : Int) (atttypid : KeyType) (partName : String) (s e : Int)
    (everyExpr : Raw) (maxNum : Nat) (isinterval needCheck : Bool) (hmax : 0 < maxNum) :
    (ops.le e s = false →
      ∀ pnt, ops.plus s (ops.GetTargetValue everyExpr isinterval) = some pnt →
      ops.le pnt s = true →
      (needCheck = true → ops.equalsUncastSum pnt s everyExpr = some false →
        Typed.divide_start_end_every_internal ops partName s e everyExpr maxNum isinterval
          needCheck = .error (.ambiguousEvery partName)) ∧
      ((needCheck = true → ops.equalsUncastSum pnt s everyExpr = some true) →
        Typed.divide_start_end_every_internal ops partName s e everyExpr maxNum isinterval
          needCheck = .error (.stepTooSmall partName))) ∧
    (ops.le e s = false →
      (Typed.divide_start_end_every_internal ops partName s e everyExpr maxNum isinterval
          needCheck = .error (.stepTooSmall partName) ↔
        ∃ pnt, ops.plus s (ops.GetTargetValue everyExpr isinterval) = some pnt ∧
          ops.le pnt s = true ∧
          (needCheck = true → ops.equalsUncastSum pnt s everyExpr = some true))) ∧
    ((atttypid = .INT2OID ∨ atttypid = .INT4OID ∨ atttypid = .INT8OID) → s < e → s ≤ hi →
      (Typed.DividePartitionStartEndInterval (boundedIntegerOps lo hi env) atttypid partName s e
          (env.GetTargetValue everyExpr) everyExpr maxNum = .error (.stepTooSmall partName) ↔
        (env.GetTargetValue everyExpr ≤ 0 ∧ lo ≤ s + env.GetTargetValue everyExpr)) ∧
      (s + env.GetTargetValue everyExpr < lo →
        Typed.DividePartitionStartEndInterval (boundedIntegerOps lo hi env) atttypid partName s e
          (env.GetTargetValue everyExpr) everyExpr maxNum = .error .operatorError)) := by
  have hsmall := typed_divide_internal_too_small ops partName s e everyExpr maxNum isinterval
    needCheck partName
  have hamb := typed_divide_internal_ambiguous ops partName s e everyExpr maxNum isinterval
    needCheck partName
  refine ⟨?_, ?_, ?_⟩
  · intro hse pnt hp hno
    constructor
    · intro hn hu
      exact hamb.mpr ⟨rfl, hn, hse, hmax, pnt, hp, hu⟩
    · intro hchk
      exact hsmall.mpr ⟨rfl, hse, hmax, pnt, hp, hno, hchk⟩
  · intro hse
    rw [hsmall]
    constructor
    · rintro ⟨_, _, _, h⟩; exact h
    · intro h; exact ⟨rfl, hse, hmax, h⟩
  · intro hint hse hhi
    have hrun : Typed.DividePartitionStartEndInterval (boundedIntegerOps lo hi env) atttypid
        partName s e (env.GetTargetValue everyExpr) everyExpr maxNum
        = Typed.divide_start_end_every_internal (boundedIntegerOps lo hi env) partName s e
            everyExpr maxNum false false := by
      unfold Typed.DividePartitionStartEndInterval
      rcases hint with rfl | rfl | rfl <;> rfl
    have hle : (boundedIntegerOps lo hi env).le e s = false := by
      simp only [boundedIntegerOps, decide_eq_false_iff_not]
      omega
    have hplus : ∀ pnt, (boundedIntegerOps lo hi env).plus s
        ((boundedIntegerOps lo hi env).GetTargetValue everyExpr false) = some pnt ↔
        (lo ≤ s + env.GetTargetValue everyExpr ∧ s + env.GetTargetValue everyExpr ≤ hi ∧
          pnt = s + env.GetTargetValue everyExpr) := by
      intro pnt
      simp only [boundedIntegerOps]
      split
      · rename_i h
        simp only [Option.some.injEq]
        constructor
        · intro hp; exact ⟨h.1, h.2, hp.symm⟩
        · intro hp; exact hp.2.2.symm
      · rename_i h
        simp only [reduceCtorEq, false_iff]
        intro hp
        exact h ⟨hp.1, hp.2.1⟩
    rw [hrun]
    constructor
    · rw [typed_divide_internal_too_small]
      constructor
      · rintro ⟨_, _, _, pnt, hp, hsm, _⟩
        obtain ⟨h1, _, rfl⟩ := (hplus pnt).mp hp
        simp only [boundedIntegerOps, decide_eq_true_eq] at hsm
        exact ⟨by omega, h1⟩
      · rintro ⟨h1, h2⟩
        refine ⟨rfl, hle, hmax, s + env.GetTargetValue everyExpr,
          (hplus _).mpr ⟨h2, by omega, rfl⟩, ?_, by simp⟩
        simp only [boundedIntegerOps, decide_eq_true_eq]
        omega
    · intro hunder
      obtain ⟨k, rfl⟩ : ∃ k, maxNum = k + 1 := ⟨maxNum - 1, by omega⟩
      have hnone : (boundedIntegerOps lo hi env).plus s
          ((boundedIntegerOps lo hi env).GetTargetValue everyExpr false) = none := by
        simp only [boundedIntegerOps]
        rw [if_neg (by omega)]
      unfold Typed.divide_start_end_every_internal
      simp only [hle, Bool.false_eq_true, ↓reduceIte]
      rw [typed_divide_loop_first_pass, hnone]

/-- C11, amended, at a sample: on an `int4` key, START 1 END 10 with a step of 0 is
rejected with "partition step is too small", and START -2147483648 END 0 with a step of
-1 ends with the error of the operator `+`. -/
theorem divide_start_end_every_internal_no_progress_witness :
    0 < 5 ∧
      Typed.divide_start_end_every_internal int4Ops "p" 1 10 (.val 0) 5 false false
        = .error (.stepTooSmall "p") ∧
      Typed.DividePartitionStartEndInterval int4Ops .INT4OID "p" 1 10 0 (.val 0) 5
        = .error (.stepTooSmall "p") ∧
      Typed.DividePartitionStartEndInterval int4Ops .INT4OID "p" (-2147483648) 0 (-1)
        (.val (-1)) 5 = .error .operatorError :=
  ⟨by decide,
    ((divide_start_end_every_internal_no_progress int4Ops intKey (-2147483648) 2147483647
      .INT4OID "p" 1 10 (.val 0) 5 false false (by decide)).1 (by decide) 1 (by decide)
      (by decide)).2 (by decide),
    (((divide_start_end_every_internal_no_progress int4Ops intKey (-2147483648) 2147483647
      .INT4OID "p" 1 10 (.val 0) 5 false false (by decide)).2.2 (Or.inr (Or.inl rfl))
      (by decide) (by decide)).1).mpr (by decide),
    ((divide_start_end_every_internal_no_progress int4Ops intKey (-2147483648) 2147483647
      .INT4OID "p" (-2147483648) 0 (.val (-1)) 5 false false (by decide)).2.2
      (Or.inr (Or.inl rfl)) (by decide) (by decide)).2 (by decide)⟩

/-- C11 as stated fails: on a decimal key without fractional digits, START 1 END 2
EVERY 0.4 makes no forward progress, the step being cast to 0, and is rejected with
"ambiguous partition rule", not with "partition step is too small". -/
theorem divide_start_end_every_internal_no_progress_ambiguous :
    decimalOps.le 2 1 = false ∧
      decimalOps.plus 1 (decimalOps.GetTargetValue 4 false) = some 1 ∧
      decimalOps.le 1 1 = true ∧
      Typed.divide_start_end_every_internal decimalOps "p" 1 2 4 10 false true
        = .error (.ambiguousEvery "p") ∧
      Typed.divide_start_end_every_internal decimalOps "p" 1 2 4 10 false true
        ≠ .error (.stepTooSmall "p") ∧
      Typed.DividePartitionStartEndInterval decimalOps .NUMERICOID "p" 1 2 0 4 10
        = .error (.ambiguousEvery "p") := by
  decide

/-! ## Constraint attributes -/

section ConstraintAttributes

open Table

/-- The loop of `transformConstraintAttrs` over a list in two parts: the second part
starts in the state that the first part leaves. -/
theorem attrs_loop_append :
    ∀ (pre rest : List Table.Constraint) (st : AttrState),
      attrs_loop st (pre ++ rest) =
        match attrs_loop st pre with
        | .error err => .error err
        | .ok st1 => attrs_loop st1 rest := by
  intro pre
  induction pre with
  | nil => intro rest st; simp [attrs_loop]
  | cons con pre ih =>
    intro rest st
    simp only [List.cons_append, attrs_loop]
    cases hs : attrs_step st con with
    | error err => rfl
    | ok st1 => exact ih rest st1

/-- A node that is not an attribute becomes `lastprimarycon`, and the two flags of
the loop are reset. -/
theorem attrs_step_primary (st : AttrState) (con : Table.Constraint)
    (h : is_attr con.contype = false) :
    attrs_step st con = .ok { done := st.list, lastprimarycon := some con, attrs := [],
                              sawDeferrability := false, sawInitially := false } := by
  unfold attrs_step
  cases hc : con.contype <;> simp [is_attr, hc] at h <;> rfl

/-- An attribute node after a node that does not support attributes, or after none, is
rejected as misplaced. -/
theorem attrs_step_misplaced (st : AttrState) (con : Table.Constraint)
    (hattr : is_attr con.contype = true) (hlast : SUPPORTS_ATTRS st.lastprimarycon = false) :
    attrs_step st con = .error (.misplaced con.contype) := by
  unfold attrs_step
  cases hl : st.lastprimarycon with
  | none => cases hc : con.contype <;> simp [is_attr, hc] at hattr <;> rfl
  | some last =>
    rw [hl] at hlast
    cases hc : con.contype <;> simp [is_attr, hc] at hattr <;> simp [hlast]

/-- An attribute node that is accepted leaves the kind of `lastprimarycon` and the
nodes before it as they are, and joins the attribute nodes. -/
theorem attrs_step_attr (st st1 : AttrState) (con : Table.Constraint)
    (hattr : is_attr con.contype = true) (h : attrs_step st con = .ok st1) :
    st1.done = st.done ∧ st1.attrs = st.attrs ++ [con] ∧
      ∃ last last1, st.lastprimarycon = some last ∧ st1.lastprimarycon = some last1 ∧
        last1.contype = last.contype := by
  unfold attrs_step at h
  cases hl : st.lastprimarycon with
  | none => rw [hl] at h; cases hc : con.contype <;> simp [is_attr, hc] at hattr <;> simp [hc] at h
  | some last =>
    rw [hl] at h
    cases hc : con.contype <;> simp [is_attr, hc] at hattr <;> simp only [hc] at h
    all_goals
      repeat' split at h
      all_goals first
        | (simp at h; done)
        | (simp only [Except.ok.injEq] at h; subst h; exact ⟨rfl, rfl, _, _, rfl, rfl, rfl⟩)

/-- Whether a node supports attributes depends on its kind only. -/
theorem SUPPORTS_ATTRS_congr (a b : Option Table.Constraint)
    (h : a.map (fun con => con.contype) = b.map (fun con => con.contype)) :
    SUPPORTS_ATTRS a = SUPPORTS_ATTRS b := by
  cases a with
  | none => cases b with
    | none => rfl
    | some y => simp at h
  | some x => cases b with
    | none => simp at h
    | some y =>
      simp only [Option.map_some', Option.some.injEq] at h
      simp only [SUPPORTS_ATTRS, h]

/-- After the loop of `transformConstraintAttrs`, `lastprimarycon` is of the kind of the
last node read that is not an attribute, or of the kind that it had before if no such
node has been read. -/
theorem attrs_loop_lastprimarycon :
    ∀ (constraintList : List Table.Constraint) (st st1 : AttrState) (last : Option Table.Constraint),
      last.map (fun con => con.contype) = st.lastprimarycon.map (fun con => con.contype) →
      attrs_loop st constraintList = .ok st1 →
      (constraintList.foldl
          (fun last con => if is_attr con.contype = true then last else some con) last).map
          (fun con => con.contype)
        = st1.lastprimarycon.map (fun con => con.contype) := by
  intro constraintList
  induction constraintList with
  | nil =>
    intro st st1 last hlast h
    simp only [attrs_loop, Except.ok.injEq] at h
    subst h
    exact hlast
  | cons con rest ih =>
    intro st st1 last hlast h
    simp only [attrs_loop] at h
    cases hs : attrs_step st con with
    | error err => rw [hs] at h; simp at h
    | ok st2 =>
      rw [hs] at h
      simp only at h
      simp only [List.foldl_cons]
      cases hattr : is_attr con.contype with
      | true =>
        simp only [↓reduceIte]
        obtain ⟨_, _, l0, l1, h0, h1, hk⟩ := attrs_step_attr st st2 con hattr hs
        refine ih st2 st1 last ?_ h
        rw [hlast, h0, h1]
        simp [hk]
      | false =>
        simp only [Bool.false_eq_true, ↓reduceIte]
        rw [attrs_step_primary st con hattr] at hs
        simp only [Except.ok.injEq] at hs
        subst hs
        exact ih _ st1 (some con) rfl h

/-- C27: an attribute node (DEFERRABLE, NOT DEFERRABLE, INITIALLY DEFERRED or
INITIALLY IMMEDIATE) whose nearest preceding node that is not an attribute is absent,
or is not a PRIMARY KEY, UNIQUE, EXCLUSION or FOREIGN KEY constraint, makes
`transformConstraintAttrs` fail; when the nodes before it are accepted, the error is
"misplaced ... clause" for the kind of the node. -/
theorem transformConstraintAttrs_misplaced (pre post : List Table.Constraint)
    (con : Table.Constraint)
    (hattr : con.contype = .CONSTR_ATTR_DEFERRABLE ∨ con.contype = .CONSTR_ATTR_NOT_DEFERRABLE ∨
      con.contype = .CONSTR_ATTR_DEFERRED ∨ con.contype = .CONSTR_ATTR_IMMEDIATE)
    (hlast : ∀ last, lastPrimary pre = some last →
      last.contype ≠ .CONSTR_PRIMARY ∧ last.contype ≠ .CONSTR_UNIQUE ∧
        last.contype ≠ .CONSTR_EXCLUSION ∧ last.contype ≠ .CONSTR_FOREIGN) :
    (∃ err, transformConstraintAttrs (pre ++ con :: post) = .error err) ∧
      ∀ out, transformConstraintAttrs pre = .ok out →
        transformConstraintAttrs (pre ++ con :: post) = .error (.misplaced con.contype) := by
  have hattr' : is_attr con.contype = true := by
    rcases hattr with h | h | h | h <;> simp [is_attr, h]
  have hsup : SUPPORTS_ATTRS (lastPrimary pre) = false := by
    cases hl : lastPrimary pre with
    | none => rfl
    | some last =>
      obtain ⟨h1, h2, h3, h4⟩ := hlast last hl
      simp [SUPPORTS_ATTRS, h1, h2, h3, h4]
  have hmain : ∀ st, attrs_loop attrs_init pre = .ok st →
      transformConstraintAttrs (pre ++ con :: post) = .error (.misplaced con.contype) := by
    intro st hst
    unfold transformConstraintAttrs
    rw [attrs_loop_append, hst]
    simp only [attrs_loop]
    have hk := attrs_loop_lastprimarycon pre _ st none rfl hst
    have : SUPPORTS_ATTRS st.lastprimarycon = false := by
      rw [← SUPPORTS_ATTRS_congr _ _ hk]
      exact hsup
    rw [attrs_step_misplaced st con hattr' this]
  constructor
  · cases hst : attrs_loop attrs_init pre with
    | error err =>
      refine ⟨err, ?_⟩
      unfold transformConstraintAttrs
      rw [attrs_loop_append, hst]
    | ok st => exact ⟨_, hmain st hst⟩
  · intro out hout
    unfold transformConstraintAttrs at hout
    cases hst : attrs_loop attrs_init pre with
    | error err => rw [hst] at hout; simp at hout
    | ok st => exact hmain st hst

/-- C27, on a sample: DEFERRABLE after a CHECK constraint is misplaced. -/
theorem transformConstraintAttrs_misplaced_witness :
    transformConstraintAttrs
        ([makeConstraint .CONSTR_UNIQUE none, makeConstraint .CONSTR_CHECK none] ++
          makeConstraint .CONSTR_ATTR_DEFERRABLE none :: [])
      = .error (.misplaced .CONSTR_ATTR_DEFERRABLE) :=
  (transformConstraintAttrs_misplaced
    [makeConstraint .CONSTR_UNIQUE none, makeConstraint .CONSTR_CHECK none] []
    (makeConstraint .CONSTR_ATTR_DEFERRABLE none) (Or.inl rfl)
    (by intro last h; simp only [lastPrimary, List.foldl, is_attr, makeConstraint] at h
        simp at h; subst h; simp)).2 _ rfl

/-- What an accepted DEFERRABLE node does. -/
theorem attrs_step_deferrable (st st1 : AttrState) (con : Table.Constraint)
    (hc : con.contype = .CONSTR_ATTR_DEFERRABLE) (h : attrs_step st con = .ok st1) :
    st.sawDeferrability = false ∧
      ∃ last, st.lastprimarycon = some last ∧
        st1 = { st with
                sawDeferrability := true
                lastprimarycon := some { last with deferrable := true }
                attrs := st.attrs ++ [con] } := by
  unfold attrs_step at h
  simp only [hc] at h
  cases hl : st.lastprimarycon with
  | none => rw [hl] at h; simp at h
  | some last =>
    rw [hl] at h
    simp only at h
    split at h
    · simp at h
    · split at h
      · simp at h
      · rename_i hs
        simp only [Except.ok.injEq] at h
        exact ⟨by simpa using hs, last, rfl, h.symm⟩

/-- What an accepted NOT DEFERRABLE node does. -/
theorem attrs_step_not_deferrable (st st1 : AttrState) (con : Table.Constraint)
    (hc : con.contype = .CONSTR_ATTR_NOT_DEFERRABLE) (h : attrs_step st con = .ok st1) :
    st.sawDeferrability = false ∧
      ∃ last, st.lastprimarycon = some last ∧
        ¬ (st.sawInitially = true ∧ last.initdeferred = true) ∧
        st1 = { st with
                sawDeferrability := true
                lastprimarycon := some { last with deferrable := false }
                attrs := st.attrs ++ [con] } := by
  unfold attrs_step at h
  simp only [hc] at h
  cases hl : st.lastprimarycon with
  | none => rw [hl] at h; simp at h
  | some last =>
    rw [hl] at h
    simp only at h
    split at h
    · simp at h
    · split at h
      · simp at h
      · rename_i hs
        split at h
        · simp at h
        · rename_i hi
          simp only [Except.ok.injEq] at h
          exact ⟨by simpa using hs, last, rfl, hi, h.symm⟩

/-- What an accepted INITIALLY DEFERRED node does. -/
theorem attrs_step_deferred (st st1 : AttrState) (con : Table.Constraint)
    (hc : con.contype = .CONSTR_ATTR_DEFERRED) (h : attrs_step st con = .ok st1) :
    st.sawInitially = false ∧
      ∃ last, st.lastprimarycon = some last ∧
        (st.sawDeferrability = true → last.deferrable = true) ∧
        st1 = { st with
                sawInitially := true
                lastprimarycon := some { last with initdeferred := true, deferrable := true }
                attrs := st.attrs ++ [con] } := by
  unfold attrs_step at h
  simp only [hc] at h
  cases hl : st.lastprimarycon with
  | none => rw [hl] at h; simp at h
  | some last =>
    rw [hl] at h
    simp only at h
    split at h
    · simp at h
    · split at h
      · simp at h
      · rename_i hs
        split at h
        · rename_i hd
          simp only [Except.ok.injEq] at h
          exact ⟨by simpa using hs, last, rfl, by intro h'; rw [hd] at h'; simp at h', h.symm⟩
        · split at h
          · simp at h
          · rename_i hd
            simp only [Except.ok.injEq] at h
            have hd' : last.deferrable = true := by simpa using hd
            refine ⟨by simpa using hs, last, rfl, fun _ => hd', ?_⟩
            rw [← h]
            cases last
            simp only at hd'
            simp [hd']

/-- What an accepted INITIALLY IMMEDIATE node does. -/
theorem attrs_step_immediate (st st1 : AttrState) (con : Table.Constraint)
    (hc : con.contype = .CONSTR_ATTR_IMMEDIATE) (h : attrs_step st con = .ok st1) :
    st.sawInitially = false ∧
      ∃ last, st.lastprimarycon = some last ∧
        st1 = { st with
                sawInitially := true
                lastprimarycon := some { last with initdeferred := false }
                attrs := st.attrs ++ [con] } := by
  unfold attrs_step at h
  simp only [hc] at h
  cases hl : st.lastprimarycon with
  | none => rw [hl] at h; simp at h
  | some last =>
    rw [hl] at h
    simp only at h
    split at h
    · simp at h
    · split at h
      · simp at h
      · rename_i hs
        simp only [Except.ok.injEq] at h
        exact ⟨by simpa using hs, last, rfl, h.symm⟩

/-- The four kinds of attribute node. -/
theorem is_attr_cases (contype : Table.ConstrType) (h : is_attr contype = true) :
    contype = .CONSTR_ATTR_DEFERRABLE ∨ contype = .CONSTR_ATTR_NOT_DEFERRABLE ∨
      contype = .CONSTR_ATTR_DEFERRED ∨ contype = .CONSTR_ATTR_IMMEDIATE := by
  cases contype <;> simp [is_attr] at h <;> simp

/-- One round of the loop of `transformConstraintAttrs` on a node with both flags unset
keeps the link between "initially deferred" and "deferrable". -/
theorem attrs_step_inv (st st1 : AttrState) (con : Table.Constraint) (hinv : AttrInv st)
    (hunset : con.deferrable = false ∧ con.initdeferred = false)
    (h : attrs_step st con = .ok st1) : AttrInv st1 := by
  have hcon : ∀ c ∈ st.attrs ++ [con], c.initdeferred = true → c.deferrable = true := by
    intro c hc hi
    rcases List.mem_append.mp hc with h1 | h1
    · exact hinv.attrs c h1 hi
    · simp only [List.mem_singleton] at h1
      subst h1
      rw [hunset.2] at hi
      exact absurd hi (by decide)
  cases hattr : is_attr con.contype with
  | false =>
    rw [attrs_step_primary st con hattr] at h
    simp only [Except.ok.injEq] at h
    subst h
    refine ⟨?_, ?_, ?_⟩
    · intro c hc hi
      simp only [AttrState.list, List.mem_append, Option.mem_toList, Option.mem_def] at hc
      rcases hc with (h1 | h1) | h1
      · exact hinv.done c h1 hi
      · exact (hinv.last c h1 hi).1
      · exact hinv.attrs c h1 hi
    · intro c hc hi
      simp only [Option.some.injEq] at hc
      subst hc
      rw [hunset.2] at hi
      exact absurd hi (by decide)
    · intro c hc
      simp at hc
  | true =>
    rcases is_attr_cases _ hattr with hc | hc | hc | hc
    · obtain ⟨_, last, hl, rfl⟩ := attrs_step_deferrable st st1 con hc h
      refine ⟨hinv.done, ?_, hcon⟩
      intro c hc' hi
      simp only [Option.some.injEq] at hc'
      subst hc'
      exact ⟨rfl, (hinv.last last hl hi).2⟩
    · obtain ⟨_, last, hl, hno, rfl⟩ := attrs_step_not_deferrable st st1 con hc h
      refine ⟨hinv.done, ?_, hcon⟩
      intro c hc' hi
      simp only [Option.some.injEq] at hc'
      subst hc'
      exact absurd ⟨(hinv.last last hl hi).2, hi⟩ hno
    · obtain ⟨_, last, hl, _, rfl⟩ := attrs_step_deferred st st1 con hc h
      refine ⟨hinv.done, ?_, hcon⟩
      intro c hc' _
      simp only [Option.some.injEq] at hc'
      subst hc'
      exact ⟨rfl, rfl⟩
    · obtain ⟨_, last, hl, rfl⟩ := attrs_step_immediate st st1 con hc h
      refine ⟨hinv.done, ?_, hcon⟩
      intro c hc' hi
      simp only [Option.some.injEq] at hc'
      subst hc'
      simp at hi

/-- The loop of `transformConstraintAttrs` over nodes with both flags unset keeps the
link between "initially deferred" and "deferrable". -/
theorem attrs_loop_inv :
    ∀ (constraintList : List Table.Constraint) (st st1 : AttrState), AttrInv st →
      (∀ con ∈ constraintList, con.deferrable = false ∧ con.initdeferred = false) →
      attrs_loop st constraintList = .ok st1 → AttrInv st1 := by
  intro constraintList
  induction constraintList with
  | nil =>
    intro st st1 hinv _ h
    simp only [attrs_loop, Except.ok.injEq] at h
    subst h
    exact hinv
  | cons con rest ih =>
    intro st st1 hinv hunset h
    simp only [attrs_loop] at h
    cases hs : attrs_step st con with
    | error err => rw [hs] at h; simp at h
    | ok st2 =>
      rw [hs] at h
      exact ih st2 st1
        (attrs_step_inv st st2 con hinv (hunset con (List.mem_cons_self _ _)) hs)
        (fun c hc => hunset c (List.mem_cons_of_mem _ hc)) h

/-- An attribute node that is accepted after INITIALLY DEFERRED leaves `lastprimarycon`
initially deferred and deferrable; an accepted INITIALLY DEFERRED makes it so. -/
theorem attrs_step_deferredSeen (st st1 : AttrState) (con : Table.Constraint)
    (hattr : is_attr con.contype = true)
    (hseen : DeferredSeen st ∨ con.contype = .CONSTR_ATTR_DEFERRED)
    (h : attrs_step st con = .ok st1) : DeferredSeen st1 ∧ st1.done = st.done := by
  rcases is_attr_cases _ hattr with hc | hc | hc | hc
  · obtain ⟨_, last, hl, rfl⟩ := attrs_step_deferrable st st1 con hc h
    rcases hseen with ⟨c, h1, h2, _, h4⟩ | h1
    · rw [hl] at h1
      simp only [Option.some.injEq] at h1
      subst h1
      exact ⟨⟨_, rfl, h2, rfl, h4⟩, rfl⟩
    · rw [hc] at h1; exact absurd h1 (by decide)
  · obtain ⟨_, last, hl, hno, rfl⟩ := attrs_step_not_deferrable st st1 con hc h
    rcases hseen with ⟨c, h1, h2, _, h4⟩ | h1
    · rw [hl] at h1
      simp only [Option.some.injEq] at h1
      subst h1
      exact absurd ⟨h4, h2⟩ hno
    · rw [hc] at h1; exact absurd h1 (by decide)
  · obtain ⟨_, last, hl, _, rfl⟩ := attrs_step_deferred st st1 con hc h
    exact ⟨⟨_, rfl, rfl, rfl, rfl⟩, rfl⟩
  · obtain ⟨hsaw, last, hl, rfl⟩ := attrs_step_immediate st st1 con hc h
    rcases hseen with ⟨c, h1, h2, _, h4⟩ | h1
    · rw [hsaw] at h4; exact absurd h4 (by decide)
    · rw [hc] at h1; exact absurd h1 (by decide)

/-- The loop of `transformConstraintAttrs` over attribute nodes with an INITIALLY
DEFERRED among them leaves `lastprimarycon` initially deferred and deferrable. -/
theorem attrs_loop_deferredSeen :
    ∀ (attrs : List Table.Constraint) (st st1 : AttrState),
      (∀ a ∈ attrs, is_attr a.contype = true) →
      (DeferredSeen st ∨ ∃ a ∈ attrs, a.contype = .CONSTR_ATTR_DEFERRED) →
      attrs_loop st attrs = .ok st1 → DeferredSeen st1 ∧ st1.done = st.done := by
  intro attrs
  induction attrs with
  | nil =>
    intro st st1 _ hseen h
    simp only [attrs_loop, Except.ok.injEq] at h
    subst h
    rcases hseen with h1 | ⟨a, ha, _⟩
    · exact ⟨h1, rfl⟩
    · cases ha
  | cons con rest ih =>
    intro st st1 hall hseen h
    simp only [attrs_loop] at h
    cases hs : attrs_step st con with
    | error err => rw [hs] at h; simp at h
    | ok st2 =>
      rw [hs] at h
      have hattr := hall con (List.mem_cons_self _ _)
      have hall' : ∀ a ∈ rest, is_attr a.contype = true :=
        fun a ha => hall a (List.mem_cons_of_mem _ ha)
      by_cases hnow : DeferredSeen st ∨ con.contype = .CONSTR_ATTR_DEFERRED
      · obtain ⟨h2, hd⟩ := attrs_step_deferredSeen st st2 con hattr hnow hs
        obtain ⟨h3, hd'⟩ := ih st2 st1 hall' (Or.inl h2) h
        exact ⟨h3, by rw [hd', hd]⟩
      · have hlater : ∃ a ∈ rest, a.contype = .CONSTR_ATTR_DEFERRED := by
          rcases hseen with h1 | ⟨a, ha, hk⟩
          · exact absurd (Or.inl h1) hnow
          · rcases List.mem_cons.mp ha with rfl | ha'
            · exact absurd (Or.inr hk) hnow
            · exact ⟨a, ha', hk⟩
        obtain ⟨h3, hd'⟩ := ih st2 st1 hall' (Or.inr hlater) h
        refine ⟨h3, ?_⟩
        rw [hd', (attrs_step_attr st st2 con hattr hs).1]

/-- The element after a prefix of a list. -/
theorem get_after_prefix {α : Type} (a b : List α) (x : α) :
    (a ++ x :: b)[a.length]? = some x := by
  rw [List.getElem?_append_right (Nat.le_refl _)]
  simp

/-- The loop of `transformConstraintAttrs` never touches the nodes before
`lastprimarycon` again. -/
theorem attrs_loop_done :
    ∀ (constraintList : List Table.Constraint) (st st1 : AttrState),
      attrs_loop st constraintList = .ok st1 → ∃ ext, st1.list = st.done ++ ext := by
  intro constraintList
  induction constraintList with
  | nil =>
    intro st st1 h
    simp only [attrs_loop, Except.ok.injEq] at h
    subst h
    exact ⟨st.lastprimarycon.toList ++ st.attrs, by simp [AttrState.list]⟩
  | cons con rest ih =>
    intro st st1 h
    simp only [attrs_loop] at h
    cases hs : attrs_step st con with
    | error err => rw [hs] at h; simp at h
    | ok st2 =>
      rw [hs] at h
      obtain ⟨ext, hext⟩ := ih st2 st1 h
      cases hattr : is_attr con.contype with
      | true =>
        rw [(attrs_step_attr st st2 con hattr hs).1] at hext
        exact ⟨ext, hext⟩
      | false =>
        rw [attrs_step_primary st con hattr] at hs
        simp only [Except.ok.injEq] at hs
        subst hs
        refine ⟨st.lastprimarycon.toList ++ st.attrs ++ ext, ?_⟩
        rw [hext]
        simp [AttrState.list]

/-- The loop of `transformConstraintAttrs` keeps every node that it reads. -/
theorem attrs_loop_length :
    ∀ (constraintList : List Table.Constraint) (st st1 : AttrState),
      attrs_loop st constraintList = .ok st1 →
      st1.list.length = st.list.length + constraintList.length := by
  intro constraintList
  induction constraintList with
  | nil =>
    intro st st1 h
    simp only [attrs_loop, Except.ok.injEq] at h
    subst h
    rfl
  | cons con rest ih =>
    intro st st1 h
    simp only [attrs_loop] at h
    cases hs : attrs_step st con with
    | error err => rw [hs] at h; simp at h
    | ok st2 =>
      rw [hs] at h
      rw [ih st2 st1 h]
      cases hattr : is_attr con.contype with
      | true =>
        obtain ⟨hd, ha, l0, l1, h0, h1, _⟩ := attrs_step_attr st st2 con hattr hs
        simp only [AttrState.list, hd, ha, h0, h1, List.length_append, Option.toList_some,
          List.length_singleton, List.length_cons, List.length_nil]
        omega
      | false =>
        rw [attrs_step_primary st con hattr] at hs
        simp only [Except.ok.injEq] at hs
        subst hs
        simp [AttrState.list]
        omega

/-- Once INITIALLY DEFERRED has been accepted for `lastprimarycon`, that node stays
initially deferred and deferrable to the end of the loop. -/
theorem attrs_loop_keeps_deferred :
    ∀ (constraintList : List Table.Constraint) (st st1 : AttrState), DeferredSeen st →
      attrs_loop st constraintList = .ok st1 →
      ∃ con, st1.list[st.done.length]? = some con ∧ con.initdeferred = true ∧
        con.deferrable = true := by
  intro constraintList
  induction constraintList with
  | nil =>
    intro st st1 hseen h
    simp only [attrs_loop, Except.ok.injEq] at h
    subst h
    obtain ⟨con, hl, hi, hd, _⟩ := hseen
    refine ⟨con, ?_, hi, hd⟩
    simp only [AttrState.list, hl, Option.toList_some, List.append_assoc, List.singleton_append]
    exact get_after_prefix _ _ _
  | cons con rest ih =>
    intro st st1 hseen h
    simp only [attrs_loop] at h
    cases hs : attrs_step st con with
    | error err => rw [hs] at h; simp at h
    | ok st2 =>
      rw [hs] at h
      cases hattr : is_attr con.contype with
      | true =>
        obtain ⟨hseen2, hd⟩ := attrs_step_deferredSeen st st2 con hattr (Or.inl hseen) hs
        rw [← hd]
        exact ih st2 st1 hseen2 h
      | false =>
        rw [attrs_step_primary st con hattr] at hs
        simp only [Except.ok.injEq] at hs
        subst hs
        obtain ⟨ext, hext⟩ := attrs_loop_done rest _ st1 h
        obtain ⟨last, hl, hi, hdf, _⟩ := hseen
        refine ⟨last, ?_, hi, hdf⟩
        rw [hext]
        simp only [AttrState.list, hl, Option.toList_some, List.append_assoc, List.singleton_append]
        exact get_after_prefix _ _ _

/-- C28: when `transformConstraintAttrs` accepts a list whose nodes all start with
`deferrable` and `initdeferred` unset, every node of the result that is initially
deferred is deferrable; and a constraint whose attribute nodes hold an INITIALLY
DEFERRED, with or without a DEFERRABLE, ends up initially deferred and deferrable. -/
theorem transformConstraintAttrs_deferred_deferrable (constraintList out : List Table.Constraint)
    (hunset : ∀ con ∈ constraintList, con.deferrable = false ∧ con.initdeferred = false)
    (h : transformConstraintAttrs constraintList = .ok out) :
    (∀ con ∈ out, con.initdeferred = true → con.deferrable = true) ∧
      ∀ (pre attrs post : List Table.Constraint) (primary : Table.Constraint),
        constraintList = pre ++ primary :: (attrs ++ post) →
        is_attr primary.contype = false → (∀ a ∈ attrs, is_attr a.contype = true) →
        (∃ a ∈ attrs, a.contype = .CONSTR_ATTR_DEFERRED) →
        ∃ con, out[pre.length]? = some con ∧ con.initdeferred = true ∧
          con.deferrable = true := by
  unfold transformConstraintAttrs at h
  cases hst : attrs_loop attrs_init constraintList with
  | error err => rw [hst] at h; simp at h
  | ok st =>
    rw [hst] at h
    simp only [Except.ok.injEq] at h
    subst h
    constructor
    · have hinit : AttrInv attrs_init :=
        ⟨(by intro c hc; cases hc), (by intro c hc; cases hc), (by intro c hc; cases hc)⟩
      have hinv := attrs_loop_inv constraintList attrs_init st hinit hunset hst
      intro con hc hi
      simp only [AttrState.list, List.mem_append, Option.mem_toList, Option.mem_def] at hc
      rcases hc with (h1 | h1) | h1
      · exact hinv.done con h1 hi
      · exact (hinv.last con h1 hi).1
      · exact hinv.attrs con h1 hi
    · intro pre attrs post primary hsplit hprim hattrs hdeferred
      rw [hsplit, attrs_loop_append] at hst
      cases hpre : attrs_loop attrs_init pre with
      | error err => rw [hpre] at hst; simp at hst
      | ok st0 =>
        rw [hpre] at hst
        simp only [attrs_loop] at hst
        rw [attrs_step_primary st0 primary hprim] at hst
        simp only at hst
        rw [attrs_loop_append] at hst
        cases hrun : attrs_loop { done := st0.list, lastprimarycon := some primary, attrs := [],
                                  sawDeferrability := false, sawInitially := false } attrs with
        | error err => rw [hrun] at hst; simp at hst
        | ok st2 =>
          rw [hrun] at hst
          simp only at hst
          obtain ⟨hseen, hd⟩ := attrs_loop_deferredSeen attrs _ st2 hattrs (Or.inr hdeferred) hrun
          obtain ⟨con, hget, hi, hdf⟩ := attrs_loop_keeps_deferred post st2 st hseen hst
          have hlen := attrs_loop_length pre attrs_init st0 hpre
          simp only [hd] at hget
          rw [hlen] at hget
          simp only [attrs_init, AttrState.list, List.nil_append, Option.toList_none, List.length_nil,
            Nat.zero_add] at hget
          exact ⟨con, hget, hi, hdf⟩

/-- C28, on a sample: UNIQUE INITIALLY DEFERRED ends up deferrable. -/
theorem transformConstraintAttrs_deferred_deferrable_witness :
    ∃ con, ([{ makeConstraint .CONSTR_UNIQUE none with deferrable := true, initdeferred := true },
        makeConstraint .CONSTR_ATTR_DEFERRED none] : List Table.Constraint)[0]? = some con ∧
      con.initdeferred = true ∧ con.deferrable = true :=
  (transformConstraintAttrs_deferred_deferrable
    [makeConstraint .CONSTR_UNIQUE none, makeConstraint .CONSTR_ATTR_DEFERRED none]
    [{ makeConstraint .CONSTR_UNIQUE none with deferrable := true, initdeferred := true },
      makeConstraint .CONSTR_ATTR_DEFERRED none]
    (by decide) (by decide)).2 [] [makeConstraint .CONSTR_ATTR_DEFERRED none] []
    (makeConstraint .CONSTR_UNIQUE none) rfl rfl (by decide) (by decide)

/-- After a DEFERRABLE or NOT DEFERRABLE clause, a second one among the attribute nodes
that follow makes the loop of `transformConstraintAttrs` fail. -/
theorem attrs_loop_second_deferrability :
    ∀ (attrs : List Table.Constraint) (st : AttrState),
      (∀ a ∈ attrs, is_attr a.contype = true) → st.sawDeferrability = true →
      (∃ a ∈ attrs, a.contype = .CONSTR_ATTR_DEFERRABLE ∨
        a.contype = .CONSTR_ATTR_NOT_DEFERRABLE) →
      ∃ err, attrs_loop st attrs = .error err := by
  intro attrs
  induction attrs with
  | nil => intro st _ _ h; obtain ⟨a, ha, _⟩ := h; cases ha
  | cons con rest ih =>
    intro st hall hsaw hex
    simp only [attrs_loop]
    cases hs : attrs_step st con with
    | error err => exact ⟨err, rfl⟩
    | ok st2 =>
      simp only
      have hall' : ∀ a ∈ rest, is_attr a.contype = true :=
        fun a ha => hall a (List.mem_cons_of_mem _ ha)
      rcases is_attr_cases _ (hall con (List.mem_cons_self _ _)) with hc | hc | hc | hc
      · have := (attrs_step_deferrable st st2 con hc hs).1
        rw [hsaw] at this; exact absurd this (by decide)
      · have := (attrs_step_not_deferrable st st2 con hc hs).1
        rw [hsaw] at this; exact absurd this (by decide)
      · obtain ⟨_, last, _, _, rfl⟩ := attrs_step_deferred st st2 con hc hs
        refine ih _ hall' hsaw ?_
        obtain ⟨a, ha, hk⟩ := hex
        rcases List.mem_cons.mp ha with rfl | ha'
        · rw [hc] at hk; simp at hk
        · exact ⟨a, ha', hk⟩
      · obtain ⟨_, last, _, rfl⟩ := attrs_step_immediate st st2 con hc hs
        refine ih _ hall' hsaw ?_
        obtain ⟨a, ha, hk⟩ := hex
        rcases List.mem_cons.mp ha with rfl | ha'
        · rw [hc] at hk; simp at hk
        · exact ⟨a, ha', hk⟩

/-- After an INITIALLY DEFERRED or INITIALLY IMMEDIATE clause, a second one among the
attribute nodes that follow makes the loop of `transformConstraintAttrs` fail. -/
theorem attrs_loop_second_initially :
    ∀ (attrs : List Table.Constraint) (st : AttrState),
      (∀ a ∈ attrs, is_attr a.contype = true) → st.sawInitially = true →
      (∃ a ∈ attrs, a.contype = .CONSTR_ATTR_DEFERRED ∨ a.contype = .CONSTR_ATTR_IMMEDIATE) →
      ∃ err, attrs_loop st attrs = .error err := by
  intro attrs
  induction attrs with
  | nil => intro st _ _ h; obtain ⟨a, ha, _⟩ := h; cases ha
  | cons con rest ih =>
    intro st hall hsaw hex
    simp only [attrs_loop]
    cases hs : attrs_step st con with
    | error err => exact ⟨err, rfl⟩
    | ok st2 =>
      simp only
      have hall' : ∀ a ∈ rest, is_attr a.contype = true :=
        fun a ha => hall a (List.mem_cons_of_mem _ ha)
      rcases is_attr_cases _ (hall con (List.mem_cons_self _ _)) with hc | hc | hc | hc
      · obtain ⟨_, last, _, rfl⟩ := attrs_step_deferrable st st2 con hc hs
        refine ih _ hall' hsaw ?_
        obtain ⟨a, ha, hk⟩ := hex
        rcases List.mem_cons.mp ha with rfl | ha'
        · rw [hc] at hk; simp at hk
        · exact ⟨a, ha', hk⟩
      · obtain ⟨_, last, _, _, rfl⟩ := attrs_step_not_deferrable st st2 con hc hs
        refine ih _ hall' hsaw ?_
        obtain ⟨a, ha, hk⟩ := hex
        rcases List.mem_cons.mp ha with rfl | ha'
        · rw [hc] at hk; simp at hk
        · exact ⟨a, ha', hk⟩
      · have := (attrs_step_deferred st st2 con hc hs).1
        rw [hsaw] at this; exact absurd this (by decide)
      · have := (attrs_step_immediate st st2 con hc hs).1
        rw [hsaw] at this; exact absurd this (by decide)

/-- After NOT DEFERRABLE, an INITIALLY DEFERRED among the attribute nodes that follow
makes the loop of `transformConstraintAttrs` fail. -/
theorem attrs_loop_deferred_after_not_deferrable :
    ∀ (attrs : List Table.Constraint) (st : AttrState) (last : Table.Constraint),
      (∀ a ∈ attrs, is_attr a.contype = true) → st.sawDeferrability = true →
      st.lastprimarycon = some last → last.deferrable = false →
      (∃ a ∈ attrs, a.contype = .CONSTR_ATTR_DEFERRED) →
      ∃ err, attrs_loop st attrs = .error err := by
  intro attrs
  induction attrs with
  | nil => intro st _ _ _ _ _ h; obtain ⟨a, ha, _⟩ := h; cases ha
  | cons con rest ih =>
    intro st last hall hsaw hl hd hex
    simp only [attrs_loop]
    cases hs : attrs_step st con with
    | error err => exact ⟨err, rfl⟩
    | ok st2 =>
      simp only
      have hall' : ∀ a ∈ rest, is_attr a.contype = true :=
        fun a ha => hall a (List.mem_cons_of_mem _ ha)
      rcases is_attr_cases _ (hall con (List.mem_cons_self _ _)) with hc | hc | hc | hc
      · have := (attrs_step_deferrable st st2 con hc hs).1
        rw [hsaw] at this; exact absurd this (by decide)
      · have := (attrs_step_not_deferrable st st2 con hc hs).1
        rw [hsaw] at this; exact absurd this (by decide)
      · obtain ⟨_, last', hl', hdef, _⟩ := attrs_step_deferred st st2 con hc hs
        rw [hl] at hl'
        simp only [Option.some.injEq] at hl'
        subst hl'
        rw [hdef hsaw] at hd
        exact absurd hd (by decide)
      · obtain ⟨_, last', _, rfl⟩ := attrs_step_immediate st st2 con hc hs
        refine attrs_loop_second_initially rest _ hall' rfl ?_
        obtain ⟨a, ha, hk⟩ := hex
        rcases List.mem_cons.mp ha with rfl | ha'
        · rw [hc] at hk; simp at hk
        · exact ⟨a, ha', Or.inl hk⟩

/-- After INITIALLY DEFERRED, a NOT DEFERRABLE among the attribute nodes that follow
makes the loop of `transformConstraintAttrs` fail. -/
theorem attrs_loop_not_deferrable_after_deferred :
    ∀ (attrs : List Table.Constraint) (st : AttrState) (last : Table.Constraint),
      (∀ a ∈ attrs, is_attr a.contype = true) → st.sawInitially = true →
      st.lastprimarycon = some last → last.initdeferred = true →
      (∃ a ∈ attrs, a.contype = .CONSTR_ATTR_NOT_DEFERRABLE) →
      ∃ err, attrs_loop st attrs = .error err := by
  intro attrs
  induction attrs with
  | nil => intro st _ _ _ _ _ h; obtain ⟨a, ha, _⟩ := h; cases ha
  | cons con rest ih =>
    intro st last hall hsaw hl hi hex
    simp only [attrs_loop]
    cases hs : attrs_step st con with
    | error err => exact ⟨err, rfl⟩
    | ok st2 =>
      simp only
      have hall' : ∀ a ∈ rest, is_attr a.contype = true :=
        fun a ha => hall a (List.mem_cons_of_mem _ ha)
      rcases is_attr_cases _ (hall con (List.mem_cons_self _ _)) with hc | hc | hc | hc
      · obtain ⟨_, last', _, rfl⟩ := attrs_step_deferrable st st2 con hc hs
        refine attrs_loop_second_deferrability rest _ hall' rfl ?_
        obtain ⟨a, ha, hk⟩ := hex
        rcases List.mem_cons.mp ha with rfl | ha'
        · rw [hc] at hk; simp at hk
        · exact ⟨a, ha', Or.inr hk⟩
      · obtain ⟨_, last', hl', hno, _⟩ := attrs_step_not_deferrable st st2 con hc hs
        rw [hl] at hl'
        simp only [Option.some.injEq] at hl'
        subst hl'
        exact absurd ⟨hsaw, hi⟩ hno
      · have := (attrs_step_deferred st st2 con hc hs).1
        rw [hsaw] at this; exact absurd this (by decide)
      · have := (attrs_step_immediate st st2 con hc hs).1
        rw [hsaw] at this; exact absurd this (by decide)

/-- Attribute nodes that hold both an INITIALLY DEFERRED and a NOT DEFERRABLE make the
loop of `transformConstraintAttrs` fail. -/
theorem attrs_loop_deferred_and_not_deferrable :
    ∀ (attrs : List Table.Constraint) (st : AttrState),
      (∀ a ∈ attrs, is_attr a.contype = true) →
      (∃ a ∈ attrs, a.contype = .CONSTR_ATTR_DEFERRED) →
      (∃ a ∈ attrs, a.contype = .CONSTR_ATTR_NOT_DEFERRABLE) →
      ∃ err, attrs_loop st attrs = .error err := by
  intro attrs
  induction attrs with
  | nil => intro st _ h _; obtain ⟨a, ha, _⟩ := h; cases ha
  | cons con rest ih =>
    intro st hall hdef hnot
    simp only [attrs_loop]
    cases hs : attrs_step st con with
    | error err => exact ⟨err, rfl⟩
    | ok st2 =>
      simp only
      have hall' : ∀ a ∈ rest, is_attr a.contype = true :=
        fun a ha => hall a (List.mem_cons_of_mem _ ha)
      have hdef' : con.contype ≠ .CONSTR_ATTR_DEFERRED →
          ∃ a ∈ rest, a.contype = .CONSTR_ATTR_DEFERRED := by
        intro hne
        obtain ⟨a, ha, hk⟩ := hdef
        rcases List.mem_cons.mp ha with rfl | ha'
        · exact absurd hk hne
        · exact ⟨a, ha', hk⟩
      have hnot' : con.contype ≠ .CONSTR_ATTR_NOT_DEFERRABLE →
          ∃ a ∈ rest, a.contype = .CONSTR_ATTR_NOT_DEFERRABLE := by
        intro hne
        obtain ⟨a, ha, hk⟩ := hnot
        rcases List.mem_cons.mp ha with rfl | ha'
        · exact absurd hk hne
        · exact ⟨a, ha', hk⟩
      rcases is_attr_cases _ (hall con (List.mem_cons_self _ _)) with hc | hc | hc | hc
      · obtain ⟨_, last, _, rfl⟩ := attrs_step_deferrable st st2 con hc hs
        obtain ⟨a, ha, hk⟩ := hnot' (by rw [hc]; decide)
        exact attrs_loop_second_deferrability rest _ hall' rfl ⟨a, ha, Or.inr hk⟩
      · obtain ⟨_, last, _, _, rfl⟩ := attrs_step_not_deferrable st st2 con hc hs
        exact attrs_loop_deferred_after_not_deferrable rest _ _ hall' rfl rfl rfl
          (hdef' (by rw [hc]; decide))
      · obtain ⟨_, last, _, _, rfl⟩ := attrs_step_deferred st st2 con hc hs
        exact attrs_loop_not_deferrable_after_deferred rest _ _ hall' rfl rfl rfl
          (hnot' (by rw [hc]; decide))
      · obtain ⟨_, last, _, rfl⟩ := attrs_step_immediate st st2 con hc hs
        obtain ⟨a, ha, hk⟩ := hdef' (by rw [hc]; decide)
        exact attrs_loop_second_initially rest _ hall' rfl ⟨a, ha, Or.inl hk⟩

/-- C29: a constraint whose attribute nodes hold both an INITIALLY DEFERRED and a NOT
DEFERRABLE makes `transformConstraintAttrs` fail; when the nodes before the constraint
are accepted, the constraint is of a kind that supports attributes, and the two
clauses are its only attribute nodes, in either order, the error is "constraint
declared INITIALLY DEFERRED must be DEFERRABLE". -/
theorem transformConstraintAttrs_deferred_not_deferrable
    (pre attrs post : List Table.Constraint) (primary : Table.Constraint)
    (hattrs : ∀ a ∈ attrs, is_attr a.contype = true)
    (hdeferred : ∃ a ∈ attrs, a.contype = .CONSTR_ATTR_DEFERRED)
    (hnot : ∃ a ∈ attrs, a.contype = .CONSTR_ATTR_NOT_DEFERRABLE) :
    (∃ err, transformConstraintAttrs (pre ++ primary :: (attrs ++ post)) = .error err) ∧
      ((∃ out, transformConstraintAttrs pre = .ok out) →
        (primary.contype = .CONSTR_PRIMARY ∨ primary.contype = .CONSTR_UNIQUE ∨
          primary.contype = .CONSTR_EXCLUSION ∨ primary.contype = .CONSTR_FOREIGN) →
        attrs.length = 2 →
        transformConstraintAttrs (pre ++ primary :: (attrs ++ post))
          = .error .initiallyDeferredMustBeDeferrable) := by
  constructor
  · unfold transformConstraintAttrs
    rw [attrs_loop_append]
    cases hpre : attrs_loop attrs_init pre with
    | error err => exact ⟨err, rfl⟩
    | ok st0 =>
      simp only [attrs_loop]
      cases hs : attrs_step st0 primary with
      | error err => exact ⟨err, rfl⟩
      | ok st1 =>
        simp only
        rw [attrs_loop_append]
        obtain ⟨err, herr⟩ := attrs_loop_deferred_and_not_deferrable attrs st1 hattrs hdeferred hnot
        rw [herr]
        exact ⟨err, rfl⟩
  · rintro ⟨out, hout⟩ hkind hlen
    have hpair : ∃ a b, attrs = [a, b] := by
      cases attrs with
      | nil => simp at hlen
      | cons a t =>
        cases t with
        | nil => simp at hlen
        | cons b t2 =>
          cases t2 with
          | nil => exact ⟨a, b, rfl⟩
          | cons c t3 => simp at hlen
    obtain ⟨a, b, rfl⟩ := hpair
    have horder : (a.contype = .CONSTR_ATTR_DEFERRED ∧ b.contype = .CONSTR_ATTR_NOT_DEFERRABLE) ∨
        (a.contype = .CONSTR_ATTR_NOT_DEFERRABLE ∧ b.contype = .CONSTR_ATTR_DEFERRED) := by
      obtain ⟨x, hx, hxk⟩ := hdeferred
      obtain ⟨y, hy, hyk⟩ := hnot
      simp only [List.mem_cons, List.mem_singleton, List.not_mem_nil, or_false] at hx hy
      rcases hx with rfl | rfl <;> rcases hy with rfl | rfl
      · rw [hxk] at hyk; exact absurd hyk (by decide)
      · exact Or.inl ⟨hxk, hyk⟩
      · exact Or.inr ⟨hyk, hxk⟩
      · rw [hxk] at hyk; exact absurd hyk (by decide)
    have hprim : is_attr primary.contype = false := by
      rcases hkind with h | h | h | h <;> simp [is_attr, h]
    have hsup : (primary.contype = .CONSTR_PRIMARY || primary.contype = .CONSTR_UNIQUE ||
        primary.contype = .CONSTR_EXCLUSION || primary.contype = .CONSTR_FOREIGN) = true := by
      rcases hkind with h | h | h | h <;> simp [h]
    unfold transformConstraintAttrs at hout ⊢
    rw [attrs_loop_append]
    cases hpre : attrs_loop attrs_init pre with
    | error err => rw [hpre] at hout; simp at hout
    | ok st0 =>
      simp only [attrs_loop]
      rw [attrs_step_primary st0 primary hprim]
      simp only
      rcases horder with ⟨ha, hb⟩ | ⟨ha, hb⟩
      · simp [attrs_step, ha, hb, SUPPORTS_ATTRS, hsup]
      · simp [attrs_step, ha, hb, SUPPORTS_ATTRS, hsup]

/-- C29, on a sample: UNIQUE NOT DEFERRABLE INITIALLY DEFERRED is rejected. -/
theorem transformConstraintAttrs_deferred_not_deferrable_witness :
    transformConstraintAttrs
        ([] ++ makeConstraint .CONSTR_UNIQUE none ::
          ([makeConstraint .CONSTR_ATTR_NOT_DEFERRABLE none,
            makeConstraint .CONSTR_ATTR_DEFERRED none] ++ []))
      = .error .initiallyDeferredMustBeDeferrable :=
  (transformConstraintAttrs_deferred_not_deferrable []
    [makeConstraint .CONSTR_ATTR_NOT_DEFERRABLE none, makeConstraint .CONSTR_ATTR_DEFERRED none] []
    (makeConstraint .CONSTR_UNIQUE none) (by decide) (by decide) (by decide)).2
    ⟨[], rfl⟩ (Or.inr (Or.inl rfl)) rfl

end ConstraintAttributes

/-! ## Column definitions -/

section ColumnDefinitions

open Table

/-- The loop of `transformConstraintAttrs` over nodes none of which is an attribute
accepts them and leaves them as they are. -/
theorem attrs_loop_no_attr :
    ∀ (constraintList : List Table.Constraint) (st : AttrState),
      (∀ con ∈ constraintList, is_attr con.contype = false) →
      ∃ st1, attrs_loop st constraintList = .ok st1 ∧ st1.list = st.list ++ constraintList := by
  intro constraintList
  induction constraintList with
  | nil => intro st _; exact ⟨st, rfl, by simp⟩
  | cons con rest ih =>
    intro st hall
    simp only [attrs_loop]
    rw [attrs_step_primary st con (hall con (List.mem_cons_self _ _))]
    simp only
    obtain ⟨st1, h1, h2⟩ := ih
      { done := st.list, lastprimarycon := some con, attrs := [], sawDeferrability := false,
        sawInitially := false } (fun c hc => hall c (List.mem_cons_of_mem _ hc))
    refine ⟨st1, h1, ?_⟩
    rw [h2]
    simp [AttrState.list]

/-- A column whose type is not written as a SERIAL pseudo-type is not serial. -/
theorem check_serial_of_not_serial (cxt : Table.CreateStmtContext) (column : Table.ColumnDef)
    (h : has_serial_type column = false) :
    check_serial cxt column = .ok (false, column.typname) := by
  unfold has_serial_type at h
  unfold check_serial
  cases ht : column.typname with
  | none => rfl
  | some typname =>
    rw [ht] at h
    simp only at h ⊢
    split
    · rename_i name hn
      rw [hn] at h
      cases hp : typname.pct_type with
      | true => simp
      | false =>
        rw [hp] at h
        cases hs : serial_typeOid name with
        | none => simp
        | some oid => simp [hs] at h
    · rfl

/-- The loop over the constraints of a column, after a NULL or NOT NULL declaration,
over further NULL and NOT NULL declarations: it accepts them if they all repeat the
declaration that stands, and fails with "conflicting NULL/NOT NULL declarations"
otherwise. -/
theorem column_constraints_loop_nullable (colname relname : String) :
    ∀ (constraints : List Table.Constraint) (st : ColumnLoopState), st.sawNullable = true →
      (∀ c ∈ constraints, c.contype = .CONSTR_NULL ∨ c.contype = .CONSTR_NOTNULL) →
      ((∀ c ∈ constraints, (c.contype = .CONSTR_NOTNULL ↔ st.is_not_null = true)) →
        column_constraints_loop colname relname st constraints
          = .ok { st with constraints := st.constraints ++ constraints }) ∧
      (¬ (∀ c ∈ constraints, (c.contype = .CONSTR_NOTNULL ↔ st.is_not_null = true)) →
        column_constraints_loop colname relname st constraints
          = .error (.conflictingNullNotNull colname relname)) := by
  intro constraints
  induction constraints with
  | nil =>
    intro st _ _
    refine ⟨fun _ => ?_, fun h => absurd (fun c hc => by cases hc) h⟩
    simp [column_constraints_loop]
  | cons con rest ih =>
    intro st hsaw honly
    have honly' : ∀ c ∈ rest, c.contype = .CONSTR_NULL ∨ c.contype = .CONSTR_NOTNULL :=
      fun c hc => honly c (List.mem_cons_of_mem _ hc)
    simp only [column_constraints_loop]
    have hkeep : ∀ st' : ColumnLoopState, st'.is_not_null = st.is_not_null →
        st'.sawNullable = true →
        ((∀ c ∈ rest, (c.contype = .CONSTR_NOTNULL ↔ st.is_not_null = true)) →
          column_constraints_loop colname relname st' rest
            = .ok { st' with constraints := st'.constraints ++ rest }) ∧
        (¬ (∀ c ∈ rest, (c.contype = .CONSTR_NOTNULL ↔ st.is_not_null = true)) →
          column_constraints_loop colname relname st' rest
            = .error (.conflictingNullNotNull colname relname)) := by
      intro st' h1 h2
      obtain ⟨hsame, hother⟩ := ih st' h2 honly'
      exact ⟨fun hall => hsame (by rw [h1]; exact hall),
        fun hall => hother (by rw [h1]; exact hall)⟩
    have hagree : ∀ b : Bool, st.is_not_null = b →
        (con.contype = .CONSTR_NOTNULL ↔ b = true) →
        column_constraint_step colname relname st con
          = .ok { st with constraints := st.constraints ++ [con] } := by
      intro b hb hiff
      rcases honly con (List.mem_cons_self _ _) with hc | hc
      · have hb' : b = false := by
          cases b
          · rfl
          · have := hiff.mpr rfl; rw [hc] at this; exact absurd this (by decide)
        subst hb'
        cases st
        simp only at hb hsaw
        subst hb hsaw
        simp [column_constraint_step, hc]
      · have hb' : b = true := hiff.mp hc
        subst hb'
        cases st
        simp only at hb hsaw
        subst hb hsaw
        simp [column_constraint_step, hc]
    have hdiffer : ¬ (con.contype = .CONSTR_NOTNULL ↔ st.is_not_null = true) →
        column_constraint_step colname relname st con
          = .error (.conflictingNullNotNull colname relname) := by
      intro hne
      rcases honly con (List.mem_cons_self _ _) with hc | hc
      · have hb : st.is_not_null = true := by
          by_contra hb
          apply hne
          rw [hc]
          simp [hb]
        simp [column_constraint_step, hc, hsaw, hb]
      · have hb : st.is_not_null = false := by
          cases hb : st.is_not_null
          · rfl
          · exact absurd (by simp [hc, hb]) hne
        simp [column_constraint_step, hc, hsaw, hb]
    by_cases hhead : (con.contype = .CONSTR_NOTNULL ↔ st.is_not_null = true)
    · rw [hagree st.is_not_null rfl hhead]
      simp only
      obtain ⟨h1, h2⟩ := hkeep { st with constraints := st.constraints ++ [con] } rfl hsaw
      constructor
      · intro hall
        rw [h1 (fun c hc' => hall c (List.mem_cons_of_mem _ hc'))]
        simp
      · intro hall
        apply h2
        intro hrest
        apply hall
        intro c hc'
        rcases List.mem_cons.mp hc' with rfl | hc''
        · exact hhead
        · exact hrest c hc''
    · rw [hdiffer hhead]
      exact ⟨fun hall => absurd (hall con (List.mem_cons_self _ _)) hhead, fun _ => rfl⟩

/-- The loop over the constraints of a column that are all NULL or NOT NULL
declarations, entered before any of them has been read: it fails with "conflicting
NULL/NOT NULL declarations" if both kinds occur, and otherwise accepts the list and
leaves the column as the declarations say. -/
theorem column_constraints_loop_declarations (colname relname : String)
    (constraints : List Table.Constraint) (st : ColumnLoopState)
    (hsaw : st.sawNullable = false)
    (honly : ∀ c ∈ constraints, c.contype = .CONSTR_NULL ∨ c.contype = .CONSTR_NOTNULL) :
    (((∃ c ∈ constraints, c.contype = .CONSTR_NULL) ∧
        (∃ c ∈ constraints, c.contype = .CONSTR_NOTNULL)) →
      column_constraints_loop colname relname st constraints
        = .error (.conflictingNullNotNull colname relname)) ∧
    (¬ ((∃ c ∈ constraints, c.contype = .CONSTR_NULL) ∧
        (∃ c ∈ constraints, c.contype = .CONSTR_NOTNULL)) →
      ∃ st1, column_constraints_loop colname relname st constraints = .ok st1 ∧
        (∀ c ∈ constraints, c.contype = .CONSTR_NULL → st1.is_not_null = false) ∧
        (∀ c ∈ constraints, c.contype = .CONSTR_NOTNULL → st1.is_not_null = true) ∧
        (constraints = [] → st1.is_not_null = st.is_not_null)) := by
  cases constraints with
  | nil =>
    refine ⟨fun h => ?_, fun _ => ⟨st, rfl, ?_, ?_, fun _ => rfl⟩⟩
    · obtain ⟨⟨c, hc, _⟩, _⟩ := h; cases hc
    · intro c hc; cases hc
    · intro c hc; cases hc
  | cons con rest =>
    have honly' : ∀ c ∈ rest, c.contype = .CONSTR_NULL ∨ c.contype = .CONSTR_NOTNULL :=
      fun c hc => honly c (List.mem_cons_of_mem _ hc)
    simp only [column_constraints_loop]
    have hstep : column_constraint_step colname relname st con
        = .ok { st with
                is_not_null := decide (con.contype = .CONSTR_NOTNULL)
                sawNullable := true
                constraints := st.constraints ++ [con] } := by
      rcases honly con (List.mem_cons_self _ _) with hc | hc <;>
        simp [column_constraint_step, hc, hsaw]
    rw [hstep]
    simp only
    obtain ⟨hsame, hother⟩ := column_constraints_loop_nullable colname relname rest
      { st with
        is_not_null := decide (con.contype = .CONSTR_NOTNULL)
        sawNullable := true
        constraints := st.constraints ++ [con] } rfl honly'
    simp only [decide_eq_true_eq] at hsame hother
    have hboth : ((∃ c ∈ con :: rest, c.contype = .CONSTR_NULL) ∧
        (∃ c ∈ con :: rest, c.contype = .CONSTR_NOTNULL)) ↔
        ¬ (∀ c ∈ rest, (c.contype = .CONSTR_NOTNULL ↔ con.contype = .CONSTR_NOTNULL)) := by
      constructor
      · rintro ⟨⟨a, ha, hak⟩, ⟨b, hb, hbk⟩⟩ hall
        have hcon : ∀ c ∈ con :: rest,
            (c.contype = .CONSTR_NOTNULL ↔ con.contype = .CONSTR_NOTNULL) := by
          intro c hc
          rcases List.mem_cons.mp hc with rfl | hc'
          · exact Iff.rfl
          · exact hall c hc'
        have h1 := (hcon b hb).mp hbk
        have h2 := (hcon a ha).mpr h1
        rw [hak] at h2
        exact absurd h2 (by decide)
      · intro hne
        simp only [not_forall] at hne
        obtain ⟨c, hc, hiff⟩ := hne
        rcases honly con (List.mem_cons_self _ _) with hk | hk
        · have : c.contype = .CONSTR_NOTNULL := by
            rcases honly' c hc with h | h
            · exact absurd (by rw [h, hk]) hiff
            · exact h
          exact ⟨⟨con, List.mem_cons_self _ _, hk⟩, ⟨c, List.mem_cons_of_mem _ hc, this⟩⟩
        · have : c.contype = .CONSTR_NULL := by
            rcases honly' c hc with h | h
            · exact h
            · exact absurd (by rw [h, hk]) hiff
          exact ⟨⟨c, List.mem_cons_of_mem _ hc, this⟩, ⟨con, List.mem_cons_self _ _, hk⟩⟩
    constructor
    · intro h
      exact hother (hboth.mp h)
    · intro h
      have hall : ∀ c ∈ rest, (c.contype = .CONSTR_NOTNULL ↔ con.contype = .CONSTR_NOTNULL) := by
        by_contra hne
        exact h (hboth.mpr hne)
      refine ⟨_, hsame hall, ?_, ?_, fun hnil => by cases hnil⟩
      · intro c hc hk
        simp only [decide_eq_false_iff_not]
        intro hcon
        have hcon' : ∀ c ∈ con :: rest,
            (c.contype = .CONSTR_NOTNULL ↔ con.contype = .CONSTR_NOTNULL) := by
          intro c hc
          rcases List.mem_cons.mp hc with rfl | hc'
          · exact Iff.rfl
          · exact hall c hc'
        have := (hcon' c hc).mpr hcon
        rw [hk] at this
        exact absurd this (by decide)
      · intro c hc hk
        simp only [decide_eq_true_eq]
        rcases List.mem_cons.mp hc with rfl | hc'
        · exact hk
        · exact (hall c hc').mp hk

/-- `transformConstraintAttrs` on a list without attribute nodes hands the list back. -/
theorem transformConstraintAttrs_no_attr (constraintList : List Table.Constraint)
    (h : ∀ con ∈ constraintList, is_attr con.contype = false) :
    transformConstraintAttrs constraintList = .ok constraintList := by
  unfold transformConstraintAttrs
  obtain ⟨st1, h1, h2⟩ := attrs_loop_no_attr constraintList attrs_init h
  rw [h1]
  simp only [h2]
  rfl

/-- What `transformColumnDefinition` makes of a column that is not serial, passes
`checkConstraint` and has a valid type, and whose constraints are not attribute nodes:
what the loop over its constraints makes of it. -/
theorem transformColumnDefinition_plain (env : TableEnv) (cxt : Table.CreateStmtContext)
    (column : Table.ColumnDef) (preCheck : Bool)
    (hserial : has_serial_type column = false)
    (hcheck : checkConstraint cxt.canInfomationalConstraint column.constraints = .ok ())
    (htype : column.typname ≠ none → transformColumnType env column = .ok ())
    (hattr : ∀ con ∈ column.constraints, is_attr con.contype = false) :
    transformColumnDefinition env cxt column preCheck =
      match column_constraints_loop column.colname cxt.relation.relname
          { sawNullable := false, sawDefault := false, is_not_null := column.is_not_null,
            raw_default := column.raw_default, constraints := [],
            ckconstraints := cxt.ckconstraints, ixconstraints := cxt.ixconstraints,
            fkconstraints := cxt.fkconstraints } column.constraints with
      | .error err => .error err
      | .ok st =>
        .ok ({ cxt with
               columns := cxt.columns ++
                 [{ column with
                    is_serial := false
                    is_not_null := st.is_not_null
                    raw_default := st.raw_default
                    constraints := st.constraints }]
               ckconstraints := st.ckconstraints
               ixconstraints := st.ixconstraints
               fkconstraints := st.fkconstraints
               alist := if column.fdwoptions ≠ [] then
                   cxt.alist ++ [.alterTable
                     { relation := cxt.relation
                       cmds := [{ subtype := .AT_AlterColumnGenericOptions
                                  name := some column.colname
                                  def_ := .options column.fdwoptions }]
                       relkind := .OBJECT_FOREIGN_TABLE }]
                 else cxt.alist },
             { column with
               is_serial := false
               is_not_null := st.is_not_null
               raw_default := st.raw_default
               constraints := st.constraints }) := by
  unfold transformColumnDefinition
  rw [hcheck]
  simp only
  rw [check_serial_of_not_serial cxt column hserial]
  simp only
  have htype' : (if column.typname ≠ none then transformColumnType env column else .ok ())
      = .ok () := by
    by_cases h : column.typname ≠ none
    · rw [if_pos h]; exact htype h
    · rw [if_neg h]
  rw [htype']
  simp only [Bool.false_eq_true, ↓reduceIte, transformColumnDefinition_constraints]
  rw [transformConstraintAttrs_no_attr column.constraints hattr]

/-- C26, amended: for a column that is not of a SERIAL pseudo-type, passes
`checkConstraint` and has a valid type, and whose constraints are NULL and NOT NULL
declarations only, `transformColumnDefinition` fails with "conflicting NULL/NOT NULL
declarations" if and only if the list holds both a NULL and a NOT NULL declaration;
a list that repeats NULL is accepted and leaves the column nullable, a list that
repeats NOT NULL is accepted and leaves it NOT NULL. -/
theorem transformColumnDefinition_null_declarations (env : TableEnv)
    (cxt : Table.CreateStmtContext) (column : Table.ColumnDef) (preCheck : Bool)
    (honly : ∀ c ∈ column.constraints, c.contype = .CONSTR_NULL ∨ c.contype = .CONSTR_NOTNULL)
    (hserial : has_serial_type column = false)
    (hcheck : checkConstraint cxt.canInfomationalConstraint column.constraints = .ok ())
    (htype : column.typname ≠ none → transformColumnType env column = .ok ()) :
    (transformColumnDefinition env cxt column preCheck
        = .error (.conflictingNullNotNull column.colname cxt.relation.relname) ↔
      (∃ c ∈ column.constraints, c.contype = .CONSTR_NULL) ∧
        (∃ c ∈ column.constraints, c.contype = .CONSTR_NOTNULL)) ∧
    ((∀ c ∈ column.constraints, c.contype = .CONSTR_NULL) → column.constraints ≠ [] →
      ∃ cxt1 column1, transformColumnDefinition env cxt column preCheck = .ok (cxt1, column1) ∧
        column1.is_not_null = false) ∧
    ((∀ c ∈ column.constraints, c.contype = .CONSTR_NOTNULL) → column.constraints ≠ [] →
      ∃ cxt1 column1, transformColumnDefinition env cxt column preCheck = .ok (cxt1, column1) ∧
        column1.is_not_null = true) := by
  have hattr : ∀ con ∈ column.constraints, is_attr con.contype = false := by
    intro con hc
    rcases honly con hc with h | h <;> simp [is_attr, h]
  rw [transformColumnDefinition_plain env cxt column preCheck hserial hcheck htype hattr]
  obtain ⟨hboth, hone⟩ := column_constraints_loop_declarations column.colname
    cxt.relation.relname column.constraints
    { sawNullable := false, sawDefault := false, is_not_null := column.is_not_null,
      raw_default := column.raw_default, constraints := [],
      ckconstraints := cxt.ckconstraints, ixconstraints := cxt.ixconstraints,
      fkconstraints := cxt.fkconstraints } rfl honly
  refine ⟨⟨fun h => ?_, fun h => ?_⟩, ?_, ?_⟩
  · by_contra hne
    obtain ⟨st1, h1, _⟩ := hone hne
    rw [h1] at h
    simp at h
  · rw [hboth h]
  · intro hall hne
    have hnot : ¬ ((∃ c ∈ column.constraints, c.contype = .CONSTR_NULL) ∧
        (∃ c ∈ column.constraints, c.contype = .CONSTR_NOTNULL)) := by
      rintro ⟨_, c, hc, hk⟩
      rw [hall c hc] at hk
      exact absurd hk (by decide)
    obtain ⟨st1, h1, hnull, _, _⟩ := hone hnot
    rw [h1]
    refine ⟨_, _, rfl, ?_⟩
    obtain ⟨c, hc⟩ := List.exists_mem_of_ne_nil _ hne
    exact hnull c hc (hall c hc)
  · intro hall hne
    have hnot : ¬ ((∃ c ∈ column.constraints, c.contype = .CONSTR_NULL) ∧
        (∃ c ∈ column.constraints, c.contype = .CONSTR_NOTNULL)) := by
      rintro ⟨⟨c, hc, hk⟩, _⟩
      rw [hall c hc] at hk
      exact absurd hk (by decide)
    obtain ⟨st1, h1, _, hnotnull, _⟩ := hone hnot
    rw [h1]
    refine ⟨_, _, rfl, ?_⟩
    obtain ⟨c, hc⟩ := List.exists_mem_of_ne_nil _ hne
    exact hnotnull c hc (hall c hc)

/-- C26, on a sample: the column `c int NOT NULL NULL` of CREATE TABLE `t` is rejected
with "conflicting NULL/NOT NULL declarations". -/
theorem transformColumnDefinition_null_declarations_witness :
    transformColumnDefinition sampleTableEnv (sampleTableContext CREATE_TABLE none)
        (sampleColumn "c" "int4"
          [makeConstraint .CONSTR_NOTNULL none, makeConstraint .CONSTR_NULL none]) false
      = .error (.conflictingNullNotNull "c" "t") :=
  (transformColumnDefinition_null_declarations sampleTableEnv
    (sampleTableContext CREATE_TABLE none)
    (sampleColumn "c" "int4"
      [makeConstraint .CONSTR_NOTNULL none, makeConstraint .CONSTR_NULL none]) false
    (by decide) (by decide) (by decide) (fun _ => by decide)).1.mpr (by decide)

/-- C26 as stated fails for a serial column: the column `id serial NULL` of CREATE
TABLE `t` has the one declaration NULL, and `transformColumnDefinition` rejects it with
"conflicting NULL/NOT NULL declarations", because the NOT NULL constraint of the serial
type joins the list. -/
theorem transformColumnDefinition_serial_null_conflict :
    transformColumnDefinition sampleTableEnv (sampleTableContext CREATE_TABLE none)
        (sampleColumn "id" "serial" [makeConstraint .CONSTR_NULL none]) false
      = .error (.conflictingNullNotNull "id" "t") := by
  decide

/-- Every error of `checkConstraint` is of the class "feature not supported". -/
theorem checkConstraint_errcode (canInfomationalConstraint : Bool) :
    ∀ (constraints : List Table.Constraint) (err : TableError),
      checkConstraint canInfomationalConstraint constraints = .error err →
      err.errcode = .ERRCODE_FEATURE_NOT_SUPPORTED := by
  intro constraints
  induction constraints with
  | nil => intro err h; simp [checkConstraint] at h
  | cons element rest ih =>
    intro err h
    simp only [checkConstraint] at h
    cases hc : checkInformationalConstraint element canInfomationalConstraint with
    | ok u => rw [hc] at h; exact ih err h
    | error e =>
      rw [hc] at h
      simp only [Except.error.injEq] at h
      subst h
      unfold checkInformationalConstraint at hc
      repeat' split at hc
      all_goals first
        | (simp at hc; done)
        | (simp only [Except.error.injEq] at hc; subst hc; rfl)

/-- The integer types of the six names of the SERIAL pseudo-types. -/
theorem serial_typeOid_eq (name : String) (typeOid : TypeOid)
    (h : ((name = "smallserial" ∨ name = "serial2") ∧ typeOid = .INT2OID) ∨
      ((name = "serial" ∨ name = "serial4") ∧ typeOid = .INT4OID) ∨
      ((name = "bigserial" ∨ name = "serial8") ∧ typeOid = .INT8OID)) :
    serial_typeOid name = some typeOid := by
  rcases h with ⟨rfl | rfl, rfl⟩ | ⟨rfl | rfl, rfl⟩ | ⟨rfl | rfl, rfl⟩ <;> decide

/-- The six names of the SERIAL pseudo-types stand for an integer type. -/
theorem serial_typeOid_of_name (name : String)
    (h : name = "smallserial" ∨ name = "serial2" ∨ name = "serial" ∨ name = "serial4" ∨
      name = "bigserial" ∨ name = "serial8") :
    ∃ typeOid, serial_typeOid name = some typeOid := by
  rcases h with h | h | h | h | h | h
  · exact ⟨_, serial_typeOid_eq name .INT2OID (Or.inl ⟨Or.inl h, rfl⟩)⟩
  · exact ⟨_, serial_typeOid_eq name .INT2OID (Or.inl ⟨Or.inr h, rfl⟩)⟩
  · exact ⟨_, serial_typeOid_eq name .INT4OID (Or.inr (Or.inl ⟨Or.inl h, rfl⟩))⟩
  · exact ⟨_, serial_typeOid_eq name .INT4OID (Or.inr (Or.inl ⟨Or.inr h, rfl⟩))⟩
  · exact ⟨_, serial_typeOid_eq name .INT8OID (Or.inr (Or.inr ⟨Or.inl h, rfl⟩))⟩
  · exact ⟨_, serial_typeOid_eq name .INT8OID (Or.inr (Or.inr ⟨Or.inr h, rfl⟩))⟩

/-- C25, amended: `transformColumnDefinition` fails with an error of the class "feature
not supported" for a column of a SERIAL pseudo-type when the type is an array, when
the table is temporary, and when the statement type is ALTER TABLE; if the constraints
of the column pass `checkConstraint`, the error is, in this order of precedence, "array
of serial is not implemented", "It's not supported to create serial column on
temporary table" or "It's not supported to alter table add serial column". -/
theorem transformColumnDefinition_serial_not_supported (env : TableEnv)
    (cxt : Table.CreateStmtContext) (column : Table.ColumnDef) (preCheck : Bool)
    (typname : TypeName) (name : String)
    (htyp : column.typname = some typname) (hnames : typname.names = [name])
    (hpct : typname.pct_type = false)
    (hserial : name = "smallserial" ∨ name = "serial2" ∨ name = "serial" ∨ name = "serial4" ∨
      name = "bigserial" ∨ name = "serial8")
    (hcontext : typname.arrayBounds ≠ [] ∨
      cxt.relation.relpersistence = .RELPERSISTENCE_TEMP ∨ cxt.stmtType = ALTER_TABLE) :
    ∃ err, transformColumnDefinition env cxt column preCheck = .error err ∧
      err.errcode = .ERRCODE_FEATURE_NOT_SUPPORTED ∧
      (checkConstraint cxt.canInfomationalConstraint column.constraints = .ok () →
        err = if typname.arrayBounds ≠ [] then .arrayOfSerial
          else if cxt.relation.relpersistence = .RELPERSISTENCE_TEMP then
            .serialOnTemporaryTable
          else .alterTableAddSerial) := by
  obtain ⟨typeOid, hoid⟩ := serial_typeOid_of_name name hserial
  unfold transformColumnDefinition
  cases hcheck : checkConstraint cxt.canInfomationalConstraint column.constraints with
  | error err =>
    exact ⟨err, rfl, checkConstraint_errcode _ _ _ hcheck, fun h => by simp at h⟩
  | ok u =>
    simp only
    have hcs : check_serial cxt column =
        .error (if typname.arrayBounds ≠ [] then .arrayOfSerial
          else if cxt.relation.relpersistence = .RELPERSISTENCE_TEMP then
            .serialOnTemporaryTable
          else .alterTableAddSerial) := by
      unfold check_serial
      rw [htyp]
      simp only [hnames, hpct, ↓reduceIte, hoid]
      by_cases harr : typname.arrayBounds = []
      · simp only [harr, ne_eq, not_true_eq_false, ↓reduceIte]
        by_cases htemp : cxt.relation.relpersistence = .RELPERSISTENCE_TEMP
        · simp only [htemp, ↓reduceIte]
        · simp only [htemp, ↓reduceIte]
          rcases hcontext with h | h | h
          · exact absurd harr h
          · exact absurd h htemp
          · rw [h]
            have : pg_strncasecmp ALTER_TABLE.data ALTER_TABLE.data ALTER_TABLE.length = 0 := by
              decide
            simp only [this, ↓reduceIte]
      · simp only [ne_eq, harr, not_false_eq_true, ↓reduceIte]
    rw [hcs]
    refine ⟨_, rfl, ?_, fun _ => rfl⟩
    split
    · rfl
    · split <;> rfl

/-- C25, on a sample: ALTER TABLE `t` ADD COLUMN `id serial` is rejected. -/
theorem transformColumnDefinition_serial_not_supported_witness :
    ∃ err, transformColumnDefinition sampleTableEnv
        (sampleTableContext (transformAlterTableStmt_stmtType .OBJECT_TABLE)
          (some { rd_namespace := 2200, relowner := 10 }))
        (sampleColumn "id" "serial" []) false = .error err ∧
      err.errcode = .ERRCODE_FEATURE_NOT_SUPPORTED ∧
      (checkConstraint false [] = .ok () → err = .alterTableAddSerial) :=
  transformColumnDefinition_serial_not_supported sampleTableEnv
    (sampleTableContext (transformAlterTableStmt_stmtType .OBJECT_TABLE)
      (some { rd_namespace := 2200, relowner := 10 }))
    (sampleColumn "id" "serial" []) false
    { names := ["serial"], typeOid := .InvalidOid, pct_type := false, arrayBounds := [] }
    "serial" rfl rfl rfl (by decide) (Or.inr (Or.inr rfl))

/-- C25 as stated fails for ALTER FOREIGN TABLE: `transformAlterTableStmt` writes the
statement type "ALTER FOREIGN TABLE", which the test against "ALTER TABLE" does not
match, so ALTER FOREIGN TABLE `t` ADD COLUMN `id serial` passes
`transformColumnDefinition`, and the column comes out as a serial column. -/
theorem transformColumnDefinition_accepts_serial_in_alter_foreign_table :
    ∃ cxt1 column1, transformColumnDefinition sampleTableEnv
        (sampleTableContext (transformAlterTableStmt_stmtType .OBJECT_FOREIGN_TABLE)
          (some { rd_namespace := 2200, relowner := 10 }))
        (sampleColumn "id" "serial" []) false = .ok (cxt1, column1) ∧
      column1.is_serial = true ∧ cxt1.blist.length = 1 :=
  ⟨_, _, rfl, rfl, rfl⟩

/-- The loop of `transformConstraintAttrs` changes the kind of no node. -/
theorem attrs_loop_contypes :
    ∀ (constraintList : List Table.Constraint) (st st1 : AttrState),
      attrs_loop st constraintList = .ok st1 →
      st1.list.map (fun con => con.contype)
        = st.list.map (fun con => con.contype) ++ constraintList.map (fun con => con.contype) := by
  intro constraintList
  induction constraintList with
  | nil =>
    intro st st1 h
    simp only [attrs_loop, Except.ok.injEq] at h
    subst h
    simp
  | cons con rest ih =>
    intro st st1 h
    simp only [attrs_loop] at h
    cases hs : attrs_step st con with
    | error err => rw [hs] at h; simp at h
    | ok st2 =>
      rw [hs] at h
      rw [ih st2 st1 h]
      cases hattr : is_attr con.contype with
      | true =>
        obtain ⟨hd, ha, l0, l1, h0, h1, hk⟩ := attrs_step_attr st st2 con hattr hs
        simp [AttrState.list, hd, ha, h0, h1, hk]
      | false =>
        rw [attrs_step_primary st con hattr] at hs
        simp only [Except.ok.injEq] at hs
        subst hs
        simp [AttrState.list]

/-- `transformConstraintAttrs` changes the kind of no node. -/
theorem transformConstraintAttrs_contypes (constraintList out : List Table.Constraint)
    (h : transformConstraintAttrs constraintList = .ok out) :
    out.map (fun con => con.contype) = constraintList.map (fun con => con.contype) := by
  unfold transformConstraintAttrs at h
  cases hst : attrs_loop attrs_init constraintList with
  | error err => rw [hst] at h; simp at h
  | ok st =>
    rw [hst] at h
    simp only [Except.ok.injEq] at h
    subst h
    rw [attrs_loop_contypes constraintList attrs_init st hst]
    simp [attrs_init, AttrState.list]

/-- `transformConstraintAttrs` on a list that ends in nodes none of which is an
attribute: these nodes come out as they are, after the result for the nodes before. -/
theorem transformConstraintAttrs_append_no_attr (constraintList tail : List Table.Constraint)
    (htail : ∀ con ∈ tail, is_attr con.contype = false) :
    transformConstraintAttrs (constraintList ++ tail) =
      match transformConstraintAttrs constraintList with
      | .error err => .error err
      | .ok out => .ok (out ++ tail) := by
  unfold transformConstraintAttrs
  rw [attrs_loop_append]
  cases hst : attrs_loop attrs_init constraintList with
  | error err => rfl
  | ok st =>
    simp only
    obtain ⟨st1, h1, h2⟩ := attrs_loop_no_attr tail st htail
    rw [h1]
    simp only [h2]

/-- The loop over the constraints of a column over a list in two parts: the second
part starts in the state that the first part leaves. -/
theorem column_constraints_loop_append (colname relname : String) :
    ∀ (pre rest : List Table.Constraint) (st : ColumnLoopState),
      column_constraints_loop colname relname st (pre ++ rest) =
        match column_constraints_loop colname relname st pre with
        | .error err => .error err
        | .ok st1 => column_constraints_loop colname relname st1 rest := by
  intro pre
  induction pre with
  | nil => intro rest st; simp [column_constraints_loop]
  | cons con pre ih =>
    intro rest st
    simp only [List.cons_append, column_constraints_loop]
    cases hs : column_constraint_step colname relname st con with
    | error err => rfl
    | ok st1 => exact ih rest st1

/-- One round of the loop over the constraints of a column appends the node to the
nodes read so far, its kind unchanged. -/
theorem column_constraint_step_node (colname relname : String) (st st1 : ColumnLoopState)
    (con : Table.Constraint) (h : column_constraint_step colname relname st con = .ok st1) :
    ∃ con1, st1.constraints = st.constraints ++ [con1] ∧ con1.contype = con.contype := by
  unfold column_constraint_step at h
  split at h
  all_goals first
    | (simp at h; done)
    | (split at h
       · simp at h
       · simp only [Except.ok.injEq] at h; subst h; exact ⟨con, rfl, rfl⟩)
    | (simp only [Except.ok.injEq] at h
       subst h
       first
         | exact ⟨con, rfl, rfl⟩
         | (refine ⟨_, rfl, ?_⟩
            first
              | rfl
              | (split <;> rfl)))

/-- The loop over the constraints of a column appends the nodes that it reads to the
nodes read so far, their kinds unchanged. -/
theorem column_constraints_loop_nodes (colname relname : String) :
    ∀ (constraints : List Table.Constraint) (st st1 : ColumnLoopState),
      column_constraints_loop colname relname st constraints = .ok st1 →
      ∃ nodes, st1.constraints = st.constraints ++ nodes ∧
        nodes.map (fun con => con.contype) = constraints.map (fun con => con.contype) := by
  intro constraints
  induction constraints with
  | nil =>
    intro st st1 h
    simp only [column_constraints_loop, Except.ok.injEq] at h
    subst h
    exact ⟨[], by simp, rfl⟩
  | cons con rest ih =>
    intro st st1 h
    simp only [column_constraints_loop] at h
    cases hs : column_constraint_step colname relname st con with
    | error err => rw [hs] at h; simp at h
    | ok st2 =>
      rw [hs] at h
      obtain ⟨con1, h1, hk⟩ := column_constraint_step_node colname relname st st2 con hs
      obtain ⟨nodes, h2, hks⟩ := ih st2 st1 h
      refine ⟨con1 :: nodes, ?_, ?_⟩
      · rw [h2, h1]; simp
      · simp [hk, hks]

/-- The steps of a successful `transformColumnDefinition`, one after the other. -/
theorem transformColumnDefinition_ok_iff (env : TableEnv) (cxt : Table.CreateStmtContext)
    (column : Table.ColumnDef) (preCheck : Bool) (r : Table.CreateStmtContext × Table.ColumnDef) :
    transformColumnDefinition env cxt column preCheck = .ok r ↔
      checkConstraint cxt.canInfomationalConstraint column.constraints = .ok () ∧
      ∃ isSerial typname cxt1 column3,
        check_serial cxt column = .ok (isSerial, typname) ∧
        (typname ≠ none → transformColumnType env { column with typname := typname } = .ok ()) ∧
        (if isSerial = true then
            createSeqOwnedByTable env cxt { column with typname := typname, is_serial := isSerial }
              preCheck
          else .ok (cxt, { column with typname := typname, is_serial := isSerial }))
          = .ok (cxt1, column3) ∧
        transformColumnDefinition_constraints cxt1 column3 = .ok r := by
  unfold transformColumnDefinition
  cases hcheck : checkConstraint cxt.canInfomationalConstraint column.constraints with
  | error err => simp
  | ok u =>
    simp only [true_and]
    cases hcs : check_serial cxt column with
    | error err => simp
    | ok p =>
      obtain ⟨isSerial, typname⟩ := p
      simp only [Except.ok.injEq, Prod.mk.injEq]
      by_cases htn : typname = none
      · subst htn
        simp only [ne_eq, not_true_eq_false, ↓reduceIte]
        cases hseq : (if isSerial = true then
            createSeqOwnedByTable env cxt { column with typname := none, is_serial := isSerial }
              preCheck
          else .ok (cxt, { column with typname := none, is_serial := isSerial })) with
        | error err =>
          constructor
          · intro h; simp at h
          · rintro ⟨_, _, _, _, ⟨rfl, rfl⟩, _, h, _⟩
            rw [hseq] at h
            simp at h
        | ok q =>
          obtain ⟨cxt1, column3⟩ := q
          constructor
          · intro h
            exact ⟨isSerial, none, cxt1, column3, ⟨rfl, rfl⟩, fun h' => absurd rfl h', hseq, h⟩
          · rintro ⟨_, _, _, _, ⟨rfl, rfl⟩, _, h, h2⟩
            rw [hseq] at h
            simp only [Except.ok.injEq, Prod.mk.injEq] at h
            obtain ⟨rfl, rfl⟩ := h
            exact h2
      · simp only [ne_eq, htn, not_false_eq_true, ↓reduceIte]
        cases htype : transformColumnType env { column with typname := typname } with
        | error err =>
          constructor
          · intro h; simp at h
          · rintro ⟨_, _, _, _, ⟨rfl, rfl⟩, h, _, _⟩
            have := h htn
            rw [htype] at this
            simp at this
        | ok u =>
          simp only
          cases hseq : (if isSerial = true then
              createSeqOwnedByTable env cxt { column with typname := typname, is_serial := isSerial }
                preCheck
            else .ok (cxt, { column with typname := typname, is_serial := isSerial })) with
          | error err =>
            constructor
            · intro h; simp at h
            · rintro ⟨_, _, _, _, ⟨rfl, rfl⟩, _, h, _⟩
              rw [hseq] at h
              simp at h
          | ok q =>
            obtain ⟨cxt1, column3⟩ := q
            constructor
            · intro h
              exact ⟨isSerial, typname, cxt1, column3, ⟨rfl, rfl⟩, fun _ => htype, hseq, h⟩
            · rintro ⟨_, _, _, _, ⟨rfl, rfl⟩, _, h, h2⟩
              rw [hseq] at h
              simp only [Except.ok.injEq, Prod.mk.injEq] at h
              obtain ⟨rfl, rfl⟩ := h
              exact h2

/-- The step "Check for SERIAL pseudo-types" on a column whose type is written as a
SERIAL pseudo-type. -/
theorem check_serial_serial (cxt : Table.CreateStmtContext) (column : Table.ColumnDef)
    (typname : TypeName) (name : String) (typeOid : TypeOid)
    (htyp : column.typname = some typname) (hnames : typname.names = [name])
    (hpct : typname.pct_type = false) (hoid : serial_typeOid name = some typeOid) :
    check_serial cxt column =
      if typname.arrayBounds ≠ [] then .error .arrayOfSerial
      else if cxt.relation.relpersistence = .RELPERSISTENCE_TEMP then
        .error .serialOnTemporaryTable
      else if pg_strncasecmp cxt.stmtType.data ALTER_TABLE.data cxt.stmtType.length = 0 then
        .error .alterTableAddSerial
      else .ok (true, some { typname with names := [], typeOid := typeOid }) := by
  unfold check_serial
  rw [htyp]
  simp only [hnames, hpct, ↓reduceIte, hoid]

/-- What a successful `createSeqOwnedByTable` leaves: one CREATE SEQUENCE statement more
on `cxt->blist`, one ALTER SEQUENCE statement more on `cxt->alist`, and the DEFAULT
constraint with the call of `nextval` on that sequence and the NOT NULL constraint at
the end of the constraints of the column. -/
theorem createSeqOwnedByTable_ok (env : TableEnv) (cxt cxt1 : Table.CreateStmtContext)
    (column column1 : Table.ColumnDef) (preCheck : Bool)
    (h : createSeqOwnedByTable env cxt column preCheck = .ok (cxt1, column1)) :
    ∃ seqstmt altseqstmt relation,
      cxt1 = { cxt with
               relation := relation
               blist := cxt.blist ++ [.createSeq seqstmt]
               alist := cxt.alist ++ [.alterSeq altseqstmt] } ∧
      altseqstmt.sequence = seqstmt.sequence ∧
      column1 = { column with
                  constraints := column.constraints ++
                    [makeConstraint .CONSTR_DEFAULT (some (.nextval
                        (env.quote_qualified_identifier seqstmt.sequence.1 seqstmt.sequence.2))),
                     makeConstraint .CONSTR_NOTNULL none]
                  raw_default := some (.nextval
                    (env.quote_qualified_identifier seqstmt.sequence.1 seqstmt.sequence.2)) } := by
  unfold createSeqOwnedByTable at h
  split at h
  · simp at h
  · simp only [Except.ok.injEq, Prod.mk.injEq] at h
    obtain ⟨rfl, rfl⟩ := h
    exact ⟨_, _, _, rfl, rfl, rfl⟩

/-- `createSeqOwnedByTable` succeeds when the lookup of the namespace does. -/
theorem createSeqOwnedByTable_total (env : TableEnv) (cxt : Table.CreateStmtContext)
    (column : Table.ColumnDef) (preCheck : Bool)
    (hns : cxt.rel = none → ∃ snamespaceid relation,
      env.RangeVarGetCreationNamespace cxt.relation = .ok snamespaceid ∧
        env.RangeVarAdjustRelationPersistence cxt.relation snamespaceid = .ok relation) :
    ∃ r, createSeqOwnedByTable env cxt column preCheck = .ok r := by
  unfold createSeqOwnedByTable
  cases hrel : cxt.rel with
  | some rel => exact ⟨_, rfl⟩
  | none =>
    obtain ⟨snamespaceid, relation, h1, h2⟩ := hns hrel
    simp only [h1, h2]
    exact ⟨_, rfl⟩

/-- The loop over the constraints of a column on the two constraints of a serial
column, DEFAULT and NOT NULL: it accepts them if no DEFAULT has been read and no NULL
declaration stands, and leaves the column NOT NULL with the default of the
constraint. -/
theorem column_constraints_loop_serial_tail (colname relname : String)
    (st st2 : ColumnLoopState) (raw_expr : Option RawExpr) :
    column_constraints_loop colname relname st
        [makeConstraint .CONSTR_DEFAULT raw_expr, makeConstraint .CONSTR_NOTNULL none] = .ok st2 ↔
      st.sawDefault = false ∧ ¬ (st.sawNullable = true ∧ st.is_not_null = false) ∧
        st2 = { st with
                raw_default := raw_expr
                sawDefault := true
                is_not_null := true
                sawNullable := true
                constraints := st.constraints ++
                  [makeConstraint .CONSTR_DEFAULT raw_expr, makeConstraint .CONSTR_NOTNULL none] } := by
  simp only [column_constraints_loop, column_constraint_step, makeConstraint]
  cases hd : st.sawDefault with
  | true => simp
  | false =>
    simp only [Bool.false_eq_true, ↓reduceIte, true_and]
    by_cases hn : st.sawNullable = true ∧ st.is_not_null = false
    · simp [hn]
    · simp only [hn, ↓reduceIte, Except.ok.injEq, not_false_eq_true, true_and]
      constructor
      · intro h; rw [← h]; simp
      · intro h; rw [h]; simp

/-- The loop over constraints of a column among which there is no DEFAULT, NULL,
EXCLUSION or CLUSTER node, entered while no NULL declaration stands: it accepts them,
reads no DEFAULT and leaves no NULL declaration standing. -/
theorem column_constraints_loop_total (colname relname : String) :
    ∀ (constraints : List Table.Constraint) (st : ColumnLoopState),
      (∀ c ∈ constraints, c.contype ≠ .CONSTR_DEFAULT ∧ c.contype ≠ .CONSTR_NULL ∧
        c.contype ≠ .CONSTR_EXCLUSION ∧ c.contype ≠ .CONSTR_CLUSTER) →
      ¬ (st.sawNullable = true ∧ st.is_not_null = false) →
      ∃ st1, column_constraints_loop colname relname st constraints = .ok st1 ∧
        st1.sawDefault = st.sawDefault ∧
        ¬ (st1.sawNullable = true ∧ st1.is_not_null = false) := by
  intro constraints
  induction constraints with
  | nil => intro st _ hn; exact ⟨st, rfl, rfl, hn⟩
  | cons con rest ih =>
    intro st hall hn
    obtain ⟨h1, h2, h3, h4⟩ := hall con (List.mem_cons_self _ _)
    have hall' := fun c hc => hall c (List.mem_cons_of_mem _ hc)
    simp only [column_constraints_loop]
    have hstep : ∃ st1, column_constraint_step colname relname st con = .ok st1 ∧
        st1.sawDefault = st.sawDefault ∧
        ¬ (st1.sawNullable = true ∧ st1.is_not_null = false) := by
      unfold column_constraint_step
      cases hc : con.contype with
      | CONSTR_NULL => exact absurd hc h2
      | CONSTR_NOTNULL =>
        simp only [hn, ↓reduceIte]
        refine ⟨_, rfl, rfl, ?_⟩
        simp
      | CONSTR_DEFAULT => exact absurd hc h1
      | CONSTR_EXCLUSION => exact absurd hc h3
      | CONSTR_CLUSTER => exact absurd hc h4
      | _ => exact ⟨_, rfl, rfl, hn⟩
    obtain ⟨st1, hs, hd, hn1⟩ := hstep
    rw [hs]
    obtain ⟨st2, hl, hd2, hn2⟩ := ih st1 hall' hn1
    exact ⟨st2, hl, by rw [hd2, hd], hn2⟩

/-- A property of the kinds of the nodes passes between lists with the same kinds. -/
theorem forall_contype_of_map_eq (P : Table.ConstrType → Prop) (l1 l2 : List Table.Constraint)
    (hmap : l1.map (fun con => con.contype) = l2.map (fun con => con.contype))
    (h : ∀ c ∈ l2, P c.contype) : ∀ c ∈ l1, P c.contype := by
  intro c hc
  have : c.contype ∈ l1.map (fun con => con.contype) := List.mem_map_of_mem _ hc
  rw [hmap] at this
  obtain ⟨c2, hc2, hk⟩ := List.mem_map.mp this
  rw [← hk]
  exact h c2 hc2

/-- The two constraints of a serial column are no attribute nodes. -/
theorem serial_constraints_no_attr (raw_expr : Option RawExpr) :
    ∀ con ∈ [makeConstraint .CONSTR_DEFAULT raw_expr, makeConstraint .CONSTR_NOTNULL none],
      is_attr con.contype = false := by
  intro con hc
  simp only [List.mem_cons, List.mem_singleton, List.not_mem_nil, or_false] at hc
  rcases hc with rfl | rfl <;> rfl

/-- The constraint steps of `transformColumnDefinition` on a serial column, if they
succeed: the constraints of the column keep their kinds and end in the DEFAULT and the
NOT NULL constraint of the serial type, and the column is NOT NULL with the default
of the DEFAULT constraint. -/
theorem transformColumnDefinition_constraints_serial (cxtS cxt1 : Table.CreateStmtContext)
    (colS column1 : Table.ColumnDef) (user : List Table.Constraint) (raw_expr : Option RawExpr)
    (hcons : colS.constraints = user ++
      [makeConstraint .CONSTR_DEFAULT raw_expr, makeConstraint .CONSTR_NOTNULL none])
    (h : transformColumnDefinition_constraints cxtS colS = .ok (cxt1, column1)) :
    ∃ nodes, column1.constraints = nodes ++
          [makeConstraint .CONSTR_DEFAULT raw_expr, makeConstraint .CONSTR_NOTNULL none] ∧
      nodes.map (fun con => con.contype) = user.map (fun con => con.contype) ∧
      column1.is_not_null = true ∧ column1.raw_default = raw_expr ∧
      cxt1.blist = cxtS.blist ∧ column1.typname = colS.typname ∧
      column1.is_serial = colS.is_serial := by
  unfold transformColumnDefinition_constraints at h
  rw [hcons, transformConstraintAttrs_append_no_attr user _ (serial_constraints_no_attr raw_expr)] at h
  cases hu : transformConstraintAttrs user with
  | error err => rw [hu] at h; simp at h
  | ok out =>
    rw [hu] at h
    simp only at h
    rw [column_constraints_loop_append] at h
    cases hl : column_constraints_loop colS.colname cxtS.relation.relname
        { sawNullable := false, sawDefault := false, is_not_null := colS.is_not_null,
          raw_default := colS.raw_default, constraints := [],
          ckconstraints := cxtS.ckconstraints, ixconstraints := cxtS.ixconstraints,
          fkconstraints := cxtS.fkconstraints } out with
    | error err => rw [hl] at h; simp at h
    | ok st1 =>
      rw [hl] at h
      simp only at h
      cases hl2 : column_constraints_loop colS.colname cxtS.relation.relname st1
          [makeConstraint .CONSTR_DEFAULT raw_expr, makeConstraint .CONSTR_NOTNULL none] with
      | error err => rw [hl2] at h; simp at h
      | ok st2 =>
        rw [hl2] at h
        simp only [Except.ok.injEq, Prod.mk.injEq] at h
        obtain ⟨rfl, rfl⟩ := h
        obtain ⟨_, _, rfl⟩ := (column_constraints_loop_serial_tail _ _ st1 st2 raw_expr).mp hl2
        obtain ⟨nodes, hn, hk⟩ := column_constraints_loop_nodes _ _ out _ st1 hl
        refine ⟨nodes, ?_, ?_, rfl, rfl, rfl, rfl, rfl⟩
        · simp only [hn, List.nil_append]
        · rw [hk, transformConstraintAttrs_contypes user out hu]

/-- The constraint steps of `transformColumnDefinition` on a serial column succeed when
the constraints written for the column hold no DEFAULT, NULL, EXCLUSION or CLUSTER node
and `transformConstraintAttrs` accepts them. -/
theorem transformColumnDefinition_constraints_total (cxtS : Table.CreateStmtContext)
    (colS : Table.ColumnDef) (user out : List Table.Constraint) (raw_expr : Option RawExpr)
    (hcons : colS.constraints = user ++
      [makeConstraint .CONSTR_DEFAULT raw_expr, makeConstraint .CONSTR_NOTNULL none])
    (hkinds : ∀ c ∈ user, c.contype ≠ .CONSTR_DEFAULT ∧ c.contype ≠ .CONSTR_NULL ∧
      c.contype ≠ .CONSTR_EXCLUSION ∧ c.contype ≠ .CONSTR_CLUSTER)
    (hattrs : transformConstraintAttrs user = .ok out) :
    ∃ r, transformColumnDefinition_constraints cxtS colS = .ok r := by
  unfold transformColumnDefinition_constraints
  rw [hcons, transformConstraintAttrs_append_no_attr user _ (serial_constraints_no_attr raw_expr), hattrs]
  simp only
  rw [column_constraints_loop_append]
  have hkinds' := forall_contype_of_map_eq
    (fun k => k ≠ .CONSTR_DEFAULT ∧ k ≠ .CONSTR_NULL ∧ k ≠ .CONSTR_EXCLUSION ∧ k ≠ .CONSTR_CLUSTER)
    out user (transformConstraintAttrs_contypes user out hattrs) hkinds
  obtain ⟨st1, hl, hd, hn⟩ := column_constraints_loop_total colS.colname cxtS.relation.relname out
    { sawNullable := false, sawDefault := false, is_not_null := colS.is_not_null,
      raw_default := colS.raw_default, constraints := [],
      ckconstraints := cxtS.ckconstraints, ixconstraints := cxtS.ixconstraints,
      fkconstraints := cxtS.fkconstraints } hkinds' (by simp)
  rw [hl]
  simp only
  have htail := (column_constraints_loop_serial_tail colS.colname cxtS.relation.relname st1 _
    raw_expr).mpr ⟨hd, hn, rfl⟩
  rw [htail]
  exact ⟨_, rfl⟩

/-- Lists with the same kinds of nodes hold as many nodes of each kind. -/
theorem filter_contype_length (k : Table.ConstrType) (l1 l2 : List Table.Constraint)
    (hmap : l1.map (fun con => con.contype) = l2.map (fun con => con.contype)) :
    (l1.filter (fun con => decide (con.contype = k))).length
      = (l2.filter (fun con => decide (con.contype = k))).length := by
  have key : ∀ l : List Table.Constraint,
      (l.filter (fun con => decide (con.contype = k))).length
        = ((l.map (fun con => con.contype)).filter (fun c => decide (c = k))).length := by
    intro l
    induction l with
    | nil => rfl
    | cons c rest ih =>
      simp only [List.filter_cons, List.map_cons]
      by_cases hc : c.contype = k
      · simp [hc, ih]
      · simp [hc, ih]
  rw [key l1, key l2, hmap]

/-- C24, amended: let the type of a column be written as a SERIAL pseudo-type
(smallserial or serial2, serial or serial4, bigserial or serial8), with no DEFAULT and
no NULL constraint written for the column. If `transformColumnDefinition` accepts the
column, the type is int2, int4 or int8 respectively, exactly one CREATE SEQUENCE
statement has joined `cxt->blist`, the constraints of the column are the written ones
followed by one DEFAULT constraint, the call of `nextval` on that sequence, which is
the only DEFAULT constraint of the column, and one NOT NULL constraint, so that the
column has one NOT NULL constraint more than were written, and the column is NOT
NULL. It accepts the column in CREATE TABLE when the checks and lookups outside the
serial type succeed. -/
theorem transformColumnDefinition_serial (env : TableEnv) (cxt : Table.CreateStmtContext)
    (column : Table.ColumnDef) (preCheck : Bool) (typname : TypeName) (name : String)
    (typeOid : TypeOid)
    (htyp : column.typname = some typname) (hnames : typname.names = [name])
    (hpct : typname.pct_type = false)
    (hserial : ((name = "smallserial" ∨ name = "serial2") ∧ typeOid = .INT2OID) ∨
      ((name = "serial" ∨ name = "serial4") ∧ typeOid = .INT4OID) ∨
      ((name = "bigserial" ∨ name = "serial8") ∧ typeOid = .INT8OID))
    (huser : ∀ c ∈ column.constraints,
      c.contype ≠ .CONSTR_DEFAULT ∧ c.contype ≠ .CONSTR_NULL) :
    (∀ cxt1 column1, transformColumnDefinition env cxt column preCheck = .ok (cxt1, column1) →
      column1.typname = some { typname with names := [], typeOid := typeOid } ∧
      column1.is_serial = true ∧ column1.is_not_null = true ∧
      ∃ seqstmt nodes,
        cxt1.blist = cxt.blist ++ [.createSeq seqstmt] ∧
        column1.constraints = nodes ++
          [makeConstraint .CONSTR_DEFAULT (some (.nextval
              (env.quote_qualified_identifier seqstmt.sequence.1 seqstmt.sequence.2))),
           makeConstraint .CONSTR_NOTNULL none] ∧
        nodes.map (fun con => con.contype) = column.constraints.map (fun con => con.contype) ∧
        column1.raw_default = some (.nextval
          (env.quote_qualified_identifier seqstmt.sequence.1 seqstmt.sequence.2)) ∧
        column1.constraints.filter (fun con => decide (con.contype = .CONSTR_DEFAULT))
          = [makeConstraint .CONSTR_DEFAULT (some (.nextval
              (env.quote_qualified_identifier seqstmt.sequence.1 seqstmt.sequence.2)))] ∧
        (column1.constraints.filter (fun con => decide (con.contype = .CONSTR_NOTNULL))).length
          = (column.constraints.filter
              (fun con => decide (con.contype = .CONSTR_NOTNULL))).length + 1) ∧
    (checkConstraint cxt.canInfomationalConstraint column.constraints = .ok () →
      typname.arrayBounds = [] → cxt.relation.relpersistence ≠ .RELPERSISTENCE_TEMP →
      (cxt.stmtType = CREATE_TABLE ∨ cxt.stmtType = CREATE_FOREIGN_TABLE) →
      transformColumnType env
        { column with typname := some { typname with names := [], typeOid := typeOid } }
        = .ok () →
      (cxt.rel = none → ∃ snamespaceid relation,
        env.RangeVarGetCreationNamespace cxt.relation = .ok snamespaceid ∧
          env.RangeVarAdjustRelationPersistence cxt.relation snamespaceid = .ok relation) →
      (∀ c ∈ column.constraints,
        c.contype ≠ .CONSTR_EXCLUSION ∧ c.contype ≠ .CONSTR_CLUSTER) →
      (∃ out, transformConstraintAttrs column.constraints = .ok out) →
      ∃ cxt1 column1, transformColumnDefinition env cxt column preCheck = .ok (cxt1, column1)) := by
  have hoid := serial_typeOid_eq name typeOid hserial
  have hcs := check_serial_serial cxt column typname name typeOid htyp hnames hpct hoid
  constructor
  · intro cxt1 column1 h
    obtain ⟨_, isSerial, typname', cxtS, colS, hcs', _, hseq, hstage⟩ :=
      (transformColumnDefinition_ok_iff env cxt column preCheck _).mp h
    rw [hcs] at hcs'
    have hres : isSerial = true ∧
        typname' = some { typname with names := [], typeOid := typeOid } := by
      split at hcs'
      · simp at hcs'
      · split at hcs'
        · simp at hcs'
        · split at hcs'
          · simp at hcs'
          · simp only [Except.ok.injEq, Prod.mk.injEq] at hcs'
            exact ⟨hcs'.1.symm, hcs'.2.symm⟩
    obtain ⟨rfl, rfl⟩ := hres
    simp only [↓reduceIte] at hseq
    obtain ⟨seqstmt, altseqstmt, relation, rfl, _, rfl⟩ :=
      createSeqOwnedByTable_ok env cxt cxtS _ colS preCheck hseq
    obtain ⟨nodes, hn, hk, hnn, hdef, hbl, htn, hser⟩ :=
      transformColumnDefinition_constraints_serial _ cxt1 _ column1 column.constraints _ rfl hstage
    refine ⟨htn, hser, hnn, seqstmt, nodes, hbl, hn, hk, hdef, ?_, ?_⟩
    · rw [hn, List.filter_append]
      have hnone : nodes.filter (fun con => decide (con.contype = .CONSTR_DEFAULT)) = [] := by
        rw [List.filter_eq_nil_iff]
        intro c hc
        have := forall_contype_of_map_eq (fun k => k ≠ .CONSTR_DEFAULT ∧ k ≠ .CONSTR_NULL)
          nodes column.constraints hk huser c hc
        simp [this.1]
      rw [hnone]
      rfl
    · rw [hn, List.filter_append, List.length_append,
        filter_contype_length .CONSTR_NOTNULL nodes column.constraints hk]
      rfl
  · intro hcheck harr htemp hstmt htype hns hkinds hattrs
    obtain ⟨out, hout⟩ := hattrs
    have hcmp : pg_strncasecmp cxt.stmtType.data ALTER_TABLE.data cxt.stmtType.length ≠ 0 := by
      rcases hstmt with h | h <;> rw [h] <;> decide
    have hcs2 : check_serial cxt column
        = .ok (true, some { typname with names := [], typeOid := typeOid }) := by
      rw [hcs]
      simp only [harr, ne_eq, not_true_eq_false, ↓reduceIte, htemp, hcmp]
    obtain ⟨⟨cxtS, colS⟩, hseq⟩ := createSeqOwnedByTable_total env cxt
      { column with
        typname := some { typname with names := [], typeOid := typeOid }
        is_serial := true } preCheck hns
    obtain ⟨seqstmt, altseqstmt, relation, hcxtS, _, hcolS⟩ :=
      createSeqOwnedByTable_ok env cxt cxtS _ colS preCheck hseq
    have hcons : colS.constraints = column.constraints ++
        [makeConstraint .CONSTR_DEFAULT (some (.nextval
            (env.quote_qualified_identifier seqstmt.sequence.1 seqstmt.sequence.2))),
         makeConstraint .CONSTR_NOTNULL none] := by
      rw [hcolS]
    obtain ⟨r, hr⟩ := transformColumnDefinition_constraints_total cxtS colS column.constraints
      out _ hcons
      (fun c hc => ⟨(huser c hc).1, (huser c hc).2, (hkinds c hc).1, (hkinds c hc).2⟩) hout
    refine ⟨r.1, r.2, ?_⟩
    exact (transformColumnDefinition_ok_iff env cxt column preCheck _).mpr
      ⟨hcheck, true, _, cxtS, colS, hcs2, fun _ => htype, by simpa using hseq, hr⟩

/-- C24, amended, on a sample: the column `id serial PRIMARY KEY` of CREATE TABLE `t`
is accepted and comes out NOT NULL. -/
theorem transformColumnDefinition_serial_witness :
    ∃ cxt1 column1, transformColumnDefinition sampleTableEnv
        (sampleTableContext CREATE_TABLE none)
        (sampleColumn "id" "serial" [makeConstraint .CONSTR_PRIMARY none]) false
        = .ok (cxt1, column1) ∧ column1.is_not_null = true :=
  have serial := transformColumnDefinition_serial sampleTableEnv
    (sampleTableContext CREATE_TABLE none)
    (sampleColumn "id" "serial" [makeConstraint .CONSTR_PRIMARY none]) false
    { names := ["serial"], typeOid := .InvalidOid, pct_type := false, arrayBounds := [] }
    "serial" .INT4OID rfl rfl rfl (Or.inr (Or.inl ⟨Or.inl rfl, rfl⟩)) (by decide)
  match serial.2 (by decide) rfl (by decide) (Or.inl rfl) (by decide)
      (fun _ => ⟨2200, _, rfl, rfl⟩) (by decide) ⟨_, rfl⟩ with
  | ⟨cxt1, column1, h⟩ => ⟨cxt1, column1, h, (serial.1 cxt1 column1 h).2.2.1⟩

/-- C24, as the claim has it, fails on a sample: the column `id serial NOT NULL` of
CREATE TABLE `t`, which has no DEFAULT and no NULL clause, comes out with two NOT NULL
constraints, the written one and the one that the serial type adds. -/
theorem transformColumnDefinition_serial_written_not_null :
    ∃ cxt1 column1, transformColumnDefinition sampleTableEnv
        (sampleTableContext CREATE_TABLE none)
        (sampleColumn "id" "serial" [makeConstraint .CONSTR_NOTNULL none]) false
        = .ok (cxt1, column1) ∧
      (∀ c ∈ (sampleColumn "id" "serial" [makeConstraint .CONSTR_NOTNULL none]).constraints,
        c.contype ≠ .CONSTR_DEFAULT ∧ c.contype ≠ .CONSTR_NULL) ∧
      column1.constraints.map (fun con => con.contype) =
        [.CONSTR_NOTNULL, .CONSTR_DEFAULT, .CONSTR_NOTNULL] ∧
      (column1.constraints.filter (fun con => decide (con.contype = .CONSTR_NOTNULL))).length
        = 2 :=
  ⟨_, _, rfl, by decide, rfl, rfl⟩

end ColumnDefinitions

/-! ## Foreign keys and the result of CREATE TABLE -/

section ForeignKeys

open Table

/-- The loop of `transformFKConstraints` under `skipValidation`, if it succeeds, marks
every constraint valid without validation and changes nothing else of it. -/
theorem skip_validation_loop_ok (env : TableEnv) :
    ∀ (fkconstraints fkconstraints1 : List Table.Constraint)
      (fallback_dist_col fallback_dist_col1 : List String),
      skip_validation_loop env fkconstraints fallback_dist_col
        = .ok (fkconstraints1, fallback_dist_col1) →
      fkconstraints1 = fkconstraints.map markSkipValidation := by
  intro fkconstraints
  induction fkconstraints with
  | nil =>
    intro l1 fb fb1 h
    simp only [skip_validation_loop, Except.ok.injEq, Prod.mk.injEq] at h
    rw [← h.1]
    rfl
  | cons constraint rest ih =>
    intro l1 fb fb1 h
    simp only [skip_validation_loop] at h
    cases hs : skip_validation_step env fb constraint with
    | error err => rw [hs] at h; simp at h
    | ok p =>
      obtain ⟨c1, fb2⟩ := p
      rw [hs] at h
      simp only at h
      cases hl : skip_validation_loop env rest fb2 with
      | error err => rw [hl] at h; simp at h
      | ok q =>
        obtain ⟨rest1, fb3⟩ := q
        rw [hl] at h
        simp only [Except.ok.injEq, Prod.mk.injEq] at h
        obtain ⟨rfl, _⟩ := h
        have hrest := ih rest1 fb2 fb3 hl
        have hc1 : c1 = markSkipValidation constraint := by
          unfold skip_validation_step at hs
          repeat' split at hs
          all_goals first
            | (simp at hs; done)
            | (simp only [Except.ok.injEq, Prod.mk.injEq] at hs; exact hs.1.symm)
        rw [hc1, hrest]
        rfl

end ForeignKeys

/-! ## The statements that CREATE TABLE and ALTER TABLE hand back -/

section TableStatements

open Table

/-- What `transformFKConstraints` leaves in the list of foreign-key constraints: under
`skipValidation` every constraint is marked valid without validation, whatever its
flags were, and otherwise the list is as it was. The other lists of constraints, and
`cxt->blist`, stay; so does `cxt->alist` when the caller is ADD CONSTRAINT. -/
theorem transformFKConstraints_marks (env : TableEnv) (cxt cxt1 : Table.CreateStmtContext)
    (skipValidation isAddConstraint : Bool)
    (h : transformFKConstraints env cxt skipValidation isAddConstraint = .ok cxt1) :
    cxt1.fkconstraints = markedConstraints skipValidation cxt.fkconstraints ∧
      cxt1.blist = cxt.blist ∧ cxt1.ckconstraints = cxt.ckconstraints ∧
      cxt1.clusterConstraints = cxt.clusterConstraints ∧ cxt1.relation = cxt.relation ∧
      (isAddConstraint = true → cxt1.alist = cxt.alist) ∧
      (isAddConstraint = false → cxt1.alist = cxt.alist ++
        if cxt.fkconstraints = [] then []
        else [.alterTable
          { relation := cxt.relation
            cmds := (markedConstraints skipValidation cxt.fkconstraints).map processedConstraint
            relkind := .OBJECT_TABLE }]) := by
  unfold transformFKConstraints at h
  by_cases hfk : cxt.fkconstraints = []
  · simp only [hfk, ↓reduceIte, Except.ok.injEq] at h
    subst h
    refine ⟨?_, rfl, rfl, rfl, rfl, fun _ => rfl, fun _ => by simp [hfk]⟩
    rw [hfk]
    cases skipValidation <;> rfl
  · simp only [hfk, ↓reduceIte] at h
    cases skipValidation with
    | false =>
      simp only [Bool.false_eq_true, ↓reduceIte, Except.ok.injEq] at h
      subst h
      refine ⟨rfl, rfl, rfl, rfl, rfl, fun hadd => ?_, fun hadd => ?_⟩
      · simp only [hadd, Bool.true_eq_false, ↓reduceIte]
      · simp only [hadd, ↓reduceIte, hfk]
        rfl
    | true =>
      simp only [↓reduceIte] at h
      cases hl : skip_validation_loop env cxt.fkconstraints cxt.fallback_dist_col with
      | error err => rw [hl] at h; simp at h
      | ok p =>
        obtain ⟨l1, fb1⟩ := p
        rw [hl] at h
        simp only [Except.ok.injEq] at h
        subst h
        have := skip_validation_loop_ok env _ _ _ _ hl
        subst this
        refine ⟨rfl, rfl, rfl, rfl, rfl, fun hadd => ?_, fun hadd => ?_⟩
        · simp only [hadd, Bool.true_eq_false, ↓reduceIte]
        · simp only [hadd, ↓reduceIte, hfk]
          rfl

/-- The elaboration of a column leaves its name. -/
theorem transformColumnDefinition_colname (env : TableEnv) (cxt cxt1 : Table.CreateStmtContext)
    (column column1 : Table.ColumnDef) (preCheck : Bool)
    (h : transformColumnDefinition env cxt column preCheck = .ok (cxt1, column1)) :
    column1.colname = column.colname := by
  obtain ⟨_, isSerial, typname, cxtS, column3, _, _, hseq, hcons⟩ :=
    (transformColumnDefinition_ok_iff env cxt column preCheck (cxt1, column1)).mp h
  have h3 : column3.colname = column.colname := by
    cases isSerial with
    | false =>
      simp only [Bool.false_eq_true, ↓reduceIte, Except.ok.injEq, Prod.mk.injEq] at hseq
      rw [← hseq.2]
    | true =>
      simp only [↓reduceIte] at hseq
      obtain ⟨_, _, _, _, _, hc⟩ := createSeqOwnedByTable_ok env cxt cxtS _ column3 preCheck hseq
      rw [hc]
  unfold transformColumnDefinition_constraints at hcons
  split at hcons
  · simp at hcons
  · split at hcons
    · simp at hcons
    · simp only [Except.ok.injEq, Prod.mk.injEq] at hcons
      rw [← hcons.2]
      exact h3

/-- One round of the loop of `transformAlterTableStmt`: an ADD CONSTRAINT is not kept,
every other subcommand is kept with its name, its kind and its definition as
`retained` says, and validation can still
be skipped afterwards exactly if it could before, the subcommand adds no FOREIGN KEY
through ADD CONSTRAINT, and the column that it adds, if any, has no default
expression. -/
theorem alter_cmd_step_ok (env : TableEnv) (aenv : AlterEnv) (st st1 : AlterLoopState)
    (cmd : AlterTableCmd) (h : alter_cmd_step env aenv st cmd = .ok st1) :
    ((cmd.subtype = .AT_AddConstraint ∧ st1.newcmds = st.newcmds) ∨
      (cmd.subtype ≠ .AT_AddConstraint ∧ ∃ kept, st1.newcmds = st.newcmds ++ [kept] ∧
        retained env aenv cmd kept)) ∧
    (st1.skipValidation = true ↔
      st.skipValidation = true ∧ adds_foreign_key cmd = false ∧
        ∀ kept ∈ st1.newcmds.drop st.newcmds.length, adds_column_default kept = false) := by
  obtain ⟨subtype, name, def_⟩ := cmd
  have hkeep : ∀ kept : AlterTableCmd,
      retained env aenv { subtype := subtype, name := name, def_ := def_ } kept →
      subtype ≠ .AT_AddConstraint → subtype ≠ .AT_AddColumn → subtype ≠ .AT_AddColumnToView →
      st1 = { st with newcmds := st.newcmds ++ [kept] } →
      ((subtype = .AT_AddConstraint ∧ st1.newcmds = st.newcmds) ∨
        (subtype ≠ .AT_AddConstraint ∧ ∃ kept, st1.newcmds = st.newcmds ++ [kept] ∧
          retained env aenv { subtype := subtype, name := name, def_ := def_ } kept)) ∧
      (st1.skipValidation = true ↔
        st.skipValidation = true ∧
          adds_foreign_key { subtype := subtype, name := name, def_ := def_ } = false ∧
          ∀ kept ∈ st1.newcmds.drop st.newcmds.length, adds_column_default kept = false) := by
    intro kept hret hne hc1 hc2 hst
    subst hst
    refine ⟨Or.inr ⟨hne, kept, rfl, hret⟩, ?_⟩
    have hfk : adds_foreign_key { subtype := subtype, name := name, def_ := def_ } = false := by
      simp [adds_foreign_key, hne]
    have hdef : adds_column_default kept = false := by
      have hs := hret.2.1
      simp only at hs
      by_cases hp : subtype = .AT_ProcessedConstraint
      · rw [if_pos hp] at hs
        simp [adds_column_default, hs]
      · rw [if_neg hp] at hs
        simp [adds_column_default, hs, hc1, hc2]
    simp only [List.drop_left, List.mem_singleton, forall_eq, hfk, hdef, and_self, and_true]
  have hpart : ∀ def1 : AlterTableCmdDef,
      subtype ≠ .AT_AddConstraint → subtype ≠ .AT_AddColumn → subtype ≠ .AT_AddColumnToView →
      subtype ≠ .AT_ProcessedConstraint → is_partition_cmd subtype = true →
      aenv.transformPartitionCmd { subtype := subtype, name := name, def_ := def_ } = .ok def1 →
      st1 = { st with
              newcmds := st.newcmds ++ [{ subtype := subtype, name := name, def_ := def1 }] } →
      ((subtype = .AT_AddConstraint ∧ st1.newcmds = st.newcmds) ∨
        (subtype ≠ .AT_AddConstraint ∧ ∃ kept, st1.newcmds = st.newcmds ++ [kept] ∧
          retained env aenv { subtype := subtype, name := name, def_ := def_ } kept)) ∧
      (st1.skipValidation = true ↔
        st.skipValidation = true ∧
          adds_foreign_key { subtype := subtype, name := name, def_ := def_ } = false ∧
          ∀ kept ∈ st1.newcmds.drop st.newcmds.length, adds_column_default kept = false) :=
    fun def1 hne hc1 hc2 hpc hpt hp hst =>
      hkeep { subtype := subtype, name := name, def_ := def1 }
        ⟨rfl, by simp only [if_neg hpc], by
          rw [if_neg (fun hor => hor.elim hc1 hc2), if_pos hpt]
          exact hp⟩ hne hc1 hc2 hst
  have hcolumn : ∀ (cxt1 : Table.CreateStmtContext) (column column1 : Table.ColumnDef),
      (subtype = .AT_AddColumn ∨ subtype = .AT_AddColumnToView) → def_ = .column column →
      transformColumnDefinition env st.cxt column false = .ok (cxt1, column1) →
      st1 = { cxt := { cxt1 with
                       columns := cxt1.columns.dropLast ++ [{ column1 with constraints := [] }] }
              newcmds := st.newcmds ++
                [{ subtype := subtype, name := name
                   def_ := .column { column1 with constraints := [] } }]
              skipValidation :=
                if column1.raw_default ≠ none then false else st.skipValidation } →
      ((subtype = .AT_AddConstraint ∧ st1.newcmds = st.newcmds) ∨
        (subtype ≠ .AT_AddConstraint ∧ ∃ kept, st1.newcmds = st.newcmds ++ [kept] ∧
          retained env aenv { subtype := subtype, name := name, def_ := def_ } kept)) ∧
      (st1.skipValidation = true ↔
        st.skipValidation = true ∧
          adds_foreign_key { subtype := subtype, name := name, def_ := def_ } = false ∧
          ∀ kept ∈ st1.newcmds.drop st.newcmds.length, adds_column_default kept = false) := by
    intro cxt1 column column1 hcol hdef ht hst
    subst hst
    have hne : subtype ≠ .AT_AddConstraint := by
      rcases hcol with hc | hc <;> rw [hc] <;> decide
    have hnp : subtype ≠ .AT_ProcessedConstraint := by
      rcases hcol with hc | hc <;> rw [hc] <;> decide
    have hfk : adds_foreign_key { subtype := subtype, name := name, def_ := def_ } = false := by
      simp [adds_foreign_key, hne]
    refine ⟨Or.inr ⟨hne, _, rfl, rfl, by simp only [if_neg hnp], by
      rw [if_pos hcol]
      exact ⟨column, st.cxt, cxt1, column1, hdef, ht,
        transformColumnDefinition_colname env st.cxt cxt1 column column1 false ht, rfl⟩⟩, ?_⟩
    have hdef : adds_column_default
        { subtype := subtype, name := name
          def_ := .column { column1 with constraints := [] } }
        = column1.raw_default.isSome := by
      simp only [adds_column_default]
      rcases hcol with hc | hc <;> rw [hc] <;> simp
    simp only [List.drop_left, List.mem_singleton, forall_eq, hfk, hdef, true_and]
    cases column1.raw_default with
    | none => simp
    | some d => simp
  unfold alter_cmd_step at h
  cases subtype <;> simp only at h
  case AT_ProcessedConstraint =>
    exact hkeep { subtype := .AT_AddConstraint, name := name, def_ := def_ } ⟨rfl, rfl, by simp [is_partition_cmd]⟩ (by decide) (by decide) (by decide) (Except.ok.inj h).symm
  case AT_AlterColumnGenericOptions =>
    exact hkeep { subtype := .AT_AlterColumnGenericOptions, name := name, def_ := def_ } ⟨rfl, rfl, by simp [is_partition_cmd]⟩ (by decide) (by decide) (by decide) (Except.ok.inj h).symm
  case AT_AddIndex =>
    exact hkeep { subtype := .AT_AddIndex, name := name, def_ := def_ } ⟨rfl, rfl, by simp [is_partition_cmd]⟩ (by decide) (by decide) (by decide) (Except.ok.inj h).symm
  case AT_AddIndexConstraint =>
    exact hkeep { subtype := .AT_AddIndexConstraint, name := name, def_ := def_ } ⟨rfl, rfl, by simp [is_partition_cmd]⟩ (by decide) (by decide) (by decide) (Except.ok.inj h).symm
  case other tag =>
    exact hkeep { subtype := .other tag, name := name, def_ := def_ } ⟨rfl, rfl, by simp [is_partition_cmd]⟩ (by simp) (by simp) (by simp) (Except.ok.inj h).symm
  case AT_AddPartition =>
    cases hp : aenv.transformPartitionCmd
        { subtype := .AT_AddPartition, name := name, def_ := def_ } with
    | error err => rw [hp] at h; simp at h
    | ok def1 =>
      rw [hp] at h
      exact hpart def1 (by decide) (by decide) (by decide) (by decide) rfl hp (Except.ok.inj h).symm
  case AT_DropPartition =>
    cases hp : aenv.transformPartitionCmd
        { subtype := .AT_DropPartition, name := name, def_ := def_ } with
    | error err => rw [hp] at h; simp at h
    | ok def1 =>
      rw [hp] at h
      exact hpart def1 (by decide) (by decide) (by decide) (by decide) rfl hp (Except.ok.inj h).symm
  case AT_TruncatePartition =>
    cases hp : aenv.transformPartitionCmd
        { subtype := .AT_TruncatePartition, name := name, def_ := def_ } with
    | error err => rw [hp] at h; simp at h
    | ok def1 =>
      rw [hp] at h
      exact hpart def1 (by decide) (by decide) (by decide) (by decide) rfl hp (Except.ok.inj h).symm
  case AT_ExchangePartition =>
    cases hp : aenv.transformPartitionCmd
        { subtype := .AT_ExchangePartition, name := name, def_ := def_ } with
    | error err => rw [hp] at h; simp at h
    | ok def1 =>
      rw [hp] at h
      exact hpart def1 (by decide) (by decide) (by decide) (by decide) rfl hp (Except.ok.inj h).symm
  case AT_SplitPartition =>
    cases hp : aenv.transformPartitionCmd
        { subtype := .AT_SplitPartition, name := name, def_ := def_ } with
    | error err => rw [hp] at h; simp at h
    | ok def1 =>
      rw [hp] at h
      exact hpart def1 (by decide) (by decide) (by decide) (by decide) rfl hp (Except.ok.inj h).symm
  case AT_AddColumn =>
    cases def_ with
    | column column =>
      simp only at h
      cases ht : transformColumnDefinition env st.cxt column false with
      | error err => rw [ht] at h; simp at h
      | ok p =>
        obtain ⟨cxt1, column1⟩ := p
        rw [ht] at h
        exact hcolumn cxt1 column column1 (Or.inl rfl) rfl ht (Except.ok.inj h).symm
    | constraint c => simp at h
    | options o => simp at h
    | index i => simp at h
    | partition p => simp at h
    | node n => simp at h
  case AT_AddColumnToView =>
    cases def_ with
    | column column =>
      simp only at h
      cases ht : transformColumnDefinition env st.cxt column false with
      | error err => rw [ht] at h; simp at h
      | ok p =>
        obtain ⟨cxt1, column1⟩ := p
        rw [ht] at h
        exact hcolumn cxt1 column column1 (Or.inr rfl) rfl ht (Except.ok.inj h).symm
    | constraint c => simp at h
    | options o => simp at h
    | index i => simp at h
    | partition p => simp at h
    | node n => simp at h
  case AT_AddConstraint =>
    cases def_ with
    | constraint constraint =>
      simp only at h
      cases ht : transformTableConstraint st.cxt constraint with
      | error err => rw [ht] at h; simp at h
      | ok cxt1 =>
        rw [ht] at h
        simp only [Except.ok.injEq] at h
        subst h
        refine ⟨Or.inl ⟨rfl, rfl⟩, ?_⟩
        simp only [List.drop_length, List.not_mem_nil, false_implies, implies_true, and_true,
          adds_foreign_key, decide_True, Bool.true_and, decide_eq_false_iff_not]
        by_cases hc : constraint.contype = .CONSTR_FOREIGN
        · simp [hc]
        · simp [hc]
    | column c => simp at h
    | options o => simp at h
    | index i => simp at h
    | partition p => simp at h
    | node n => simp at h

/-- The loop of `transformAlterTableStmt`: the subcommands that are kept are those
that are not ADD CONSTRAINT, in their order, and validation can be skipped afterwards
exactly if it could before, no subcommand adds a FOREIGN KEY through ADD CONSTRAINT,
and no column that is added has a default expression. -/
theorem alter_cmds_loop_ok (env : TableEnv) (aenv : AlterEnv) :
    ∀ (cmds : List AlterTableCmd) (st st1 : AlterLoopState),
      alter_cmds_loop env aenv st cmds = .ok st1 →
      ∃ kept, st1.newcmds = st.newcmds ++ kept ∧
        List.Forall₂ (retained env aenv)
          (cmds.filter (fun cmd => decide (cmd.subtype ≠ .AT_AddConstraint))) kept ∧
        (st1.skipValidation = true ↔
          st.skipValidation = true ∧ (∀ cmd ∈ cmds, adds_foreign_key cmd = false) ∧
            ∀ cmd ∈ kept, adds_column_default cmd = false) := by
  intro cmds
  induction cmds with
  | nil =>
    intro st st1 h
    simp only [alter_cmds_loop, Except.ok.injEq] at h
    subst h
    exact ⟨[], by simp, by simp, by simp⟩
  | cons cmd rest ih =>
    intro st st1 h
    simp only [alter_cmds_loop] at h
    cases hs : alter_cmd_step env aenv st cmd with
    | error err => rw [hs] at h; simp at h
    | ok st2 =>
      rw [hs] at h
      obtain ⟨hkept, hflag⟩ := alter_cmd_step_ok env aenv st st2 cmd hs
      obtain ⟨kept, hnew, hall, hflag2⟩ := ih st2 st1 h
      rcases hkept with ⟨hsub, hsame⟩ | ⟨hsub, k, hk, hret⟩
      · refine ⟨kept, by rw [hnew, hsame], ?_, ?_⟩
        · simp only [List.filter_cons, hsub, ne_eq, not_true_eq_false, decide_False,
            Bool.false_eq_true, ↓reduceIte]
          exact hall
        · rw [hflag2, hflag, hsame]
          simp only [List.drop_length, List.not_mem_nil, false_implies, implies_true, and_true,
            List.mem_cons, forall_eq_or_imp]
          tauto
      · refine ⟨k :: kept, by rw [hnew, hk]; simp, ?_, ?_⟩
        · simp only [List.filter_cons, hsub, ne_eq, not_false_eq_true, decide_True, ↓reduceIte]
          exact List.Forall₂.cons hret hall
        · rw [hflag2, hflag, hk]
          simp only [List.drop_left, List.mem_singleton, forall_eq, List.mem_cons,
            forall_eq_or_imp]
          tauto

/-- The loop over the index statements of `transformAlterTableStmt` makes one
subcommand of each statement, in their order. -/
theorem index_cmds_ok (aenv : AlterEnv) :
    ∀ (alist : List (IndexStmt RawExpr)) (cmds : List AlterTableCmd),
      index_cmds aenv (alist.map Stmt.index) = .ok cmds →
      List.Forall₂ (index_cmd_of aenv) alist cmds := by
  intro alist
  induction alist with
  | nil =>
    intro cmds h
    simp only [List.map_nil, index_cmds, Except.ok.injEq] at h
    subst h
    exact List.Forall₂.nil
  | cons idxstmt rest ih =>
    intro cmds h
    simp only [List.map_cons, index_cmds] at h
    cases ht : aenv.transformIndexStmt idxstmt with
    | error err => rw [ht] at h; simp at h
    | ok p =>
      obtain ⟨idxstmt1, indexOid⟩ := p
      rw [ht] at h
      simp only at h
      cases hr : index_cmds aenv (rest.map Stmt.index) with
      | error err => rw [hr] at h; simp at h
      | ok cmds1 =>
        rw [hr] at h
        simp only [Except.ok.injEq] at h
        subst h
        exact List.Forall₂.cons ⟨idxstmt1, indexOid, ht, rfl⟩ (ih cmds1 hr)

/-- The result of the steps of `transformAlterTableStmt` after the loop over the
subcommands: `cxt->blist`, the statement, and the statements that were on
`cxt->alist` before; the subcommands of the statement are those that the loop has
kept, then one for each index statement, then the CHECK constraints, the FOREIGN KEY
constraints as `transformFKConstraints` leaves them, and the cluster keys. -/
theorem transformAlterTableStmt_output_ok (env : TableEnv) (aenv : AlterEnv) (ixenv : IndexEnv)
    (ixcxt : OpenGauss.CreateStmtContext RawExpr) (st : AlterLoopState)
    (stmt : Table.AlterTableStmt) (result : List Stmt)
    (h : transformAlterTableStmt_output env aenv ixenv ixcxt st stmt = .ok result) :
    ∃ outcome indexcmds, transformIndexConstraints ixenv ixcxt = .ok outcome ∧
      List.Forall₂ (index_cmd_of aenv) outcome.alist indexcmds ∧
      result = st.cxt.blist ++
        [Stmt.alterTable
          { stmt with
            cmds := st.newcmds ++ indexcmds ++ st.cxt.ckconstraints.map addConstraintCmd ++
              (markedConstraints st.skipValidation st.cxt.fkconstraints).map addConstraintCmd ++
              st.cxt.clusterConstraints.map addConstraintCmd }] ++ st.cxt.alist := by
  unfold transformAlterTableStmt_output at h
  cases hix : transformIndexConstraints ixenv ixcxt with
  | error err => rw [hix] at h; simp at h
  | ok outcome =>
    rw [hix] at h
    simp only at h
    cases hfks : transformFKConstraints env
        { st.cxt with
          alist := outcome.alist.map Stmt.index
          fallback_dist_col :=
            index_fallback_dist_col ixcxt.ixconstraints st.cxt.fallback_dist_col }
        st.skipValidation true with
    | error err => rw [hfks] at h; simp at h
    | ok cxt1 =>
      rw [hfks] at h
      simp only at h
      obtain ⟨hfk, hbl, hck, hcl, _, hal, _⟩ := transformFKConstraints_marks env
        { st.cxt with
          alist := outcome.alist.map Stmt.index
          fallback_dist_col :=
            index_fallback_dist_col ixcxt.ixconstraints st.cxt.fallback_dist_col }
        cxt1 st.skipValidation true hfks
      have hal := hal rfl
      simp only at hfk hbl hck hcl hal
      cases hcc : checkClusterConstraints env cxt1.clusterConstraints with
      | error err => rw [hcc] at h; simp at h
      | ok u =>
        rw [hcc] at h
        simp only at h
        cases hrc : checkReserveColumn env outcome.columns with
        | error err => rw [hrc] at h; simp at h
        | ok u2 =>
          rw [hrc] at h
          simp only at h
          rw [hal] at h
          cases hic : index_cmds aenv (outcome.alist.map Stmt.index) with
          | error err => rw [hic] at h; simp at h
          | ok indexcmds =>
            rw [hic] at h
            simp only [Except.ok.injEq] at h
            refine ⟨outcome, indexcmds, rfl, index_cmds_ok aenv _ _ hic, ?_⟩
            rw [← h, hbl, hck, hfk, hcl]

/-- The result of the last steps of `transformCreateStmt`: `cxt->blist`, the CREATE
TABLE statement with the columns, the CHECK constraints and the cluster keys of the
context, the index statements, the ALTER TABLE statement of the foreign keys if there
are any, marked valid without validation, and the statements that were on
`cxt->alist` before. -/
theorem transformCreateStmt_output_ok (env : TableEnv) (ixenv : IndexEnv)
    (ixcxt : OpenGauss.CreateStmtContext RawExpr) (cxt : Table.CreateStmtContext)
    (stmt : CreateStmt) (result : List Stmt)
    (h : transformCreateStmt_output env ixenv ixcxt cxt stmt = .ok result) :
    ∃ outcome distributeby, transformIndexConstraints ixenv ixcxt = .ok outcome ∧
      result = cxt.blist ++
        [Stmt.create
          { stmt with
            tableElts := outcome.columns
            constraints := cxt.ckconstraints
            clusterKeys := cxt.clusterConstraints
            distributeby := distributeby }] ++
        (outcome.alist.map Stmt.index ++
          if cxt.fkconstraints = [] then []
          else [.alterTable (foreignKeyStmt cxt.relation cxt.fkconstraints)]) ++ cxt.alist := by
  unfold transformCreateStmt_output at h
  cases hix : transformIndexConstraints ixenv ixcxt with
  | error err => rw [hix] at h; simp at h
  | ok outcome =>
    rw [hix] at h
    simp only at h
    cases hfks : transformFKConstraints env
        { cxt with
          alist := outcome.alist.map Stmt.index
          fallback_dist_col := index_fallback_dist_col ixcxt.ixconstraints
            cxt.fallback_dist_col } true false with
    | error err => rw [hfks] at h; simp at h
    | ok cxt1 =>
      rw [hfks] at h
      simp only at h
      obtain ⟨_, hbl, hck, hcl, _, _, hal⟩ := transformFKConstraints_marks env
        { cxt with
          alist := outcome.alist.map Stmt.index
          fallback_dist_col := index_fallback_dist_col ixcxt.ixconstraints
            cxt.fallback_dist_col } cxt1 true false hfks
      have hal := hal rfl
      simp only at hbl hck hcl hal
      have hstmt : (Stmt.alterTable
            { relation := cxt.relation
              cmds := (markedConstraints true cxt.fkconstraints).map processedConstraint
              relkind := .OBJECT_TABLE })
          = .alterTable (foreignKeyStmt cxt.relation cxt.fkconstraints) := by
        simp [foreignKeyStmt, markedConstraints, List.map_map, Function.comp_def]
      rw [hstmt] at hal
      cases hcc : checkClusterConstraints env cxt1.clusterConstraints with
      | error err => rw [hcc] at h; simp at h
      | ok u =>
        rw [hcc] at h
        simp only at h
        cases hrc : checkReserveColumn env outcome.columns with
        | error err => rw [hrc] at h; simp at h
        | ok u2 =>
          rw [hrc] at h
          simp only at h
          split at h
          · simp only [Except.ok.injEq] at h
            exact ⟨outcome, _, rfl, by rw [← h, hal, hbl, hck, hcl]⟩
          · simp only [Except.ok.injEq] at h
            exact ⟨outcome, stmt.distributeby, rfl, by rw [← h, hal, hbl, hck, hcl]⟩

/-- C31: under `skipValidation`, `transformFKConstraints` marks every foreign-key
constraint of the context with `skip_validation` and `initially_valid`, whatever its
flags were, and changes nothing else of it; otherwise it leaves every constraint as
it was. CREATE TABLE always skips validation: the subcommands of its ALTER TABLE
statement hold the marked constraints. ALTER TABLE skips it exactly when no
subcommand adds a FOREIGN KEY through ADD CONSTRAINT and no column that is added has a
default expression, and the FOREIGN KEY subcommands of its result hold the
constraints marked, or as they were, accordingly. -/
theorem transformFKConstraints_skip_validation (env : TableEnv) (ixenv : IndexEnv) :
    (∀ (cxt cxt1 : Table.CreateStmtContext) (isAddConstraint : Bool),
      transformFKConstraints env cxt true isAddConstraint = .ok cxt1 →
      cxt1.fkconstraints = cxt.fkconstraints.map
        (fun constraint => { constraint with skip_validation := true, initially_valid := true }) ∧
      ∀ constraint ∈ cxt1.fkconstraints,
        constraint.skip_validation = true ∧ constraint.initially_valid = true) ∧
    (∀ (cxt cxt1 : Table.CreateStmtContext) (isAddConstraint : Bool),
      transformFKConstraints env cxt false isAddConstraint = .ok cxt1 →
      cxt1.fkconstraints = cxt.fkconstraints) ∧
    (∀ (ixcxt : OpenGauss.CreateStmtContext RawExpr) (cxt : Table.CreateStmtContext)
      (stmt : CreateStmt) (result : List Stmt),
      transformCreateStmt_output env ixenv ixcxt cxt stmt = .ok result →
      cxt.fkconstraints ≠ [] →
      Stmt.alterTable
        { relation := cxt.relation
          cmds := cxt.fkconstraints.map (fun constraint =>
            processedConstraint
              { constraint with skip_validation := true, initially_valid := true })
          relkind := .OBJECT_TABLE } ∈ result) ∧
    (∀ (aenv : AlterEnv) (ixcxt : OpenGauss.CreateStmtContext RawExpr) (rel : Relation)
      (stmt : Table.AlterTableStmt) (result : List Stmt),
      transformAlterTableStmt env aenv ixenv ixcxt rel stmt = .ok result →
      ∃ st kept pre post,
        alter_cmds_loop env aenv
          { cxt := transformAlterTableStmt_context aenv rel stmt, newcmds := []
            skipValidation := true } stmt.cmds = .ok st ∧
        List.Forall₂ (retained env aenv)
          (stmt.cmds.filter (fun cmd => decide (cmd.subtype ≠ .AT_AddConstraint))) kept ∧
        (st.skipValidation = true ↔
          (∀ cmd ∈ stmt.cmds, adds_foreign_key cmd = false) ∧
            ∀ cmd ∈ kept, adds_column_default cmd = false) ∧
        result = st.cxt.blist ++
          [Stmt.alterTable
            { relation := st.cxt.relation
              relkind := stmt.relkind
              cmds := kept ++ pre ++
                (if st.skipValidation = true then
                  st.cxt.fkconstraints.map (fun constraint =>
                    addConstraintCmd
                      { constraint with skip_validation := true, initially_valid := true })
                else st.cxt.fkconstraints.map addConstraintCmd) ++ post }] ++ st.cxt.alist) := by
  refine ⟨?_, ?_, ?_, ?_⟩
  · intro cxt cxt1 isAdd h
    have hm := (transformFKConstraints_marks env cxt cxt1 true isAdd h).1
    simp only [markedConstraints, ↓reduceIte] at hm
    refine ⟨hm, ?_⟩
    intro constraint hin
    rw [hm] at hin
    obtain ⟨c, _, rfl⟩ := List.mem_map.mp hin
    exact ⟨rfl, rfl⟩
  · intro cxt cxt1 isAdd h
    exact (transformFKConstraints_marks env cxt cxt1 false isAdd h).1
  · intro ixcxt cxt stmt result h hfk
    obtain ⟨outcome, distributeby, _, hres⟩ :=
      transformCreateStmt_output_ok env ixenv ixcxt cxt stmt result h
    rw [hres]
    simp only [hfk, ↓reduceIte, List.mem_append, List.mem_singleton]
    exact Or.inl (Or.inr (Or.inr rfl))
  · intro aenv ixcxt rel stmt result h
    unfold transformAlterTableStmt at h
    split at h
    · simp at h
    · cases hloop : alter_cmds_loop env aenv
          { cxt := transformAlterTableStmt_context aenv rel stmt, newcmds := []
            skipValidation := true } stmt.cmds with
      | error err => rw [hloop] at h; simp at h
      | ok st =>
        rw [hloop] at h
        simp only at h
        obtain ⟨kept, hkept, hret, hflag⟩ := alter_cmds_loop_ok env aenv stmt.cmds _ st hloop
        simp only [List.nil_append, true_and] at hkept hflag
        obtain ⟨outcome, indexcmds, _, _, hres⟩ :=
          transformAlterTableStmt_output_ok env aenv ixenv ixcxt st _ result h
        refine ⟨st, kept, indexcmds ++ st.cxt.ckconstraints.map addConstraintCmd,
          st.cxt.clusterConstraints.map addConstraintCmd, rfl, hret, hflag, ?_⟩
        rw [hres, hkept]
        cases st.skipValidation <;>
          simp [markedConstraints, markSkipValidation, List.map_map, Function.comp_def]

/-- C31, on samples: with ADD FOREIGN KEY in the statement the constraint stays as it
was written, and `transformFKConstraints` under `skipValidation` marks it. -/
theorem transformFKConstraints_skip_validation_witness :
    (∃ result, transformAlterTableStmt sampleTableEnv sampleAlterEnv sampleIndexEnv
        { sampleUniqueContext ["a"] with isalter := true, ixconstraints := [] } sampleRelation
        (sampleAlterTableStmt [sampleAddForeignKey]) = .ok result ∧
      result = [Stmt.alterTable
        (sampleAlterTableStmt [addConstraintCmd (sampleForeignKey "b" "u")])]) ∧
    ∃ cxt1, transformFKConstraints sampleTableEnv
        { sampleTableContext ALTER_TABLE (some sampleRelation) with
          fkconstraints := [sampleForeignKey "b" "u"] } true true = .ok cxt1 ∧
      ∀ constraint ∈ cxt1.fkconstraints,
        constraint.skip_validation = true ∧ constraint.initially_valid = true :=
  ⟨⟨_, rfl, rfl⟩, _, rfl,
    ((transformFKConstraints_skip_validation sampleTableEnv sampleIndexEnv).1
      { sampleTableContext ALTER_TABLE (some sampleRelation) with
        fkconstraints := [sampleForeignKey "b" "u"] } _ true rfl).2⟩

end TableStatements

/-! ## The LIKE clause: the column map, and the columns that the blob brings back -/

section TableLike

open Table

/-- The sequence of a serial column depends on the context through `cxt->rel` and
`cxt->relation` only, and on the column through its name: a second call with the same
three meets the same sequence, and leaves the same relation. The list of columns and
`cxt->rel` stay as they are. -/
theorem createSeqOwnedByTable_simulated (env : TableEnv) (cxt cxt1 : Table.CreateStmtContext)
    (column column1 : Table.ColumnDef) (preCheck : Bool)
    (h : createSeqOwnedByTable env cxt column preCheck = .ok (cxt1, column1)) :
    ∃ qstring,
      cxt1.columns = cxt.columns ∧ cxt1.rel = cxt.rel ∧
      column1 = { column with
                  constraints := column.constraints ++
                    [makeConstraint .CONSTR_DEFAULT (some (.nextval qstring)),
                     makeConstraint .CONSTR_NOTNULL none]
                  raw_default := some (.nextval qstring) } ∧
      ∀ (cxtB : Table.CreateStmtContext) (columnB : Table.ColumnDef) (preCheckB : Bool),
        cxtB.rel = cxt.rel → cxtB.relation = cxt.relation → columnB.colname = column.colname →
        ∃ cxtB1, createSeqOwnedByTable env cxtB columnB preCheckB = .ok (cxtB1,
            { columnB with
              constraints := columnB.constraints ++
                [makeConstraint .CONSTR_DEFAULT (some (.nextval qstring)),
                 makeConstraint .CONSTR_NOTNULL none]
              raw_default := some (.nextval qstring) }) ∧
          cxtB1.rel = cxtB.rel ∧ cxtB1.relation = cxt1.relation := by
  unfold createSeqOwnedByTable at h
  cases hrel : cxt.rel with
  | some rel =>
    simp only [hrel, Except.ok.injEq, Prod.mk.injEq] at h
    obtain ⟨rfl, rfl⟩ := h
    refine ⟨_, rfl, rfl, rfl, ?_⟩
    intro cxtB columnB preCheckB hB1 hB2 hB3
    unfold createSeqOwnedByTable
    simp only [hB1, hrel, hB2, hB3]
    exact ⟨_, rfl, rfl, rfl⟩
  | none =>
    simp only [hrel] at h
    cases hns : env.RangeVarGetCreationNamespace cxt.relation with
    | error err => simp [hns] at h
    | ok snamespaceid =>
      cases hadj : env.RangeVarAdjustRelationPersistence cxt.relation snamespaceid with
      | error err => simp [hns, hadj] at h
      | ok relation =>
        simp only [hns, hadj, Except.ok.injEq, Prod.mk.injEq] at h
        obtain ⟨rfl, rfl⟩ := h
        refine ⟨_, rfl, rfl, rfl, ?_⟩
        intro cxtB columnB preCheckB hB1 hB2 hB3
        unfold createSeqOwnedByTable
        simp only [hB1, hrel, hB2, hB3, hns, hadj]
        exact ⟨_, rfl, rfl, rfl⟩

/-- The check of the sequence of a default ends without an error, or with the error
of a sequence in another node group. -/
theorem checkTableLikeSequence_cases (lenv : LikeEnv) (cooked_default : CookedExpr) :
    checkTableLikeSequence lenv cooked_default = .ok () ∨
      checkTableLikeSequence lenv cooked_default = .error .sequenceInDifferentNodeGroup := by
  unfold checkTableLikeSequence
  simp only
  split
  · exact Or.inl rfl
  · split
    · exact Or.inr rfl
    · exact Or.inl rfl

/-- What the copy of a default leaves of a fresh clone: the list of columns and
`cxt->rel` as they were, the column under its name, and a column that the loop over
the columns of the blob, from a context with the same `rel` and `relation`, brings
back from its copy in `metaInfo`, unless a sequence is missing there. -/
theorem like_copy_default_ok (env : TableEnv) (lenv : LikeEnv) (options : Nat)
    (preCheck : Bool) (source : LikeSource) (parentAttno : Nat)
    (cxt cxt1 : Table.CreateStmtContext) (column column1 : Table.ColumnDef)
    (hserial : column.is_serial = false) (hconstraints : column.constraints = [])
    (h : like_copy_default env lenv options preCheck source parentAttno cxt column =
      .ok (cxt1, column1)) :
    cxt1.columns = cxt.columns ∧ cxt1.rel = cxt.rel ∧ column1.colname = column.colname ∧
    ∀ (storage : Nat) (cxtB : Table.CreateStmtContext),
      cxtB.rel = cxt.rel → cxtB.relation = cxt.relation →
      serial_data_step env lenv cxtB (like_dup { column1 with storage := storage }) =
          .error .sequenceInDifferentNodeGroup ∨
        ∃ cxtB1, serial_data_step env lenv cxtB (like_dup { column1 with storage := storage }) =
            .ok (cxtB1, { column1 with storage := storage }) ∧
          cxtB1.rel = cxt1.rel ∧ cxtB1.relation = cxt1.relation := by
  unfold like_copy_default at h
  cases hfind : source.defval.find? (fun attrdef => attrdef.1 = parentAttno) with
  | none => simp [hfind] at h
  | some found =>
    obtain ⟨adnum, this_default⟩ := found
    simp only [hfind] at h
    by_cases hown : searchSeqidFromExpr lenv.NEXTVALFUNCOID this_default ≠ 0 ∧
        lenv.getOwnedSequences ≠ [] ∧
        searchSeqidFromExpr lenv.NEXTVALFUNCOID this_default ∈ lenv.getOwnedSequences
    · rw [if_pos hown] at h
      cases hseq : createSeqOwnedByTable env cxt { column with is_serial := true } preCheck with
      | error err => simp [hseq] at h
      | ok r =>
        obtain ⟨c, col⟩ := r
        obtain ⟨q, hc, hr, hcol, hsim⟩ := createSeqOwnedByTable_simulated env cxt c _ col _ hseq
        rw [hseq] at h
        have hs : col.is_serial = true := by rw [hcol]
        simp only [hs, Bool.true_eq_false, false_and, ↓reduceIte, Except.ok.injEq,
          Prod.mk.injEq] at h
        obtain ⟨rfl, rfl⟩ := h
        refine ⟨hc, hr, by rw [hcol], ?_⟩
        intro storage cxtB hB1 hB2
        right
        obtain ⟨cxtB1, hB, hBrel, hBrelation⟩ := hsim cxtB
          (like_dup { col with storage := storage }) false hB1 hB2 (by
            unfold like_dup
            simp only [hs, ↓reduceIte]
            rw [hcol])
        refine ⟨cxtB1, ?_, hBrel.trans (hB1.trans hr.symm), hBrelation⟩
        unfold serial_data_step
        have hd : (like_dup { col with storage := storage }).is_serial = true := by
          unfold like_dup
          simp only [hs, ↓reduceIte]
        rw [if_pos hd, hB]
        congr 2
        unfold like_dup
        simp only [hs, ↓reduceIte, List.nil_append]
        rw [hcol]
        simp only [hconstraints, List.nil_append]
    · rw [if_neg hown] at h
      simp only [hserial, true_and] at h
      have hcheck : ∀ (col : Table.ColumnDef) (cxtB : Table.CreateStmtContext),
          col.is_serial = false →
          serial_data_step env lenv cxtB (like_dup col) = .error .sequenceInDifferentNodeGroup ∨
            serial_data_step env lenv cxtB (like_dup col) = .ok (cxtB, col) := by
        intro col cxtB hs
        have hd : like_dup col = col := by
          unfold like_dup
          simp only [hs, Bool.false_eq_true, ↓reduceIte]
        rw [hd]
        unfold serial_data_step
        simp only [hs, Bool.false_eq_true, ↓reduceIte]
        cases hcd : col.cooked_default with
        | none => exact Or.inr rfl
        | some cooked_default =>
          simp only
          rcases checkTableLikeSequence_cases lenv cooked_default with hok | herr
          · right; rw [hok]
          · left; rw [herr]
      split at h
      all_goals
        simp only [Except.ok.injEq, Prod.mk.injEq] at h
        obtain ⟨rfl, rfl⟩ := h
        refine ⟨rfl, rfl, rfl, ?_⟩
        intro storage cxtB hB1 hB2
        refine Or.imp id (fun hok => ⟨cxtB, hok, hB1, hB2⟩) (hcheck _ cxtB ?_)
        first | exact hserial | rfl

/-- The clone of an attribute is a fresh node under the name of the attribute: not
serial, without constraints and without a default. -/
theorem cloneColumn_fresh (lenv : LikeEnv) (attr : Attribute) :
    (cloneColumn lenv attr).colname = attr.attname ∧
      (cloneColumn lenv attr).is_serial = false ∧
      (cloneColumn lenv attr).constraints = [] ∧
      (cloneColumn lenv attr).cooked_default = none := by
  unfold cloneColumn
  split <;> exact ⟨rfl, rfl, rfl, rfl⟩

/-- One round of the loop of `transformTableLikeClause`: a dropped attribute, outside
cluster-resize mode, leaves everything as it is; another attribute adds one column
under its name at the end of `cxt->columns`, writes the new length of that list to
`attmap`, and across node groups adds the copy to the columns of `metaInfo`, from
which the loop over the columns of the blob brings the column back. -/
theorem like_column_step_ok (env : TableEnv) (lenv : LikeEnv) (options : Nat)
    (preCheck multiNodegroup : Bool) (source : LikeSource) (st st1 : LikeState)
    (parentAttno : Nat) (attr : Attribute)
    (h : like_column_step env lenv options preCheck multiNodegroup source st parentAttno attr =
      .ok st1) :
    (attr.attisdropped = true ∧ lenv.enable_cluster_resize = false ∧ st1 = st) ∨
    (¬ (attr.attisdropped = true ∧ lenv.enable_cluster_resize = false) ∧
      ∃ column,
        st1.cxt.columns = st.cxt.columns ++ [column] ∧
        column.colname = attr.attname ∧
        st1.attmap = st.attmap.set (parentAttno - 1) (st.cxt.columns.length + 1) ∧
        st1.cxt.rel = st.cxt.rel ∧
        st1.metaColumns = (if multiNodegroup = true then st.metaColumns ++ [like_dup column]
          else st.metaColumns) ∧
        ∀ (cxtB : Table.CreateStmtContext),
          cxtB.rel = st.cxt.rel → cxtB.relation = st.cxt.relation →
          serial_data_step env lenv cxtB (like_dup column) =
              .error .sequenceInDifferentNodeGroup ∨
            ∃ cxtB1, serial_data_step env lenv cxtB (like_dup column) = .ok (cxtB1, column) ∧
              cxtB1.rel = st1.cxt.rel ∧ cxtB1.relation = st1.cxt.relation) := by
  obtain ⟨hname, hserial, hconstraints, hcooked⟩ := cloneColumn_fresh lenv attr
  have hF : ∀ (cxt1 : Table.CreateStmtContext) (column1 : Table.ColumnDef),
      (if attr.atthasdef = true then
          like_copy_default env lenv options preCheck source parentAttno st.cxt
            (cloneColumn lenv attr)
        else .ok (st.cxt, cloneColumn lenv attr)) = .ok (cxt1, column1) →
      cxt1.columns = st.cxt.columns ∧ cxt1.rel = st.cxt.rel ∧
      column1.colname = attr.attname ∧
      ∀ (storage : Nat) (cxtB : Table.CreateStmtContext),
        cxtB.rel = st.cxt.rel → cxtB.relation = st.cxt.relation →
        serial_data_step env lenv cxtB (like_dup { column1 with storage := storage }) =
            .error .sequenceInDifferentNodeGroup ∨
          ∃ cxtB1, serial_data_step env lenv cxtB (like_dup { column1 with storage := storage }) =
              .ok (cxtB1, { column1 with storage := storage }) ∧
            cxtB1.rel = cxt1.rel ∧ cxtB1.relation = cxt1.relation := by
    intro cxt1 column1 hdef
    by_cases hhas : attr.atthasdef = true
    · rw [if_pos hhas] at hdef
      obtain ⟨h1, h2, h3, h4⟩ := like_copy_default_ok env lenv options preCheck source
        parentAttno st.cxt cxt1 _ column1 hserial hconstraints hdef
      exact ⟨h1, h2, h3.trans hname, h4⟩
    · rw [if_neg hhas] at hdef
      simp only [Except.ok.injEq, Prod.mk.injEq] at hdef
      obtain ⟨rfl, rfl⟩ := hdef
      refine ⟨rfl, rfl, hname, ?_⟩
      intro storage cxtB hB1 hB2
      right
      refine ⟨cxtB, ?_, hB1, hB2⟩
      have hd : like_dup { cloneColumn lenv attr with storage := storage } =
          { cloneColumn lenv attr with storage := storage } := by
        unfold like_dup
        simp only [hserial, Bool.false_eq_true, ↓reduceIte]
      rw [hd]
      unfold serial_data_step
      simp only [hserial, Bool.false_eq_true, ↓reduceIte, hcooked]
  unfold like_column_step at h
  split at h
  · rename_i hskip
    simp only [Except.ok.injEq] at h
    exact Or.inl ⟨hskip.1, hskip.2, h.symm⟩
  · rename_i hskip
    right
    refine ⟨hskip, ?_⟩
    simp only at h
    split at h
    · simp at h
    · rename_i cxt1 column1 hdef
      obtain ⟨h1, h2, h3, h4⟩ := hF cxt1 column1 hdef
      simp only [Except.ok.injEq] at h
      subst h
      refine ⟨_, by simp only [h1], ?_, rfl, h2, rfl, ?_⟩
      · split
        · exact h3
        · exact h3
      · intro cxtB hB1 hB2
        by_cases hst : options &&& lenv.CREATE_TABLE_LIKE_STORAGE ≠ 0
        · simp only [if_pos hst]
          exact h4 attr.attstorage cxtB hB1 hB2
        · simp only [if_neg hst]
          exact h4 column1.storage cxtB hB1 hB2

/-- The loop of `transformTableLikeClause` outside cluster-resize mode, from the
attribute number `p + 1` on: `attmap` keeps its length and its entries outside the
attributes read; the columns that join `cxt->columns` bear the names of the
attributes that are not dropped, in their order; the entry of a dropped attribute is
as it was, and the entry of another attribute is the length of `cxt->columns` before
the loop plus the number of attributes up to this one that are not dropped. -/
theorem like_columns_loop_attmap (env : TableEnv) (lenv : LikeEnv) (options : Nat)
    (preCheck multiNodegroup : Bool) (source : LikeSource)
    (hresize : lenv.enable_cluster_resize = false) :
    ∀ (rest : List Attribute) (p : Nat) (st st1 : LikeState),
      like_columns_loop env lenv options preCheck multiNodegroup source (p + 1) rest st =
        .ok st1 →
      p + rest.length ≤ st.attmap.length →
      st1.attmap.length = st.attmap.length ∧
      (∃ cols, st1.cxt.columns = st.cxt.columns ++ cols ∧
        cols.map (fun column => column.colname) =
          (rest.filter (fun attr => !attr.attisdropped)).map (fun attr => attr.attname)) ∧
      (∀ k, (k < p ∨ p + rest.length ≤ k) → st1.attmap[k]? = st.attmap[k]?) ∧
      (∀ k attr, rest[k]? = some attr →
        st1.attmap[p + k]? =
          if attr.attisdropped = true then st.attmap[p + k]?
          else some (st.cxt.columns.length +
            ((rest.take (k + 1)).filter (fun attr => !attr.attisdropped)).length)) := by
  intro rest
  induction rest with
  | nil =>
    intro p st st1 h _
    simp only [like_columns_loop, Except.ok.injEq] at h
    subst h
    exact ⟨rfl, ⟨[], by simp, rfl⟩, fun _ _ => rfl, fun k attr hk => by simp at hk⟩
  | cons attr rest ih =>
    intro p st st1 h hlen
    simp only [like_columns_loop] at h
    simp only [List.length_cons] at hlen
    cases hstep : like_column_step env lenv options preCheck multiNodegroup source st (p + 1)
        attr with
    | error err => simp [hstep] at h
    | ok st2 =>
      rw [hstep] at h
      simp only at h
      rcases like_column_step_ok env lenv options preCheck multiNodegroup source st st2 (p + 1)
        attr hstep with ⟨hdropped, _, rfl⟩ | ⟨hkeep, column, hcolumns, hname, hattmap, _⟩
      · obtain ⟨hl, ⟨cols, hc, hn⟩, hout, hin⟩ := ih (p + 1) st2 st1 h (by omega)
        refine ⟨hl, ⟨cols, hc, ?_⟩, ?_, ?_⟩
        · rw [hn]
          simp [List.filter_cons, hdropped]
        · intro k hk
          simp only [List.length_cons] at hk
          exact hout k (by omega)
        · intro k attr1 hk
          cases k with
          | zero =>
            simp only [List.getElem?_cons_zero, Option.some.injEq] at hk
            subst hk
            simp only [hdropped, ↓reduceIte, Nat.add_zero]
            exact hout p (by omega)
          | succ k =>
            simp only [List.getElem?_cons_succ] at hk
            have := hin k attr1 hk
            rw [show p + (k + 1) = p + 1 + k from by omega, this]
            simp [List.take_succ_cons, List.filter_cons, hdropped]
      · have hnd : attr.attisdropped = false := by
          cases hd : attr.attisdropped with
          | false => rfl
          | true => exact absurd ⟨hd, hresize⟩ hkeep
        simp only [Nat.add_sub_cancel] at hattmap
        have hl2 : st2.attmap.length = st.attmap.length := by rw [hattmap, List.length_set]
        obtain ⟨hl, ⟨cols, hc, hn⟩, hout, hin⟩ := ih (p + 1) st2 st1 h (by omega)
        refine ⟨hl.trans hl2, ⟨column :: cols, ?_, ?_⟩, ?_, ?_⟩
        · rw [hc, hcolumns, List.append_assoc]
          rfl
        · simp [List.filter_cons, hnd, hname, hn]
        · intro k hk
          simp only [List.length_cons] at hk
          rw [hout k (by omega), hattmap]
          exact List.getElem?_set_ne (by omega)
        · intro k attr1 hk
          cases k with
          | zero =>
            simp only [List.getElem?_cons_zero, Option.some.injEq] at hk
            subst hk
            rw [Nat.add_zero, hout p (by omega), hattmap,
              List.getElem?_set_self (by omega)]
            simp [List.filter_cons, hnd]
          | succ k =>
            simp only [List.getElem?_cons_succ] at hk
            have := hin k attr1 hk
            rw [show p + (k + 1) = p + 1 + k from by omega, this, hattmap,
              List.getElem?_set_ne (by omega), hcolumns]
            split
            · rfl
            · simp only [List.take_succ_cons, List.filter_cons, hnd, Bool.not_false, ↓reduceIte,
                List.length_cons, List.length_append, List.length_nil, Option.some.injEq]
              omega

/-- In a list, the element at place `k` that passes a test is, among the elements that
pass, the last one of those up to place `k`. -/
theorem filter_getElem?_of_take {α : Type} (P : α → Bool) :
    ∀ (l : List α) (k : Nat) (a : α), l[k]? = some a → P a = true →
      0 < ((l.take (k + 1)).filter P).length ∧
        (l.filter P)[((l.take (k + 1)).filter P).length - 1]? = some a := by
  intro l
  induction l with
  | nil => intro k a h; simp at h
  | cons x l ih =>
    intro k a h hP
    cases k with
    | zero =>
      simp only [List.getElem?_cons_zero, Option.some.injEq] at h
      subst h
      simp [List.filter_cons, hP]
    | succ k =>
      simp only [List.getElem?_cons_succ] at h
      obtain ⟨hpos, hget⟩ := ih k a h hP
      by_cases hx : P x = true
      · simp only [List.take_succ_cons, List.filter_cons, hx, ↓reduceIte, List.length_cons,
          Nat.add_sub_cancel, Nat.zero_lt_succ, true_and]
        obtain ⟨n, hn⟩ : ∃ n, ((l.take (k + 1)).filter P).length = n + 1 :=
          ⟨_, (Nat.succ_pred_eq_of_pos hpos).symm⟩
        rw [hn] at hget ⊢
        simpa using hget
      · simp only [List.take_succ_cons, List.filter_cons, hx, Bool.false_eq_true, ↓reduceIte]
        exact ⟨hpos, hget⟩

/-- The number of elements that pass a test among the first `i + 1` is below that among
the first `j + 1` when `i < j` and the element at place `j` passes. -/
theorem filter_take_length_lt {α : Type} (P : α → Bool) (l : List α) (i j : Nat) (a : α)
    (hij : i < j) (h : l[j]? = some a) (hP : P a = true) :
    ((l.take (i + 1)).filter P).length < ((l.take (j + 1)).filter P).length := by
  have hsplit : l.take (j + 1) = l.take (i + 1) ++ ((l.drop (i + 1)).take (j - (i + 1)) ++ [a]) := by
    rw [List.take_succ, h, ← List.append_assoc, ← List.take_add]
    rw [show i + 1 + (j - (i + 1)) = j from by omega]
    rfl
  rw [hsplit]
  simp only [List.filter_append, List.length_append, List.filter_cons, hP, ↓reduceIte,
    List.filter_nil, List.length_cons, List.length_nil]
  omega

/-- C39: outside cluster-resize mode, the loop of `transformTableLikeClause` over the
attributes of the source relation skips the dropped ones: the columns that join
`cxt->columns` are the clones of the attributes that are not dropped, in their order
and under their names. `attmap` has one entry for each attribute: zero for a dropped
attribute, and for another attribute the place, counted from one, of its clone in
`cxt->columns`, the columns that stood there before the LIKE clause counted in. Over
the attributes that are not dropped the entries increase strictly. -/
theorem transformTableLikeClause_attmap (env : TableEnv) (lenv : LikeEnv) (options : Nat)
    (preCheck multiNodegroup : Bool) (source : LikeSource) (cxt : Table.CreateStmtContext)
    (st : LikeState)
    (hresize : lenv.enable_cluster_resize = false)
    (h : transformTableLikeClause_columns env lenv options preCheck multiNodegroup source cxt =
      .ok st) :
    st.attmap.length = source.attrs.length ∧
    (∃ cols, st.cxt.columns = cxt.columns ++ cols ∧
      cols.map (fun column => column.colname) =
        (source.attrs.filter (fun attr => !attr.attisdropped)).map (fun attr => attr.attname)) ∧
    (∀ (k : Nat) (attr : Attribute), source.attrs[k]? = some attr →
      attr.attisdropped = true → st.attmap[k]? = some 0) ∧
    (∀ (k : Nat) (attr : Attribute), source.attrs[k]? = some attr →
      attr.attisdropped = false →
      ∃ pos column, st.attmap[k]? = some pos ∧ cxt.columns.length < pos ∧
        pos = cxt.columns.length +
          ((source.attrs.take (k + 1)).filter (fun attr => !attr.attisdropped)).length ∧
        st.cxt.columns[pos - 1]? = some column ∧ column.colname = attr.attname) ∧
    (∀ (i j : Nat) (ai aj : Attribute) (pi pj : Nat), i < j →
      source.attrs[i]? = some ai → source.attrs[j]? = some aj →
      ai.attisdropped = false → aj.attisdropped = false →
      st.attmap[i]? = some pi → st.attmap[j]? = some pj → pi < pj) := by
  unfold transformTableLikeClause_columns at h
  obtain ⟨hl, ⟨cols, hc, hn⟩, _, hin⟩ := like_columns_loop_attmap env lenv options preCheck
    multiNodegroup source hresize source.attrs 0 _ st h (by simp)
  simp only [List.length_replicate, Nat.zero_add] at hl hin
  replace hc : st.cxt.columns = cxt.columns ++ cols := hc
  have hzero : ∀ (k : Nat) (attr : Attribute), source.attrs[k]? = some attr →
      (List.replicate source.attrs.length 0)[k]? = some 0 := by
    intro k attr hk
    obtain ⟨hlt, _⟩ := List.getElem?_eq_some.mp hk
    rw [List.getElem?_replicate, if_pos hlt]
  have hpos : ∀ (k : Nat) (attr : Attribute), source.attrs[k]? = some attr →
      attr.attisdropped = false →
      st.attmap[k]? = some (cxt.columns.length +
        ((source.attrs.take (k + 1)).filter (fun attr => !attr.attisdropped)).length) := by
    intro k attr hk hnd
    rw [hin k attr hk]
    simp only [hnd, Bool.false_eq_true, ↓reduceIte]
  refine ⟨hl, ⟨cols, hc, hn⟩, ?_, ?_, ?_⟩
  · intro k attr hk hd
    rw [hin k attr hk, if_pos hd]
    exact hzero k attr hk
  · intro k attr hk hnd
    obtain ⟨hcount, hget⟩ := filter_getElem?_of_take (fun attr : Attribute => !attr.attisdropped)
      source.attrs k attr hk (by simp only [hnd, Bool.not_false])
    have hcol : (cols.map (fun column => column.colname))[
        ((source.attrs.take (k + 1)).filter (fun attr => !attr.attisdropped)).length - 1]? =
        some attr.attname := by
      rw [hn, List.getElem?_map, hget]
      rfl
    rw [List.getElem?_map] at hcol
    cases hcl : cols[((source.attrs.take (k + 1)).filter
        (fun attr => !attr.attisdropped)).length - 1]? with
    | none => rw [hcl] at hcol; simp at hcol
    | some column =>
      rw [hcl] at hcol
      simp only [Option.map_some', Option.some.injEq] at hcol
      refine ⟨_, column, hpos k attr hk hnd, by omega, rfl, ?_, hcol⟩
      rw [hc, List.getElem?_append_right (by omega), ← hcl]
      congr 1
      omega
  · intro i j ai aj pi pj hij hi hj hndi hndj hpi hpj
    rw [hpos i ai hi hndi] at hpi
    rw [hpos j aj hj hndj] at hpj
    simp only [Option.some.injEq] at hpi hpj
    have := filter_take_length_lt (fun attr : Attribute => !attr.attisdropped) source.attrs i j
      aj hij hj (by simp only [hndj, Bool.not_false])
    omega

/-- The loop of `transformTableLikeClause` across node groups, and the loop over the
columns of the blob: the copies that join the columns of `metaInfo` are brought back,
by the second loop from a context with the same `rel` and `relation`, to the columns
that joined `cxt->columns`, unless a sequence is missing there. -/
theorem like_columns_loop_blob (env : TableEnv) (lenv : LikeEnv) (options : Nat)
    (preCheck : Bool) (source : LikeSource) :
    ∀ (rest : List Attribute) (p : Nat) (st st1 : LikeState),
      like_columns_loop env lenv options preCheck true source p rest st = .ok st1 →
      ∃ cols dups, st1.cxt.columns = st.cxt.columns ++ cols ∧
        st1.metaColumns = st.metaColumns ++ dups ∧
        ∀ (cxtB : Table.CreateStmtContext),
          cxtB.rel = st.cxt.rel → cxtB.relation = st.cxt.relation →
          serial_data_loop env lenv cxtB dups = .error .sequenceInDifferentNodeGroup ∨
            ∃ cxtB1, serial_data_loop env lenv cxtB dups = .ok (cxtB1, cols) ∧
              cxtB1.rel = st1.cxt.rel ∧ cxtB1.relation = st1.cxt.relation := by
  intro rest
  induction rest with
  | nil =>
    intro p st st1 h
    simp only [like_columns_loop, Except.ok.injEq] at h
    subst h
    refine ⟨[], [], by simp, by simp, ?_⟩
    intro cxtB hB1 hB2
    exact Or.inr ⟨cxtB, rfl, hB1, hB2⟩
  | cons attr rest ih =>
    intro p st st1 h
    simp only [like_columns_loop] at h
    cases hstep : like_column_step env lenv options preCheck true source st p attr with
    | error err => simp [hstep] at h
    | ok st2 =>
      rw [hstep] at h
      simp only at h
      obtain ⟨cols, dups, hc, hm, hsim⟩ := ih (p + 1) st2 st1 h
      rcases like_column_step_ok env lenv options preCheck true source st st2 p attr hstep with
        ⟨_, _, rfl⟩ | ⟨_, column, hcolumns, _, _, hrel, hmeta, hstepB⟩
      · exact ⟨cols, dups, hc, hm, hsim⟩
      · simp only [↓reduceIte] at hmeta
        refine ⟨column :: cols, like_dup column :: dups, ?_, ?_, ?_⟩
        · rw [hc, hcolumns, List.append_assoc]
          rfl
        · rw [hm, hmeta, List.append_assoc]
          rfl
        · intro cxtB hB1 hB2
          simp only [serial_data_loop]
          rcases hstepB cxtB hB1 hB2 with herr | ⟨cxtB1, hok, hB1rel, hB1relation⟩
          · left
            rw [herr]
          · rw [hok]
            simp only
            rcases hsim cxtB1 hB1rel hB1relation with herr | ⟨cxtB2, hok2, h2rel, h2relation⟩
            · left
              rw [herr]
            · right
              rw [hok2]
              exact ⟨cxtB2, rfl, h2rel, h2relation⟩

/-- C34, what the code does: let the blob hold the columns of `metaInfo` that
`transformTableLikeClause` gathered across node groups, and let the string be read
back as the node that was written. Then `transformTableLikeFromSerialData`, on a
context with the same `rel` and `relation`, ends with the error of a sequence in
another node group, or leaves in `cxt->columns` the clones alone: the column list of
the direct elaboration is the columns that stood before the LIKE clause followed by
the column list that the blob leaves. The two lists are the same exactly when no
column stood before the LIKE clause; with a column before it, the data node loses
that column. -/
theorem transformTableLikeFromSerialData_columns (env : TableEnv) (lenv : LikeEnv)
    (options : Nat) (preCheck : Bool) (source : LikeSource)
    (cxt cxtB : Table.CreateStmtContext) (st : LikeState) (metaInfo : TableLikeCtx)
    (table_like_clause : TableLikeClause)
    (hdirect : transformTableLikeClause_columns env lenv options preCheck true source cxt =
      .ok st)
    (hcolumns : metaInfo.columns = st.metaColumns)
    (hblob : cxtB.internalData = some (lenv.nodeToString metaInfo))
    (hdecode : lenv.stringToNode (lenv.nodeToString metaInfo) = metaInfo)
    (hrel : cxtB.rel = cxt.rel) (hrelation : cxtB.relation = cxt.relation) :
    transformTableLikeFromSerialData env lenv cxtB table_like_clause =
        .error .sequenceInDifferentNodeGroup ∨
      ∃ cxtB1 clause1,
        transformTableLikeFromSerialData env lenv cxtB table_like_clause =
          .ok (cxtB1, clause1) ∧
        st.cxt.columns = cxt.columns ++ cxtB1.columns ∧
        (cxtB1.columns = st.cxt.columns ↔ cxt.columns = []) := by
  unfold transformTableLikeClause_columns at hdirect
  obtain ⟨cols, dups, hc, hm, hsim⟩ := like_columns_loop_blob env lenv options preCheck source
    source.attrs 1 _ st hdirect
  replace hc : st.cxt.columns = cxt.columns ++ cols := hc
  replace hm : st.metaColumns = dups := by simpa using hm
  unfold transformTableLikeFromSerialData
  simp only [hblob, hdecode, hcolumns, hm]
  rcases hsim { cxtB with
      hasoids := metaInfo.hasoids
      columns := dups
      csc_partTableState := metaInfo.partition
      inh_indexes := metaInfo.inh_indexes
      clusterConstraints := metaInfo.cluster_keys
      ckconstraints := metaInfo.ckconstraints
      alist := metaInfo.comments.map CommentStmt.stmt
      reloptions := metaInfo.reloptions } hrel hrelation with herr | ⟨cxtB1, hok, _, _⟩
  · left
    simp only [hblob] at herr
    rw [herr]
  · right
    simp only [hblob] at hok
    rw [hok]
    refine ⟨_, _, rfl, hc, ?_⟩
    show cols = st.cxt.columns ↔ cxt.columns = []
    rw [hc]
    exact List.self_eq_append_left

/-- C34, the failing input: CREATE TABLE `t` (`x`, LIKE `s`) with the attributes `a`,
`b` (dropped) and `c` of `s`. Direct elaboration, as on the coordinator, leaves the
columns `x`, `a`, `c`; the blob that it writes leaves, as on a data node, the columns
`a`, `c`. -/
theorem transformTableLikeFromSerialData_drops_earlier_columns :
    ∃ st cxtB1 clause1,
      transformTableLikeClause_columns sampleTableEnv (sampleLikeEnv (sampleMetaInfo sampleClones))
        0 false true sampleLikeSource sampleLikeContext = .ok st ∧
      (sampleMetaInfo sampleClones).columns = st.metaColumns ∧
      (sampleLikeEnv (sampleMetaInfo sampleClones)).stringToNode
        ((sampleLikeEnv (sampleMetaInfo sampleClones)).nodeToString
          (sampleMetaInfo sampleClones)) = sampleMetaInfo sampleClones ∧
      transformTableLikeFromSerialData sampleTableEnv (sampleLikeEnv (sampleMetaInfo sampleClones))
        { sampleLikeContext with
          internalData := some ((sampleLikeEnv (sampleMetaInfo sampleClones)).nodeToString
            (sampleMetaInfo sampleClones)) }
        sampleLikeClause = .ok (cxtB1, clause1) ∧
      st.cxt.columns.map (fun column => column.colname) = ["x", "a", "c"] ∧
      cxtB1.columns.map (fun column => column.colname) = ["a", "c"] ∧
      cxtB1.columns ≠ st.cxt.columns :=
  ⟨_, _, _, rfl, rfl, rfl, rfl, rfl, rfl, by decide⟩

/-- C34, on the sample: the column list `x`, `a`, `c` of the direct elaboration is
the column `x` followed by the list that the blob leaves. -/
theorem transformTableLikeFromSerialData_columns_witness :
    ∃ st, transformTableLikeClause_columns sampleTableEnv
        (sampleLikeEnv (sampleMetaInfo sampleClones)) 0 false true sampleLikeSource
        sampleLikeContext = .ok st ∧
      (transformTableLikeFromSerialData sampleTableEnv (sampleLikeEnv (sampleMetaInfo sampleClones))
          { sampleLikeContext with
            internalData := some ((sampleLikeEnv (sampleMetaInfo sampleClones)).nodeToString
              (sampleMetaInfo sampleClones)) }
          sampleLikeClause = .error .sequenceInDifferentNodeGroup ∨
        ∃ cxtB1 clause1,
          transformTableLikeFromSerialData sampleTableEnv
            (sampleLikeEnv (sampleMetaInfo sampleClones))
            { sampleLikeContext with
              internalData := some ((sampleLikeEnv (sampleMetaInfo sampleClones)).nodeToString
                (sampleMetaInfo sampleClones)) }
            sampleLikeClause = .ok (cxtB1, clause1) ∧
          st.cxt.columns = sampleLikeContext.columns ++ cxtB1.columns ∧
          (cxtB1.columns = st.cxt.columns ↔ sampleLikeContext.columns = [])) :=
  ⟨_, rfl, transformTableLikeFromSerialData_columns sampleTableEnv
    (sampleLikeEnv (sampleMetaInfo sampleClones)) 0 false sampleLikeSource sampleLikeContext
    _ _ (sampleMetaInfo sampleClones) sampleLikeClause rfl rfl rfl rfl rfl rfl⟩

/-- C39, on the sample: with the column `x` before the LIKE clause and the attributes
`a`, `b` (dropped) and `c` of the source relation, `attmap` is 2, 0, 3. -/
theorem transformTableLikeClause_attmap_witness :
    ∃ st, transformTableLikeClause_columns sampleTableEnv
        (sampleLikeEnv (sampleMetaInfo sampleClones)) 0 false false sampleLikeSource
        sampleLikeContext = .ok st ∧
      st.attmap = [2, 0, 3] ∧
      st.cxt.columns.map (fun column => column.colname) = ["x", "a", "c"] ∧
      st.attmap.length = sampleLikeSource.attrs.length ∧
      ∀ (i j : Nat) (ai aj : Attribute) (pi pj : Nat), i < j →
        sampleLikeSource.attrs[i]? = some ai → sampleLikeSource.attrs[j]? = some aj →
        ai.attisdropped = false → aj.attisdropped = false →
        st.attmap[i]? = some pi → st.attmap[j]? = some pj → pi < pj :=
  ⟨_, rfl, rfl, rfl,
    (transformTableLikeClause_attmap sampleTableEnv (sampleLikeEnv (sampleMetaInfo sampleClones))
      0 false false sampleLikeSource sampleLikeContext _ rfl rfl).1,
    (transformTableLikeClause_attmap sampleTableEnv (sampleLikeEnv (sampleMetaInfo sampleClones))
      0 false false sampleLikeSource sampleLikeContext _ rfl rfl).2.2.2.2⟩

end TableLike

/-! ## The list that CREATE TABLE hands back -/

section TableCreate

open Table

/-- The first steps of `transformCreateStmt` return NIL exactly when the statement
says IF NOT EXISTS, the lookup of the namespace succeeds, and a relation of the name
exists. -/
theorem transformCreateStmt_head_none (env : TableEnv) (cenv : CreateEnv) (stmt : CreateStmt)
    (h : transformCreateStmt_head env cenv stmt = .ok none) :
    stmt.if_not_exists = true ∧
      ∃ namespaceid existingRelid relation,
        cenv.RangeVarGetAndCheckCreationNamespace stmt.relation =
          .ok (namespaceid, existingRelid, relation) ∧ existingRelid ≠ 0 := by
  unfold transformCreateStmt_head at h
  split at h
  · simp at h
  · cases hns : cenv.RangeVarGetAndCheckCreationNamespace stmt.relation with
    | error err => rw [hns] at h; simp at h
    | ok r =>
      obtain ⟨namespaceid, existingRelid, relation⟩ := r
      rw [hns] at h
      simp only at h
      split at h
      · rename_i hex
        exact ⟨hex.1, namespaceid, existingRelid, relation, rfl, hex.2⟩
      · split at h <;> simp at h

/-- A property of all entries of a list holds of the entries of the list with one
entry more at its end. -/
theorem forall_mem_snoc {α : Type} (P : α → Prop) (l : List α) (a : α)
    (hl : ∀ x ∈ l, P x) (ha : P a) : ∀ x ∈ l ++ [a], P x := by
  intro x hx
  rcases List.mem_append.mp hx with hx | hx
  · exact hl x hx
  · rw [List.mem_singleton.mp hx]
    exact ha

/-- A COMMENT statement is one of the statements of `cxt->alist`. -/
theorem comments_after_actions (comments : List CommentStmt) :
    ∀ s ∈ comments.map CommentStmt.stmt, is_after_action s = true := by
  intro s hs
  obtain ⟨c, _, rfl⟩ := List.mem_map.mp hs
  rfl

/-- `createSeqOwnedByTable` keeps the lists `cxt->blist` and `cxt->alist` of their
kinds: it adds a CREATE SEQUENCE statement to the one and an ALTER SEQUENCE
statement to the other. -/
theorem createSeqOwnedByTable_actions (env : TableEnv) (cxt cxt1 : Table.CreateStmtContext)
    (column column1 : Table.ColumnDef) (preCheck : Bool)
    (h : createSeqOwnedByTable env cxt column preCheck = .ok (cxt1, column1))
    (hk : action_kinds cxt) : action_kinds cxt1 := by
  obtain ⟨seqstmt, altseqstmt, relation, hc, _, _⟩ :=
    createSeqOwnedByTable_ok env cxt cxt1 column column1 preCheck h
  subst hc
  exact ⟨forall_mem_snoc _ _ _ hk.1 rfl, forall_mem_snoc _ _ _ hk.2 rfl⟩

/-- `transformColumnDefinition` keeps the lists `cxt->blist` and `cxt->alist` of
their kinds: beyond the statements of a serial column it adds the ALTER FOREIGN TABLE
statement with the options of the column. -/
theorem transformColumnDefinition_actions (env : TableEnv) (cxt cxt1 : Table.CreateStmtContext)
    (column column1 : Table.ColumnDef) (preCheck : Bool)
    (h : transformColumnDefinition env cxt column preCheck = .ok (cxt1, column1))
    (hk : action_kinds cxt) : action_kinds cxt1 := by
  obtain ⟨_, isSerial, typname, cxtS, column3, _, _, hseq, hcons⟩ :=
    (transformColumnDefinition_ok_iff env cxt column preCheck (cxt1, column1)).mp h
  have hS : action_kinds cxtS := by
    cases isSerial with
    | false =>
      simp only [Bool.false_eq_true, ↓reduceIte, Except.ok.injEq, Prod.mk.injEq] at hseq
      rw [← hseq.1]
      exact hk
    | true =>
      simp only [↓reduceIte] at hseq
      exact createSeqOwnedByTable_actions env cxt cxtS _ column3 preCheck hseq hk
  unfold transformColumnDefinition_constraints at hcons
  split at hcons
  · simp at hcons
  · split at hcons
    · simp at hcons
    · simp only [Except.ok.injEq, Prod.mk.injEq] at hcons
      rw [← hcons.1]
      refine ⟨hS.1, ?_⟩
      simp only
      split
      · exact forall_mem_snoc _ _ _ hS.2 (by simp [is_after_action])
      · exact hS.2

/-- `transformTableConstraint` leaves the lists `cxt->blist` and `cxt->alist` as they
are. -/
theorem transformTableConstraint_actions (cxt cxt1 : Table.CreateStmtContext)
    (constraint : Table.Constraint) (h : transformTableConstraint cxt constraint = .ok cxt1) :
    cxt1.blist = cxt.blist ∧ cxt1.alist = cxt.alist := by
  unfold transformTableConstraint at h
  cases hc : constraint.contype <;> rw [hc] at h <;> simp only at h
  all_goals first
    | (simp at h)
    | (split at h
       · simp at h
       · simp only [Except.ok.injEq] at h
         subst h
         exact ⟨rfl, rfl⟩)

/-- The copy of a default in a LIKE clause keeps the lists of actions of their
kinds. -/
theorem like_copy_default_actions (env : TableEnv) (lenv : LikeEnv) (options : Nat)
    (preCheck : Bool) (source : LikeSource) (parentAttno : Nat)
    (cxt cxt1 : Table.CreateStmtContext) (column column1 : Table.ColumnDef)
    (h : like_copy_default env lenv options preCheck source parentAttno cxt column =
      .ok (cxt1, column1))
    (hk : action_kinds cxt) : action_kinds cxt1 := by
  unfold like_copy_default at h
  cases hfind : source.defval.find? (fun attrdef => attrdef.1 = parentAttno) with
  | none => simp [hfind] at h
  | some found =>
    obtain ⟨adnum, this_default⟩ := found
    simp only [hfind] at h
    split at h
    · simp at h
    · rename_i cxt2 column2 hseq
      have h2 : action_kinds cxt2 := by
        split at hseq
        · exact createSeqOwnedByTable_actions env cxt cxt2 _ column2 preCheck hseq hk
        · simp only [Except.ok.injEq, Prod.mk.injEq] at hseq
          rw [← hseq.1]
          exact hk
      split at h
      all_goals
        simp only [Except.ok.injEq, Prod.mk.injEq] at h
        rw [← h.1]
        exact h2

/-- One round of the loop over the attributes of the source relation of a LIKE clause
keeps the lists of actions of their kinds: it adds the statements of a serial column
and the comment on the column. -/
theorem like_column_step_actions (env : TableEnv) (lenv : LikeEnv) (options : Nat)
    (preCheck multiNodegroup : Bool) (source : LikeSource) (st st1 : LikeState)
    (parentAttno : Nat) (attr : Attribute)
    (h : like_column_step env lenv options preCheck multiNodegroup source st parentAttno attr =
      .ok st1)
    (hk : action_kinds st.cxt) : action_kinds st1.cxt := by
  unfold like_column_step at h
  split at h
  · simp only [Except.ok.injEq] at h
    rw [← h]
    exact hk
  · simp only at h
    split at h
    · simp at h
    · rename_i cxt1 column1 hdef
      have h1 : action_kinds cxt1 := by
        split at hdef
        · exact like_copy_default_actions env lenv options preCheck source parentAttno st.cxt
            cxt1 _ column1 hdef hk
        · simp only [Except.ok.injEq, Prod.mk.injEq] at hdef
          rw [← hdef.1]
          exact hk
      simp only [Except.ok.injEq] at h
      subst h
      refine ⟨h1.1, ?_⟩
      intro s hs
      rcases List.mem_append.mp hs with hs | hs
      · exact h1.2 s hs
      · exact comments_after_actions _ s hs

/-- The loop over the attributes of the source relation of a LIKE clause keeps the
lists of actions of their kinds. -/
theorem like_columns_loop_actions (env : TableEnv) (lenv : LikeEnv) (options : Nat)
    (preCheck multiNodegroup : Bool) (source : LikeSource) :
    ∀ (attrs : List Attribute) (parentAttno : Nat) (st st1 : LikeState),
      like_columns_loop env lenv options preCheck multiNodegroup source parentAttno attrs st =
        .ok st1 →
      action_kinds st.cxt → action_kinds st1.cxt := by
  intro attrs
  induction attrs with
  | nil =>
    intro parentAttno st st1 h hk
    simp only [like_columns_loop, Except.ok.injEq] at h
    rw [← h]
    exact hk
  | cons attr rest ih =>
    intro parentAttno st st1 h hk
    simp only [like_columns_loop] at h
    cases hs : like_column_step env lenv options preCheck multiNodegroup source st parentAttno
        attr with
    | error err => rw [hs] at h; simp at h
    | ok st2 =>
      rw [hs] at h
      exact ih _ st2 st1 h
        (like_column_step_actions env lenv options preCheck multiNodegroup source st st2
          parentAttno attr hs hk)

/-- The loop over the columns of the blob of a LIKE clause keeps the lists of actions
of their kinds. -/
theorem serial_data_loop_actions (env : TableEnv) (lenv : LikeEnv) :
    ∀ (columns columns1 : List Table.ColumnDef) (cxt cxt1 : Table.CreateStmtContext),
      serial_data_loop env lenv cxt columns = .ok (cxt1, columns1) →
      action_kinds cxt → action_kinds cxt1 := by
  intro columns
  induction columns with
  | nil =>
    intro columns1 cxt cxt1 h hk
    simp only [serial_data_loop, Except.ok.injEq, Prod.mk.injEq] at h
    rw [← h.1]
    exact hk
  | cons column rest ih =>
    intro columns1 cxt cxt1 h hk
    simp only [serial_data_loop] at h
    cases hs : serial_data_step env lenv cxt column with
    | error err => rw [hs] at h; simp at h
    | ok r =>
      obtain ⟨cxt2, column2⟩ := r
      rw [hs] at h
      simp only at h
      have h2 : action_kinds cxt2 := by
        unfold serial_data_step at hs
        split at hs
        · exact createSeqOwnedByTable_actions env cxt cxt2 column column2 false hs hk
        · split at hs
          · split at hs
            · simp at hs
            · simp only [Except.ok.injEq, Prod.mk.injEq] at hs
              rw [← hs.1]
              exact hk
          · simp only [Except.ok.injEq, Prod.mk.injEq] at hs
            rw [← hs.1]
            exact hk
      cases hr : serial_data_loop env lenv cxt2 rest with
      | error err => rw [hr] at h; simp at h
      | ok r2 =>
        obtain ⟨cxt3, rest1⟩ := r2
        rw [hr] at h
        simp only [Except.ok.injEq, Prod.mk.injEq] at h
        rw [← h.1]
        exact ih rest1 cxt2 cxt3 hr h2

/-- `transformTableLikeFromSerialData` keeps the lists of actions of their kinds:
`cxt->alist` becomes the comments of the blob, followed by the statements of the
serial columns. -/
theorem transformTableLikeFromSerialData_actions (env : TableEnv) (lenv : LikeEnv)
    (cxt cxt1 : Table.CreateStmtContext) (clause clause1 : TableLikeClause)
    (h : transformTableLikeFromSerialData env lenv cxt clause = .ok (cxt1, clause1))
    (hk : action_kinds cxt) : action_kinds cxt1 := by
  unfold transformTableLikeFromSerialData at h
  split at h
  · simp at h
  · simp only at h
    split at h
    · simp at h
    · rename_i cxt2 columns hloop
      simp only [Except.ok.injEq, Prod.mk.injEq] at h
      rw [← h.1]
      have := serial_data_loop_actions env lenv _ columns _ cxt2 hloop
        ⟨hk.1, comments_after_actions _⟩
      exact this

/-- The loop over the CHECK constraints of the source relation of a LIKE clause keeps
the lists of actions of their kinds: it adds the comments on the constraints. -/
theorem like_checks_loop_actions (lenv : LikeEnv) (lcat : LikeCatalog) (options : Nat)
    (multiNodegroup : Bool) (relname : String) (attmap : List Nat) :
    ∀ (checks : List LikeCheck) (cxt cxt1 : Table.CreateStmtContext)
      (metaInfo metaInfo1 : TableLikeCtx),
      like_checks_loop lenv lcat options multiNodegroup relname attmap cxt metaInfo checks =
        .ok (cxt1, metaInfo1) →
      action_kinds cxt → action_kinds cxt1 := by
  intro checks
  induction checks with
  | nil =>
    intro cxt cxt1 metaInfo metaInfo1 h hk
    simp only [like_checks_loop, Except.ok.injEq, Prod.mk.injEq] at h
    rw [← h.1]
    exact hk
  | cons check rest ih =>
    intro cxt cxt1 metaInfo metaInfo1 h hk
    simp only [like_checks_loop] at h
    split at h
    · simp at h
    · refine ih _ cxt1 _ metaInfo1 h ⟨hk.1, ?_⟩
      intro s hs
      rcases List.mem_append.mp hs with hs | hs
      · exact hk.2 s hs
      · exact comments_after_actions _ s hs

/-- The step of `transformTableLikeClause` that copies the constraints keeps the
lists of actions of their kinds. -/
theorem like_constraints_actions (lenv : LikeEnv) (lcat : LikeCatalog) (options : Nat)
    (multiNodegroup : Bool) (relation : LikeRelation) (attmap : List Nat)
    (cxt cxt1 : Table.CreateStmtContext) (metaInfo metaInfo1 : TableLikeCtx)
    (h : like_constraints lenv lcat options multiNodegroup relation attmap cxt metaInfo =
      .ok (cxt1, metaInfo1))
    (hk : action_kinds cxt) : action_kinds cxt1 := by
  unfold like_constraints at h
  split at h
  · split at h
    · simp at h
    · rename_i cxtA metaA hchecks
      have hA : action_kinds cxtA :=
        like_checks_loop_actions lenv lcat _ _ _ _ _ _ cxtA _ metaA hchecks hk
      split at h
      all_goals
        simp only [Except.ok.injEq, Prod.mk.injEq] at h
        rw [← h.1]
        exact hA
  · simp only [Except.ok.injEq, Prod.mk.injEq] at h
    rw [← h.1]
    exact hk

/-- The steps of `transformTableLikeClause` after the constraints leave the lists
`cxt->blist` and `cxt->alist` as they are. -/
theorem like_properties_actions (lenv : LikeEnv) (lcat : LikeCatalog) (options : Nat)
    (multiNodegroup : Bool) (relation : LikeRelation) (cxt cxt1 : Table.CreateStmtContext)
    (metaInfo : TableLikeCtx)
    (h : like_properties lenv lcat options multiNodegroup relation cxt metaInfo = .ok cxt1) :
    cxt1.blist = cxt.blist ∧ cxt1.alist = cxt.alist := by
  have hp : ∀ c : Table.CreateStmtContext,
      (c.blist = cxt.blist ∧ c.alist = cxt.alist) →
      ((if options &&& lcat.CREATE_TABLE_LIKE_INDEXES ≠ 0 ∧ relation.relhasindex = true then
          { c with inh_indexes := c.inh_indexes ++ relation.parentIndexes }
        else c).blist = cxt.blist ∧
       (if options &&& lcat.CREATE_TABLE_LIKE_INDEXES ≠ 0 ∧ relation.relhasindex = true then
          { c with inh_indexes := c.inh_indexes ++ relation.parentIndexes }
        else c).alist = cxt.alist) := by
    intro c hc
    split <;> exact hc
  have h1 : (if options &&& lcat.CREATE_TABLE_LIKE_PARTITION ≠ 0 then
        match relation.partition with
        | some n => { cxt with csc_partTableState := some n }
        | none => cxt
      else cxt).blist = cxt.blist ∧
      (if options &&& lcat.CREATE_TABLE_LIKE_PARTITION ≠ 0 then
        match relation.partition with
        | some n => { cxt with csc_partTableState := some n }
        | none => cxt
      else cxt).alist = cxt.alist := by
    split
    · split <;> exact ⟨rfl, rfl⟩
    · exact ⟨rfl, rfl⟩
  have h2 := hp _ h1
  unfold like_properties at h
  simp only at h
  split at h
  · simp at h
  · rename_i cxtB metaB hrel
    have hB : cxtB.blist = cxt.blist ∧ cxtB.alist = cxt.alist := by
      split at hrel
      · split at hrel
        · simp at hrel
        · simp only [Except.ok.injEq, Prod.mk.injEq] at hrel
          rw [← hrel.1]
          exact h2
      · simp only [Except.ok.injEq, Prod.mk.injEq] at hrel
        rw [← hrel.1]
        exact h2
    have h4 : ∀ c : Table.CreateStmtContext,
        (c.blist = cxt.blist ∧ c.alist = cxt.alist) →
        ((if options &&& lcat.CREATE_TABLE_LIKE_DISTRIBUTION ≠ 0 then
            { c with distributeby := relation.distribution }
          else c).blist = cxt.blist ∧
         (if options &&& lcat.CREATE_TABLE_LIKE_DISTRIBUTION ≠ 0 then
            { c with distributeby := relation.distribution }
          else c).alist = cxt.alist) := by
      intro c hc
      split <;> exact hc
    have h5 : ∀ c : Table.CreateStmtContext,
        (c.blist = cxt.blist ∧ c.alist = cxt.alist) →
        ((if options &&& lcat.CREATE_TABLE_LIKE_OIDS ≠ 0 then
            { c with hasoids := relation.tdhasoid }
          else c).blist = cxt.blist ∧
         (if options &&& lcat.CREATE_TABLE_LIKE_OIDS ≠ 0 then
            { c with hasoids := relation.tdhasoid }
          else c).alist = cxt.alist) := by
      intro c hc
      split <;> exact hc
    have h45 := h5 _ (h4 _ hB)
    split at h
    · split at h
      · simp at h
      · simp only [Except.ok.injEq] at h
        rw [← h]
        split
        · exact h45
        · exact h45
    · simp only [Except.ok.injEq] at h
      rw [← h]
      split
      · exact h45
      · exact h45

/-- The function `transformTableLikeClause` keeps the lists of actions of their
kinds. -/
theorem transformTableLikeClause_actions (env : TableEnv) (cenv : CreateEnv) (lenv : LikeEnv)
    (lcat : LikeCatalog) (cxt cxt1 : Table.CreateStmtContext) (clause clause1 : TableLikeClause)
    (preCheck : Bool)
    (h : transformTableLikeClause env cenv lenv lcat cxt clause preCheck = .ok (cxt1, clause1))
    (hk : action_kinds cxt) : action_kinds cxt1 := by
  unfold transformTableLikeClause at h
  split at h
  · split at h
    · exact transformTableLikeFromSerialData_actions env lenv cxt cxt1 clause clause1 h hk
    · simp at h
  · split at h
    · simp at h
    · rename_i relation _
      split at h
      · simp at h
      · generalize like_options lcat clause relation = options at h
        unfold transformTableLikeClause_relation at h
        split at h
        · simp at h
        · split at h
          · simp at h
          · split at h
            · simp at h
            · split at h
              · simp at h
              · split at h
                · simp at h
                · split at h
                  · simp at h
                  · split at h
                    · simp at h
                    · split at h
                      · simp at h
                      · rename_i st hcols
                        split at h
                        · simp at h
                        · rename_i cxt2 metaInfo hcons
                          split at h
                          · simp at h
                          · rename_i cxt3 hprops
                            simp only [Except.ok.injEq, Prod.mk.injEq] at h
                            rw [← h.1]
                            have h1 : action_kinds st.cxt :=
                              like_columns_loop_actions env lenv _ preCheck _ relation.tupleDesc
                                _ 1 _ st hcols hk
                            have h2 : action_kinds cxt2 :=
                              like_constraints_actions lenv lcat _ _ relation _ _ cxt2 _
                                metaInfo hcons h1
                            obtain ⟨hb, ha⟩ := like_properties_actions lenv lcat _ _ relation
                              cxt2 cxt3 metaInfo hprops
                            exact ⟨by rw [hb]; exact h2.1, by rw [ha]; exact h2.2⟩

/-- One round of the loop over the elements of the statement keeps the lists of
actions of their kinds. -/
theorem transformCreateStmt_element_actions (env : TableEnv) (cenv : CreateEnv)
    (lenv : LikeEnv) (lcat : LikeCatalog) (stmt : CreateStmt) (uuids : List Nat)
    (preCheck isFirstNode : Bool) (cxt cxt1 : Table.CreateStmtContext) (element : TableElement)
    (h : transformCreateStmt_element env cenv lenv lcat stmt uuids preCheck isFirstNode cxt
      element = .ok cxt1)
    (hk : action_kinds cxt) : action_kinds cxt1 := by
  have hk0 : action_kinds { cxt with uuids := uuids } := hk
  unfold transformCreateStmt_element at h
  cases element with
  | columnDef column =>
    simp only at h
    split at h
    · simp at h
    · rename_i cxt2 column2 ht
      simp only [Except.ok.injEq] at h
      rw [← h]
      exact transformColumnDefinition_actions env _ cxt2 column column2 _ ht hk0
  | constraint constraint =>
    simp only at h
    obtain ⟨hb, ha⟩ := transformTableConstraint_actions _ cxt1 constraint h
    exact ⟨by rw [hb]; exact hk0.1, by rw [ha]; exact hk0.2⟩
  | tableLikeClause clause =>
    simp only at h
    split at h
    · simp at h
    · split at h
      · simp at h
      · split at h
        · simp at h
        · split at h
          · simp at h
          · split at h
            · simp at h
            · rename_i cxt2 clause2 ht
              split at h
              · simp at h
              · simp only [Except.ok.injEq] at h
                rw [← h]
                exact transformTableLikeClause_actions env cenv lenv lcat _ cxt2 clause clause2 _
                  ht hk0
  | other tag => simp at h

/-- The loop over the elements of the statement keeps the lists of actions of their
kinds. -/
theorem transformCreateStmt_loop_actions (env : TableEnv) (cenv : CreateEnv)
    (lenv : LikeEnv) (lcat : LikeCatalog) (stmt : CreateStmt) (uuids : List Nat)
    (preCheck isFirstNode : Bool) :
    ∀ (tableElts : List TableElement) (cxt cxt1 : Table.CreateStmtContext),
      transformCreateStmt_loop env cenv lenv lcat stmt uuids preCheck isFirstNode cxt tableElts =
        .ok cxt1 →
      action_kinds cxt → action_kinds cxt1 := by
  intro tableElts
  induction tableElts with
  | nil =>
    intro cxt cxt1 h hk
    simp only [transformCreateStmt_loop, Except.ok.injEq] at h
    rw [← h]
    exact hk
  | cons element rest ih =>
    intro cxt cxt1 h hk
    simp only [transformCreateStmt_loop] at h
    cases hs : transformCreateStmt_element env cenv lenv lcat stmt uuids preCheck isFirstNode cxt
        element with
    | error err => rw [hs] at h; simp at h
    | ok cxt2 =>
      rw [hs] at h
      exact ih cxt2 cxt1 h
        (transformCreateStmt_element_actions env cenv lenv lcat stmt uuids preCheck isFirstNode
          cxt cxt2 element hs hk)

/-- The steps of `transformCreateStmt` from the context to the distribution clause
leave only CREATE SEQUENCE statements on `cxt->blist`, and only ALTER SEQUENCE
statements, COMMENT statements and ALTER FOREIGN TABLE statements with the options
of a column on `cxt->alist`. -/
theorem transformCreateStmt_elements_actions (env : TableEnv) (cenv : CreateEnv)
    (lenv : LikeEnv) (lcat : LikeCatalog) (stmt : CreateStmt) (tableElts : List TableElement)
    (uuids : List Nat) (preCheck isFirstNode : Bool) (cxt : Table.CreateStmtContext)
    (stmt2 : CreateStmt)
    (h : transformCreateStmt_elements env cenv lenv lcat stmt tableElts uuids preCheck
      isFirstNode = .ok (cxt, stmt2)) :
    action_kinds cxt := by
  have hinit : action_kinds (transformCreateStmt_context cenv stmt uuids) :=
    ⟨fun s hs => absurd hs (List.not_mem_nil _), fun s hs => absurd hs (List.not_mem_nil _)⟩
  unfold transformCreateStmt_elements at h
  split at h
  · simp at h
  · split at h
    · simp at h
    · rename_i cxt0 stmt0 h0
      have hk0 : action_kinds cxt0 := by
        split at h0
        · split at h0
          · simp at h0
          · rename_i cxtT typename1 hT
            simp only [Except.ok.injEq, Prod.mk.injEq] at h0
            rw [← h0.1]
            unfold transformOfType at hT
            split at hT
            · simp at hT
            · simp only [Except.ok.injEq, Prod.mk.injEq] at hT
              rw [← hT.1]
              exact hinit
        · simp only [Except.ok.injEq, Prod.mk.injEq] at h0
          rw [← h0.1]
          exact hinit
      simp only at h
      split at h
      · simp at h
      · rename_i cxtL hloop
        have hL : action_kinds cxtL :=
          transformCreateStmt_loop_actions env cenv lenv lcat stmt0 uuids preCheck isFirstNode
            tableElts cxt0 cxtL hloop hk0
        split at h
        · simp at h
        · split at h
          · simp at h
          · split at h
            · simp at h
            · split at h
              · simp at h
              · simp only [Except.ok.injEq, Prod.mk.injEq] at h
                rw [← h.1]
                exact hL

/-- C32, amended: with IF NOT EXISTS and a relation of the name, `transformCreateStmt`
returns the empty list. In every other case its result is `cxt->blist` as the
elements of the statement left it, which holds CREATE SEQUENCE statements only, in
the order in which they were made; then the CREATE TABLE statement; then the index
statements; then the ALTER TABLE statement of the foreign keys if there are any;
then the statements that the elements left on `cxt->alist`, which are ALTER SEQUENCE
statements, COMMENT statements and ALTER FOREIGN TABLE statements with the options
of a column. The result then holds exactly one CREATE TABLE statement. -/
theorem transformCreateStmt_result (env : TableEnv) (cenv : CreateEnv) (lenv : LikeEnv)
    (lcat : LikeCatalog) (ixenv : IndexEnv) (stmt : CreateStmt) (tableElts : List TableElement)
    (uuids : List Nat) (preCheck isFirstNode : Bool) (result : List Stmt)
    (h : transformCreateStmt env cenv lenv lcat ixenv stmt tableElts uuids preCheck isFirstNode =
      .ok result) :
    (result = [] ∧ stmt.if_not_exists = true ∧
      ∃ namespaceid existingRelid relation,
        cenv.RangeVarGetAndCheckCreationNamespace stmt.relation =
          .ok (namespaceid, existingRelid, relation) ∧ existingRelid ≠ 0) ∨
    ∃ stmt1 cxt stmt2 outcome distributeby,
      transformCreateStmt_head env cenv stmt = .ok (some stmt1) ∧
      transformCreateStmt_elements env cenv lenv lcat stmt1 tableElts uuids preCheck isFirstNode =
        .ok (cxt, stmt2) ∧
      transformIndexConstraints ixenv (index_context cenv cxt stmt2) = .ok outcome ∧
      result = cxt.blist ++
        [Stmt.create
          { stmt2 with
            tableElts := outcome.columns
            constraints := cxt.ckconstraints
            clusterKeys := cxt.clusterConstraints
            distributeby := distributeby }] ++
        (outcome.alist.map Stmt.index ++
          if cxt.fkconstraints = [] then []
          else [.alterTable (foreignKeyStmt cxt.relation cxt.fkconstraints)]) ++ cxt.alist ∧
      (∀ s ∈ cxt.blist, is_create_seq s = true) ∧
      (∀ s ∈ cxt.alist, is_after_action s = true) ∧
      (result.filter is_create).length = 1 := by
  unfold transformCreateStmt at h
  cases hhead : transformCreateStmt_head env cenv stmt with
  | error err => rw [hhead] at h; simp at h
  | ok r =>
    rw [hhead] at h
    cases r with
    | none =>
      simp only [Except.ok.injEq] at h
      exact Or.inl ⟨h.symm, transformCreateStmt_head_none env cenv stmt hhead⟩
    | some stmt1 =>
      right
      simp only at h
      split at h
      · simp at h
      · cases hel : transformCreateStmt_elements env cenv lenv lcat stmt1 tableElts uuids
            preCheck isFirstNode with
        | error err => rw [hel] at h; simp at h
        | ok r =>
          obtain ⟨cxt, stmt2⟩ := r
          rw [hel] at h
          simp only at h
          obtain ⟨outcome, distributeby, hix, hres⟩ :=
            transformCreateStmt_output_ok env ixenv _ cxt stmt2 result h
          have hk := transformCreateStmt_elements_actions env cenv lenv lcat stmt1 tableElts
            uuids preCheck isFirstNode cxt stmt2 hel
          refine ⟨stmt1, cxt, stmt2, outcome, distributeby, rfl, hel, hix, hres, hk.1, hk.2, ?_⟩
          have hb : cxt.blist.filter is_create = [] :=
            List.filter_eq_nil_iff.mpr (fun s hs => by
              have := hk.1 s hs
              cases s <;> simp [is_create, is_create_seq] at this ⊢)
          have ha : cxt.alist.filter is_create = [] :=
            List.filter_eq_nil_iff.mpr (fun s hs => by
              have := hk.2 s hs
              cases s <;> simp [is_create, is_after_action] at this ⊢)
          have hi : (outcome.alist.map Stmt.index).filter is_create = [] :=
            List.filter_eq_nil_iff.mpr (fun s hs => by
              obtain ⟨i, _, rfl⟩ := List.mem_map.mp hs
              simp [is_create])
          rw [hres]
          simp only [List.filter_append, hb, ha, hi, List.nil_append, List.append_nil]
          split <;> simp [is_create]

/-- C32, as the claim has it, fails on a sample: CREATE TABLE IF NOT EXISTS `t (a
int4, b serial, UNIQUE (a), FOREIGN KEY (b) REFERENCES u)`, where the relation `t`
exists, is handed back as the empty list, without a CREATE TABLE statement. -/
theorem transformCreateStmt_if_not_exists :
    transformCreateStmt sampleTableEnv (sampleCreateEnv 16384)
        (sampleLikeEnv (sampleMetaInfo [])) sampleLikeCatalog sampleIndexEnv
        { sampleCreateStmt with if_not_exists := true } sampleElements [] false false = .ok [] ∧
      ([] : List Stmt).filter is_create = [] :=
  ⟨rfl, rfl⟩

/-- C32, amended, on a sample: CREATE TABLE `t (a int4, b serial, UNIQUE (a), FOREIGN
KEY (b) REFERENCES u)` is handed back as five statements, CREATE SEQUENCE, CREATE
TABLE, the index statement, ALTER TABLE with the foreign key, and ALTER SEQUENCE, of
which the second is the CREATE TABLE statement. -/
theorem transformCreateStmt_result_witness :
    ∃ result : List Stmt, transformCreateStmt sampleTableEnv (sampleCreateEnv 0)
        (sampleLikeEnv (sampleMetaInfo [])) sampleLikeCatalog sampleIndexEnv sampleCreateStmt
        sampleElements [] false false = .ok result ∧
      result.map is_create = [false, true, false, false, false] ∧
      result.map is_create_seq = [true, false, false, false, false] ∧
      result.map is_after_action = [false, false, false, false, true] ∧
      ((result = [] ∧ sampleCreateStmt.if_not_exists = true ∧
          ∃ (namespaceid existingRelid : Nat) (relation : RangeVar),
            (sampleCreateEnv 0).RangeVarGetAndCheckCreationNamespace sampleCreateStmt.relation =
              .ok (namespaceid, existingRelid, relation) ∧ existingRelid ≠ 0) ∨
        ∃ (stmt1 : CreateStmt) (cxt : Table.CreateStmtContext) (stmt2 : CreateStmt)
            (outcome : IndexOutcome RawExpr) (distributeby : Option DistributeBy),
          transformCreateStmt_head sampleTableEnv (sampleCreateEnv 0) sampleCreateStmt =
            .ok (some stmt1) ∧
          transformCreateStmt_elements sampleTableEnv (sampleCreateEnv 0)
              (sampleLikeEnv (sampleMetaInfo [])) sampleLikeCatalog stmt1 sampleElements []
              false false = .ok (cxt, stmt2) ∧
          transformIndexConstraints sampleIndexEnv
            (index_context (sampleCreateEnv 0) cxt stmt2) = .ok outcome ∧
          result = cxt.blist ++
            [Stmt.create
              { stmt2 with
                tableElts := outcome.columns
                constraints := cxt.ckconstraints
                clusterKeys := cxt.clusterConstraints
                distributeby := distributeby }] ++
            (outcome.alist.map Stmt.index ++
              if cxt.fkconstraints = [] then []
              else [.alterTable (foreignKeyStmt cxt.relation cxt.fkconstraints)]) ++
            cxt.alist ∧
          (∀ s ∈ cxt.blist, is_create_seq s = true) ∧
          (∀ s ∈ cxt.alist, is_after_action s = true) ∧
          (result.filter is_create).length = 1) :=
  ⟨_, rfl, rfl, rfl, rfl,
    transformCreateStmt_result sampleTableEnv (sampleCreateEnv 0)
      (sampleLikeEnv (sampleMetaInfo [])) sampleLikeCatalog sampleIndexEnv sampleCreateStmt
      sampleElements [] false false _ rfl⟩

/-- On a sample with a LIKE clause: CREATE TABLE `t (x int4, LIKE s INCLUDING
COMMENTS)`, where `s` has the columns `a`, with a comment, and `c`, is handed back as
the CREATE TABLE statement with the columns `x`, `a`, `c`, followed by the COMMENT
statement on the column `a` of the new table. -/
theorem transformCreateStmt_like_sample :
    ∃ result : List Stmt, transformCreateStmt sampleTableEnv (sampleCreateEnv 0)
        (sampleLikeEnv (sampleMetaInfo []))
        { sampleLikeCatalog with relation_openrv_extended := fun _ => .ok sampleLikeRelation }
        sampleIndexEnv sampleCreateStmt sampleLikeElements [] false false = .ok result ∧
      result.map is_create = [true, false] ∧
      result.map is_after_action = [false, true] ∧
      result.map created_columns = [["x", "a", "c"], []] ∧
      result.map commented_object = [[], ["public", "t", "a"]] :=
  ⟨_, rfl, rfl, rfl, rfl, rfl⟩

end TableCreate

end OpenGauss
